import Mathlib

/-! # webserv: verification development

A shallow embedding of the request parser, the URI component, the location
matcher, the security filter and the connection state machine of the
`webserv` HTTP/1.1 origin server, followed by theorems about them.

Octet strings (`std::string`) are lists of characters, `size_t` arithmetic is
arithmetic on `Nat` reduced modulo `2^64` where the source can wrap, and a
thrown `HttpError` is an explicit outcome carrying the status code.
-/

namespace Webserv

/-! ## Octet strings -/

/-- An octet string, the embedding of `std::string`. -/
abbrev Str := List Char

/-- The octet string of a literal. -/
def lit (s : String) : Str := s.toList

/-- Whether `pat` occurs at the very start of `s`. -/
def starts_with : Str → Str → Bool
  | _, [] => true
  | [], _ :: _ => false
  | c :: cs, p :: ps => c == p && starts_with cs ps

/-- The embedding of `std::string::find(pat)` on the suffix `s` whose first
octet has index `i`: the index of the first occurrence of `pat`. -/
def find_at (pat : Str) : Str → Nat → Option Nat
  | [], i => if pat.isEmpty then some i else none
  | c :: cs, i => if starts_with (c :: cs) pat then some i else find_at pat cs (i + 1)

/-- The embedding of `s.find(pat)`; `none` is `std::string::npos`. -/
def find (s pat : Str) : Option Nat := find_at pat s 0

/-- The embedding of `s.find(pat, pos)`. -/
def find_from (s pat : Str) (pos : Nat) : Option Nat :=
  if pos ≤ s.length then find_at pat (s.drop pos) pos else none

/-- The embedding of `s.find(c)` for a single octet `c`, on a suffix whose first
octet has index `i`. -/
def find_char_at (c : Char) : Str → Nat → Option Nat
  | [], _ => none
  | d :: ds, i => if d == c then some i else find_char_at c ds (i + 1)

/-- The embedding of `s.find(c)`. -/
def find_char (s : Str) (c : Char) : Option Nat := find_char_at c s 0

/-- The embedding of `s.find_last_of(c)` on a suffix whose first octet has
index `i`. -/
def find_last_of_at (c : Char) : Str → Nat → Option Nat
  | [], _ => none
  | d :: ds, i =>
    match find_last_of_at c ds (i + 1) with
    | some j => some j
    | none => if d == c then some i else none

/-- The embedding of `s.find_last_of(c)`. -/
def find_last_of (s : Str) (c : Char) : Option Nat := find_last_of_at c s 0

/-- The embedding of `s.rfind(pat)` on a suffix whose first octet has index
`i`: the index of the last occurrence of `pat`. -/
def rfind_at (pat : Str) : Str → Nat → Option Nat
  | [], i => if pat.isEmpty then some i else none
  | c :: cs, i =>
    match rfind_at pat cs (i + 1) with
    | some j => some j
    | none => if starts_with (c :: cs) pat then some i else none

/-- The embedding of `s.rfind(pat)`. -/
def rfind (s pat : Str) : Option Nat := rfind_at pat s 0

/-- The embedding of `s.substr(pos, n)` for `pos ≤ s.size()`. -/
def substr (s : Str) (pos n : Nat) : Str := (s.drop pos).take n

/-- The embedding of `s.substr(pos)` for `pos ≤ s.size()`. -/
def substr_from (s : Str) (pos : Nat) : Str := s.drop pos

/-- Whether `s` contains `pat`, that is `s.find(pat) != npos`. -/
def contains (s pat : Str) : Bool := (find s pat).isSome

/-! ## Configuration model -/

/-- The nine standard methods and `UNKNOWN` (`HttpMethods::Method`). -/
inductive Method
  | GET | HEAD | POST | PUT | DELETE | CONNECT | OPTIONS | TRACE | PATCH | UNKNOWN
  deriving DecidableEq

/-- A route inside a server block (`LocationBlock`). -/
structure LocationBlock where
  path : Str
  exact_match : Bool := false
  allowed_methods : List Method := [Method.GET]
  root : Str := []
  index : Str := []
  autoindex : Bool := false
  redirect : Str := []
  redirect_status_code : Int := 0
  client_max_body_size : Nat := 1024 * 1024
  client_max_body_size_set : Bool := false
  upload_store : Str := []
  cgi_enabled : Bool := false
  cgi_handlers : List (Str × Str) := []
  error_pages : List (Nat × Str) := []
  deriving DecidableEq

/-- A virtual host (`ServerBlock`). -/
structure ServerBlock where
  server_names : List Str := []
  listen : List (Str × Int) := [(lit "0.0.0.0", 8080)]
  root : Str := []
  client_max_body_size_set : Bool := false
  client_max_body_size : Nat := 1024 * 1024
  error_pages : List (Nat × Str) := []
  default_stylesheet : Str := []
  locations : List LocationBlock := []
  is_default : Bool := false
  deriving DecidableEq

/-- The first loop of `ServerBlock::match_location`: the first location with the
exact-match flag whose path equals the request path. -/
def match_exact : List LocationBlock → Str → Option LocationBlock
  | [], _ => none
  | l :: ls, uri => if l.exact_match && uri == l.path then some l else match_exact ls uri

/-- The second loop of `ServerBlock::match_location`, with its two locals
`longest_match` and `matched_location`. -/
def match_longest : List LocationBlock → Str → Nat → Option LocationBlock → Option LocationBlock
  | [], _, _, matched => matched
  | l :: ls, uri, longest, matched =>
    if l.exact_match then match_longest ls uri longest matched
    else if find uri l.path == some 0 && decide (l.path.length > longest) then
      match_longest ls uri l.path.length (some l)
    else match_longest ls uri longest matched

/-- The embedding of `ServerBlock::match_location`; `none` is the null pointer. -/
def ServerBlock.match_location (sb : ServerBlock) (uri : Str) : Option LocationBlock :=
  match match_exact sb.locations uri with
  | some l => some l
  | none => match_longest sb.locations uri 0 none

/-! ## Character classes of the C locale -/

/-- The embedding of `std::isspace`. -/
def isspace (c : Char) : Bool :=
  c == ' ' || c == '\t' || c == '\n' || c == '\x0b' || c == '\x0c' || c == '\r'

/-- The embedding of `std::isdigit`. -/
def isdigit (c : Char) : Bool := decide ('0'.toNat ≤ c.toNat) && decide (c.toNat ≤ '9'.toNat)

/-- The embedding of `std::isupper`. -/
def isupper (c : Char) : Bool := decide ('A'.toNat ≤ c.toNat) && decide (c.toNat ≤ 'Z'.toNat)

/-- The embedding of `std::islower`. -/
def islower (c : Char) : Bool := decide ('a'.toNat ≤ c.toNat) && decide (c.toNat ≤ 'z'.toNat)

/-- The embedding of `std::isalpha`. -/
def isalpha (c : Char) : Bool := isupper c || islower c

/-- The embedding of `std::isalnum`. -/
def isalnum (c : Char) : Bool := isalpha c || isdigit c

/-- The embedding of `std::isxdigit`. -/
def isxdigit (c : Char) : Bool :=
  isdigit c || (decide ('a'.toNat ≤ c.toNat) && decide (c.toNat ≤ 'f'.toNat)) ||
    (decide ('A'.toNat ≤ c.toNat) && decide (c.toNat ≤ 'F'.toNat))

/-- The embedding of `std::toupper`. -/
def toupper (c : Char) : Char := if islower c then Char.ofNat (c.toNat - 32) else c

/-- The embedding of `std::tolower`. -/
def tolower (c : Char) : Char := if isupper c then Char.ofNat (c.toNat + 32) else c

/-- The value of a digit octet in a base up to 36, as `strtoul` reads it. -/
def digit_value (c : Char) : Option Nat :=
  if isdigit c then some (c.toNat - '0'.toNat)
  else if islower c then some (c.toNat - 'a'.toNat + 10)
  else if isupper c then some (c.toNat - 'A'.toNat + 10)
  else none

/-- Whether `c` is a digit of base `base`. -/
def is_base_digit (base : Nat) (c : Char) : Bool :=
  match digit_value c with
  | some d => decide (d < base)
  | none => false

/-! ## Numeric conversions of the C library -/

/-- The largest `unsigned long` / `size_t`. -/
def ULONG_MAX : Nat := 2 ^ 64 - 1

/-- The digit loop of `strtoul`: accumulates the digits of base `base`,
with every value
above `ULONG_MAX` standing for an overflow. -/
def accumulate_digits (base : Nat) : Str → Nat → Nat
  | [], acc => acc
  | c :: cs, acc =>
    match digit_value c with
    | some d => accumulate_digits base cs (min (acc * base + d) (ULONG_MAX + 1))
    | none => acc

/-- The embedding of `std::strtoul(s.c_str(), &end, base)` for base 10 or 16.
Returns the value and the octets from `end` up to the terminating NUL, so that
`*end != 0` exactly when the second component is non-empty. -/
def strtoul (s : Str) (base : Nat) : Nat × Str :=
  let cstr := s.takeWhile (fun c => c != '\x00')
  let s1 := cstr.dropWhile isspace
  let (neg, s2) := match s1 with
    | '-' :: r => (true, r)
    | '+' :: r => (false, r)
    | r => (false, r)
  let s3 := match s2 with
    | '0' :: x :: h :: r =>
      if base == 16 && (x == 'x' || x == 'X') && is_base_digit 16 h then h :: r else s2
    | r => r
  let ds := s3.takeWhile (is_base_digit base)
  let rest := s3.dropWhile (is_base_digit base)
  if ds.isEmpty then (0, cstr)
  else
    let v := accumulate_digits base ds 0
    if v > ULONG_MAX then (ULONG_MAX, rest)
    else if neg then ((2 ^ 64 - v) % 2 ^ 64, rest)
    else (v, rest)

/-- The embedding of `std::strtol` followed by the cast to `int`, that is of
`std::atoi`, as the C library computes it: the value saturates in `long` and is
then truncated to 32 bits. -/
def atoi (s : Str) : Int :=
  let cstr := s.takeWhile (fun c => c != '\x00')
  let s1 := cstr.dropWhile isspace
  let (neg, s2) := match s1 with
    | '-' :: r => (true, r)
    | '+' :: r => (false, r)
    | r => (false, r)
  let ds := s2.takeWhile isdigit
  let v := accumulate_digits 10 ds 0
  let l : Int := if neg then (if v > 2 ^ 63 then -(2 ^ 63 : Int) else -(v : Int))
    else (if v > 2 ^ 63 - 1 then (2 ^ 63 - 1 : Int) else (v : Int))
  let m := l % 2 ^ 32
  if m ≥ 2 ^ 31 then m - 2 ^ 32 else m

/-- The embedding of `std::stringstream ss(s); ss >> n` for a `size_t n`:
`none` when the extraction sets the fail bit. -/
def stream_extract_size_t (s : Str) : Option Nat :=
  let s1 := s.dropWhile isspace
  let (neg, s2) := match s1 with
    | '-' :: r => (true, r)
    | '+' :: r => (false, r)
    | r => (false, r)
  let ds := s2.takeWhile isdigit
  if ds.isEmpty then none
  else
    let v := accumulate_digits 10 ds 0
    if v > ULONG_MAX then none
    else if neg then some ((2 ^ 64 - v) % 2 ^ 64)
    else some v

/-- The embedding of `Log::to_string` / `HttpRequest::to_string` on a
non-negative integer: its decimal digits. -/
def to_string_nat (n : Nat) : Str := Nat.toDigits 10 n

/-- The decimal digits of an `int`. -/
def to_string_int (n : Int) : Str :=
  if n < 0 then '-' :: Nat.toDigits 10 n.natAbs else Nat.toDigits 10 n.natAbs

/-! ## Stream helpers -/

/-- The embedding of the loop `while (std::getline(stream, segment, delim))`:
the successive segments it yields. The loop stops when the stream is at its
end before any octet is extracted, so a final empty segment is not yielded. -/
def getline_split (delim : Char) : Str → List Str
  | [] => []
  | c :: cs =>
    if c == delim then [] :: getline_split delim cs
    else
      match getline_split delim cs with
      | [] => [[c]]
      | seg :: segs => (c :: seg) :: segs

/-- The embedding of `stream >> token` for a `std::string token`: skips leading
white space and extracts up to the next white space; `none` when no octet is
extracted. Returns the token and the rest of the stream. -/
def read_token (s : Str) : Option (Str × Str) :=
  let s1 := s.dropWhile isspace
  if s1.isEmpty then none
  else some (s1.takeWhile (fun c => !isspace c), s1.dropWhile (fun c => !isspace c))

/-! ## Status codes and errors -/

/-- The numeric value of an `HttpStatusCode`. -/
abbrev HttpStatusCode := Nat

def OK : HttpStatusCode := 200
def CREATED : HttpStatusCode := 201
def ACCEPTED : HttpStatusCode := 202
def MOVED_PERMANENTLY : HttpStatusCode := 301
def FOUND : HttpStatusCode := 302
def SEE_OTHER : HttpStatusCode := 303
def TEMPORARY_REDIRECT : HttpStatusCode := 307
def PERMANENT_REDIRECT : HttpStatusCode := 308
def BAD_REQUEST : HttpStatusCode := 400
def FORBIDDEN : HttpStatusCode := 403
def NOT_FOUND : HttpStatusCode := 404
def METHOD_NOT_ALLOWED : HttpStatusCode := 405
def REQUEST_TIMEOUT : HttpStatusCode := 408
def CONFLICT : HttpStatusCode := 409
def LENGTH_REQUIRED : HttpStatusCode := 411
def PAYLOAD_TOO_LARGE : HttpStatusCode := 413
def URI_TOO_LONG : HttpStatusCode := 414
def UNSUPPORTED_MEDIA_TYPE : HttpStatusCode := 415
def REQUEST_HEADER_FIELDS_TOO_LARGE : HttpStatusCode := 431
def INTERNAL_SERVER_ERROR : HttpStatusCode := 500
def NOT_IMPLEMENTED : HttpStatusCode := 501
def GATEWAY_TIMEOUT : HttpStatusCode := 504
def HTTP_VERSION_NOT_SUPPORTED : HttpStatusCode := 505

deriving instance DecidableEq for Except

/-- The result of running a member function that mutates an object of type `σ`
and may throw an `HttpError`: the object afterwards, and the status of the
error when one was thrown. The object is kept on a throw because the callers
go on using it. -/
inductive Outcome (σ : Type) where
  | ok (s : σ)
  | throw (status : HttpStatusCode) (s : σ)
  deriving DecidableEq

/-- The object after the call, whether or not it threw. -/
def Outcome.state {σ : Type} : Outcome σ → σ
  | Outcome.ok s => s
  | Outcome.throw _ s => s

/-- The status of the error thrown, if any. -/
def Outcome.error {σ : Type} : Outcome σ → Option HttpStatusCode
  | Outcome.ok _ => none
  | Outcome.throw e _ => some e

/-- Sequencing: the continuation runs only when the first call returned. -/
def Outcome.andThen {σ : Type} (o : Outcome σ) (f : σ → Outcome σ) : Outcome σ :=
  match o with
  | Outcome.ok s => f s
  | Outcome.throw e s => Outcome.throw e s

/-! ## URI (`Uri`) -/

/-- `Constants::Limits::MAX_URI_LENGTH`, also `Uri::MAX_URI_LENGTH`. -/
def MAX_URI_LENGTH : Nat := 2048

/-- The data members of `Uri` (the parsed query parameter map is left out). -/
structure Uri where
  scheme_ : Str := []
  host_ : Str := []
  port_ : Int := 80
  path_ : Str := []
  query_string_ : Str := []
  absolute_ : Bool := false
  valid_ : Bool := true
  deriving DecidableEq

/-- The embedding of `Uri::validate_uri_size`. -/
def validate_uri_size (uri : Str) : Bool :=
  if uri.isEmpty then false
  else if uri.length > MAX_URI_LENGTH then false
  else true

/-- The literals that `Uri::validate_uri_characters` refuses unencoded. -/
def is_forbidden_literal (c : Char) : Bool :=
  c == ' ' || c == '<' || c == '>' || c == '"' || c == '{' || c == '}' || c == '|' ||
    c == '\\' || c == '^' || c == '[' || c == ']' || c == '`'

/-- The embedding of `Uri::validate_uri_characters`, on the octets from the
loop index onwards. At a `'%'` the inlined `validate_percent_encoding` needs two
more octets, both hexadecimal digits and not `00`, and the loop skips them. -/
def validate_uri_characters : Str → Bool
  | [] => true
  | c :: rest =>
    if c.toNat < 32 || c.toNat > 126 then false
    else if c == '%' then
      match rest with
      | h1 :: h2 :: rest2 =>
        if !isxdigit h1 || !isxdigit h2 then false
        else if h1 == '0' && h2 == '0' then false
        else validate_uri_characters rest2
      | _ => false
    else if is_forbidden_literal c then false
    else validate_uri_characters rest

/-- The loop of `Uri::validate_uri_scheme` over the octets after the first. -/
def scheme_tail_ok (s : Str) : Bool :=
  s.all (fun c => isalnum c || c == '+' || c == '.' || c == '-')

/-- The embedding of `Uri::validate_uri_scheme`; it is only called when
`uri.find(":// ")` succeeded. -/
def validate_uri_scheme (uri : Str) : Bool :=
  match find uri (lit ":// ") with
  | none => false
  | some scheme_end =>
    match substr uri 0 scheme_end with
    | [] => false
    | c :: cs => isalpha c && scheme_tail_ok cs

/-- The embedding of `Uri::validate_uri`. The source looks for the four octets
`":// "` (with the space). -/
def validate_uri (uri : Str) : Bool :=
  if !validate_uri_characters uri then false
  else if contains uri (lit ":// ") then validate_uri_scheme uri
  else true

/-- The embedding of `Uri::is_absolute_uri`. -/
def is_absolute_uri (uri_string : Str) : Bool :=
  match find uri_string (lit "://") with
  | none => false
  | some scheme_end =>
    if scheme_end > 0 then
      let scheme := substr uri_string 0 scheme_end
      scheme == lit "http" || scheme == lit "https"
    else false

/-- The embedding of `Uri::extract_query_string`. -/
def Uri.extract_query_string (u : Uri) (uri : Str) : Uri :=
  match find_char uri '?' with
  | some query_pos =>
    { u with query_string_ := substr_from uri (query_pos + 1), path_ := substr uri 0 query_pos }
  | none => u

/-- The loop `while (path_.find("// ") != npos) path_.replace(path_.find("// "), 2, "/")`
of `Uri::normalize_path`. Each round shortens the path by one octet, so
`fuel = path.length` rounds are enough. -/
def collapse_slashes : Nat → Str → Str
  | 0, path => path
  | fuel + 1, path =>
    match find path (lit "// ") with
    | none => path
    | some k => collapse_slashes fuel (path.take k ++ '/' :: path.drop (k + 2))

/-- The segment loop of `Uri::normalize_path`: `..` pops, `.` and empty
segments are dropped. `segments` is the vector built so far. -/
def collect_segments : List Str → List Str → List Str
  | [], segments => segments
  | segment :: more, segments =>
    if segment == lit ".." then collect_segments more segments.dropLast
    else if segment != lit "." && !segment.isEmpty then collect_segments more (segments ++ [segment])
    else collect_segments more segments

/-- The rebuild loop of `Uri::normalize_path`: the segments joined by `/`. -/
def join_segments : List Str → Str
  | [] => []
  | [seg] => seg
  | seg :: more => seg ++ '/' :: join_segments more

/-- The embedding of `Uri::normalize_path` as a function of `path_`. -/
def normalize_path (path : Str) : Str :=
  if path.isEmpty then lit "/"
  else
    let p1 := path.map (fun c => if c == '\\' then '/' else c)
    let p2 := collapse_slashes p1.length p1
    '/' :: join_segments (collect_segments (getline_split '/' p2) [])

/-- The embedding of `Uri::extract_authority_components`. -/
def Uri.extract_authority_components (u : Uri) (authority : Str) : Uri :=
  let default_port : Int := if u.scheme_ == lit "https" then 443 else 80
  match find_char authority ':' with
  | some colon_pos =>
    let port := atoi (substr_from authority (colon_pos + 1))
    { u with
      host_ := substr authority 0 colon_pos
      port_ := if port ≤ 0 || port > 65535 then default_port else port }
  | none => { u with host_ := authority, port_ := default_port }

/-- The embedding of `Uri::parse_absolute_uri`. -/
def Uri.parse_absolute_uri (u : Uri) (uri_string : Str) : Uri :=
  match find uri_string (lit "://") with
  | none => u
  | some scheme_end =>
    let u1 := { u with scheme_ := substr uri_string 0 scheme_end, absolute_ := true }
    let authority_start := scheme_end + 3
    let (authority, u2) :=
      match find_from uri_string (lit "/") authority_start with
      | some path_start =>
        let path := substr_from uri_string path_start
        (substr uri_string authority_start (path_start - authority_start),
          Uri.extract_query_string { u1 with path_ := path } path)
      | none => (substr_from uri_string authority_start, { u1 with path_ := lit "/" })
    let u3 := Uri.extract_authority_components u2 authority
    { u3 with path_ := normalize_path u3.path_ }

/-- The embedding of `Uri::to_string`. The source writes the scheme separator
as `":// "`. -/
def Uri.to_string (u : Uri) : Str :=
  let authority :=
    if u.absolute_ then
      u.scheme_ ++ lit ":// " ++ u.host_ ++
        (if (u.scheme_ == lit "http" && u.port_ != 80) ||
            (u.scheme_ == lit "https" && u.port_ != 443)
         then ':' :: to_string_int u.port_ else [])
    else []
  authority ++ u.path_ ++ (if !u.query_string_.isEmpty then '?' :: u.query_string_ else [])

/-- The embedding of `Uri::validate`. -/
def Uri.validate (u : Uri) : Uri :=
  let u1 := { u with valid_ := true }
  let u2 := if u1.path_.isEmpty then { u1 with path_ := lit "/" } else u1
  if u2.path_.head? != some '/' then { u2 with valid_ := false }
  else if (Uri.to_string u2).length > MAX_URI_LENGTH then { u2 with valid_ := false }
  else if u2.path_.any (fun c => c.toNat < 32 || c.toNat > 126) then { u2 with valid_ := false }
  else u2

/-- The embedding of `Uri::parse` (without the query parameter map). -/
def Uri.parse (u : Uri) (uri_string : Str) : Uri :=
  let u1 :=
    if is_absolute_uri uri_string then Uri.parse_absolute_uri u uri_string
    else
      let u2 := Uri.extract_query_string { u with path_ := uri_string } uri_string
      { u2 with path_ := normalize_path u2.path_ }
  Uri.validate u1

/-! ## Header storage (`HttpHeaders`) -/

/-- The order of `std::string` keys in a `std::multimap`: lexicographic on the
octet values. -/
def str_lt : Str → Str → Bool
  | [], [] => false
  | [], _ :: _ => true
  | _ :: _, [] => false
  | a :: as, b :: bs =>
    if a.toNat < b.toNat then true
    else if b.toNat < a.toNat then false
    else str_lt as bs

/-- The embedding of `HeaderMap`, a `std::multimap<std::string, std::string>`:
its entries in iteration order, that is sorted by key, entries of equal key in
insertion order. -/
abbrev HeaderMap := List (Str × Str)

/-- The embedding of `headers.insert(make_pair(name, value))`: the entry goes
after the entries whose key is not greater. -/
def hm_insert (name value : Str) : HeaderMap → HeaderMap
  | [] => [(name, value)]
  | (k, v) :: rest =>
    if str_lt name k then (name, value) :: (k, v) :: rest
    else (k, v) :: hm_insert name value rest

/-- The embedding of `headers.find(name)`: the value of the first entry whose
key equals `name` octet for octet; `none` is `headers.end()`. -/
def hm_find (name : Str) : HeaderMap → Option Str
  | [] => none
  | (k, v) :: rest => if k == name then some v else hm_find name rest

/-- The embedding of `headers.erase(headers.find(name))`. -/
def hm_erase (name : Str) : HeaderMap → HeaderMap
  | [] => []
  | (k, v) :: rest => if k == name then rest else (k, v) :: hm_erase name rest

/-- The embedding of `HttpHeaders::to_lowercase`. -/
def to_lowercase (s : Str) : Str := s.map tolower

/-- The embedding of `HttpHeaders::compare_insensitive`. -/
def compare_insensitive (a b : Str) : Bool :=
  if a.length != b.length then false
  else (List.zip a b).all (fun p => tolower p.1 == tolower p.2)

/-- The embedding of `HttpHeaders::value_contains`. -/
def value_contains (value token : Str) : Bool :=
  contains (to_lowercase value) (to_lowercase token)

/-- The embedding of `HttpHeaders::is_valid_content_length`. -/
def is_valid_content_length (content_length : Str) : Bool :=
  if content_length.isEmpty then false else content_length.all isdigit

/-- The embedding of `HttpHeaders::has`. -/
def HttpHeaders.has (headers : HeaderMap) (name : Str) : Bool :=
  headers.any (fun e => compare_insensitive e.1 name)

/-- The embedding of `HttpHeaders::get`: the value of the first entry, in
iteration order, whose name equals `name` without regard to case; empty when
there is none. -/
def HttpHeaders.get : HeaderMap → Str → Str
  | [], _ => []
  | (k, v) :: rest, name => if compare_insensitive k name then v else HttpHeaders.get rest name

/-- The embedding of `HttpHeaders::is_single_value_header`. -/
def is_single_value_header (name : Str) : Bool :=
  let lower_name := to_lowercase name
  lower_name == lit "content-length" || lower_name == lit "content-type" ||
  lower_name == lit "date" || lower_name == lit "server" || lower_name == lit "location" ||
  lower_name == lit "last-modified" || lower_name == lit "expires" || lower_name == lit "etag" ||
  lower_name == lit "host" || lower_name == lit "authorization" || lower_name == lit "referer" ||
  lower_name == lit "user-agent"

/-- The embedding of `HttpHeaders::is_special_multiple_header`. -/
def is_special_multiple_header (name : Str) : Bool :=
  let lower_name := to_lowercase name
  lower_name == lit "set-cookie" || lower_name == lit "www-authenticate"

/-- The embedding of `HttpHeaders::is_combinable_header`. -/
def is_combinable_header (name : Str) : Bool :=
  let lower_name := to_lowercase name
  lower_name == lit "accept" || lower_name == lit "accept-charset" ||
  lower_name == lit "accept-encoding" || lower_name == lit "accept-language" ||
  lower_name == lit "cache-control" || lower_name == lit "content-encoding" ||
  lower_name == lit "content-language" || lower_name == lit "allow" ||
  lower_name == lit "pragma" || lower_name == lit "warning" ||
  (decide (lower_name.length > 2) && substr lower_name 0 2 == lit "x-")

/-- The branch of `HttpHeaders::add_header` for single-value and unknown
names: the entry found under `name` is erased, then the new one inserted. -/
def replace_header (headers : HeaderMap) (name value : Str) : HeaderMap :=
  match hm_find name headers with
  | some _ => hm_insert name value (hm_erase name headers)
  | none => hm_insert name value headers

/-- The embedding of `HttpHeaders::add_header`. -/
def add_header (headers : HeaderMap) (name value : Str) : HeaderMap :=
  if is_single_value_header name then replace_header headers name value
  else if is_special_multiple_header name then hm_insert name value headers
  else if is_combinable_header name then
    match hm_find name headers with
    | some old => hm_insert name (old ++ lit ", " ++ value) (hm_erase name headers)
    | none => hm_insert name value headers
  else replace_header headers name value

/-! ## Request (`HttpRequest`) -/

/-- `HttpRequest::DEFAULT_MAX_CONTENT_LENGTH`. -/
def DEFAULT_MAX_CONTENT_LENGTH : Nat := 1048576 * 8

/-- `HttpRequest::MAX_HEADER_SIZE`. -/
def MAX_HEADER_SIZE : Nat := 8192

/-- `HttpRequest::MAX_HEADERS`. -/
def MAX_HEADERS : Nat := 100

/-- The data members of `HttpRequest`. -/
structure HttpRequest where
  method_ : Method := Method.UNKNOWN
  uri_ : Uri := {}
  http_version_ : Str := []
  headers_ : HeaderMap := []
  body_ : Str := []
  path_info_ : Str := []
  script_name_ : Str := []
  headers_parsed_ : Bool := false
  complete_ : Bool := false
  chunked_ : Bool := false
  request_buffer_ : Str := []
  body_buffer_ : Str := []
  current_chunk_size_ : Nat := 0
  max_content_length_ : Nat := DEFAULT_MAX_CONTENT_LENGTH
  header_count_ : Nat := 0
  deriving DecidableEq

/-- The embedding of `HttpRequest::reset`. -/
def HttpRequest.reset (r : HttpRequest) : HttpRequest :=
  { r with
    method_ := Method.UNKNOWN
    uri_ := {}
    http_version_ := []
    headers_ := []
    body_ := []
    path_info_ := []
    script_name_ := []
    headers_parsed_ := false
    complete_ := false
    chunked_ := false
    request_buffer_ := []
    body_buffer_ := []
    current_chunk_size_ := 0
    header_count_ := 0 }

/-- The embedding of `HttpRequest::get_path`. -/
def HttpRequest.get_path (r : HttpRequest) : Str := r.uri_.path_

/-- The embedding of `HttpRequest::get_header`. -/
def HttpRequest.get_header (r : HttpRequest) (name : Str) : Str := HttpHeaders.get r.headers_ name

/-- The embedding of `HttpRequest::is_keep_alive`. -/
def HttpRequest.is_keep_alive (r : HttpRequest) : Bool :=
  let connection := HttpHeaders.get r.headers_ (lit "Connection")
  if r.http_version_ == lit "HTTP/1.1" then !value_contains connection (lit "close")
  else value_contains connection (lit "keep-alive")

/-! ### Request line (`Request_line.cpp`) -/

/-- The embedding of `HttpMethods::from_string`. -/
def from_string (method_str : Str) : Method :=
  if method_str == lit "GET" then Method.GET
  else if method_str == lit "HEAD" then Method.HEAD
  else if method_str == lit "POST" then Method.POST
  else if method_str == lit "PUT" then Method.PUT
  else if method_str == lit "DELETE" then Method.DELETE
  else if method_str == lit "CONNECT" then Method.CONNECT
  else if method_str == lit "OPTIONS" then Method.OPTIONS
  else if method_str == lit "TRACE" then Method.TRACE
  else if method_str == lit "PATCH" then Method.PATCH
  else Method.UNKNOWN

/-- The embedding of `HttpMethods::is_implemented`. -/
def is_implemented (m : Method) : Bool :=
  m == Method.GET || m == Method.POST || m == Method.DELETE

/-- The embedding of `HttpRequest::extract_request_line_components`: the three
tokens, or the status thrown. -/
def extract_request_line_components (line : Str) : Except HttpStatusCode (Str × Str × Str) :=
  match read_token line with
  | none => Except.error BAD_REQUEST
  | some (method_str, r1) =>
    match read_token r1 with
    | none => Except.error BAD_REQUEST
    | some (uri_string, r2) =>
      match read_token r2 with
      | none => Except.error BAD_REQUEST
      | some (version, r3) =>
        match read_token r3 with
        | some _ => Except.error BAD_REQUEST
        | none => Except.ok (method_str, uri_string, version)

/-- The embedding of `HttpRequest::validate_method`. -/
def HttpRequest.validate_method (r : HttpRequest) (method_str : Str) : Outcome HttpRequest :=
  let normalized_method := method_str.map toupper
  let r1 := { r with method_ := from_string normalized_method }
  if r1.method_ == Method.UNKNOWN then Outcome.throw NOT_IMPLEMENTED r1
  else Outcome.ok r1

/-- The embedding of `HttpRequest::validate_http_version`. -/
def HttpRequest.validate_http_version (r : HttpRequest) (version : Str) : Outcome HttpRequest :=
  if version != lit "HTTP/1.1" && version != lit "HTTP/1.0" then
    Outcome.throw HTTP_VERSION_NOT_SUPPORTED r
  else Outcome.ok { r with http_version_ := version }

/-- The tail of `HttpRequest::parse_request_line`, once the three components
are extracted and the method and version are accepted: the size check, the
character check, `Uri::parse`, and the `Host` header of an absolute target. -/
def HttpRequest.process_target (r : HttpRequest) (uri_string : Str) : Outcome HttpRequest :=
  if !validate_uri_size uri_string then Outcome.throw URI_TOO_LONG r
  else if !validate_uri uri_string then Outcome.throw BAD_REQUEST r
  else
    let r1 := { r with uri_ := Uri.parse r.uri_ uri_string }
    if r1.uri_.absolute_ then
      let host_value :=
        if r1.uri_.port_ != 80 && r1.uri_.port_ != 443 then
          r1.uri_.host_ ++ ':' :: to_string_int r1.uri_.port_
        else r1.uri_.host_
      Outcome.ok { r1 with headers_ := add_header r1.headers_ (lit "Host") host_value }
    else Outcome.ok r1

/-- The embedding of `HttpRequest::parse_request_line`. -/
def HttpRequest.parse_request_line (r : HttpRequest) (line : Str) : Outcome HttpRequest :=
  match extract_request_line_components line with
  | Except.error e => Outcome.throw e r
  | Except.ok (method_str, uri_string, version) =>
    (r.validate_method method_str).andThen fun r1 =>
    (r1.validate_http_version version).andThen fun r2 =>
    r2.process_target uri_string

/-! ### Header block (`Request_headers.cpp`) -/

/-- The embedding of `HttpRequest::remove_carriage_return`. -/
def remove_carriage_return (line : Str) : Str :=
  if line.getLast? == some '\r' then line.dropLast else line

/-- The embedding of `HttpRequest::is_header_continuation`. -/
def is_header_continuation (line : Str) : Bool :=
  line.head? == some ' ' || line.head? == some '\t'

/-- Optional white space: SP or HTAB. -/
def is_ows (c : Char) : Bool := c == ' ' || c == '\t'

/-- The embedding of `HttpRequest::trim`: the octets from the first to the last
one that is neither SP nor HTAB. -/
def trim (s : Str) : Str := ((s.dropWhile is_ows).reverse.dropWhile is_ows).reverse

/-- The embedding of `HttpRequest::has_whitespace_before_colon`. -/
def has_whitespace_before_colon (line : Str) (colon_pos : Nat) : Bool :=
  if colon_pos > 0 then
    line.get? (colon_pos - 1) == some ' ' || line.get? (colon_pos - 1) == some '\t'
  else false

/-- The embedding of `HttpRequest::is_malformed_header_line`. -/
def is_malformed_header_line (line : Str) (first_colon : Nat) : Bool :=
  if has_whitespace_before_colon line first_colon then true
  else if decide (first_colon + 1 < line.length) && line.get? (first_colon + 1) == some ':' then true
  else (line.take first_colon).any (fun c => c == ':')

/-- The embedding of `HttpRequest::is_token_char`. -/
def is_token_char (c : Char) : Bool :=
  isdigit c || islower c || isupper c ||
  c == '!' || c == '#' || c == '$' || c == '%' || c == '&' || c == '\'' || c == '*' ||
  c == '+' || c == '-' || c == '.' || c == '^' || c == '_' || c == '`' || c == '|' ||
  c == '~'

/-- The embedding of `HttpRequest::validate_header_name`: the status thrown, if
any. -/
def validate_header_name (name : Str) : Option HttpStatusCode :=
  if name.isEmpty then some BAD_REQUEST
  else if name.all is_token_char then none
  else some BAD_REQUEST

/-- The embedding of `HttpRequest::validate_header_value`: the status thrown, if
any. The size is checked before the octets. -/
def validate_header_value (value : Str) : Option HttpStatusCode :=
  if value.length > MAX_HEADER_SIZE then some REQUEST_HEADER_FIELDS_TOO_LARGE
  else if value.any (fun c => (decide (c.toNat < 0x20) && c.toNat != 0x09) || c.toNat == 0x7F) then
    some BAD_REQUEST
  else none

/-- The embedding of `HttpRequest::parse_header_line`: the field name and the
trimmed field value, or the status thrown. -/
def parse_header_line (line : Str) : Except HttpStatusCode (Str × Str) :=
  match find_char line ':' with
  | none => Except.error BAD_REQUEST
  | some colon =>
    if is_malformed_header_line line colon then Except.error BAD_REQUEST
    else
      let header_name := substr line 0 colon
      let header_value := trim (substr_from line (colon + 1))
      match validate_header_name header_name with
      | some e => Except.error e
      | none =>
        match validate_header_value header_value with
        | some e => Except.error e
        | none => Except.ok (header_name, header_value)

/-- The embedding of `HttpRequest::store_header`. -/
def HttpRequest.store_header (r : HttpRequest) (name value : Str) : Outcome HttpRequest :=
  if r.header_count_ ≥ MAX_HEADERS then Outcome.throw REQUEST_HEADER_FIELDS_TOO_LARGE r
  else
    let r1 := { r with
      headers_ := add_header r.headers_ name value
      header_count_ := r.header_count_ + 1 }
    if compare_insensitive name (lit "Transfer-Encoding") then
      Outcome.ok { r1 with chunked_ := value_contains value (lit "chunked") }
    else Outcome.ok r1

/-- The embedding of `HttpRequest::store_pending_header`. -/
def HttpRequest.store_pending_header (r : HttpRequest) (name value : Str) : Outcome HttpRequest :=
  if !name.isEmpty then r.store_header name value else Outcome.ok r

/-- The loop of `HttpRequest::parse_headers` over the lines that `std::getline`
yields, with its locals `current_header_name` and `current_header_value`, and
the final `store_pending_header`. -/
def HttpRequest.parse_header_lines :
    List Str → HttpRequest → Str → Str → Outcome HttpRequest
  | [], r, name, value => r.store_pending_header name value
  | raw_line :: more, r, name, value =>
    let line := remove_carriage_return raw_line
    if line.isEmpty then HttpRequest.parse_header_lines more r name value
    else if is_header_continuation line then Outcome.throw BAD_REQUEST r
    else
      match r.store_pending_header name value with
      | Outcome.throw e r1 => Outcome.throw e r1
      | Outcome.ok r1 =>
        match parse_header_line line with
        | Except.error e => Outcome.throw e r1
        | Except.ok (n, v) => HttpRequest.parse_header_lines more r1 n v

/-- The embedding of `HttpRequest::parse_headers`. -/
def HttpRequest.parse_headers (r : HttpRequest) (headers_content : Str) : Outcome HttpRequest :=
  HttpRequest.parse_header_lines (getline_split '\n' headers_content) r [] []

/-- The embedding of `HttpRequest::validate_headers`. -/
def HttpRequest.validate_headers (r : HttpRequest) : Outcome HttpRequest :=
  if r.http_version_ == lit "HTTP/1.1" && !HttpHeaders.has r.headers_ (lit "Host") then
    Outcome.throw BAD_REQUEST r
  else
    let content_length := HttpHeaders.get r.headers_ (lit "Content-Length")
    if !content_length.isEmpty && !is_valid_content_length content_length then
      Outcome.throw BAD_REQUEST r
    else if !content_length.isEmpty &&
        decide ((strtoul content_length 10).1 > r.max_content_length_) then
      Outcome.throw PAYLOAD_TOO_LARGE r
    else
      let transfer_encoding := HttpHeaders.get r.headers_ (lit "Transfer-Encoding")
      if !transfer_encoding.isEmpty && value_contains transfer_encoding (lit "chunked") then
        let r1 := { r with chunked_ := true }
        if !content_length.isEmpty then Outcome.throw BAD_REQUEST r1
        else Outcome.ok r1
      else Outcome.ok r

/-! ### Body (`Request_body.cpp`) -/

/-- The embedding of `HttpRequest::parse_normal_body`. -/
def HttpRequest.parse_normal_body (r : HttpRequest) (data : Str) : Outcome HttpRequest :=
  let content_length_str := HttpHeaders.get r.headers_ (lit "Content-Length")
  if r.method_ == Method.POST && content_length_str.isEmpty then Outcome.throw BAD_REQUEST r
  else if content_length_str.isEmpty then Outcome.ok { r with complete_ := true }
  else
    let (content_length, rest) := strtoul content_length_str 10
    if !rest.isEmpty then Outcome.throw BAD_REQUEST r
    else if content_length > r.max_content_length_ then Outcome.throw PAYLOAD_TOO_LARGE r
    else
      let body := r.body_ ++ data
      if body.length ≥ content_length then
        Outcome.ok { r with body_ := substr body 0 content_length, complete_ := true }
      else Outcome.ok { r with body_ := body }

/-- The embedding of `HttpRequest::process_final_chunk` (its boolean result is
not used by the caller). -/
def HttpRequest.process_final_chunk (r : HttpRequest) : Outcome HttpRequest :=
  let buf := r.body_buffer_
  match find buf (lit "\r\n\r\n") with
  | some end_sequence =>
    (if end_sequence > 0 then r.parse_headers (substr buf 0 end_sequence) else Outcome.ok r).andThen
      fun r1 => Outcome.ok { r1 with complete_ := true }
  | none =>
    if buf == lit "\r\n" then Outcome.ok { r with complete_ := true }
    else if decide (buf.length ≥ 2) && buf.get? (buf.length - 2) == some '\r' &&
        buf.get? (buf.length - 1) == some '\n' &&
        find buf (lit "\r\n") == some (buf.length - 2) then
      Outcome.ok { r with complete_ := true }
    else Outcome.ok r

/-- The part of the loop body of `HttpRequest::parse_chunked_body` that takes
the data of the current chunk; `next` is the next round of the loop. The sum
`current_chunk_size_ + 2` is a `size_t`. -/
def HttpRequest.take_chunk_data (next : HttpRequest → Outcome HttpRequest) (r : HttpRequest) :
    Outcome HttpRequest :=
  if r.body_buffer_.length < (r.current_chunk_size_ + 2) % 2 ^ 64 then Outcome.ok r
  else
    next { r with
      body_ := r.body_ ++ substr r.body_buffer_ 0 r.current_chunk_size_
      body_buffer_ := substr_from r.body_buffer_ ((r.current_chunk_size_ + 2) % 2 ^ 64)
      current_chunk_size_ := 0 }

/-- The loop `while (!body_buffer_.empty())` of `HttpRequest::parse_chunked_body`.
Every round that goes on to a next round removes at least one octet from
`body_buffer_`, so `fuel = body_buffer_.length + 1` rounds are enough. -/
def HttpRequest.chunk_loop : Nat → HttpRequest → Outcome HttpRequest
  | 0, r => Outcome.ok r
  | fuel + 1, r =>
    if r.body_buffer_.isEmpty then Outcome.ok r
    else if r.current_chunk_size_ == 0 then
      match find r.body_buffer_ (lit "\r\n") with
      | none => Outcome.ok r
      | some line_end =>
        let chunk_line := substr r.body_buffer_ 0 line_end
        let chunk_header := trim
          (match find_char chunk_line ';' with
            | some semicolon => substr chunk_line 0 semicolon
            | none => chunk_line)
        let (size, rest) := strtoul chunk_header 16
        let r1 := { r with current_chunk_size_ := size }
        if !rest.isEmpty then Outcome.throw BAD_REQUEST r1
        else
          let r2 := { r1 with body_buffer_ := substr_from r.body_buffer_ (line_end + 2) }
          if size == 0 then r2.process_final_chunk
          else HttpRequest.take_chunk_data (HttpRequest.chunk_loop fuel) r2
    else HttpRequest.take_chunk_data (HttpRequest.chunk_loop fuel) r

/-- The embedding of `HttpRequest::parse_chunked_body`. -/
def HttpRequest.parse_chunked_body (r : HttpRequest) (data : Str) : Outcome HttpRequest :=
  let r1 := { r with body_buffer_ := r.body_buffer_ ++ data }
  HttpRequest.chunk_loop (r1.body_buffer_.length + 1) r1

/-- The embedding of `HttpRequest::parse_body`. -/
def HttpRequest.parse_body (r : HttpRequest) (data : Str) : Outcome HttpRequest :=
  if r.chunked_ then r.parse_chunked_body data else r.parse_normal_body data

/-! ### Parsing entry points (`Request.cpp`) -/

/-- The last step of `HttpRequest::parse`: the buffered octets go to
`parse_body`, and the buffer is cleared unless the request is chunked and
still incomplete. -/
def HttpRequest.process_buffered_body (r : HttpRequest) : Outcome HttpRequest :=
  if !r.request_buffer_.isEmpty then
    (r.parse_body r.request_buffer_).andThen fun r1 =>
      if !r1.chunked_ || r1.complete_ then Outcome.ok { r1 with request_buffer_ := [] }
      else Outcome.ok r1
  else Outcome.ok r

/-- The block of `HttpRequest::parse` for POST, PUT and PATCH, up to the point
where the body is processed. -/
def HttpRequest.check_body_framing (r : HttpRequest) : Outcome HttpRequest :=
  let content_length := HttpHeaders.get r.headers_ (lit "Content-Length")
  let transfer_encoding := HttpHeaders.get r.headers_ (lit "Transfer-Encoding")
  let has_content_length := !content_length.isEmpty
  let has_chunked_encoding := contains transfer_encoding (lit "chunked")
  if !has_content_length && !has_chunked_encoding && !r.request_buffer_.isEmpty then
    Outcome.throw LENGTH_REQUIRED r
  else if !has_content_length && !has_chunked_encoding then
    Outcome.ok { r with complete_ := true }
  else
    match (if has_content_length then
        (match stream_extract_size_t content_length with
          | none => some BAD_REQUEST
          | some body_size =>
            if body_size > r.max_content_length_ then some PAYLOAD_TOO_LARGE else none)
        else none) with
    | some e => Outcome.throw e r
    | none =>
      if content_length == lit "0" then Outcome.ok { r with complete_ := true }
      else r.process_buffered_body

/-- The second half of `HttpRequest::parse`: the block guarded by
`headers_parsed_ && !complete_`. -/
def HttpRequest.parse_body_phase (r : HttpRequest) : Outcome HttpRequest :=
  if r.headers_parsed_ && !r.complete_ then
    if r.method_ == Method.GET || r.method_ == Method.DELETE || r.method_ == Method.HEAD ||
        r.method_ == Method.OPTIONS || r.method_ == Method.TRACE then
      Outcome.ok { r with complete_ := true }
    else if r.method_ == Method.POST || r.method_ == Method.PUT || r.method_ == Method.PATCH then
      r.check_body_framing
    else if r.method_ == Method.CONNECT || r.method_ == Method.UNKNOWN then
      Outcome.ok { r with complete_ := true }
    else r.process_buffered_body
  else Outcome.ok r

/-- The embedding of `HttpRequest::parse`. -/
def HttpRequest.parse (r : HttpRequest) (raw_request : Str) : Outcome HttpRequest :=
  if raw_request.isEmpty then Outcome.throw BAD_REQUEST r
  else if r.complete_ then Outcome.ok r
  else if !r.headers_parsed_ then
    match find raw_request (lit "\r\n\r\n") with
    | none => Outcome.ok r
    | some header_end =>
      let headers_section := substr raw_request 0 header_end
      let remaining_data := substr_from raw_request (header_end + 4)
      match find headers_section (lit "\r\n") with
      | none => Outcome.throw BAD_REQUEST r
      | some first_line_end =>
        let request_line := substr headers_section 0 first_line_end
        let headers_content := substr_from headers_section (first_line_end + 2)
        (((r.parse_request_line request_line).andThen fun r1 =>
          r1.parse_headers headers_content).andThen fun r2 =>
          r2.validate_headers).andThen fun r3 =>
          HttpRequest.parse_body_phase
            { r3 with headers_parsed_ := true, request_buffer_ := remaining_data }
  else r.parse_body_phase

/-- The embedding of `HttpRequest::append_data`. -/
def HttpRequest.append_data (r : HttpRequest) (data : Str) : Outcome HttpRequest :=
  let r1 := { r with request_buffer_ := r.request_buffer_ ++ data }
  if r1.complete_ then Outcome.ok r1
  else r1.parse r1.request_buffer_

/-! ## Response (`HttpResponse`) -/

/-- The embedding of `get_status_message`. -/
def get_status_message (status : HttpStatusCode) : Str :=
  if status = 100 then lit "Continue"
  else if status = 101 then lit "Switching Protocols"
  else if status = 200 then lit "OK"
  else if status = 201 then lit "Created"
  else if status = 202 then lit "Accepted"
  else if status = 204 then lit "No Content"
  else if status = 301 then lit "Moved Permanently"
  else if status = 302 then lit "Found"
  else if status = 303 then lit "See Other"
  else if status = 304 then lit "Not Modified"
  else if status = 307 then lit "Temporary Redirect"
  else if status = 308 then lit "Permanent Redirect"
  else if status = 400 then lit "Bad Request"
  else if status = 401 then lit "Unauthorized"
  else if status = 403 then lit "Forbidden"
  else if status = 404 then lit "Not Found"
  else if status = 405 then lit "Method Not Allowed"
  else if status = 406 then lit "Not Acceptable"
  else if status = 408 then lit "Request Timeout"
  else if status = 409 then lit "Conflict"
  else if status = 410 then lit "Gone"
  else if status = 411 then lit "Length Required"
  else if status = 413 then lit "Payload Too Large"
  else if status = 414 then lit "URI Too Long"
  else if status = 415 then lit "Unsupported Media Type"
  else if status = 500 then lit "Internal Server Error"
  else if status = 501 then lit "Not Implemented"
  else if status = 502 then lit "Bad Gateway"
  else if status = 503 then lit "Service Unavailable"
  else if status = 504 then lit "Gateway Timeout"
  else if status = 505 then lit "HTTP Version Not Supported"
  else lit "Unknown Status"

/-- The data members of `HttpResponse`. -/
structure HttpResponse where
  status_ : HttpStatusCode
  headers_ : HeaderMap
  body_ : Str
  deriving DecidableEq

/-- The loop of `HttpHeaders::normalize_name`, with its flag `capitalize`. -/
def normalize_name_from : Str → Bool → Str
  | [], _ => []
  | c :: cs, true => toupper c :: normalize_name_from cs false
  | c :: cs, false =>
    if c == '-' then c :: normalize_name_from cs true
    else tolower c :: normalize_name_from cs false

/-- The embedding of `HttpHeaders::normalize_name`. -/
def normalize_name (name : Str) : Str := normalize_name_from name true

/-- The embedding of `HttpResponse::set_status`. -/
def HttpResponse.set_status (r : HttpResponse) (status : HttpStatusCode) : HttpResponse :=
  { r with status_ := status }

/-- The embedding of `HttpResponse::set_header`. -/
def HttpResponse.set_header (r : HttpResponse) (name value : Str) : HttpResponse :=
  { r with headers_ := add_header r.headers_ (normalize_name name) value }

/-- The embedding of `HttpResponse::set_body`. -/
def HttpResponse.set_body (r : HttpResponse) (body : Str) : HttpResponse :=
  HttpResponse.set_header { r with body_ := body } (lit "Content-Length") (to_string_nat body.length)

/-- The embedding of `HttpResponse::get_header`. -/
def HttpResponse.get_header (r : HttpResponse) (name : Str) : Str := HttpHeaders.get r.headers_ name

/-- The embedding of the constructor `HttpResponse::HttpResponse`; `date` is
the text that `set_date_header` formats from the clock. -/
def HttpResponse.new (date : Str) : HttpResponse :=
  HttpResponse.set_header
    (HttpResponse.set_header { status_ := OK, headers_ := [], body_ := [] } (lit "Date") date)
    (lit "Server") (lit "WebServ")

/-- The header lines written by `HttpResponse::build`. -/
def build_header_lines : HeaderMap → Str
  | [] => []
  | (k, v) :: rest => k ++ lit ": " ++ v ++ lit "\r\n" ++ build_header_lines rest

/-- The embedding of `HttpResponse::build`. -/
def HttpResponse.build (r : HttpResponse) : Str :=
  lit "HTTP/1.1 " ++ to_string_nat r.status_ ++ lit " " ++ get_status_message r.status_ ++
    lit "\r\n" ++ build_header_lines r.headers_ ++ lit "\r\n" ++ r.body_

/-- The embedding of `HttpError::generate_error_page`. -/
def generate_error_page (status : HttpStatusCode) : Str :=
  lit "<!DOCTYPE html>\n<html>\n<head><title>Error</title></head>\n<body>\n<h1>" ++
    to_string_nat status ++ lit " - " ++ get_status_message status ++
    lit "</h1>\n</body>\n</html>"

/-- The embedding of `HttpResponse::build_default_error_response`. -/
def build_default_error_response (date : Str) (status : HttpStatusCode) : HttpResponse :=
  HttpResponse.set_body
    (HttpResponse.set_header (HttpResponse.set_status (HttpResponse.new date) status)
      (lit "Content-Type") (lit "text/html"))
    (generate_error_page status)

/-- The embedding of `HttpError::should_close_connection`. -/
def should_close_connection (status : HttpStatusCode) : Bool :=
  if status ≥ 500 then true
  else status == BAD_REQUEST || status == REQUEST_TIMEOUT || status == LENGTH_REQUIRED ||
    status == PAYLOAD_TOO_LARGE || status == URI_TOO_LONG || status == UNSUPPORTED_MEDIA_TYPE

/-! ## Security filter (`Handler_security.cpp`) -/

/-- The embedding of `Uri::extract_path`. -/
def extract_path (uri : Str) : Str :=
  match find_char uri '?' with
  | some query_pos => substr uri 0 query_pos
  | none => uri

/-- The embedding of `HttpHandler::is_traversal_attempt`. -/
def is_traversal_attempt (path : Str) : Bool :=
  contains path (lit "../") || contains path (lit "..\\") || path == lit ".."

/-- The table `sensitive_patterns` of `HttpHandler::is_sensitive_resource`. -/
def sensitive_patterns : List Str :=
  [lit "/.git", lit "/.svn", lit "/.env", lit "/.htaccess", lit "/.htpasswd", lit "/.DS_Store",
   lit "/Makefile", lit "/config", lit "/README.md"]

/-- The table `allowed_cgi_extensions` of `HttpHandler::is_sensitive_resource`. -/
def allowed_cgi_extensions : List Str :=
  [lit ".cgi", lit ".php", lit ".py", lit ".pl", lit ".sh", lit ".rb"]

/-- The table `blocked_extensions` of `HttpHandler::is_sensitive_resource`. -/
def blocked_extensions : List Str :=
  [lit ".conf", lit ".cpp", lit ".hpp", lit ".c", lit ".h", lit ".py", lit ".js", lit ".go",
   lit ".o", lit ".a", lit ".so", lit ".cgi", lit ".php", lit ".pl", lit ".sh", lit ".rb"]

/-- The hidden-file test of `HttpHandler::is_sensitive_resource`: the octet
after the last `/` exists and is a dot. -/
def is_hidden (clean_path : Str) : Bool :=
  match find_last_of clean_path '/' with
  | some last_slash =>
    decide (last_slash + 1 < clean_path.length) && clean_path.get? (last_slash + 1) == some '.'
  | none => false

/-- The extension test of `HttpHandler::is_sensitive_resource` for one blocked
extension: `rfind` finds it and it ends the path. -/
def ends_with_extension (clean_path ext : Str) : Bool :=
  match rfind clean_path ext with
  | some ext_pos => ext_pos + ext.length == clean_path.length
  | none => false

/-- The embedding of `HttpHandler::is_sensitive_resource`. -/
def is_sensitive_resource (path : Str) (cgi_script : Bool) : Bool :=
  let clean_path := extract_path path
  if is_hidden clean_path then true
  else if sensitive_patterns.any (fun pattern => contains clean_path pattern) then true
  else if cgi_script then
    match find_last_of clean_path '.' with
    | none => true
    | some ext_pos =>
      let ext := substr_from clean_path ext_pos
      if allowed_cgi_extensions.any (fun allowed => ext == allowed) then false else true
  else blocked_extensions.any (fun ext => ends_with_extension clean_path ext)

/-- The embedding of `HttpHandler::validate_file_access`: the status thrown, if
any. The sensitive-resource test comes first, the traversal test second. -/
def validate_file_access (path : Str) (cgi_script : Bool) : Option HttpStatusCode :=
  if is_sensitive_resource path cgi_script then some FORBIDDEN
  else if is_traversal_attempt path then some FORBIDDEN
  else none

/-! ## Handler (`HttpHandler`) -/

/-- What `stat` reports about a path that exists. -/
inductive FileKind
  | regular | directory | other
  deriving DecidableEq

/-- What the handler and the connection observe of their surroundings: the
clock, the file system, and the collaborators that are not embedded here (the
upload handler, the directory listing, the MIME table, the CGI manager and the
server's static tables). -/
structure World where
  date : Str
  stat : Str → Option FileKind
  file_exists : Str → Bool
  is_executable : Str → Bool
  read_file : Str → Option Str
  directory_listing : Str → Str → Option Str
  mime_type : Str → Str
  remove_file : Str → Bool
  start_cgi_execution : HttpRequest → Str → LocationBlock → Bool
  handle_post_request : HttpRequest → LocationBlock → ServerBlock → Except HttpStatusCode HttpResponse
  get_server_block : Str → Int → Option ServerBlock
  listen_port_of_fd : Option Int

/-- `DEFAULT_REDIRECT_STATUS` of `Handler.hpp`. -/
def DEFAULT_REDIRECT_STATUS : Int := 301

/-- The embedding of `LocationBlock::is_allows_method`. -/
def LocationBlock.is_allows_method (l : LocationBlock) (m : Method) : Bool :=
  l.allowed_methods.contains m

/-- The upper-case hexadecimal digit of a value below 16, as `snprintf` with
`%X` writes it. -/
def hex_digit_upper (d : Nat) : Char :=
  if d < 10 then Char.ofNat ('0'.toNat + d) else Char.ofNat ('A'.toNat + (d - 10))

/-- The embedding of `Uri::encode`: alphanumerics and `-`, `_`, `.`, `~` are
kept, every other octet becomes `%` and the two digits of `%02X`. -/
def uri_encode : Str → Str
  | [] => []
  | c :: cs =>
    if isalnum c || c == '-' || c == '_' || c == '.' || c == '~' then c :: uri_encode cs
    else
      '%' :: hex_digit_upper (c.toNat % 256 / 16) :: hex_digit_upper (c.toNat % 256 % 16) ::
        uri_encode cs

/-- The embedding of `Uri::decode`. A `'%'` with at least two octets after it is
replaced, with them, by the octet `(char) strtol(hex, NULL, 16)`; `%00` throws. -/
def uri_decode : Str → Except HttpStatusCode Str
  | [] => Except.ok []
  | [c] => Except.ok [c]
  | [c, d] => Except.ok [c, d]
  | c :: h1 :: h2 :: rest =>
    if c == '%' then
      if h1 == '0' && h2 == '0' then Except.error BAD_REQUEST
      else
        match uri_decode rest with
        | Except.ok d => Except.ok (Char.ofNat ((strtoul [h1, h2] 16).1 % 256) :: d)
        | Except.error e => Except.error e
    else
      match uri_decode (h1 :: h2 :: rest) with
      | Except.ok d => Except.ok (c :: d)
      | Except.error e => Except.error e

/-- The embedding of `HttpHandler::is_cgi_request`, on the path from the loop
variable `start` onwards; `before` is `path.substr(0, start)`. Each round
looks at `current_path`, the path up to the next `/` at or after `start`. -/
def is_cgi_request_from (location : LocationBlock) : Nat → Str → Str → Bool
  | 0, _, _ => false
  | fuel + 1, before, after =>
    if after.isEmpty then false
    else
      let segment := after.takeWhile (fun c => c != '/')
      let current_path := before ++ segment
      let is_script :=
        match find_last_of current_path '.' with
        | some dot_pos =>
          let extension := substr_from current_path dot_pos
          (location.cgi_handlers.lookup extension).isSome || extension == lit ".cgi"
        | none => false
      if is_script then true
      else
        match after.dropWhile (fun c => c != '/') with
        | [] => false
        | slash :: more => is_cgi_request_from location fuel (current_path ++ [slash]) more

/-- The embedding of `HttpHandler::is_cgi_request` for a non-null location. -/
def is_cgi_request (path : Str) (location : LocationBlock) : Bool :=
  if !location.cgi_enabled then false
  else is_cgi_request_from location (path.length + 1) [] path

/-- The embedding of `HttpHandler::get_root_directory`. -/
def get_root_directory (sb : ServerBlock) (location : LocationBlock) : Except HttpStatusCode Str :=
  if !location.root.isEmpty then Except.ok location.root
  else if !sb.root.isEmpty then Except.ok sb.root
  else Except.error INTERNAL_SERVER_ERROR

/-- The embedding of `HttpHandler::is_exact_match_for_location`. -/
def is_exact_match_for_location (request_path : Str) (location : LocationBlock) : Bool :=
  location.exact_match && request_path == location.path

/-- The embedding of `HttpHandler::is_prefix_match_for_location`. -/
def is_prefix_match_for_location (request_path : Str) (location : LocationBlock) : Bool :=
  if location.path == lit "/" then true
  else if find request_path location.path != some 0 then false
  else request_path.length == location.path.length ||
    request_path.get? location.path.length == some '/'

/-- The embedding of `HttpHandler::build_exact_match_path`. -/
def build_exact_match_path (root_dir : Str) (location : LocationBlock) : Str :=
  root_dir ++ lit "/" ++ location.index

/-- The embedding of `HttpHandler::build_prefix_match_path`; `request_path` is
the decoded path. -/
def build_prefix_match_path (root_dir request_path : Str) (location : LocationBlock) :
    Except HttpStatusCode Str :=
  if location.path == lit "/" then Except.ok (root_dir ++ request_path)
  else
    match uri_decode location.path with
    | Except.error e => Except.error e
    | Except.ok decoded_location_path =>
      let remaining0 :=
        if request_path.length > decoded_location_path.length then
          substr_from request_path decoded_location_path.length
        else []
      let remaining_path :=
        if !remaining0.isEmpty && remaining0.head? != some '/' then '/' :: remaining0
        else remaining0
      let last_slash := find_last_of location.path '/'
      let last_dot := find_last_of location.path '.'
      let names_file :=
        match last_dot with
        | some d =>
          (match last_slash with
            | none => true
            | some sl => decide (d > sl))
        | none => false
      if request_path == location.path && remaining_path.isEmpty && names_file then
        let file_name :=
          match last_slash with
          | some sl => substr_from location.path (sl + 1)
          | none => location.path
        Except.ok (root_dir ++ lit "/" ++ file_name)
      else if !location.root.isEmpty then Except.ok (location.root ++ remaining_path)
      else Except.ok (root_dir ++ location.path ++ remaining_path)

/-- The embedding of `HttpHandler::resolve_file_path`. -/
def resolve_file_path (sb : ServerBlock) (request_path : Str) (location : LocationBlock) :
    Except HttpStatusCode Str :=
  match get_root_directory sb location with
  | Except.error e => Except.error e
  | Except.ok root_dir =>
    if request_path.isEmpty || request_path == lit "/" then
      Except.ok (root_dir ++ lit "/" ++ location.index)
    else
      match uri_decode request_path with
      | Except.error e => Except.error e
      | Except.ok decoded_path =>
        if is_exact_match_for_location request_path location then
          Except.ok (build_exact_match_path root_dir location)
        else if is_prefix_match_for_location request_path location then
          build_prefix_match_path root_dir decoded_path location
        else Except.ok (root_dir ++ decoded_path)

/-- The embedding of `HttpHandler::try_load_error_page`: the response when the
page opens. -/
def try_load_error_page (w : World) (response : HttpResponse) (resolved_path : Str)
    (status_code : HttpStatusCode) : Option HttpResponse :=
  match w.read_file resolved_path with
  | some content =>
    some (((response.set_status status_code).set_header (lit "Content-Type") (lit "text/html")).set_body
      content)
  | none => none

/-- The embedding of `HttpHandler::find_custom_error_page`: the response built
from a configured page, `none` when there is none; it throws when the matched
location has a page for the status but no root can be resolved. -/
def find_custom_error_page (w : World) (response : HttpResponse) (status_code : HttpStatusCode)
    (sb : ServerBlock) (location : Option LocationBlock) :
    Except HttpStatusCode (Option HttpResponse) :=
  let server_level : Option HttpResponse :=
    match sb.error_pages.lookup status_code with
    | some page => try_load_error_page w response (sb.root ++ page) status_code
    | none => none
  match location with
  | some loc =>
    match loc.error_pages.lookup status_code with
    | some page =>
      (match get_root_directory sb loc with
        | Except.error e => Except.error e
        | Except.ok root_dir =>
          match try_load_error_page w response (root_dir ++ page) status_code with
          | some r => Except.ok (some r)
          | none => Except.ok server_level)
    | none => Except.ok server_level
  | none => Except.ok server_level

/-- The value of the `Allow` header that `create_error_response` builds for a
matched location. -/
def allow_header_value (location : LocationBlock) : Str :=
  let names :=
    (if location.is_allows_method Method.GET then [lit "GET"] else []) ++
    (if location.is_allows_method Method.POST then [lit "POST"] else []) ++
    (if location.is_allows_method Method.DELETE then [lit "DELETE"] else [])
  if names.isEmpty then lit "GET" else (lit ", ").intercalate names

/-- The embedding of `HttpHandler::create_error_response`. -/
def create_error_response (w : World) (status_code : HttpStatusCode) (sb : ServerBlock)
    (location : Option LocationBlock) : Except HttpStatusCode HttpResponse :=
  match find_custom_error_page w (HttpResponse.new w.date) status_code sb location with
  | Except.error e => Except.error e
  | Except.ok custom =>
    let response :=
      match custom with
      | some r => r
      | none => build_default_error_response w.date status_code
    if status_code == METHOD_NOT_ALLOWED then
      match location with
      | some loc => Except.ok (response.set_header (lit "Allow") (allow_header_value loc))
      | none => Except.ok (response.set_header (lit "Allow") (lit "GET, POST, DELETE"))
    else Except.ok response

/-- The embedding of `HttpHandler::handle_redirect`. -/
def handle_redirect (response : HttpResponse) (redirect_url : Str) (status_code : Int) :
    HttpResponse :=
  let http_status : HttpStatusCode :=
    if status_code = 301 then MOVED_PERMANENTLY
    else if status_code = 302 then FOUND
    else if status_code = 303 then SEE_OTHER
    else if status_code = 307 then TEMPORARY_REDIRECT
    else if status_code = 308 then PERMANENT_REDIRECT
    else MOVED_PERMANENTLY
  (((response.set_status http_status).set_header (lit "Location") redirect_url).set_body
    (lit "<html><body>Redirected to <a href=\"" ++ redirect_url ++ lit "\">" ++ redirect_url ++
      lit "</a></body></html>")).set_header (lit "Content-Type") (lit "text/html")

/-- The embedding of `HttpHandler::extract_cgi_components`, on the path from the
loop variable `start` onwards; `before` is `path.substr(0, start)`. Returns the
script name and `PATH_INFO`. -/
def extract_cgi_components_from (w : World) (sb : ServerBlock) (location : LocationBlock)
    (path : Str) : Nat → Str → Str → Except HttpStatusCode (Str × Str)
  | 0, _, _ => Except.ok (path, [])
  | fuel + 1, before, after =>
    if after.isEmpty then Except.ok (path, [])
    else
      let segment := after.takeWhile (fun c => c != '/')
      let current_path := before ++ segment
      let tail := after.dropWhile (fun c => c != '/')
      let has_cgi_extension :=
        match find_last_of current_path '.' with
        | some dot_pos =>
          let extension := substr_from current_path dot_pos
          (location.cgi_handlers.lookup extension).isSome || extension == lit ".cgi"
        | none => false
      let go_on : Except HttpStatusCode (Str × Str) :=
        match tail with
        | [] => Except.ok (path, [])
        | slash :: more =>
          extract_cgi_components_from w sb location path fuel (current_path ++ [slash]) more
      if has_cgi_extension then
        match resolve_file_path sb current_path location with
        | Except.error e => Except.error e
        | Except.ok script_path =>
          if w.stat script_path == some FileKind.regular then Except.ok (current_path, tail)
          else go_on
      else go_on

/-- The embedding of `HttpHandler::extract_cgi_components`. -/
def extract_cgi_components (w : World) (sb : ServerBlock) (path : Str) (location : LocationBlock) :
    Except HttpStatusCode (Str × Str) :=
  extract_cgi_components_from w sb location path (path.length + 1) [] path

/-- The embedding of `HttpHandler::handle_cgi_request`, called with a non-null
connection. -/
def handle_cgi_request (w : World) (sb : ServerBlock) (request : HttpRequest) (path : Str)
    (location : LocationBlock) : Except HttpStatusCode HttpResponse :=
  match extract_cgi_components w sb path location with
  | Except.error e => Except.error e
  | Except.ok (script_name, path_info) =>
    match validate_file_access script_name true with
    | some e => Except.error e
    | none =>
      match resolve_file_path sb script_name location with
      | Except.error e => Except.error e
      | Except.ok script_path =>
        match w.stat script_path with
        | none => Except.error NOT_FOUND
        | some kind =>
          if kind != FileKind.regular then Except.error FORBIDDEN
          else
            let is_dot_cgi :=
              match find_last_of script_path '.' with
              | some ext_pos => substr_from script_path ext_pos == lit ".cgi"
              | none => false
            if is_dot_cgi && !w.is_executable script_path then Except.error FORBIDDEN
            else
              let cgi_request := { request with path_info_ := path_info, script_name_ := script_name }
              if !w.start_cgi_execution cgi_request script_path location then
                Except.error INTERNAL_SERVER_ERROR
              else
                Except.ok (((HttpResponse.new w.date).set_status ACCEPTED).set_header
                  (lit "X-CGI-Processing") (lit "true"))

/-- The embedding of `HttpHandler::serve_index_file`: the response when the
index file is served. -/
def serve_index_file (w : World) (dir_path index_name : Str) (response : HttpResponse) :
    Option HttpResponse :=
  let index_path :=
    (if dir_path.getLast? != some '/' then dir_path ++ lit "/" else dir_path) ++ index_name
  if w.file_exists index_path then
    match w.read_file index_path with
    | some content =>
      some (((response.set_status OK).set_header (lit "Content-Type") (lit "text/html")).set_body
        content)
    | none => none
  else none

/-- The embedding of `HttpHandler::generate_directory_listing`; the page itself
is supplied by the world, `none` when the directory does not open. -/
def generate_directory_listing (w : World) (path file_path : Str) (response : HttpResponse) :
    Except HttpStatusCode HttpResponse :=
  match w.directory_listing path file_path with
  | some page =>
    Except.ok (((response.set_status OK).set_header (lit "Content-Type") (lit "text/html")).set_body
      page)
  | none => Except.error INTERNAL_SERVER_ERROR

/-- The embedding of `HttpHandler::handle_directory_request`. -/
def handle_directory_request (w : World) (path file_path : Str) (response : HttpResponse)
    (location : LocationBlock) : Except HttpStatusCode HttpResponse :=
  match (if !location.index.isEmpty then serve_index_file w file_path location.index response
      else none) with
  | some r => Except.ok r
  | none =>
    if location.autoindex then generate_directory_listing w path file_path response
    else Except.error FORBIDDEN

/-- The embedding of `HttpHandler::handle_file_request`. -/
def handle_file_request (w : World) (file_path : Str) (response : HttpResponse) :
    Except HttpStatusCode HttpResponse :=
  match w.read_file file_path with
  | none => Except.error NOT_FOUND
  | some content =>
    Except.ok (((response.set_status OK).set_header (lit "Content-Type")
      (w.mime_type file_path)).set_body content)

/-- The embedding of `HttpHandler::handle_get_request`. -/
def handle_get_request (w : World) (sb : ServerBlock) (request : HttpRequest) (path : Str)
    (response : HttpResponse) (location : LocationBlock) : Except HttpStatusCode HttpResponse :=
  if is_cgi_request path location then handle_cgi_request w sb request path location
  else
    match validate_file_access path false with
    | some e => Except.error e
    | none =>
      match resolve_file_path sb path location with
      | Except.error e => Except.error e
      | Except.ok file_path =>
        match w.stat file_path with
        | none => Except.error NOT_FOUND
        | some FileKind.directory => handle_directory_request w path file_path response location
        | some _ => handle_file_request w file_path response

/-- The embedding of `HttpHandler::handle_delete_request`. -/
def handle_delete_request (w : World) (sb : ServerBlock) (path : Str) (response : HttpResponse)
    (location : LocationBlock) : Except HttpStatusCode HttpResponse :=
  match resolve_file_path sb path location with
  | Except.error e => Except.error e
  | Except.ok file_path =>
    match w.stat file_path with
    | none => Except.error NOT_FOUND
    | some kind =>
      if kind != FileKind.regular then Except.error FORBIDDEN
      else if w.remove_file file_path then
        Except.ok ((response.set_status OK).set_body (lit "File deleted successfully"))
      else Except.error INTERNAL_SERVER_ERROR

/-- The `try` block of `HttpHandler::handle_request` once a location is
matched. -/
def dispatch_request (w : World) (sb : ServerBlock) (request : HttpRequest)
    (location : LocationBlock) : Except HttpStatusCode HttpResponse :=
  let response := HttpResponse.new w.date
  let method := request.method_
  let path := request.get_path
  if !location.redirect.isEmpty then
    let status_code :=
      if location.redirect_status_code > 0 then location.redirect_status_code
      else DEFAULT_REDIRECT_STATUS
    Except.ok (handle_redirect response location.redirect status_code)
  else if method == Method.TRACE then Except.error NOT_IMPLEMENTED
  else if !is_implemented method then Except.error METHOD_NOT_ALLOWED
  else if !location.is_allows_method method then Except.error METHOD_NOT_ALLOWED
  else
    match method with
    | Method.GET => handle_get_request w sb request path response location
    | Method.POST => w.handle_post_request request location sb
    | Method.DELETE => handle_delete_request w sb path response location
    | _ => Except.error METHOD_NOT_ALLOWED

/-- The embedding of `HttpHandler::handle_request`. An `HttpError` thrown in
the `try` block becomes the response of `create_error_response`; one thrown
inside `create_error_response` leaves the function. -/
def handle_request (w : World) (request : HttpRequest) (sb : ServerBlock) :
    Except HttpStatusCode HttpResponse :=
  match sb.match_location request.get_path with
  | none => create_error_response w NOT_FOUND sb none
  | some location =>
    match dispatch_request w sb request location with
    | Except.ok response => Except.ok response
    | Except.error e => create_error_response w e sb (some location)

/-! ## CGI response (`CgiResponse.hpp`) -/

/-- The value of a CGI header line as `parse_cgi_output` takes it: leading SP
and HTAB are dropped, unless the value holds nothing else. -/
def cgi_header_value (value : Str) : Str :=
  if value.all is_ows then value else value.dropWhile is_ows

/-- The line loop of `CgiResponse::parse_cgi_output` over the lines that
`std::getline` yields: lines without a colon are skipped. -/
def parse_cgi_header_lines : List Str → HeaderMap → HeaderMap
  | [], headers => headers
  | raw_line :: more, headers =>
    let line := remove_carriage_return raw_line
    if line.isEmpty then parse_cgi_header_lines more headers
    else
      match find_char line ':' with
      | some colon_pos =>
        let name := substr line 0 colon_pos
        let value := cgi_header_value (substr_from line (colon_pos + 1))
        parse_cgi_header_lines more (add_header headers name value)
      | none => parse_cgi_header_lines more headers

/-- The embedding of `CgiResponse::parse_cgi_output`: the header map and the
body. -/
def parse_cgi_output (cgi_output : Str) : HeaderMap × Str :=
  let header_end : Option Nat :=
    match find cgi_output (lit "\r\n\r\n") with
    | some k => some (k + 4)
    | none =>
      match find cgi_output (lit "\n\n") with
      | some k => some (k + 2)
      | none => none
  match header_end with
  | none => ([], cgi_output)
  | some header_end =>
    let header_section := substr cgi_output 0 header_end
    let headers := parse_cgi_header_lines (getline_split '\n' header_section) []
    (headers, if header_end < cgi_output.length then substr_from cgi_output header_end else [])

/-- The header loop of `CgiResponse::build_response`, with its local `status`. -/
def cgi_process_headers : HeaderMap → HttpResponse → HttpStatusCode → HttpResponse × HttpStatusCode
  | [], response, status => (response, status)
  | (k, v) :: rest, response, status =>
    if k == lit "Status" then
      let code := atoi v
      if code ≥ 100 && code ≤ 599 then cgi_process_headers rest response code.toNat
      else cgi_process_headers rest response status
    else cgi_process_headers rest (response.set_header k v) status

/-- The embedding of `CgiResponse::build_response`; `date` is the text of the
`Date` header that the constructor of `HttpResponse` sets. -/
def cgi_build_response (date : Str) (headers : HeaderMap) (body : Str) : HttpResponse :=
  let (response, status) := cgi_process_headers headers (HttpResponse.new date) OK
  let r1 := (response.set_status status).set_body body
  if (r1.get_header (lit "Content-Type")).isEmpty then
    r1.set_header (lit "Content-Type") (lit "text/html")
  else r1

/-- The embedding of `CgiResponse::build_from_output`. -/
def cgi_build_from_output (date : Str) (cgi_output : Str) : HttpResponse :=
  let (headers, body) := parse_cgi_output cgi_output
  cgi_build_response date headers body

/-! ## Connection (`Connection`) -/

/-- `Connection::MAX_REQUESTS`. -/
def MAX_REQUESTS : Nat := 100

/-- The data members of `Connection` that the request cycle reads and writes. -/
structure Connection where
  should_close_ : Bool := false
  request_count_ : Nat := 0
  response_buffer_ : Str := []
  current_request_ : HttpRequest := {}
  request_in_progress_ : Bool := false
  server_block_ : Option ServerBlock := none

/-- What `recv` returned to `Connection::receive_client_data`. -/
inductive RecvResult
  | data (octets : Str)
  | closed
  | failed

/-- The embedding of `Connection::select_server_block_for_request`. -/
def Connection.select_server_block_for_request (w : World) (c : Connection) : Connection :=
  let host := c.current_request_.get_header (lit "Host")
  if host.isEmpty && c.current_request_.http_version_ == lit "HTTP/1.0" then c
  else
    let (name, port) : Str × Int :=
      match find_char host ':' with
      | some colon_pos => (substr host 0 colon_pos, atoi (substr_from host (colon_pos + 1)))
      | none =>
        (host, match w.listen_port_of_fd with
          | some p => p
          | none => -1)
    if !name.isEmpty && port != -1 then
      match w.get_server_block name port with
      | some block => { c with server_block_ := some block }
      | none => c
    else c

/-- The embedding of `Connection::handle_http_error`. -/
def Connection.handle_http_error (w : World) (c : Connection) (status : HttpStatusCode) :
    Connection :=
  let response := build_default_error_response w.date status
  if should_close_connection status then
    { c with should_close_ := true, response_buffer_ := response.build }
  else if c.request_in_progress_ then
    let keep_alive := c.current_request_.is_keep_alive
    let c1 := if !keep_alive then { c with should_close_ := true } else c
    let response1 :=
      if keep_alive && !c1.should_close_ then response.set_header (lit "Connection") (lit "keep-alive")
      else response.set_header (lit "Connection") (lit "close")
    { c1 with response_buffer_ := response1.build }
  else { c with response_buffer_ := response.build }

/-- The embedding of `Connection::handle_http_request`; an `HttpError` that
leaves `handle_request` leaves this function too. -/
def Connection.handle_http_request (w : World) (c : Connection) : Outcome Connection :=
  let c1 := c.select_server_block_for_request w
  match c1.server_block_ with
  | none => Outcome.ok (c1.handle_http_error w INTERNAL_SERVER_ERROR)
  | some sb =>
    match handle_request w c1.current_request_ sb with
    | Except.error e => Outcome.throw e c1
    | Except.ok response =>
      if response.get_header (lit "X-CGI-Processing") == lit "true" then Outcome.ok c1
      else
        let keep_alive := c1.current_request_.is_keep_alive
        let response1 :=
          if keep_alive then response.set_header (lit "Connection") (lit "keep-alive")
          else response.set_header (lit "Connection") (lit "close")
        let count := c1.request_count_ + 1
        Outcome.ok { c1 with
          should_close_ := c1.should_close_ || !keep_alive || decide (count ≥ MAX_REQUESTS)
          request_count_ := count
          response_buffer_ := response1.build }

/-- The embedding of `Connection::receive_client_data`, given what `recv`
returned. -/
def Connection.receive_client_data (w : World) (c : Connection) (received : RecvResult) :
    Connection :=
  if c.should_close_ then c
  else
    match received with
    | RecvResult.data octets =>
      let c1 :=
        if !c.request_in_progress_ then
          { c with current_request_ := c.current_request_.reset, request_in_progress_ := true }
        else c
      match c1.current_request_.append_data octets with
      | Outcome.throw e r => Connection.handle_http_error w { c1 with current_request_ := r } e
      | Outcome.ok r =>
        let c2 := { c1 with current_request_ := r }
        if r.complete_ then
          match c2.handle_http_request w with
          | Outcome.throw e c3 => c3.handle_http_error w e
          | Outcome.ok c3 => { c3 with request_in_progress_ := false }
        else c2
    | RecvResult.closed => { c with should_close_ := true }
    | RecvResult.failed => c

/-! ## Configuration checks (`ServerBlock`, `LocationBlock`, `Config`, `ConfigParser`) -/

/-- The embedding of `HttpMethods::to_string`. -/
def Method.to_string : Method → Str
  | Method.GET => lit "GET"
  | Method.HEAD => lit "HEAD"
  | Method.POST => lit "POST"
  | Method.PUT => lit "PUT"
  | Method.DELETE => lit "DELETE"
  | Method.CONNECT => lit "CONNECT"
  | Method.OPTIONS => lit "OPTIONS"
  | Method.TRACE => lit "TRACE"
  | Method.PATCH => lit "PATCH"
  | Method.UNKNOWN => lit "UNKNOWN"

/-- The second loop of `ServerBlock::normalize_server_name`: the dots at the
end are removed. -/
def strip_trailing_dots (normalized : Str) : Str :=
  (normalized.reverse.dropWhile fun c => c == '.').reverse

/-- The embedding of `ServerBlock::normalize_server_name`. -/
def normalize_server_name (name : Str) : Str := strip_trailing_dots (name.map tolower)

/-- The embedding of `ServerBlock::matches_server_name`. -/
def ServerBlock.matches_server_name (sb : ServerBlock) (host : Str) : Bool :=
  sb.server_names.any fun name => normalize_server_name name == normalize_server_name host

/-- The nested loops of `LocationBlock::validate_methods`: the first method, in
order, that occurs again later in the list. -/
def duplicate_method : List Method → Option Method
  | [] => none
  | m :: ms => if ms.any (fun m2 => m == m2) then some m else duplicate_method ms

/-- The embedding of `LocationBlock::validate_methods`: the message of the
`std::runtime_error` thrown, if any. -/
def LocationBlock.validate_methods (l : LocationBlock) : Except Str Unit :=
  if l.allowed_methods.isEmpty then
    Except.error (lit "Location must have at least one allowed HTTP method")
  else
    match duplicate_method l.allowed_methods with
    | some m => Except.error (lit "Duplicate HTTP method in location: " ++ m.to_string)
    | none => Except.ok ()

/-- `ServerNameMap`, a `std::map` from the pair (normalized server name, port)
to the name as written. `check_duplicate_server_names` only looks keys up and
stores under keys that are not present; the entries are kept in the order in
which they were stored. -/
abbrev ServerNameMap := List ((Str × Int) × Str)

/-- The innermost loop of `Config::internal::check_duplicate_server_names`,
over the listen entries of a block, for one of its server names. -/
def check_listen_entries (name normalized_name : Str) :
    List (Str × Int) → ServerNameMap → Except Str ServerNameMap
  | [], server_name_ports => Except.ok server_name_ports
  | listen :: more, server_name_ports =>
    let port := listen.2
    let name_port_pair : Str × Int := (normalized_name, port)
    if server_name_ports.any (fun e => e.1 == name_port_pair) then
      Except.error (lit "Duplicate server name + port combination: " ++ name ++
        lit " on port " ++ to_string_int port)
    else check_listen_entries name normalized_name more (server_name_ports ++ [(name_port_pair, name)])

/-- The loop of `check_duplicate_server_names` over the server names of a
block. -/
def check_server_names (listen : List (Str × Int)) :
    List Str → ServerNameMap → Except Str ServerNameMap
  | [], server_name_ports => Except.ok server_name_ports
  | name :: more, server_name_ports =>
    match check_listen_entries name (normalize_server_name name) listen server_name_ports with
    | Except.error e => Except.error e
    | Except.ok m => check_server_names listen more m

/-- The outer loop of `check_duplicate_server_names` over the blocks. -/
def check_blocks : List ServerBlock → ServerNameMap → Except Str ServerNameMap
  | [], server_name_ports => Except.ok server_name_ports
  | block :: more, server_name_ports =>
    match check_server_names block.listen block.server_names server_name_ports with
    | Except.error e => Except.error e
    | Except.ok m => check_blocks more m

/-- The embedding of `Config::internal::check_duplicate_server_names`: the
message of the `std::runtime_error` thrown, if any. -/
def check_duplicate_server_names (blocks : List ServerBlock) : Except Str Unit :=
  match check_blocks blocks [] with
  | Except.error e => Except.error e
  | Except.ok _ => Except.ok ()

/-- `DEFAULT_EXAMPLE_PORT` of `Config.cpp`. -/
def DEFAULT_EXAMPLE_PORT : Int := 8080

/-- `DEFAULT_MAIN_PORT` of `Config.cpp`. -/
def DEFAULT_MAIN_PORT : Int := 4242

/-- The embedding of `Config::internal::load_default_config`: each block and
each location starts as its constructor leaves it, and the assignments and
`push_back` calls follow. -/
def load_default_config : List ServerBlock :=
  let server1 : ServerBlock := {}
  let loc1 : LocationBlock := { path := [] }
  let loc1 := { loc1 with
    index := lit "index.html"
    path := lit "/"
    allowed_methods := loc1.allowed_methods ++ [Method.GET] }
  let server1 := { server1 with
    server_names := server1.server_names ++ [lit "example.com"]
    listen := server1.listen ++ [(lit "0.0.0.0", DEFAULT_EXAMPLE_PORT)]
    root := lit "www/"
    locations := server1.locations ++ [loc1] }
  let server2 : ServerBlock := {}
  let loc2 : LocationBlock := { path := [] }
  let loc2 := { loc2 with
    index := lit "index.html"
    path := lit "/"
    autoindex := true
    allowed_methods := loc2.allowed_methods ++ [Method.GET] ++ [Method.POST] }
  let server2 := { server2 with
    is_default := true
    listen := server2.listen ++ [(lit "0.0.0.0", DEFAULT_MAIN_PORT)]
    root := lit "www/"
    locations := server2.locations ++ [loc2] }
  [server1, server2]

/-- `REDIRECT_FOUND` of `ConfigParser_directives.cpp`. -/
def REDIRECT_FOUND : Int := 302

/-- The digit loop of the `return` directive over an `int`, which wraps at 32
bits: `none` when an octet is not a digit. -/
def parse_status_digits : Str → Int → Option Int
  | [], status_code => some status_code
  | c :: cs, status_code =>
    if !isdigit c then none
    else
      parse_status_digits cs
        ((status_code * 10 + ((c.toNat : Int) - ('0'.toNat : Int)) + 2 ^ 31) % 2 ^ 32 - 2 ^ 31)

/-- The branch of `ConfigParser::process_directive` for the directives
`return` and `redirect` of a location, given the values of the directive;
`none` is a syntax error. -/
def process_redirect_directive (location : LocationBlock) (values : List Str) :
    Option LocationBlock :=
  match values with
  | [url] => some { location with redirect_status_code := REDIRECT_FOUND, redirect := url }
  | [status_str, url] =>
    match parse_status_digits status_str 0 with
    | none => none
    | some status_code =>
      if status_code != 301 && status_code != 302 && status_code != 303 &&
          status_code != 307 && status_code != 308 then none
      else some { location with redirect_status_code := status_code, redirect := url }
  | _ => none

/-! ## Server tables (`Server`) -/

/-- The static members of `Server` that a connection consults: the server
blocks, the map from a port to its default block, and the map from a port to
its listening socket, of which the descriptor is kept. Both maps are in key
order. -/
structure Server where
  server_blocks_ : List ServerBlock := []
  default_blocks_ : List (Int × ServerBlock) := []
  listen_sockets_ : List (Int × Int) := []

/-- The loop of `Server::update_default_blocks` over the listen entries of a
block, with the local `default_block`. -/
def scan_listen_entries (port : Int) (block : ServerBlock) :
    List (Str × Int) → Option ServerBlock → Option ServerBlock
  | [], default_block => default_block
  | listen :: more, default_block =>
    if listen.2 == port then
      if block.is_default || default_block.isNone then scan_listen_entries port block more (some block)
      else scan_listen_entries port block more default_block
    else scan_listen_entries port block more default_block

/-- The loop of `Server::update_default_blocks` over the server blocks. -/
def scan_server_blocks (port : Int) : List ServerBlock → Option ServerBlock → Option ServerBlock
  | [], default_block => default_block
  | block :: more, default_block =>
    scan_server_blocks port more (scan_listen_entries port block block.listen default_block)

/-- The embedding of `Server::update_default_blocks`. -/
def Server.update_default_blocks (s : Server) : Server :=
  { s with
    default_blocks_ := s.listen_sockets_.filterMap fun socket =>
      (scan_server_blocks socket.1 s.server_blocks_ none).map fun block => (socket.1, block) }

/-- The first loop of `Server::get_server_block`: the first block with a listen
entry for the port whose server names match the host. -/
def find_named_block : List ServerBlock → Str → Int → Option ServerBlock
  | [], _, _ => none
  | block :: more, host, port =>
    if block.listen.any (fun listen => listen.2 == port && block.matches_server_name host) then
      some block
    else find_named_block more host port

/-- The embedding of `Server::get_server_block`; `none` is the null pointer. -/
def Server.get_server_block (s : Server) (host : Str) (port : Int) : Option ServerBlock :=
  match find_named_block s.server_blocks_ host port with
  | some block => some block
  | none => (s.default_blocks_.find? fun e => e.1 == port).map fun e => e.2

/-- The loop of `Connection::select_server_block_for_request` over
`Server::get_listen_sockets()`: the port of the first listening socket whose
descriptor equals the descriptor `fd_` of the connection. -/
def Server.port_of_descriptor (s : Server) (fd_ : Int) : Option Int :=
  (s.listen_sockets_.find? fun socket => socket.2 == fd_).map fun socket => socket.1

/-- The server block that `Server::handle_new_connection` gives to a
connection accepted on the listening socket with descriptor `listen_fd`. -/
def Server.initial_server_block (s : Server) (listen_fd : Int) : Option ServerBlock :=
  match (s.listen_sockets_.find? fun socket => socket.2 == listen_fd).map fun socket => socket.1 with
  | some port => (s.default_blocks_.find? fun e => e.1 == port).map fun e => e.2
  | none => none

/-! ## CGI environment (`CgiEnvironment.hpp`) -/

/-- `CgiEnvironmentMap`, a `std::map<std::string, std::string>`: its entries in
key order. -/
abbrev CgiEnvironmentMap := List (Str × Str)

/-- The embedding of `env_map.find(name)`; `none` is `env_map.end()`. -/
def env_find (env_map : CgiEnvironmentMap) (name : Str) : Option Str :=
  (env_map.find? fun e => e.1 == name).map fun e => e.2

/-- The embedding of `env_map[name] = value`: the entry under the key is
assigned if there is one, and a new entry is inserted in key order
otherwise. -/
def env_set (env_map : CgiEnvironmentMap) (name value : Str) : CgiEnvironmentMap :=
  if env_map.any (fun e => e.1 == name) then
    env_map.map fun e => if e.1 == name then (e.1, value) else e
  else hm_insert name value env_map

/-- The embedding of `to_cgi_env_name`, the loop that
`CgiEnvironment::add_http_headers` runs on a header name. -/
def to_cgi_env_name (header_name : Str) : Str :=
  lit "HTTP_" ++ header_name.map fun c => if c == '-' then '_' else toupper c

/-- The embedding of `CgiEnvironment::add_request_metadata`. -/
def add_request_metadata (request : HttpRequest) (env_map : CgiEnvironmentMap) :
    CgiEnvironmentMap :=
  let m1 := env_set env_map (lit "REQUEST_METHOD") request.method_.to_string
  let m2 := env_set m1 (lit "REQUEST_URI")
    (request.get_path ++
      (if request.uri_.query_string_.isEmpty then [] else lit "?" ++ request.uri_.query_string_))
  let m3 := env_set m2 (lit "QUERY_STRING") request.uri_.query_string_
  let content_type := request.get_header (lit "Content-Type")
  let m4 := if !content_type.isEmpty then env_set m3 (lit "CONTENT_TYPE") content_type else m3
  let content_length := request.get_header (lit "Content-Length")
  if !content_length.isEmpty then env_set m4 (lit "CONTENT_LENGTH") content_length else m4

/-- The embedding of `CgiEnvironment::add_server_info`. -/
def add_server_info (request : HttpRequest) (env_map : CgiEnvironmentMap) (server_port : Int) :
    CgiEnvironmentMap :=
  let m1 := env_set env_map (lit "SERVER_SOFTWARE") (lit "WebServ/1.0")
  let m2 := env_set m1 (lit "SERVER_NAME") (request.get_header (lit "Host"))
  let m3 := env_set m2 (lit "SERVER_PORT") (to_string_int server_port)
  env_set m3 (lit "SERVER_PROTOCOL") request.http_version_

/-- The embedding of `CgiEnvironment::add_script_info`. -/
def add_script_info (request : HttpRequest) (script_path : Str) (env_map : CgiEnvironmentMap) :
    CgiEnvironmentMap :=
  let m1 := env_set env_map (lit "SCRIPT_NAME")
    (if request.script_name_.isEmpty then request.get_path else request.script_name_)
  let m2 := env_set m1 (lit "SCRIPT_FILENAME") script_path
  let m3 := env_set m2 (lit "PATH_INFO") request.path_info_
  env_set m3 (lit "PATH_TRANSLATED") []

/-- The embedding of `CgiEnvironment::add_client_info`. -/
def add_client_info (env_map : CgiEnvironmentMap) (client_ip client_host : Str) :
    CgiEnvironmentMap :=
  env_set (env_set env_map (lit "REMOTE_ADDR") client_ip) (lit "REMOTE_HOST") client_host

/-- The embedding of `CgiEnvironment::add_http_headers`. -/
def add_http_headers : HeaderMap → CgiEnvironmentMap → CgiEnvironmentMap
  | [], env_map => env_map
  | (name, value) :: more, env_map =>
    let env_name := to_cgi_env_name name
    match env_find env_map env_name with
    | some old => add_http_headers more (env_set env_map env_name (old ++ (lit ", " ++ value)))
    | none => add_http_headers more (env_set env_map env_name value)

/-- The embedding of `CgiEnvironment::map_to_vector`. -/
def map_to_vector (env_map : CgiEnvironmentMap) : List Str :=
  env_map.map fun e => e.1 ++ lit "=" ++ e.2

/-- The map that `CgiEnvironment::build` fills before it converts it. -/
def build_env_map (request : HttpRequest) (script_path : Str) (server_port : Int)
    (client_ip client_host : Str) : CgiEnvironmentMap :=
  let m1 := add_request_metadata request []
  let m2 := add_server_info request m1 server_port
  let m3 := add_script_info request script_path m2
  let m4 := add_client_info m3 client_ip client_host
  let m5 := add_http_headers request.headers_ m4
  env_set m5 (lit "GATEWAY_INTERFACE") (lit "CGI/1.1")

/-- The embedding of `CgiEnvironment::build`. -/
def CgiEnvironment.build (request : HttpRequest) (script_path : Str) (server_port : Int)
    (client_ip client_host : Str) : List Str :=
  map_to_vector (build_env_map request script_path server_port client_ip client_host)

/-! ## Uploads (`Handler_post.cpp`)

The multipart branch of `HttpHandler::handle_post_request`, with the file system
it writes to made explicit. -/

/-- What the upload handler observes and changes of the file system: the
files written, latest first, each with its path and its octets; the paths that
existed before; whether `mkdir` succeeds or reports `EEXIST` for a directory;
and whether a path can be opened for writing. -/
structure UploadStore where
  written : List (Str × Str) := []
  existed : Str → Bool
  mkdir_ok : Str → Bool
  open_ok : Str → Bool

/-- `FILENAME_PREFIX_LENGTH` of `Handler_post.cpp`. -/
def FILENAME_PREFIX_LENGTH : Nat := 10

/-- The embedding of `HttpHandler::get_stylesheet_link`. -/
def get_stylesheet_link (sb : ServerBlock) : Str :=
  if sb.default_stylesheet.isEmpty then []
  else lit "<link rel=\"stylesheet\" href=\"" ++ sb.default_stylesheet ++ lit "\">"

/-- The embedding of `HttpHandler::extract_boundary`. -/
def extract_boundary (request : HttpRequest) : Str :=
  let content_type := request.get_header (lit "Content-Type")
  if contains content_type (lit "multipart/form-data") then
    match find content_type (lit "boundary=") with
    | some boundary_pos => substr_from content_type (boundary_pos + 9)
    | none => []
  else []

/-- The embedding of `HttpHandler::get_upload_directory`. -/
def get_upload_directory (location : LocationBlock) : Str := location.upload_store

/-- The embedding of `HttpHandler::ensure_upload_directory`. -/
def ensure_upload_directory (fs : UploadStore) (dir_path : Str) : Bool :=
  if dir_path.isEmpty then false else fs.mkdir_ok dir_path

/-- The embedding of `HttpHandler::handle_file_part`: the file system as the
call leaves it, and the value returned or the status thrown. -/
def handle_file_part (fs : UploadStore) (headers content : Str) (location : LocationBlock) :
    UploadStore × Except HttpStatusCode Bool :=
  match find headers (lit "filename=\"") with
  | none => (fs, Except.ok false)
  | some filename_pos =>
    let start := filename_pos + FILENAME_PREFIX_LENGTH
    let filename :=
      match find_from headers (lit "\"") start with
      | some filename_end => substr headers start (filename_end - start)
      | none => substr_from headers start
    if filename.isEmpty then (fs, Except.ok false)
    else
      let upload_dir := get_upload_directory location
      if upload_dir.isEmpty then (fs, Except.ok false)
      else if !ensure_upload_directory fs upload_dir then (fs, Except.error INTERNAL_SERVER_ERROR)
      else
        let file_path := upload_dir ++ lit "/" ++ filename
        if fs.existed file_path || fs.written.any (fun f => f.1 == file_path) then
          (fs, Except.error CONFLICT)
        else if !fs.open_ok file_path then (fs, Except.error INTERNAL_SERVER_ERROR)
        else ({ fs with written := (file_path, content) :: fs.written }, Except.ok true)

/-- The loop of `HttpHandler::process_multipart_upload`, with its locals `pos`
and `file_uploaded`; `delimiter` is `"--" + boundary`. Every turn moves `pos`
forward, so the length of the body bounds the number of turns. -/
def upload_loop (body delimiter : Str) (location : LocationBlock) :
    Nat → UploadStore → Nat → Bool → UploadStore × Except HttpStatusCode Bool
  | 0, fs, _, file_uploaded => (fs, Except.ok file_uploaded)
  | fuel + 1, fs, pos, file_uploaded =>
    match find_from body delimiter pos with
    | none => (fs, Except.ok file_uploaded)
    | some found =>
      let pos1 := found + delimiter.length
      match find_from body delimiter pos1 with
      | none => (fs, Except.ok file_uploaded)
      | some end_pos =>
        let part := substr body pos1 (end_pos - pos1)
        match find part (lit "\r\n\r\n") with
        | none => upload_loop body delimiter location fuel fs end_pos file_uploaded
        | some header_end =>
          let headers := substr part 0 header_end
          let content := substr_from part (header_end + 4)
          match handle_file_part fs headers content location with
          | (fs1, Except.error e) => (fs1, Except.error e)
          | (fs1, Except.ok true) => upload_loop body delimiter location fuel fs1 end_pos true
          | (fs1, Except.ok false) =>
            upload_loop body delimiter location fuel fs1 end_pos file_uploaded

/-- The embedding of `HttpHandler::process_multipart_upload`: the file system
as the call leaves it, and the response or the status thrown. -/
def process_multipart_upload (fs : UploadStore) (sb : ServerBlock) (request : HttpRequest)
    (boundary : Str) (response : HttpResponse) (location : LocationBlock) :
    UploadStore × Except HttpStatusCode HttpResponse :=
  let upload_dir := get_upload_directory location
  if upload_dir.isEmpty then (fs, Except.error FORBIDDEN)
  else
    let body := request.body_
    match upload_loop body (lit "--" ++ boundary) location (body.length + 1) fs 0 false with
    | (fs1, Except.error e) => (fs1, Except.error e)
    | (fs1, Except.ok true) =>
      (fs1, Except.ok ((response.set_status CREATED).set_body
        (lit "<html><head><title>Uploaded successfully</title>" ++ get_stylesheet_link sb ++
          lit "</head><body><h1>File uploaded successfully</h1><p>Your file has been uploaded to the server.</p><button onclick=\"history.back()\">Go Back</button></body></html>")))
    | (fs1, Except.ok false) => (fs1, Except.error BAD_REQUEST)

/-- The embedding of `HttpHandler::handle_multipart_form_data`. -/
def handle_multipart_form_data (fs : UploadStore) (sb : ServerBlock) (request : HttpRequest)
    (response : HttpResponse) (location : LocationBlock) :
    UploadStore × Except HttpStatusCode HttpResponse :=
  let boundary := extract_boundary request
  if boundary.isEmpty then (fs, Except.error BAD_REQUEST)
  else process_multipart_upload fs sb request boundary response location

/-! ## The `listen` directive and the inherited body-size cap (`ConfigParser`, `Config`) -/

/-- `DEFAULT_HTTP_PORT` of `ConfigParser_listen_directive.cpp`. -/
def DEFAULT_HTTP_PORT : Int := 80

/-- The embedding of `ConfigParser::is_valid_port_number`: the port written to
the reference when the result is `true`, and `none` when it is `false`. -/
def is_valid_port_number (str : Str) : Option Int :=
  if !str.all isdigit then none
  else
    let port := atoi str
    if port ≥ 1 && port ≤ 65535 then some port else none

/-- The embedding of `ConfigParser::is_valid_hostname`. -/
def is_valid_hostname (str : Str) : Bool :=
  if str == lit "localhost" || str == lit "*" then true
  else if (find_char str '.').isNone then false
  else str.all fun c => isalnum c || c == '-' || c == '.'

/-- The embedding of `ConfigParser::parse_host_port`; `none` is a syntax
error. -/
def parse_host_port (value : Str) : Option (Str × Int) :=
  match find_char value ':' with
  | some colon_pos =>
    let host := substr value 0 colon_pos
    let port_str := substr_from value (colon_pos + 1)
    match is_valid_port_number port_str with
    | some port => some (host, port)
    | none => none
  | none =>
    if is_valid_hostname value then some (value, DEFAULT_HTTP_PORT)
    else
      match is_valid_port_number value with
      | some port => some (lit "0.0.0.0", port)
      | none => none

/-- The loop of `ConfigParser::parse_listen_directive` over the values of the
directive. -/
def push_listen_values : List Str → ServerBlock → Option ServerBlock
  | [], server => some server
  | value :: more, server =>
    match parse_host_port value with
    | none => none
    | some host_port => push_listen_values more { server with listen := server.listen ++ [host_port] }

/-- The embedding of `ConfigParser::parse_listen_directive`, which
`process_directive` calls for every `listen` directive of a server block;
`none` is a syntax error. -/
def parse_listen_directive (server : ServerBlock) (values : List Str) : Option ServerBlock :=
  let cleared := { server with listen := [] }
  if values.isEmpty then none else push_listen_values values cleared

/-- The inner loop of `Config::internal::inherit_client_max_body_size`, over the
locations of a server block with the cap `server_cap`. -/
def inherit_locations (server_cap : Nat) : List LocationBlock → List LocationBlock
  | [] => []
  | location :: more =>
    (if !location.client_max_body_size_set then
        { location with client_max_body_size := server_cap }
      else location) :: inherit_locations server_cap more

/-- The embedding of `Config::internal::inherit_client_max_body_size`. -/
def inherit_client_max_body_size : List ServerBlock → List ServerBlock
  | [] => []
  | server :: more =>
    { server with locations := inherit_locations server.client_max_body_size server.locations } ::
      inherit_client_max_body_size more

/-! ## Event poller (`EventPoller`) -/

/-- A `struct pollfd`. -/
structure PollFd where
  fd : Int
  events : Int
  revents : Int
  deriving DecidableEq

/-- The data members of `EventPoller`: the vector `poll_fds_` and the map
`fd_events_` from a descriptor to its events, in key order. -/
structure EventPoller where
  poll_fds_ : List PollFd := []
  fd_events_ : List (Int × Int) := []
  deriving DecidableEq

/-- The embedding of `fd_events_[fd] = events`: the entry of the descriptor is
assigned if there is one, and a new entry is inserted in key order
otherwise. -/
def fd_events_set (fd events : Int) : List (Int × Int) → List (Int × Int)
  | [] => [(fd, events)]
  | (k, v) :: rest =>
    if k == fd then (k, events) :: rest
    else if fd < k then (fd, events) :: (k, v) :: rest
    else (k, v) :: fd_events_set fd events rest

/-- The embedding of `EventPoller::watch_fd`: the exception is thrown before
anything is modified. -/
def EventPoller.watch_fd (p : EventPoller) (fd events : Int) : Except Str EventPoller :=
  if p.fd_events_.any (fun e => e.1 == fd) then
    Except.error (lit "File descriptor already being monitored")
  else
    Except.ok
      { poll_fds_ := p.poll_fds_ ++ [{ fd := fd, events := events, revents := 0 }]
        fd_events_ := fd_events_set fd events p.fd_events_ }

/-- The loop of `EventPoller::update_events` over `poll_fds_`: the vector with
the events of the first entry for the descriptor replaced, if there is one. -/
def update_poll_fds (fd events : Int) : List PollFd → Option (List PollFd)
  | [] => none
  | pfd :: rest =>
    if pfd.fd == fd then some ({ pfd with events := events } :: rest)
    else
      match update_poll_fds fd events rest with
      | some updated => some (pfd :: updated)
      | none => none

/-- The embedding of `EventPoller::update_events`: the exception is thrown
when the loop has found no entry, with nothing modified. -/
def EventPoller.update_events (p : EventPoller) (fd events : Int) : Except Str EventPoller :=
  match update_poll_fds fd events p.poll_fds_ with
  | some updated =>
    Except.ok { poll_fds_ := updated, fd_events_ := fd_events_set fd events p.fd_events_ }
  | none => Except.error (lit "File descriptor not found")

/-- The embedding of `EventPoller::unwatch_fd`, which throws nothing. -/
def EventPoller.unwatch_fd (p : EventPoller) (fd : Int) : EventPoller :=
  { poll_fds_ := p.poll_fds_.filter fun pfd => !(pfd.fd == fd)
    fd_events_ := p.fd_events_.filter fun e => !(e.1 == fd) }

/-! ## Location path check (`LocationBlock`) -/

/-- The embedding of `LocationBlock::validate_path`, which `LocationBlock::is_valid`
calls first when a location block is parsed: `false` when it throws. -/
def LocationBlock.validate_path (l : LocationBlock) : Bool :=
  if l.path.isEmpty then false
  else if l.path.head? != some '/' then false
  else l.path.all fun c => isalnum c || c == '/' || c == '.' || c == '_' || c == '-'

/-! ## Configuration checks and the `cgi_handler` directive -/

/-- The embedding of `ServerBlock::validate_root`, which `ServerBlock::is_valid`
calls when a server block is parsed: `false` when it throws. -/
def ServerBlock.validate_root (sb : ServerBlock) : Bool :=
  if sb.root.isEmpty then false
  else sb.root.all fun c => isalnum c || c == '/' || c == '.' || c == '_' || c == '-'

/-- The embedding of `LocationBlock::validate_cgi_configuration`: `false` when
it throws. -/
def LocationBlock.validate_cgi_configuration (l : LocationBlock) : Bool :=
  !(!l.cgi_handlers.isEmpty && !l.cgi_enabled)

/-- The embedding of `ConfigTokenizer::is_identifier_start`. -/
def is_identifier_start (c : Char) : Bool := isalpha c || c == '_' || c == '/' || c == '.'

/-- The embedding of `ConfigTokenizer::is_identifier_part`. -/
def is_identifier_part (c : Char) : Bool :=
  isalnum c || c == '_' || c == '-' || c == '.' || c == '/' || c == ':' || c == '?' ||
    c == '&' || c == '=' || c == '#' || c == '%'

/-- The assignment `cgi_handlers[ext] = handler` on the `std::map`, whose
entries are in key order. -/
def assign_cgi_handler (ext handler : Str) : List (Str × Str) → List (Str × Str)
  | [] => [(ext, handler)]
  | (k, v) :: more =>
    if str_lt ext k then (ext, handler) :: (k, v) :: more
    else if str_lt k ext then (k, v) :: assign_cgi_handler ext handler more
    else (ext, handler) :: more

/-- The branch of `ConfigParser::process_directive` for the directive
`cgi_handler` of a location, given the values of the directive; `none` is a
syntax error. -/
def process_cgi_handler_directive (location : LocationBlock) (values : List Str) :
    Option LocationBlock :=
  match values with
  | [ext, handler] =>
    if ext.isEmpty || handler.isEmpty then none
    else if ext.head? != some '.' then none
    else
      some { location with
        cgi_enabled := true
        cgi_handlers := assign_cgi_handler ext handler location.cgi_handlers }
  | _ => none

/-! ## Predicates used in the statements and proofs -/

/-- What the second loop of `match_location` maintains: the location held is a
non-exact one of the list whose path is a prefix of the request path, and
`longest` is the length of its path. -/
def LongestInv (all : List LocationBlock) (uri : Str) (longest : Nat)
    (matched : Option LocationBlock) : Prop :=
  match matched with
  | none => longest = 0
  | some l => l ∈ all ∧ l.exact_match = false ∧ l.path <+: uri ∧ l.path.length = longest ∧ 0 < longest

/-- A world with an empty file system: `stat` finds nothing, nothing opens,
no CGI starts and no virtual host is registered. -/
def empty_world : World :=
  { date := lit "Thu, 01 Jan 1970 00:00:00 GMT"
    stat := fun _ => none
    file_exists := fun _ => false
    is_executable := fun _ => false
    read_file := fun _ => none
    directory_listing := fun _ _ => none
    mime_type := fun _ => lit "application/octet-stream"
    remove_file := fun _ => false
    start_cgi_execution := fun _ _ _ => false
    handle_post_request := fun _ _ _ => Except.error INTERNAL_SERVER_ERROR
    get_server_block := fun _ _ => none
    listen_port_of_fd := none }

/-- A server block with root `/var/www` and the single location `/`. -/
def root_server : ServerBlock :=
  { root := lit "/var/www", locations := [{ path := lit "/" }] }

/-- The status of the response that `handle_request` returns, or the status of
the error that leaves it. -/
def response_status (o : Except HttpStatusCode HttpResponse) : HttpStatusCode :=
  match o with
  | Except.ok r => r.status_
  | Except.error e => e

/-- The request of the traversal scenario. -/
def traversal_request : Str := lit "GET /../../etc/passwd HTTP/1.1\r\nHost: x\r\n\r\n"

/-- The octets of a stream delivered in successive `append_data` calls, the
next call being made only when the previous one returned. -/
def feed : HttpRequest → List Str → Outcome HttpRequest
  | r, [] => Outcome.ok r
  | r, d :: ds =>
    match r.append_data d with
    | Outcome.ok r1 => feed r1 ds
    | Outcome.throw e r1 => Outcome.throw e r1

/-- The header block of the chunked upload used below. -/
def chunked_head : Str :=
  lit "POST /upload HTTP/1.1\r\nHost: x\r\nTransfer-Encoding: chunked\r\n\r\n"

/-- The bounds on the stored headers: at most `MAX_HEADERS` field lines were
stored, and every value stored under a name that is not combinable has at most
`MAX_HEADER_SIZE` octets. -/
def HeadersBounded (r : HttpRequest) : Prop :=
  r.header_count_ ≤ MAX_HEADERS ∧
  ∀ kv ∈ r.headers_, is_combinable_header kv.1 = false → kv.2.length ≤ MAX_HEADER_SIZE

/-- What the body phase of the parser leaves alone: the method, the URI, the
version, the `headers_parsed_` flag and the body-size cap, and it keeps the
header bounds. -/
def BodyFrame (r r2 : HttpRequest) : Prop :=
  r2.method_ = r.method_ ∧ r2.uri_ = r.uri_ ∧ r2.http_version_ = r.http_version_ ∧
  r2.headers_parsed_ = r.headers_parsed_ ∧ r2.max_content_length_ = r.max_content_length_ ∧
  (HeadersBounded r → HeadersBounded r2)

/-- A connection just accepted on the port whose default server is
`root_server`. -/
def accepted_connection : Connection := { server_block_ := some root_server }

/-- Three requests for `/a`, `/b` and `/c`. -/
def request_a : Str := lit "GET /a HTTP/1.1\r\nHost: x\r\n\r\n"

def request_b : Str := lit "GET /b HTTP/1.1\r\nHost: x\r\n\r\n"

def request_c : Str := lit "GET /c HTTP/1.1\r\nHost: x\r\n\r\n"

/-- A request line that consists of exactly the three white-space separated
tokens `m`, `u` and `v`: white space may come first and last, and must
separate the tokens. -/
def ThreeTokens (line m u v : Str) : Prop :=
  ∃ w0 w1 w2 w3 : Str,
    line = w0 ++ m ++ w1 ++ u ++ w2 ++ v ++ w3 ∧
    (∀ c ∈ w0, isspace c = true) ∧ (∀ c ∈ w1, isspace c = true) ∧
    (∀ c ∈ w2, isspace c = true) ∧ (∀ c ∈ w3, isspace c = true) ∧
    w1 ≠ [] ∧ w2 ≠ [] ∧
    m ≠ [] ∧ u ≠ [] ∧ v ≠ [] ∧
    (∀ c ∈ m, isspace c = false) ∧ (∀ c ∈ u, isspace c = false) ∧ (∀ c ∈ v, isspace c = false)

/-- The names of the nine standard methods. -/
def standard_method_names : List Str :=
  [lit "GET", lit "HEAD", lit "POST", lit "PUT", lit "DELETE", lit "CONNECT", lit "OPTIONS",
   lit "TRACE", lit "PATCH"]

/-- The space and the literals that a request target may not contain
unencoded. -/
def forbidden_literals : List Char :=
  [' ', '<', '>', '"', '{', '}', '|', '\\', '^', '[', ']', '`']

/-- What `Uri::validate_uri_characters` accepts: every octet is printable
ASCII and not a forbidden literal, and every `%` is followed by two
hexadecimal digits that are not `00`. -/
def GoodTarget (u : Str) : Prop :=
  (∀ c ∈ u, 32 ≤ c.toNat ∧ c.toNat ≤ 126 ∧ c ∉ forbidden_literals) ∧
  (∀ pre post, u = pre ++ '%' :: post →
    ∃ h1 h2 t, post = h1 :: h2 :: t ∧ isxdigit h1 = true ∧ isxdigit h2 = true ∧
      ¬ (h1 = '0' ∧ h2 = '0'))

/-- The field line of a field name and the octets after the colon. -/
def field_line (f : Str × Str) : Str := f.1 ++ ':' :: f.2

/-- A syntactically well formed header field, given as its name and the octets
after the colon: the name is a non-empty token, no second colon follows the
first directly, and the value, once optional white space is trimmed, holds no
control octet other than HTAB. Nothing is said about its size. -/
def WellFormedField (f : Str × Str) : Prop :=
  f.1 ≠ [] ∧ (∀ c ∈ f.1, is_token_char c = true) ∧ f.2.head? ≠ some ':' ∧
  ∀ c ∈ trim f.2, ¬ ((c.toNat < 0x20 ∧ c.toNat ≠ 0x09) ∨ c.toNat = 0x7F)

/-- The header block made of the given fields, one field line each, with CRLF
between the lines. -/
def header_block (fields : List (Str × Str)) : Str :=
  (lit "\r\n").intercalate (fields.map field_line)

/-- A POST request with both a `Content-Length` above the default body-size cap
and `Transfer-Encoding: chunked`. -/
def length_and_chunked_request : Str :=
  lit "POST /upload HTTP/1.1\r\nHost: x\r\nContent-Length: 99999999\r\nTransfer-Encoding: chunked\r\n\r\n"

/-- A field value of `MAX_HEADER_SIZE` octets. -/
def long_value : Str := List.replicate MAX_HEADER_SIZE 'a'

/-- A GET request with two `Accept` field lines, each with a value of
`MAX_HEADER_SIZE` octets. -/
def two_accept_request : Str :=
  lit "GET / HTTP/1.1" ++ lit "\r\n" ++
    header_block [(lit "Host", lit " x"), (lit "Accept", long_value), (lit "Accept", long_value)] ++
    lit "\r\n\r\n"

/-- The stores that `HttpRequest::parse_headers` makes for a list of fields,
in order: `store_header` with the name and the trimmed value of each. -/
def store_fields : HttpRequest → List (Str × Str) → Outcome HttpRequest
  | r, [] => Outcome.ok r
  | r, f :: fs => (r.store_header f.1 (trim f.2)).andThen fun r1 => store_fields r1 fs

/-- The request target of the octets fed is within the limit: the octets hold
a CRLF, the line before the first CRLF is made of three tokens, and the second
token has at most `MAX_URI_LENGTH` octets. -/
def TargetBounded (fed : Str) : Prop :=
  ∃ j m u v, find fed (lit "\r\n") = some j ∧ ThreeTokens (fed.take j) m u v ∧
    u.length ≤ MAX_URI_LENGTH

/-- The invariant of the parser over the octets fed so far, as long as no call
has thrown: the stored headers are within their bounds; before the header
block is parsed the request is not complete, the request buffer holds exactly
the octets fed and no absolute target was recorded; once it is parsed, the
request target was within its limit. -/
def ParserInv (fed : Str) (r : HttpRequest) : Prop :=
  HeadersBounded r ∧
  (r.headers_parsed_ = false →
    r.complete_ = false ∧ r.request_buffer_ = fed ∧ r.uri_.absolute_ = false) ∧
  (r.headers_parsed_ = true → TargetBounded fed)

/-- An unreserved ASCII character: a letter, a digit, or one of `-`, `_`, `.`,
`~`. -/
def Unreserved (c : Char) : Prop :=
  isalpha c = true ∨ isdigit c = true ∨ c = '-' ∨ c = '_' ∨ c = '.' ∨ c = '~'

/-- Path segments as `Uri::normalize_path` leaves them: none is empty, `.` or
`..`, and none holds a slash or a backslash. -/
def CleanSegments (segs : List Str) : Prop :=
  ∀ s ∈ segs, s ≠ [] ∧ s ≠ lit ".." ∧ s ≠ lit "." ∧ '/' ∉ s ∧ '\\' ∉ s

/-- The entries of a header map stored under the name `n`, compared octet for
octet as `std::multimap::find` does, in iteration order. -/
def entries_for (n : Str) (h : HeaderMap) : List (Str × Str) := h.filter fun kv => kv.1 == n

/-- The entries of a header map stored under a name other than `n`, in
iteration order. -/
def other_entries (n : Str) (h : HeaderMap) : List (Str × Str) := h.filter fun kv => !(kv.1 == n)

/-- A request with an absolute target for `example.com` and a `Host` field
naming another host. -/
def absolute_target_request : Str :=
  lit "GET http://example.com/a HTTP/1.1\r\nHost: other.test\r\n\r\n"

/-- A chunked upload whose trailer section carries a `Content-Length` field. -/
def chunked_trailer_request : Str :=
  lit "POST /u HTTP/1.1\r\nHost: x\r\nTransfer-Encoding: chunked\r\n\r\n0\r\nContent-Length: 5\r\n\r\n"

/-- A chunked upload whose header block carries a `Content-Length` field with
an empty value. -/
def chunked_empty_length_request : Str :=
  lit "POST /u HTTP/1.1\r\nHost: x\r\nContent-Length:\r\nTransfer-Encoding: chunked\r\n\r\n0\r\n\r\n"

/-- A control octet that `HttpRequest::validate_header_value` refuses: below
0x20 other than HTAB, or DEL. -/
def ControlOctet (c : Char) : Prop := (c.toNat < 0x20 ∧ c.toNat ≠ 0x09) ∨ c.toNat = 0x7F

instance : DecidablePred ControlOctet := fun c => by
  unfold ControlOctet
  exact inferInstance

/-- The invariant of the header map of an `HttpResponse`: every stored name is
in the format of `HttpHeaders::normalize_name`, and at most one entry is stored
under `Content-Length`. -/
def ResponseHeadersInv (h : HeaderMap) : Prop :=
  (∀ kv ∈ h, normalize_name kv.1 = kv.1) ∧ (entries_for (lit "Content-Length") h).length ≤ 1

/-- The responses that the constructor and the setters of `HttpResponse`
make. -/
inductive Built : HttpResponse → Prop
  | new (date : Str) : Built (HttpResponse.new date)
  | set_status (r : HttpResponse) (s : HttpStatusCode) : Built r → Built (r.set_status s)
  | set_header (r : HttpResponse) (n v : Str) : Built r → Built (r.set_header n v)
  | set_body (r : HttpResponse) (b : Str) : Built r → Built (r.set_body b)

/-- The `Content-Length` header is the decimal length of the body, and a `Date`
and a `Server` header are present. -/
def Finished (r : HttpResponse) : Prop :=
  r.get_header (lit "Content-Length") = to_string_nat r.body_.length ∧
  HttpHeaders.has r.headers_ (lit "Date") = true ∧
  HttpHeaders.has r.headers_ (lit "Server") = true

/-- The names of those of GET, POST and DELETE that the location allows, in
that order. -/
def allowed_implemented_names (location : LocationBlock) : List Str :=
  ([(Method.GET, lit "GET"), (Method.POST, lit "POST"), (Method.DELETE, lit "DELETE")].filter
    fun p => location.is_allows_method p.1).map fun p => p.2

/-- A DELETE request for `/`. -/
def delete_root_request : Str := lit "DELETE / HTTP/1.1\r\nHost: x\r\n\r\n"

/-- The order of a header map that parsing its serialisation reproduces: the
entries are in the iteration order of the multimap (no later name is less than
an earlier one), and a name is stored twice only if it is in the
special-multiple set. -/
def RoundTripOrder (h : HeaderMap) : Prop :=
  h.Pairwise fun a b =>
    str_lt b.1 a.1 = false ∧ (a.1 = b.1 → is_special_multiple_header a.1 = true)

/-- A response with a header value that starts with a space. -/
def padded_response : HttpResponse :=
  (HttpResponse.new (lit "Thu, 01 Jan 1970 00:00:00 GMT")).set_header (lit "X-Note") (lit " padded")

/-- A GET request for `/old`. -/
def old_request : Str := lit "GET /old HTTP/1.1\r\nHost: x\r\n\r\n"

/-- The five redirect status codes. -/
def redirect_codes : List Int := [301, 302, 303, 307, 308]

/-- A TRACE request for `/`, with keep-alive by default. -/
def trace_request : Str := lit "TRACE / HTTP/1.1\r\nHost: x\r\n\r\n"

/-- The connection after `k` copies of a request were handled in turn by
`Connection::handle_http_request`. -/
def handled_in_turn (w : World) (request : HttpRequest) (c : Connection) : Nat → Connection
  | 0 => c
  | k + 1 =>
    (Connection.handle_http_request w
      { handled_in_turn w request c k with current_request_ := request }).state

/-- A world whose file system holds the one file `/var/www/hello.txt`. -/
def one_file_world : World :=
  { empty_world with
    stat := fun p => if p == lit "/var/www/hello.txt" then some FileKind.regular else none
    file_exists := fun p => p == lit "/var/www/hello.txt"
    read_file := fun p => if p == lit "/var/www/hello.txt" then some (lit "hello\n") else none }

/-- A GET request for `/hello.txt`, with keep-alive by default. -/
def hello_request : Str := lit "GET /hello.txt HTTP/1.1\r\nHost: x\r\n\r\n"

/-- A CGI output whose `Status` field holds 99. -/
def low_status_output : Str := lit "Status: 99\r\nContent-Type: text/plain\r\n\r\nx"

/-- A CGI output whose `Status` field holds 700. -/
def high_status_output : Str := lit "Status: 700 Too High\r\nContent-Type: text/plain\r\n\r\nx"

/-- The (server name, port) pairs that a server block declares, the names
case-folded and without their trailing dots: one pair for each server name and
each listen entry, in the order of the loops. -/
def declared_pairs (block : ServerBlock) : List (Str × Int) :=
  block.server_names.flatMap fun name =>
    block.listen.map fun listen => (normalize_server_name name, listen.2)

/-- A loop of `check_duplicate_server_names` that checks the pairs `ps`: on a
map with distinct keys it stores the pairs after the keys present when all of
them together are distinct, and raises an error otherwise. -/
def ChecksPairs (f : ServerNameMap → Except Str ServerNameMap) (ps : List (Str × Int)) : Prop :=
  ∀ m : ServerNameMap, (m.map Prod.fst).Nodup →
    match f m with
    | Except.ok m2 => m2.map Prod.fst = m.map Prod.fst ++ ps ∧ (m.map Prod.fst ++ ps).Nodup
    | Except.error _ => ¬ (m.map Prod.fst ++ ps).Nodup

/-- One server block that writes the same name in two ways. -/
def twice_named_server : ServerBlock :=
  { server_names := [lit "a.com", lit "A.COM."], listen := [(lit "0.0.0.0", 8080)],
    root := lit "/var/www", locations := [{ path := lit "/" }] }

/-- Two server blocks that declare the name `a.com` on port 8080 with a
different spelling. -/
def clashing_servers : List ServerBlock :=
  [{ server_names := [lit "a.com"], listen := [(lit "0.0.0.0", 8080)] },
   { server_names := [lit "b.com", lit "A.com."], listen := [(lit "127.0.0.1", 8080)] }]

/-- The world of the connection with descriptor `fd_` on the server `s`:
`Server::get_server_block` and the lookup of the listening port are those of
the server's tables. -/
def Server.world (s : Server) (fd_ : Int) (w : World) : World :=
  { w with
    get_server_block := s.get_server_block
    listen_port_of_fd := s.port_of_descriptor fd_ }

/-- Two virtual hosts `a.com` and `b.com` on port 8080. -/
def host_a : ServerBlock :=
  { server_names := [lit "a.com"], root := lit "/var/a", locations := [{ path := lit "/" }] }

def host_b : ServerBlock :=
  { server_names := [lit "b.com"], root := lit "/var/b", locations := [{ path := lit "/" }] }

/-- A server with the two virtual hosts, listening on port 8080 with the
descriptor 3. -/
def two_host_server : Server :=
  Server.update_default_blocks
    { server_blocks_ := [host_a, host_b], listen_sockets_ := [(8080, 3)] }

/-- A connection accepted on the listening socket of `two_host_server`. -/
def two_host_connection : Connection :=
  { server_block_ := two_host_server.initial_server_block 3 }

/-- A request for the host `b.com` without a port, and one with the port. -/
def host_b_request : Str := lit "GET / HTTP/1.1\r\nHost: b.com\r\n\r\n"

def host_b_port_request : Str := lit "GET / HTTP/1.1\r\nHost: b.com:8080\r\n\r\n"

/-- The values of the request headers, in iteration order, whose CGI variable
name is `env_name`. -/
def header_values_for (headers : HeaderMap) (env_name : Str) : List Str :=
  (headers.filter fun kv => to_cgi_env_name kv.1 == env_name).map fun kv => kv.2

/-- The variable name of an environment entry: the octets before the first
`=`. -/
def entry_name (entry : Str) : Str := entry.takeWhile fun c => c != '='

/-- One step of `add_http_headers` on the value stored under a variable name,
if any: the next value is stored, or appended after a comma and a space. -/
def append_value (stored : Option Str) (value : Str) : Option Str :=
  match stored with
  | some old => some (old ++ (lit ", " ++ value))
  | none => some value

/-- A file system in which nothing exists yet, every directory can be made and
every file can be opened for writing. -/
def empty_store : UploadStore :=
  { existed := fun _ => false, mkdir_ok := fun _ => true, open_ok := fun _ => true }

/-- The upload request of the specification's example: boundary `B`, one file
part with the file name `a.txt` and the payload `HELLO`. -/
def upload_request : Str :=
  lit "POST /up HTTP/1.1\r\nHost: x\r\nContent-Type: multipart/form-data; boundary=B\r\nContent-Length: 81\r\n\r\n--B\r\nContent-Disposition: form-data; name=\"f\"; filename=\"a.txt\"\r\n\r\nHELLO\r\n--B--\r\n"

/-- The location `/up` with the upload store `/tmp/up`. -/
def upload_location : LocationBlock :=
  { path := lit "/up", allowed_methods := [Method.POST], upload_store := lit "/tmp/up" }

/-- A multipart body with one part: the delimiter `--boundary`, CRLF, the part
headers, an empty line, the payload, CRLF, and the closing delimiter
`--boundary--`, followed by `tail`. -/
def one_part_body (boundary part_headers payload tail : Str) : Str :=
  lit "--" ++ boundary ++ lit "\r\n" ++ part_headers ++ lit "\r\n\r\n" ++ payload ++
    lit "\r\n" ++ lit "--" ++ boundary ++ lit "--" ++ tail

/-- The octets between the opening and the closing delimiter of
`one_part_body`. -/
def part_octets (part_headers payload : Str) : Str :=
  lit "\r\n" ++ part_headers ++ lit "\r\n\r\n" ++ payload ++ lit "\r\n"

/-- The part headers of the upload example. -/
def upload_part_headers : Str :=
  lit "Content-Disposition: form-data; name=\"f\"; filename=\"a.txt\""

/-- Every name stored in a header map is made of token characters. -/
def TokenNames (h : HeaderMap) : Prop := ∀ kv ∈ h, ∀ c ∈ kv.1, is_token_char c = true

/-- A step of the parser keeps the stored header names made of token
characters. -/
def NamesFrame (r r2 : HttpRequest) : Prop := TokenNames r.headers_ → TokenNames r2.headers_

/-- A request with two header fields whose names differ in case only. -/
def two_tag_request : Str :=
  lit "GET /cgi/a.py HTTP/1.1\r\nHost: x\r\nX-Tag: one\r\nx-tag: two\r\n\r\n"

/-- What `inherit_client_max_body_size` does to a location of a server block
with the cap `server_cap`: a location whose cap was set explicitly is
unchanged, and any other location changes in its cap only, which becomes the
cap of the server block. -/
def InheritsCap (server_cap : Nat) (location inherited : LocationBlock) : Prop :=
  (location.client_max_body_size_set = true → inherited = location) ∧
  (location.client_max_body_size_set = false →
    inherited = { location with client_max_body_size := server_cap })

/-- What `inherit_client_max_body_size` does to a server block: only its
locations change, one by one as `InheritsCap` says. -/
def InheritsCaps (server inherited : ServerBlock) : Prop :=
  inherited = { server with locations := inherited.locations } ∧
  List.Forall₂ (InheritsCap server.client_max_body_size) server.locations inherited.locations

/-- The pollers that the member functions of `EventPoller` produce from the
empty one. -/
inductive Polling : EventPoller → Prop
  | empty : Polling {}
  | watch (p q : EventPoller) (fd events : Int) :
    Polling p → p.watch_fd fd events = Except.ok q → Polling q
  | update (p q : EventPoller) (fd events : Int) :
    Polling p → p.update_events fd events = Except.ok q → Polling q
  | unwatch (p : EventPoller) (fd : Int) : Polling p → Polling (p.unwatch_fd fd)

/-- The descriptor is watched: the map `fd_events_` has an entry for it. -/
def EventPoller.watches (p : EventPoller) (fd : Int) : Prop := fd ∈ p.fd_events_.map Prod.fst

/-- A poller that watches the descriptor 3 and nothing else. -/
def watching_three : EventPoller :=
  { poll_fds_ := [{ fd := 3, events := 1, revents := 0 }], fd_events_ := [(3, 1)] }

/-- A request target whose two first segments are `..` with percent-encoded
dots. -/
def escaped_dots_path : Str := lit "/%2e%2e/%2e%2e/etc/passwd"

/-- A GET request for `escaped_dots_path`. -/
def escaped_dots_request : Str := lit "GET /%2e%2e/%2e%2e/etc/passwd HTTP/1.1\r\nHost: x\r\n\r\n"

/-- A world whose file system holds the regular file `/etc/passwd`, as it is
reached from the directory `/var/www`. -/
def passwd_world : World :=
  { empty_world with
    stat := fun p => if p == lit "/var/www/../../etc/passwd" then some FileKind.regular else none
    file_exists := fun p => p == lit "/var/www/../../etc/passwd"
    read_file := fun p =>
      if p == lit "/var/www/../../etc/passwd" then some (lit "root:x:0:0\n") else none }

/-- The segments of a file-system path. -/
def path_segments (path : Str) : List Str := path.splitOn '/'

/-- A GET request with 101 field lines, one more than `MAX_HEADERS`. -/
def many_headers_request : Str :=
  lit "GET / HTTP/1.1\r\nHost: x\r\n" ++ (List.replicate 100 (lit "X-A: b\r\n")).flatten ++
    lit "\r\n"

/-- The world `one_file_world` with `root_server` as the server block of every
host and port. -/
def served_world : World :=
  { one_file_world with
    get_server_block := fun _ _ => some root_server
    listen_port_of_fd := some 8080 }

/-- The last segment of a path: the octets after its last `/`. -/
def last_segment (p : Str) : Str := (p.reverse.takeWhile fun c => c != '/').reverse

/-- The extension of a path segment: the octets from its last dot on, if it
has a dot. -/
def segment_extension (segment : Str) : Option Str :=
  if '.' ∈ segment then some ('.' :: (segment.reverse.takeWhile fun c => c != '.').reverse)
  else none

/-- The last segment of the path has the extension `.cgi` or an extension with
a configured handler. -/
def HasCgiExtension (location : LocationBlock) (p : Str) : Prop :=
  ∃ ext, segment_extension (last_segment p) = some ext ∧
    (ext = lit ".cgi" ∨ ext ∈ location.cgi_handlers.map Prod.fst)

/-- The path has a CGI extension and resolves to an existing regular file. -/
def IsScript (w : World) (sb : ServerBlock) (location : LocationBlock) (p : Str) : Prop :=
  HasCgiExtension location p ∧
    ∃ file, resolve_file_path sb p location = Except.ok file ∧
      w.stat file = some FileKind.regular

/-- The octets `p` are the whole path or a part of it that ends just before a
`/`. -/
def EndsBeforeSlash (path p : Str) : Prop := p = path ∨ ∃ rest, path = p ++ '/' :: rest

/-- The octets hold no `%00`. -/
def NoEncodedNul (s : Str) : Prop := ¬ (lit "%00") <:+: s

/-- The extension test that the loops of `is_cgi_request` and
`extract_cgi_components` make on `current_path`. -/
def has_cgi_extension (location : LocationBlock) (current_path : Str) : Bool :=
  match find_last_of current_path '.' with
  | some dot_pos =>
    (location.cgi_handlers.lookup (substr_from current_path dot_pos)).isSome ||
      substr_from current_path dot_pos == lit ".cgi"
  | none => false

/-- A world whose file system holds the regular file `/var/www/cgi/env.cgi`. -/
def env_cgi_world : World :=
  { empty_world with
    stat := fun p => if p == lit "/var/www/cgi/env.cgi" then some FileKind.regular else none }

/-- The CGI-enabled location `/cgi`. -/
def cgi_location : LocationBlock := { path := lit "/cgi", cgi_enabled := true }

/-- The value of a digit string in base `base`, read from the left; the digits
are valued as `strtoul` values them and the reading stops at the first octet
that is no digit. -/
def digits_value (base : Nat) : Str → Nat → Nat
  | [], acc => acc
  | c :: cs, acc =>
    match digit_value c with
    | some d => digits_value base cs (acc * base + d)
    | none => acc

/-- The result of a call, with the object afterwards changed by `g`. -/
def Outcome.map {σ : Type} (g : σ → σ) : Outcome σ → Outcome σ
  | Outcome.ok s => Outcome.ok (g s)
  | Outcome.throw e s => Outcome.throw e (g s)

/-- The request `r` with the members that the header functions neither read
nor write taken from `t`: the body, the flags `headers_parsed_` and
`complete_`, the two buffers and the size of the current chunk. -/
def HttpRequest.with_body_fields (t r : HttpRequest) : HttpRequest :=
  { r with
    body_ := t.body_
    headers_parsed_ := t.headers_parsed_
    complete_ := t.complete_
    request_buffer_ := t.request_buffer_
    body_buffer_ := t.body_buffer_
    current_chunk_size_ := t.current_chunk_size_ }

/-- The part of `HttpRequest::parse` that handles the header section (the
octets before the first empty line): the request line goes to
`parse_request_line`, the field lines go to `parse_headers`, and
`validate_headers` follows. -/
def HttpRequest.parse_head (r : HttpRequest) (headers_section : Str) : Outcome HttpRequest :=
  match find headers_section (lit "\r\n") with
  | none => Outcome.throw BAD_REQUEST r
  | some first_line_end =>
    ((r.parse_request_line (substr headers_section 0 first_line_end)).andThen fun r1 =>
      r1.parse_headers (substr_from headers_section (first_line_end + 2))).andThen fun r2 =>
      r2.validate_headers

/-- A chunk of the chunked transfer coding: its size in lower-case hexadecimal
digits, CRLF, its data, CRLF. -/
def encode_chunk (data : Str) : Str :=
  Nat.toDigits 16 data.length ++ lit "\r\n" ++ data ++ lit "\r\n"

/-- A chunked body: the chunks in order, then the last chunk `0 CRLF` and the
closing CRLF. -/
def encode_chunked (chunks : List Str) : Str :=
  (chunks.map encode_chunk).flatten ++ lit "0\r\n\r\n"

/-- The method is one of those for which `HttpRequest::parse` reads a body. -/
def Method.has_body (m : Method) : Prop := m = Method.POST ∨ m = Method.PUT ∨ m = Method.PATCH

/-- The header section of a chunked POST request. -/
def chunked_post_head : Str := lit "POST /upload HTTP/1.1\r\nHost: x\r\nTransfer-Encoding: chunked"

/-- The header section of a chunked GET request. -/
def chunked_get_head : Str := lit "GET /upload HTTP/1.1\r\nHost: x\r\nTransfer-Encoding: chunked"

/-- The header section of a POST request with five body octets. -/
def sized_post_head : Str := lit "POST /upload HTTP/1.1\r\nHost: x\r\nContent-Length: 5"

/-- The request after the header section `r3` was accepted and the body octets
`b`, fewer than announced, were received. -/
def body_state (r3 : HttpRequest) (b : Str) : HttpRequest :=
  { r3 with headers_parsed_ := true, request_buffer_ := [], body_ := b }

/-- The complete request with the body `body`; `extra` are the octets received
after it was complete. -/
def done_state (r3 : HttpRequest) (body extra : Str) : HttpRequest :=
  { r3 with headers_parsed_ := true, request_buffer_ := extra, body_ := body, complete_ := true }

/-- The request `r` that the octets `fed` leave, when they begin a request with
the header section `head`, parsed to `r3`, and `n` announced body octets:
before the empty line is in, every octet is in the request buffer; after it,
the body holds the octets received, up to `n` of them. -/
def CutInv (cap n : Nat) (head : Str) (r3 : HttpRequest) (fed : Str) (r : HttpRequest) : Prop :=
  (fed.length < head.length + 4 ∧
    r = { ({ max_content_length_ := cap } : HttpRequest) with request_buffer_ := fed }) ∨
  (∃ b, fed = head ++ lit "\r\n\r\n" ++ b ∧ b.length < n ∧ r = body_state r3 b) ∨
  (∃ b extra, fed = head ++ lit "\r\n\r\n" ++ b ∧ n ≤ b.length ∧
    r = done_state r3 (b.take n) extra)

/-- A CGI-enabled location `/` with a handler for the extension `.b/run`, as the
directive `cgi_handler .b/run /bin/sh;` leaves it. -/
def slash_extension_location : LocationBlock :=
  { path := lit "/", cgi_enabled := true, cgi_handlers := [(lit ".b/run", lit "/bin/sh")] }

/-- A server block with root `/var/www` and the location
`slash_extension_location`. -/
def slash_extension_server : ServerBlock :=
  { root := lit "/var/www", locations := [slash_extension_location] }

/-- A world whose file system holds the regular file `/var/www/a.b/run`. -/
def slash_extension_world : World :=
  { empty_world with
    stat := fun p => if p == lit "/var/www/a.b/run" then some FileKind.regular else none }

/-- The value of a hexadecimal digit, in either case. -/
def hex_digit_value (c : Char) : Nat :=
  if isdigit c then c.toNat - '0'.toNat
  else if 'a'.toNat ≤ c.toNat then c.toNat - 'a'.toNat + 10
  else c.toNat - 'A'.toNat + 10

/-- The value of a string of hexadecimal digits. -/
def hex_value (line : Str) : Nat := line.foldl (fun acc c => acc * 16 + hex_digit_value c) 0

/-- The octets `line` write the number `n` in hexadecimal: at least one digit,
every octet a hexadecimal digit of either case, leading zeros allowed. -/
def HexSize (line : Str) (n : Nat) : Prop :=
  line ≠ [] ∧ (∀ c ∈ line, isxdigit c = true) ∧ hex_value line = n

/-- A chunk of the chunked transfer coding, given with its size line: the size
line, CRLF, the data, CRLF. -/
def encode_sized_chunk (chunk : Str × Str) : Str :=
  chunk.1 ++ lit "\r\n" ++ chunk.2 ++ lit "\r\n"

/-- A chunked body: the chunks in order, then the last chunk `0 CRLF` and the
closing CRLF. -/
def encode_sized_chunks (chunks : List (Str × Str)) : Str :=
  (chunks.map encode_sized_chunk).flatten ++ lit "0\r\n\r\n"

/-! # Theorems -/

/-! ## Octet string lemmas -/

theorem starts_with_iff (s pat : Str) : starts_with s pat = true ↔ pat <+: s := by
  induction pat generalizing s with
  | nil => cases s <;> simp [starts_with]
  | cons p ps ih =>
    cases s with
    | nil => simp [starts_with]
    | cons c cs =>
      simp only [starts_with, Bool.and_eq_true, beq_iff_eq, ih, List.cons_prefix_cons]
      constructor
      · rintro ⟨h, h2⟩; exact ⟨h.symm, h2⟩
      · rintro ⟨h, h2⟩; exact ⟨h.symm, h2⟩

theorem find_at_ge (pat s : Str) (i k : Nat) (h : find_at pat s i = some k) : i ≤ k := by
  induction s generalizing i with
  | nil =>
    simp only [find_at] at h
    split at h
    · simp at h; omega
    · simp at h
  | cons c cs ih =>
    simp only [find_at] at h
    split at h
    · simp at h; omega
    · have := ih _ h; omega

theorem find_eq_zero_iff (s pat : Str) : find s pat = some 0 ↔ pat <+: s := by
  unfold find
  cases s with
  | nil =>
    cases pat <;> simp [find_at]
  | cons c cs =>
    simp only [find_at]
    by_cases h : starts_with (c :: cs) pat = true
    · simp [h, (starts_with_iff _ _).1 h]
    · simp only [h, if_false]
      constructor
      · intro h2; have := find_at_ge _ _ _ _ h2; omega
      · intro h2; exact absurd ((starts_with_iff _ _).2 h2) h

/-! ## Location matching -/

theorem match_exact_none_iff (ls : List LocationBlock) (uri : Str) :
    match_exact ls uri = none ↔ ∀ l ∈ ls, l.exact_match = true → l.path ≠ uri := by
  induction ls with
  | nil => simp [match_exact]
  | cons l ls ih =>
    simp only [match_exact, List.mem_cons, forall_eq_or_imp]
    by_cases h : (l.exact_match && uri == l.path) = true
    · simp only [h, if_true]
      simp only [Bool.and_eq_true, beq_iff_eq] at h
      simp [h.1, h.2]
    · rw [if_neg h, ih]
      simp only [Bool.and_eq_true, beq_iff_eq, not_and] at h
      constructor
      · intro h2; exact ⟨fun he hp => h he hp.symm, h2⟩
      · intro h2; exact h2.2

theorem match_longest_spec (all ls : List LocationBlock) (uri : Str) (longest : Nat)
    (matched : Option LocationBlock) (hsub : ∀ l ∈ ls, l ∈ all)
    (hinv : LongestInv all uri longest matched) :
    ∃ n, LongestInv all uri n (match_longest ls uri longest matched) ∧ longest ≤ n ∧
      ∀ l ∈ ls, l.exact_match = false → l.path <+: uri → l.path.length ≤ n := by
  induction ls generalizing longest matched with
  | nil => exact ⟨longest, by simpa [match_longest] using hinv, le_refl _, by simp⟩
  | cons l ls ih =>
    have hsub2 : ∀ x ∈ ls, x ∈ all := fun x hx => hsub x (List.mem_cons_of_mem _ hx)
    simp only [match_longest]
    by_cases he : l.exact_match = true
    · simp only [he, if_true]
      obtain ⟨n, h1, h2, h3⟩ := ih longest matched hsub2 hinv
      refine ⟨n, h1, h2, ?_⟩
      intro x hx hxe hxp
      rcases List.mem_cons.1 hx with rfl | hx
      · simp [he] at hxe
      · exact h3 x hx hxe hxp
    · have he2 : l.exact_match = false := by simpa using he
      simp only [he2, Bool.false_eq_true, if_false]
      by_cases hc : (find uri l.path == some 0 && decide (l.path.length > longest)) = true
      · simp only [hc, if_true]
        simp only [Bool.and_eq_true, beq_iff_eq, decide_eq_true_eq] at hc
        have hp : l.path <+: uri := (find_eq_zero_iff _ _).1 hc.1
        obtain ⟨n, h1, h2, h3⟩ := ih l.path.length (some l) hsub2
          ⟨hsub l (List.mem_cons_self _ _), he2, hp, rfl, by omega⟩
        refine ⟨n, h1, by omega, ?_⟩
        intro x hx hxe hxp
        rcases List.mem_cons.1 hx with rfl | hx
        · exact h2
        · exact h3 x hx hxe hxp
      · simp only [hc, Bool.false_eq_true, if_false]
        obtain ⟨n, h1, h2, h3⟩ := ih longest matched hsub2 hinv
        refine ⟨n, h1, h2, ?_⟩
        intro x hx hxe hxp
        rcases List.mem_cons.1 hx with rfl | hx
        · simp only [Bool.and_eq_true, beq_iff_eq, decide_eq_true_eq, not_and, not_lt] at hc
          have := hc ((find_eq_zero_iff _ _).2 hxp)
          omega
        · exact h3 x hx hxe hxp

/-- C1 (counterexample): with the single non-exact location `/api` and the
request path `/apifoo`, no exact-match location equals the path, none of the
three boundary conditions holds, and `match_location` still returns `/api`. -/
theorem C1_boundary_counterexample :
    (∀ l ∈ ({ locations := [{ path := lit "/api" }] } : ServerBlock).locations,
        l.exact_match = true → l.path ≠ lit "/apifoo") ∧
    ¬ (lit "/api" = lit "/apifoo" ∨ (lit "/api").getLast? = some '/' ∨
        (lit "/apifoo").get? (lit "/api").length = some '/') ∧
    ServerBlock.match_location { locations := [{ path := lit "/api" }] } (lit "/apifoo") =
      some { path := lit "/api" } := by
  decide

/-- C1 (amended): when no exact-match location has a path equal to the request
path, `match_location` returns a non-exact location of the server block whose
path is non-empty and a prefix of the request path, and no non-exact location
whose path is a prefix of the request path has a longer path; it returns null
exactly when every non-exact location whose path is a prefix of the request
path has the empty path. No `/` boundary is required of the prefix. -/
theorem C1_match_location_longest_plain (sb : ServerBlock) (uri : Str)
    (hexact : ∀ l ∈ sb.locations, l.exact_match = true → l.path ≠ uri) :
    (∀ l, sb.match_location uri = some l →
      l ∈ sb.locations ∧ l.exact_match = false ∧ l.path ≠ [] ∧ l.path <+: uri ∧
      ∀ l2 ∈ sb.locations, l2.exact_match = false → l2.path <+: uri →
        l2.path.length ≤ l.path.length) ∧
    (sb.match_location uri = none ↔
      ∀ l2 ∈ sb.locations, l2.exact_match = false → l2.path <+: uri → l2.path = []) := by
  have hn : match_exact sb.locations uri = none := (match_exact_none_iff _ _).2 hexact
  obtain ⟨n, h1, _, h3⟩ := match_longest_spec sb.locations sb.locations uri 0 none
    (fun _ h => h) (by simp [LongestInv])
  have hm : sb.match_location uri = match_longest sb.locations uri 0 none := by
    simp [ServerBlock.match_location, hn]
  rw [hm]
  cases hres : match_longest sb.locations uri 0 none with
  | none =>
    rw [hres] at h1
    simp only [LongestInv] at h1
    subst h1
    refine ⟨by simp, ⟨fun _ => ?_, fun _ => rfl⟩⟩
    intro l2 hl2 he hp
    have := h3 l2 hl2 he hp
    exact List.length_eq_zero.1 (by omega)
  | some l =>
    rw [hres] at h1
    simp only [LongestInv] at h1
    obtain ⟨hmem, hex, hpre, hlen, hpos⟩ := h1
    constructor
    · intro l' hl'
      cases hl'
      refine ⟨hmem, hex, ?_, hpre, ?_⟩
      · intro h0; rw [h0] at hlen; simp at hlen; omega
      · intro l2 hl2 he hp
        have := h3 l2 hl2 he hp
        omega
    · constructor
      · intro h; cases h
      · intro h
        have h0 := h l hmem hex hpre
        rw [h0] at hlen; simp at hlen; omega

/-- C1 (amended), at a server block with `/`, `/api` and an exact `/api/v1`,
and the request path `/apifoo`. -/
theorem C1_match_location_longest_plain_witness :
    ServerBlock.match_location
      { locations := [{ path := lit "/" }, { path := lit "/api" },
          { path := lit "/api/v1", exact_match := true }] } (lit "/apifoo") =
      some { path := lit "/api" } ∧
    lit "/api" <+: lit "/apifoo" := by
  have h := (C1_match_location_longest_plain
    { locations := [{ path := lit "/" }, { path := lit "/api" },
        { path := lit "/api/v1", exact_match := true }] } (lit "/apifoo") (by decide)).1
    { path := lit "/api" } (by decide)
  exact ⟨by decide, h.2.2.2.1⟩

/-! ## The traversal scenario -/

theorem set_header_status (r : HttpResponse) (n v : Str) : (r.set_header n v).status_ = r.status_ := rfl

theorem set_body_status (r : HttpResponse) (b : Str) : (r.set_body b).status_ = r.status_ := rfl

theorem try_load_error_page_status (w : World) (r r2 : HttpResponse) (p : Str) (e : HttpStatusCode)
    (h : try_load_error_page w r p e = some r2) : r2.status_ = e := by
  unfold try_load_error_page at h
  split at h
  · cases h; rfl
  · cases h

theorem find_custom_error_page_status (w : World) (r r2 : HttpResponse) (e : HttpStatusCode)
    (sb : ServerBlock) (loc : Option LocationBlock)
    (h : find_custom_error_page w r e sb loc = Except.ok (some r2)) : r2.status_ = e := by
  have hs : ∀ q, (match sb.error_pages.lookup e with
      | some page => try_load_error_page w r (sb.root ++ page) e
      | none => none) = some q → q.status_ = e := by
    intro q hq
    split at hq
    · exact try_load_error_page_status _ _ _ _ _ hq
    · cases hq
  unfold find_custom_error_page at h
  cases loc with
  | none =>
    simp only [Except.ok.injEq] at h
    exact hs _ h
  | some l =>
    simp only at h
    cases hl : l.error_pages.lookup e with
    | none =>
      rw [hl] at h
      simp only [Except.ok.injEq] at h
      exact hs _ h
    | some page =>
      rw [hl] at h
      simp only at h
      cases hr : get_root_directory sb l with
      | error x => rw [hr] at h; simp at h
      | ok root =>
        rw [hr] at h
        simp only at h
        cases ht : try_load_error_page w r (root ++ page) e with
        | some q =>
          rw [ht] at h
          simp only [Except.ok.injEq, Option.some.injEq] at h
          subst h
          exact try_load_error_page_status _ _ _ _ _ ht
        | none =>
          rw [ht] at h
          simp only [Except.ok.injEq] at h
          exact hs _ h

theorem create_error_response_status (w : World) (e : HttpStatusCode) (sb : ServerBlock)
    (loc : Option LocationBlock) (r : HttpResponse)
    (h : create_error_response w e sb loc = Except.ok r) : r.status_ = e := by
  unfold create_error_response at h
  cases hc : find_custom_error_page w (HttpResponse.new w.date) e sb loc with
  | error x => rw [hc] at h; simp at h
  | ok custom =>
    rw [hc] at h
    simp only at h
    have hbase : (match custom with
        | some r => r
        | none => build_default_error_response w.date e).status_ = e := by
      cases custom with
      | none => rfl
      | some q => exact find_custom_error_page_status _ _ _ _ _ _ hc
    by_cases h405 : (e == METHOD_NOT_ALLOWED) = true
    · rw [if_pos h405] at h
      cases loc with
      | none =>
        simp only [Except.ok.injEq] at h
        rw [← h, set_header_status]; exact hbase
      | some l =>
        simp only [Except.ok.injEq] at h
        rw [← h, set_header_status]; exact hbase
    · rw [if_neg h405] at h
      simp only [Except.ok.injEq] at h
      rw [← h]; exact hbase

theorem create_error_response_no_location (w : World) (e : HttpStatusCode) (sb : ServerBlock) :
    ∃ r, create_error_response w e sb none = Except.ok r ∧ r.status_ = e := by
  have hf : ∃ c, find_custom_error_page w (HttpResponse.new w.date) e sb none = Except.ok c := by
    simp [find_custom_error_page]
  obtain ⟨c, hc⟩ := hf
  have : ∃ r, create_error_response w e sb none = Except.ok r := by
    unfold create_error_response
    rw [hc]
    simp only
    split <;> exact ⟨_, rfl⟩
  obtain ⟨r, hr⟩ := this
  exact ⟨r, hr, create_error_response_status _ _ _ _ _ hr⟩

theorem create_error_response_with_root (w : World) (e : HttpStatusCode) (sb : ServerBlock)
    (loc : LocationBlock) (root : Str) (hroot : get_root_directory sb loc = Except.ok root) :
    ∃ r, create_error_response w e sb (some loc) = Except.ok r ∧ r.status_ = e := by
  have hf : ∃ c, find_custom_error_page w (HttpResponse.new w.date) e sb (some loc) = Except.ok c := by
    unfold find_custom_error_page
    simp only [hroot]
    split
    · split <;> exact ⟨_, rfl⟩
    · exact ⟨_, rfl⟩
  obtain ⟨c, hc⟩ := hf
  have : ∃ r, create_error_response w e sb (some loc) = Except.ok r := by
    unfold create_error_response
    rw [hc]
    simp only
    split <;> exact ⟨_, rfl⟩
  obtain ⟨r, hr⟩ := this
  exact ⟨r, hr, create_error_response_status _ _ _ _ _ hr⟩

theorem resolve_file_path_root (sb : ServerBlock) (p : Str) (loc : LocationBlock) (fp : Str)
    (h : resolve_file_path sb p loc = Except.ok fp) :
    ∃ root, get_root_directory sb loc = Except.ok root := by
  unfold resolve_file_path at h
  split at h
  · cases h
  · exact ⟨_, by assumption⟩

/-- C2 (counterexample): with root `/var/www`, the single location `/` and an
empty file system, the request is parsed without error and the handler
answers 404, not 403. -/
theorem C2_traversal_counterexample :
    (HttpRequest.append_data {} traversal_request).error = none ∧
    (HttpRequest.append_data {} traversal_request).state.complete_ = true ∧
    response_status
      (handle_request empty_world (HttpRequest.append_data {} traversal_request).state
        root_server) = NOT_FOUND ∧
    NOT_FOUND ≠ FORBIDDEN := by
  decide

/-- C2 (amended): for every server configuration and file system, the request
`GET /../../etc/passwd HTTP/1.1` with `Host: x` is parsed completely with the
dot segments removed, so that the handler sees the path `/etc/passwd`; the
security filter does not reject that path; the handler answers 404 when no
location matches it, and also when the matched location has no redirect,
allows GET, finds no CGI script in the path, and resolves the path to a file
that `stat` does not find. -/
theorem C2_traversal_normalized (w : World) (sb : ServerBlock) :
    (HttpRequest.append_data {} traversal_request).error = none ∧
    (HttpRequest.append_data {} traversal_request).state.complete_ = true ∧
    (HttpRequest.append_data {} traversal_request).state.method_ = Method.GET ∧
    (HttpRequest.append_data {} traversal_request).state.get_path = lit "/etc/passwd" ∧
    validate_file_access (lit "/etc/passwd") false = none ∧
    (sb.match_location (lit "/etc/passwd") = none →
      ∃ r, handle_request w (HttpRequest.append_data {} traversal_request).state sb =
        Except.ok r ∧ r.status_ = NOT_FOUND) ∧
    (∀ loc fp, sb.match_location (lit "/etc/passwd") = some loc → loc.redirect = [] →
      loc.is_allows_method Method.GET = true → is_cgi_request (lit "/etc/passwd") loc = false →
      resolve_file_path sb (lit "/etc/passwd") loc = Except.ok fp → w.stat fp = none →
      ∃ r, handle_request w (HttpRequest.append_data {} traversal_request).state sb =
        Except.ok r ∧ r.status_ = NOT_FOUND) := by
  have hp : (HttpRequest.append_data {} traversal_request).state.get_path = lit "/etc/passwd" := by
    decide
  have hm : (HttpRequest.append_data {} traversal_request).state.method_ = Method.GET := by decide
  have hv : validate_file_access (lit "/etc/passwd") false = none := by decide
  refine ⟨by decide, by decide, hm, hp, hv, ?_, ?_⟩
  · intro hnone
    unfold handle_request
    rw [hp, hnone]
    exact create_error_response_no_location w NOT_FOUND sb
  · intro loc fp hloc hred hallow hcgi hres hstat
    obtain ⟨root, hroot⟩ := resolve_file_path_root _ _ _ _ hres
    have hd : dispatch_request w sb (HttpRequest.append_data {} traversal_request).state loc =
        Except.error NOT_FOUND := by
      unfold dispatch_request
      simp only [hm, hp, hred, hallow]
      simp only [is_implemented, handle_get_request, hcgi, hv, hres, hstat]
      simp
    unfold handle_request
    rw [hp, hloc]
    simp only [hd]
    exact create_error_response_with_root w NOT_FOUND sb loc root hroot

/-- C2 (amended), at the server block with root `/var/www` and location `/`
over the empty file system. -/
theorem C2_traversal_normalized_witness :
    ∃ r, handle_request empty_world (HttpRequest.append_data {} traversal_request).state
      root_server = Except.ok r ∧ r.status_ = NOT_FOUND :=
  (C2_traversal_normalized empty_world root_server).2.2.2.2.2.2
    { path := lit "/" } (lit "/var/www/etc/passwd") (by decide) (by decide) (by decide)
    (by decide) (by decide) rfl

/-! ## Searching in octet strings -/

theorem find_at_isSome_iff (pat s : Str) (i : Nat) : (find_at pat s i).isSome = true ↔ pat <:+: s := by
  induction s generalizing i with
  | nil =>
    cases pat <;> simp [find_at]
  | cons c cs ih =>
    simp only [find_at]
    rw [List.infix_cons_iff]
    by_cases h : starts_with (c :: cs) pat = true
    · simp [h, (starts_with_iff _ _).1 h]
    · rw [if_neg h, ih]
      constructor
      · intro h2; exact Or.inr h2
      · rintro (h2 | h2)
        · exact absurd ((starts_with_iff _ _).2 h2) h
        · exact h2

theorem contains_iff (s pat : Str) : contains s pat = true ↔ pat <:+: s := by
  unfold contains find
  exact find_at_isSome_iff pat s 0

theorem find_char_at_eq (c : Char) (s : Str) (i : Nat) :
    find_char_at c s i =
      if c ∈ s then some (i + (s.takeWhile (fun d => d != c)).length) else none := by
  induction s generalizing i with
  | nil => simp [find_char_at]
  | cons d ds ih =>
    simp only [find_char_at]
    by_cases h : d = c
    · subst h; simp
    · have h2 : (d == c) = false := by simpa using h
      have h3 : (d != c) = true := by simpa using h
      have h4 : c ≠ d := fun e => h e.symm
      rw [h2, ih]
      simp only [Bool.false_eq_true, if_false, List.mem_cons, h4, false_or, List.takeWhile_cons, h3,
        if_true, List.length_cons]
      split
      · simp; omega
      · simp

theorem take_takeWhile_length (p : Char → Bool) (s : Str) :
    s.take (s.takeWhile p).length = s.takeWhile p := by
  induction s with
  | nil => simp
  | cons d ds ih =>
    by_cases h : p d = true
    · simp [List.takeWhile_cons, h, ih]
    · simp [List.takeWhile_cons, h]

theorem takeWhile_eq_self_of_not_mem (c : Char) (s : Str) (h : c ∉ s) :
    s.takeWhile (fun d => d != c) = s := by
  induction s with
  | nil => simp
  | cons d ds ih =>
    simp only [List.mem_cons, not_or] at h
    have h3 : (d != c) = true := by simpa using fun e => h.1 e.symm
    simp [List.takeWhile_cons, h3, ih h.2]

theorem extract_path_eq (uri : Str) : extract_path uri = uri.takeWhile (fun d => d != '?') := by
  unfold extract_path find_char
  rw [find_char_at_eq]
  by_cases h : '?' ∈ uri
  · simp only [h, if_true, substr, List.drop_zero, Nat.zero_add]
    exact take_takeWhile_length _ _
  · simp only [h, if_false]
    exact (takeWhile_eq_self_of_not_mem _ _ h).symm

theorem find_last_of_at_none (c : Char) (s : Str) (i : Nat) :
    find_last_of_at c s i = none ↔ c ∉ s := by
  induction s generalizing i with
  | nil => simp [find_last_of_at]
  | cons d ds ih =>
    simp only [find_last_of_at, List.mem_cons, not_or]
    cases h : find_last_of_at c ds (i + 1) with
    | some j =>
      have : ¬ (c ∉ ds) := fun hn => by rw [(ih (i + 1)).2 hn] at h; cases h
      simp [this]
    | none =>
      have hn := (ih (i + 1)).1 h
      by_cases hd : d = c
      · subst hd; simp
      · have h2 : (d == c) = false := by simpa using hd
        simp only [h2, Bool.false_eq_true, if_false, hn, not_false_eq_true, and_true, true_iff]
        exact fun e => hd e.symm

theorem find_last_of_at_some (c : Char) (s : Str) (i j : Nat)
    (h : find_last_of_at c s i = some j) :
    ∃ pre post, s = pre ++ c :: post ∧ c ∉ post ∧ j = i + pre.length := by
  induction s generalizing i with
  | nil => simp [find_last_of_at] at h
  | cons d ds ih =>
    simp only [find_last_of_at] at h
    cases h2 : find_last_of_at c ds (i + 1) with
    | some k =>
      rw [h2] at h
      simp only [Option.some.injEq] at h
      subst h
      obtain ⟨pre, post, h3, h4, h5⟩ := ih _ h2
      exact ⟨d :: pre, post, by simp [h3], h4, by simp [h5]; omega⟩
    | none =>
      rw [h2] at h
      simp only at h
      by_cases hd : d = c
      · subst hd
        simp only [beq_self_eq_true, if_true, Option.some.injEq] at h
        exact ⟨[], ds, rfl, (find_last_of_at_none _ _ _).1 h2, by simp [h]⟩
      · have h6 : (d == c) = false := by simpa using hd
        simp [h6] at h

theorem last_occurrence_unique (c : Char) (pre post pre2 post2 : Str)
    (h : pre ++ c :: post = pre2 ++ c :: post2) (h1 : c ∉ post) (h2 : c ∉ post2) :
    pre = pre2 ∧ post = post2 := by
  induction pre generalizing pre2 with
  | nil =>
    cases pre2 with
    | nil => simpa using h
    | cons x xs =>
      simp only [List.nil_append, List.cons_append, List.cons.injEq] at h
      exact absurd (by rw [h.2]; simp) h1
  | cons y ys ih =>
    cases pre2 with
    | nil =>
      simp only [List.nil_append, List.cons_append, List.cons.injEq] at h
      exact absurd (by rw [← h.2]; simp) h2
    | cons x xs =>
      simp only [List.cons_append, List.cons.injEq] at h
      obtain ⟨h3, h4⟩ := ih xs h.2
      exact ⟨by rw [h.1, h3], h4⟩

theorem find_last_of_eq (c : Char) (pre post : Str) (h : c ∉ post) :
    find_last_of (pre ++ c :: post) c = some pre.length := by
  unfold find_last_of
  cases h2 : find_last_of_at c (pre ++ c :: post) 0 with
  | none => exact absurd (by simp) ((find_last_of_at_none _ _ _).1 h2)
  | some j =>
    obtain ⟨pre2, post2, h3, h4, h5⟩ := find_last_of_at_some _ _ _ _ h2
    have := last_occurrence_unique c pre post pre2 post2 h3 h h4
    rw [h5, this.1]; simp

theorem rfind_at_some (pat s : Str) (i j : Nat) (h : rfind_at pat s i = some j) :
    i ≤ j ∧ pat <+: s.drop (j - i) := by
  induction s generalizing i with
  | nil =>
    simp only [rfind_at] at h
    split at h
    · simp only [Option.some.injEq] at h
      subst h
      have : pat = [] := by simpa using ‹pat.isEmpty = true›
      simp [this]
    · cases h
  | cons c cs ih =>
    simp only [rfind_at] at h
    cases h2 : rfind_at pat cs (i + 1) with
    | some k =>
      rw [h2] at h
      simp only [Option.some.injEq] at h
      subst h
      obtain ⟨h3, h4⟩ := ih _ h2
      refine ⟨by omega, ?_⟩
      have : k - i = (k - (i + 1)) + 1 := by omega
      rw [this, List.drop_succ_cons]
      exact h4
    | none =>
      rw [h2] at h
      simp only at h
      split at h
      · simp only [Option.some.injEq] at h
        subst h
        simp only [Nat.sub_self, List.drop_zero, le_refl, true_and]
        exact (starts_with_iff _ _).1 ‹_›
      · cases h

theorem rfind_at_suffix (pat s : Str) (i : Nat) (h : pat <:+ s) :
    rfind_at pat s i = some (i + (s.length - pat.length)) := by
  induction s generalizing i with
  | nil =>
    have : pat = [] := by simpa using h
    simp [rfind_at, this]
  | cons c cs ih =>
    simp only [rfind_at]
    rcases List.suffix_cons_iff.1 h with h1 | h1
    · subst h1
      have hnone : rfind_at (c :: cs) cs (i + 1) = none := by
        cases h2 : rfind_at (c :: cs) cs (i + 1) with
        | none => rfl
        | some k =>
          obtain ⟨_, h4⟩ := rfind_at_some _ _ _ _ h2
          have h5 := h4.length_le
          simp only [List.length_cons, List.length_drop] at h5
          omega
      rw [hnone]
      have : starts_with (c :: cs) (c :: cs) = true := (starts_with_iff _ _).2 (List.prefix_refl _)
      simp [this]
    · rw [ih (i + 1) h1]
      have := h1.length_le
      simp only [List.length_cons]
      congr 1
      omega

theorem ends_with_extension_iff (clean ext : Str) :
    ends_with_extension clean ext = true ↔ ext <:+ clean := by
  unfold ends_with_extension rfind
  constructor
  · intro h
    split at h
    · rename_i k hk
      simp only [beq_iff_eq] at h
      obtain ⟨_, h4⟩ := rfind_at_some _ _ _ _ hk
      simp only [Nat.sub_zero] at h4
      have hlen : (clean.drop k).length = ext.length := by
        simp only [List.length_drop]; omega
      have := List.IsPrefix.eq_of_length h4 hlen.symm
      rw [this]
      exact List.drop_suffix _ _
    · cases h
  · intro h
    rw [rfind_at_suffix _ _ _ h]
    have := h.length_le
    simp only [Nat.zero_add, beq_iff_eq]
    omega

theorem is_hidden_iff (clean : Str) :
    is_hidden clean = true ↔ ∃ pre rest, clean = pre ++ '/' :: '.' :: rest ∧ '/' ∉ rest := by
  unfold is_hidden find_last_of
  constructor
  · intro h
    split at h
    · rename_i k hk
      obtain ⟨pre, post, h3, h4, h5⟩ := find_last_of_at_some _ _ _ _ hk
      simp only [Nat.zero_add] at h5
      subst h5
      simp only [Bool.and_eq_true, decide_eq_true_eq, beq_iff_eq] at h
      rw [h3] at h
      have hget := h.2
      rw [List.get?_eq_getElem?, List.getElem?_append_right (by omega)] at hget
      simp only [Nat.add_sub_cancel_left] at hget
      cases post with
      | nil => simp at hget
      | cons p ps =>
        simp only [List.getElem?_cons_succ, List.getElem?_cons_zero, Option.some.injEq] at hget
        subst hget
        exact ⟨pre, ps, h3, fun hm => h4 (List.mem_cons_of_mem _ hm)⟩
    · cases h
  · rintro ⟨pre, rest, h1, h2⟩
    have h3 : '/' ∉ ('.' :: rest) := by simp [h2]
    have := find_last_of_eq '/' pre ('.' :: rest) h3
    unfold find_last_of at this
    rw [h1, this]
    simp only [Bool.and_eq_true, decide_eq_true_eq, beq_iff_eq]
    constructor
    · simp
    · rw [List.get?_eq_getElem?, List.getElem?_append_right (by omega)]
      simp

theorem cgi_extension_allowed_iff (clean : Str) :
    (match find_last_of clean '.' with
      | none => true
      | some ext_pos =>
        if allowed_cgi_extensions.any (fun allowed => substr_from clean ext_pos == allowed) then false
        else true) = true ↔
    ∀ pre t, clean = pre ++ '.' :: t → '.' ∉ t → '.' :: t ∉ allowed_cgi_extensions := by
  unfold find_last_of
  cases h : find_last_of_at '.' clean 0 with
  | none =>
    have hn := (find_last_of_at_none _ _ _).1 h
    simp only [true_iff]
    intro pre t ht
    exact absurd (by rw [ht]; simp) hn
  | some k =>
    obtain ⟨pre, post, h3, h4, h5⟩ := find_last_of_at_some _ _ _ _ h
    simp only [Nat.zero_add] at h5
    subst h5
    have hsub : substr_from clean pre.length = '.' :: post := by
      rw [h3]; simp [substr_from]
    simp only [hsub]
    constructor
    · intro hc pre2 t ht hdot hmem
      have hu := last_occurrence_unique '.' pre post pre2 t (by rw [← h3, ht]) h4 hdot
      rw [← hu.2] at hmem
      have : allowed_cgi_extensions.any (fun allowed => ('.' :: post) == allowed) = true := by
        rw [List.any_eq_true]
        exact ⟨_, hmem, by simp⟩
      rw [this] at hc
      simp at hc
    · intro hall
      have hnot := hall pre post h3 h4
      have : allowed_cgi_extensions.any (fun allowed => ('.' :: post) == allowed) = false := by
        rw [Bool.eq_false_iff]
        intro hany
        rw [List.any_eq_true] at hany
        obtain ⟨a, ha, hb⟩ := hany
        simp only [beq_iff_eq] at hb
        exact hnot (hb ▸ ha)
      rw [this]
      simp

/-! ## The security filter -/

theorem is_traversal_attempt_iff (path : Str) (hslash : path.head? = some '/') :
    is_traversal_attempt path = true ↔ (lit "../" <:+: path ∨ lit "..\\" <:+: path) := by
  unfold is_traversal_attempt
  have hne : (path == lit "..") = false := by
    cases path with
    | nil => simp at hslash
    | cons c cs =>
      simp only [List.head?_cons, Option.some.injEq] at hslash
      subst hslash
      have hl : lit ".." = ['.', '.'] := by decide
      rw [hl]
      apply beq_eq_false_iff_ne.2
      intro h
      injection h with h1 _
      exact absurd h1 (by decide)
  simp only [Bool.or_eq_true, contains_iff, hne, Bool.false_eq_true, or_false]

theorem is_sensitive_resource_iff (path : Str) (cgi_script : Bool) :
    is_sensitive_resource path cgi_script = true ↔
      ((∃ pre rest, path.takeWhile (fun d => d != '?') = pre ++ '/' :: '.' :: rest ∧ '/' ∉ rest) ∨
       (∃ p ∈ sensitive_patterns, p <:+: path.takeWhile (fun d => d != '?')) ∨
       (cgi_script = false ∧ ∃ e ∈ blocked_extensions, e <:+ path.takeWhile (fun d => d != '?')) ∨
       (cgi_script = true ∧ ∀ pre t, path.takeWhile (fun d => d != '?') = pre ++ '.' :: t →
          '.' ∉ t → '.' :: t ∉ allowed_cgi_extensions)) := by
  unfold is_sensitive_resource
  rw [extract_path_eq]
  generalize path.takeWhile (fun d => d != '?') = clean
  have hpat : sensitive_patterns.any (fun pattern => contains clean pattern) = true ↔
      ∃ p ∈ sensitive_patterns, p <:+: clean := by
    rw [List.any_eq_true]
    constructor
    · rintro ⟨p, hp, h⟩; exact ⟨p, hp, (contains_iff _ _).1 h⟩
    · rintro ⟨p, hp, h⟩; exact ⟨p, hp, (contains_iff _ _).2 h⟩
  have hblk : blocked_extensions.any (fun ext => ends_with_extension clean ext) = true ↔
      ∃ e ∈ blocked_extensions, e <:+ clean := by
    rw [List.any_eq_true]
    constructor
    · rintro ⟨p, hp, h⟩; exact ⟨p, hp, (ends_with_extension_iff _ _).1 h⟩
    · rintro ⟨p, hp, h⟩; exact ⟨p, hp, (ends_with_extension_iff _ _).2 h⟩
  simp only
  by_cases hh : is_hidden clean = true
  · simp only [hh, if_true, true_iff]
    exact Or.inl ((is_hidden_iff _).1 hh)
  · have hh2 : ¬ ∃ pre rest, clean = pre ++ '/' :: '.' :: rest ∧ '/' ∉ rest :=
      fun h => hh ((is_hidden_iff _).2 h)
    rw [if_neg hh]
    by_cases hp : sensitive_patterns.any (fun pattern => contains clean pattern) = true
    · simp only [hp, if_true, true_iff]
      exact Or.inr (Or.inl (hpat.1 hp))
    · have hp2 : ¬ ∃ p ∈ sensitive_patterns, p <:+: clean := fun h => hp (hpat.2 h)
      rw [if_neg hp]
      cases cgi_script with
      | true =>
        simp only [if_true]
        rw [cgi_extension_allowed_iff]
        constructor
        · intro h; exact Or.inr (Or.inr (Or.inr ⟨by simp, h⟩))
        · rintro (h | h | h | h)
          · exact absurd h hh2
          · exact absurd h hp2
          · exact absurd h.1 (by simp)
          · exact h.2
      | false =>
        simp only [Bool.false_eq_true, if_false]
        rw [hblk]
        constructor
        · intro h; exact Or.inr (Or.inr (Or.inl ⟨by simp, h⟩))
        · rintro (h | h | h | h)
          · exact absurd h hh2
          · exact absurd h hp2
          · exact h.2
          · exact absurd h.1 (by simp)

/-- C3 (counterexample): the path `/a?/.git` begins with `/` and contains
`/.git`, and `validate_file_access` returns without error for a non-CGI
access. -/
theorem C3_query_counterexample :
    (lit "/a?/.git").head? = some '/' ∧ lit "/.git" ∈ sensitive_patterns ∧
    lit "/.git" <:+: lit "/a?/.git" ∧
    validate_file_access (lit "/a?/.git") false = none := by
  refine ⟨by decide, by decide, ?_, by decide⟩
  exact ⟨lit "/a?", [], by decide⟩

/-- C3 (amended): for every path beginning with `/`, `validate_file_access`
raises 403 exactly when one of the following holds, and in every other case
returns without error: the path contains `../` or `..\`; or, for the path cut
before its first `?` (the whole path when it has none): the text after its last
`/` begins with `.`; it contains one of the nine sensitive patterns; for a
non-CGI access it ends with one of the sixteen blocked extensions; for a CGI
access the text from its last `.` is not one of the six allowed extensions
(also when it has no `.`). -/
theorem C3_validate_file_access_iff (path : Str) (cgi_script : Bool)
    (hslash : path.head? = some '/') :
    (validate_file_access path cgi_script = some FORBIDDEN ↔
      (lit "../" <:+: path ∨ lit "..\\" <:+: path ∨
       (∃ pre rest, path.takeWhile (fun d => d != '?') = pre ++ '/' :: '.' :: rest ∧ '/' ∉ rest) ∨
       (∃ p ∈ sensitive_patterns, p <:+: path.takeWhile (fun d => d != '?')) ∨
       (cgi_script = false ∧ ∃ e ∈ blocked_extensions, e <:+ path.takeWhile (fun d => d != '?')) ∨
       (cgi_script = true ∧ ∀ pre t, path.takeWhile (fun d => d != '?') = pre ++ '.' :: t →
          '.' ∉ t → '.' :: t ∉ allowed_cgi_extensions))) ∧
    (validate_file_access path cgi_script = none ↔
      ¬ (lit "../" <:+: path ∨ lit "..\\" <:+: path ∨
       (∃ pre rest, path.takeWhile (fun d => d != '?') = pre ++ '/' :: '.' :: rest ∧ '/' ∉ rest) ∨
       (∃ p ∈ sensitive_patterns, p <:+: path.takeWhile (fun d => d != '?')) ∨
       (cgi_script = false ∧ ∃ e ∈ blocked_extensions, e <:+ path.takeWhile (fun d => d != '?')) ∨
       (cgi_script = true ∧ ∀ pre t, path.takeWhile (fun d => d != '?') = pre ++ '.' :: t →
          '.' ∉ t → '.' :: t ∉ allowed_cgi_extensions))) := by
  have ht := is_traversal_attempt_iff path hslash
  have hs := is_sensitive_resource_iff path cgi_script
  unfold validate_file_access
  by_cases h1 : is_sensitive_resource path cgi_script = true
  · have hc := hs.1 h1
    simp only [h1, if_true, true_iff, reduceCtorEq, false_iff, not_not]
    exact ⟨Or.inr (Or.inr hc), Or.inr (Or.inr hc)⟩
  · rw [if_neg h1]
    have h1n := fun h => h1 (hs.2 h)
    by_cases h2 : is_traversal_attempt path = true
    · have hc := ht.1 h2
      simp only [h2, if_true, true_iff, reduceCtorEq, false_iff, not_not]
      exact ⟨Or.elim hc Or.inl (fun h => Or.inr (Or.inl h)),
        Or.elim hc Or.inl (fun h => Or.inr (Or.inl h))⟩
    · rw [if_neg h2]
      have h2n := fun h => h2 (ht.2 h)
      simp only [reduceCtorEq, false_iff, true_iff]
      exact ⟨fun h => h.elim (fun h => h2n (Or.inl h))
          (fun h => h.elim (fun h => h2n (Or.inr h)) h1n),
        fun h => h.elim (fun h => h2n (Or.inl h))
          (fun h => h.elim (fun h => h2n (Or.inr h)) h1n)⟩

/-- C3 (amended), at the path `/site/.env` for a non-CGI access: it is refused
with 403. -/
theorem C3_validate_file_access_iff_witness :
    (lit "/site/.env").head? = some '/' ∧
    validate_file_access (lit "/site/.env") false = some FORBIDDEN :=
  ⟨by decide, ((C3_validate_file_access_iff (lit "/site/.env") false (by decide)).1).2
    (Or.inr (Or.inr (Or.inl ⟨lit "/site", lit "env", by decide, by decide⟩)))⟩

/-! ## Chunked bodies delivered in two calls -/

/-- C4 (code evaluated at the failing input): the chunked request with the
single chunk `hello` ends complete with body `hello` when delivered in one
call. Cut just before the terminating `0 CRLF CRLF`, or after its first, third
or fourth octet, it ends complete with body `hellohello`; cut after its second
octet, the second call raises 400 and the request is not complete. -/
theorem C4_split_terminator_repeats_chunk :
    (feed {} [chunked_head ++ lit "5\r\nhello\r\n0\r\n\r\n"]).error = none ∧
    (feed {} [chunked_head ++ lit "5\r\nhello\r\n0\r\n\r\n"]).state.complete_ = true ∧
    (feed {} [chunked_head ++ lit "5\r\nhello\r\n0\r\n\r\n"]).state.body_ = lit "hello" ∧
    (∀ cut ∈ [(lit "5\r\nhello\r\n", lit "0\r\n\r\n"), (lit "5\r\nhello\r\n0", lit "\r\n\r\n"),
        (lit "5\r\nhello\r\n0\r\n", lit "\r\n"), (lit "5\r\nhello\r\n0\r\n\r", lit "\n")],
      cut.1 ++ cut.2 = lit "5\r\nhello\r\n0\r\n\r\n" ∧
      (feed {} [chunked_head ++ cut.1, cut.2]).error = none ∧
      (feed {} [chunked_head ++ cut.1, cut.2]).state.complete_ = true ∧
      (feed {} [chunked_head ++ cut.1, cut.2]).state.body_ = lit "hellohello") ∧
    (feed {} [chunked_head ++ lit "5\r\nhello\r\n0\r"]).error = none ∧
    (feed {} [chunked_head ++ lit "5\r\nhello\r\n0\r", lit "\n\r\n"]).error = some BAD_REQUEST ∧
    (feed {} [chunked_head ++ lit "5\r\nhello\r\n0\r", lit "\n\r\n"]).state.complete_ = false := by
  decide

/-! ## What the body phase preserves -/

theorem BodyFrame.refl (r : HttpRequest) : BodyFrame r r :=
  ⟨rfl, rfl, rfl, rfl, rfl, fun h => h⟩

theorem BodyFrame.trans {a b c : HttpRequest} (h1 : BodyFrame a b) (h2 : BodyFrame b c) :
    BodyFrame a c :=
  ⟨h2.1.trans h1.1, h2.2.1.trans h1.2.1, h2.2.2.1.trans h1.2.2.1, h2.2.2.2.1.trans h1.2.2.2.1,
    h2.2.2.2.2.1.trans h1.2.2.2.2.1, fun h => h2.2.2.2.2.2 (h1.2.2.2.2.2 h)⟩

theorem mem_hm_insert (n v : Str) (h : HeaderMap) (kv : Str × Str) (hm : kv ∈ hm_insert n v h) :
    kv = (n, v) ∨ kv ∈ h := by
  induction h with
  | nil => simp [hm_insert] at hm; exact Or.inl hm
  | cons e rest ih =>
    obtain ⟨k, w⟩ := e
    simp only [hm_insert] at hm
    split at hm
    · rcases List.mem_cons.1 hm with h1 | h1
      · exact Or.inl h1
      · exact Or.inr h1
    · rcases List.mem_cons.1 hm with h1 | h1
      · exact Or.inr (by rw [h1]; exact List.mem_cons_self _ _)
      · rcases ih h1 with h2 | h2
        · exact Or.inl h2
        · exact Or.inr (List.mem_cons_of_mem _ h2)

theorem mem_hm_erase (n : Str) (h : HeaderMap) (kv : Str × Str) (hm : kv ∈ hm_erase n h) :
    kv ∈ h := by
  induction h with
  | nil => simp [hm_erase] at hm
  | cons e rest ih =>
    obtain ⟨k, w⟩ := e
    simp only [hm_erase] at hm
    split at hm
    · exact List.mem_cons_of_mem _ hm
    · rcases List.mem_cons.1 hm with h1 | h1
      · rw [h1]; exact List.mem_cons_self _ _
      · exact List.mem_cons_of_mem _ (ih h1)

theorem mem_replace_header (h : HeaderMap) (n v : Str) (kv : Str × Str)
    (hm : kv ∈ replace_header h n v) : kv = (n, v) ∨ kv ∈ h := by
  unfold replace_header at hm
  split at hm
  · rcases mem_hm_insert _ _ _ _ hm with h1 | h1
    · exact Or.inl h1
    · exact Or.inr (mem_hm_erase _ _ _ h1)
  · exact mem_hm_insert _ _ _ _ hm

theorem mem_add_header (h : HeaderMap) (n v : Str) (kv : Str × Str) (hm : kv ∈ add_header h n v) :
    kv = (n, v) ∨ kv ∈ h ∨ (kv.1 = n ∧ is_combinable_header n = true) := by
  unfold add_header at hm
  split at hm
  · rcases mem_replace_header _ _ _ _ hm with h1 | h1
    · exact Or.inl h1
    · exact Or.inr (Or.inl h1)
  · split at hm
    · rcases mem_hm_insert _ _ _ _ hm with h1 | h1
      · exact Or.inl h1
      · exact Or.inr (Or.inl h1)
    · split at hm
      · rename_i hc
        split at hm
        · rcases mem_hm_insert _ _ _ _ hm with h1 | h1
          · exact Or.inr (Or.inr ⟨by rw [h1], hc⟩)
          · exact Or.inr (Or.inl (mem_hm_erase _ _ _ h1))
        · rcases mem_hm_insert _ _ _ _ hm with h1 | h1
          · exact Or.inl h1
          · exact Or.inr (Or.inl h1)
      · rcases mem_replace_header _ _ _ _ hm with h1 | h1
        · exact Or.inl h1
        · exact Or.inr (Or.inl h1)

theorem add_header_bounded (h : HeaderMap) (n v : Str) (hv : v.length ≤ MAX_HEADER_SIZE)
    (hb : ∀ kv ∈ h, is_combinable_header kv.1 = false → kv.2.length ≤ MAX_HEADER_SIZE) :
    ∀ kv ∈ add_header h n v, is_combinable_header kv.1 = false → kv.2.length ≤ MAX_HEADER_SIZE := by
  intro kv hm hc
  rcases mem_add_header _ _ _ _ hm with h1 | h1 | h1
  · rw [h1]; exact hv
  · exact hb kv h1 hc
  · rw [h1.1, h1.2] at hc; cases hc

theorem store_header_frame (r : HttpRequest) (n v : Str) (hv : v.length ≤ MAX_HEADER_SIZE) :
    BodyFrame r (r.store_header n v).state := by
  unfold HttpRequest.store_header
  split
  · exact BodyFrame.refl r
  · rename_i hcount
    have hb : ∀ c : Bool, BodyFrame r
        { r with headers_ := add_header r.headers_ n v, header_count_ := r.header_count_ + 1,
                 chunked_ := c } := by
      intro c
      refine ⟨rfl, rfl, rfl, rfl, rfl, fun h => ⟨?_, ?_⟩⟩
      · show r.header_count_ + 1 ≤ MAX_HEADERS
        unfold MAX_HEADERS at *
        omega
      · exact add_header_bounded _ _ _ hv h.2
    split
    · exact hb _
    · exact hb r.chunked_

theorem store_pending_header_frame (r : HttpRequest) (n v : Str) (hv : v.length ≤ MAX_HEADER_SIZE) :
    BodyFrame r (r.store_pending_header n v).state := by
  unfold HttpRequest.store_pending_header
  split
  · exact store_header_frame r n v hv
  · exact BodyFrame.refl r

theorem parse_header_line_value_length (line n v : Str)
    (h : parse_header_line line = Except.ok (n, v)) : v.length ≤ MAX_HEADER_SIZE := by
  unfold parse_header_line at h
  split at h
  · cases h
  · split at h
    · cases h
    · simp only at h
      split at h
      · cases h
      · split at h
        · cases h
        · rename_i hval
          simp only [Except.ok.injEq, Prod.mk.injEq] at h
          rw [← h.2]
          unfold validate_header_value at hval
          split at hval
          · cases hval
          · omega

theorem parse_header_lines_frame (lines : List Str) (r : HttpRequest) (n v : Str)
    (hv : v.length ≤ MAX_HEADER_SIZE) :
    BodyFrame r (HttpRequest.parse_header_lines lines r n v).state := by
  induction lines generalizing r n v with
  | nil => exact store_pending_header_frame r n v hv
  | cons raw more ih =>
    simp only [HttpRequest.parse_header_lines]
    split
    · exact ih r n v hv
    · split
      · exact BodyFrame.refl r
      · have hs := store_pending_header_frame r n v hv
        cases hsp : r.store_pending_header n v with
        | throw e r1 => rw [hsp] at hs; exact hs
        | ok r1 =>
          rw [hsp] at hs
          simp only
          cases hpl : parse_header_line (remove_carriage_return raw) with
          | error e => exact hs
          | ok nv =>
            obtain ⟨n2, v2⟩ := nv
            exact BodyFrame.trans hs (ih r1 n2 v2 (parse_header_line_value_length _ _ _ hpl))

theorem parse_headers_frame (r : HttpRequest) (content : Str) :
    BodyFrame r (r.parse_headers content).state :=
  parse_header_lines_frame _ r [] [] (by simp)

theorem andThen_frame {r : HttpRequest} {o : Outcome HttpRequest}
    {f : HttpRequest → Outcome HttpRequest} (h1 : BodyFrame r o.state)
    (h2 : ∀ x, BodyFrame x (f x).state) : BodyFrame r (o.andThen f).state := by
  cases o with
  | ok s => exact BodyFrame.trans h1 (h2 s)
  | throw e s => exact h1

theorem set_complete_frame (r : HttpRequest) : BodyFrame r { r with complete_ := true } :=
  ⟨rfl, rfl, rfl, rfl, rfl, fun h => h⟩

theorem process_final_chunk_frame (r : HttpRequest) : BodyFrame r r.process_final_chunk.state := by
  unfold HttpRequest.process_final_chunk
  simp only
  split
  · apply andThen_frame
    · split
      · exact parse_headers_frame r _
      · exact BodyFrame.refl r
    · intro x; exact set_complete_frame x
  · split
    · exact set_complete_frame r
    · split
      · exact set_complete_frame r
      · exact BodyFrame.refl r

theorem take_chunk_data_frame (next : HttpRequest → Outcome HttpRequest)
    (hnext : ∀ x, BodyFrame x (next x).state) (r : HttpRequest) :
    BodyFrame r (HttpRequest.take_chunk_data next r).state := by
  unfold HttpRequest.take_chunk_data
  split
  · exact BodyFrame.refl r
  · exact BodyFrame.trans ⟨rfl, rfl, rfl, rfl, rfl, fun h => h⟩ (hnext _)

theorem chunk_loop_frame (fuel : Nat) (r : HttpRequest) :
    BodyFrame r (HttpRequest.chunk_loop fuel r).state := by
  induction fuel generalizing r with
  | zero => exact BodyFrame.refl r
  | succ fuel ih =>
    simp only [HttpRequest.chunk_loop]
    split
    · exact BodyFrame.refl r
    · split
      · split
        · exact BodyFrame.refl r
        · split
          · exact ⟨rfl, rfl, rfl, rfl, rfl, fun h => h⟩
          · split
            · exact BodyFrame.trans ⟨rfl, rfl, rfl, rfl, rfl, fun h => h⟩
                (process_final_chunk_frame _)
            · exact BodyFrame.trans ⟨rfl, rfl, rfl, rfl, rfl, fun h => h⟩
                (take_chunk_data_frame _ ih _)
      · exact take_chunk_data_frame _ ih _

theorem parse_chunked_body_frame (r : HttpRequest) (data : Str) :
    BodyFrame r (r.parse_chunked_body data).state := by
  unfold HttpRequest.parse_chunked_body
  exact BodyFrame.trans ⟨rfl, rfl, rfl, rfl, rfl, fun h => h⟩ (chunk_loop_frame _ _)

theorem parse_normal_body_frame (r : HttpRequest) (data : Str) :
    BodyFrame r (r.parse_normal_body data).state := by
  unfold HttpRequest.parse_normal_body
  simp only
  split
  · exact BodyFrame.refl r
  · split
    · exact set_complete_frame r
    · split
      · exact BodyFrame.refl r
      · split
        · exact BodyFrame.refl r
        · split
          · exact ⟨rfl, rfl, rfl, rfl, rfl, fun h => h⟩
          · exact ⟨rfl, rfl, rfl, rfl, rfl, fun h => h⟩

theorem parse_body_frame (r : HttpRequest) (data : Str) :
    BodyFrame r (r.parse_body data).state := by
  unfold HttpRequest.parse_body
  split
  · exact parse_chunked_body_frame r data
  · exact parse_normal_body_frame r data

theorem process_buffered_body_frame (r : HttpRequest) :
    BodyFrame r r.process_buffered_body.state := by
  unfold HttpRequest.process_buffered_body
  split
  · apply andThen_frame (parse_body_frame r _)
    intro x
    split
    · exact ⟨rfl, rfl, rfl, rfl, rfl, fun h => h⟩
    · exact BodyFrame.refl x
  · exact BodyFrame.refl r

theorem check_body_framing_frame (r : HttpRequest) :
    BodyFrame r r.check_body_framing.state := by
  unfold HttpRequest.check_body_framing
  simp only
  split
  · exact BodyFrame.refl r
  · split
    · exact set_complete_frame r
    · split
      · exact BodyFrame.refl r
      · split
        · exact set_complete_frame r
        · exact process_buffered_body_frame r

theorem parse_body_phase_frame (r : HttpRequest) : BodyFrame r r.parse_body_phase.state := by
  unfold HttpRequest.parse_body_phase
  split
  · split
    · exact set_complete_frame r
    · split
      · exact check_body_framing_frame r
      · split
        · exact set_complete_frame r
        · exact process_buffered_body_frame r
  · exact BodyFrame.refl r

/-! ## Two requests in one receive -/

theorem reset_eq (r : HttpRequest) :
    r.reset = { max_content_length_ := r.max_content_length_ } := rfl

theorem append_data_get_leaves_rest (r0 r : HttpRequest) (data : Str) (k : Nat)
    (h0c : r0.complete_ = false) (h0p : r0.headers_parsed_ = false)
    (h0b : r0.request_buffer_ = [])
    (hterm : find data (lit "\r\n\r\n") = some k)
    (hparse : r0.append_data data = Outcome.ok r) (hget : r.method_ = Method.GET) :
    r.complete_ = true ∧ r.headers_parsed_ = true ∧ r.request_buffer_ = data.drop (k + 4) := by
  unfold HttpRequest.append_data at hparse
  simp only [h0c, h0b, List.nil_append, Bool.false_eq_true, if_false] at hparse
  unfold HttpRequest.parse at hparse
  simp only [h0c, h0p, hterm, Bool.false_eq_true, if_false, Bool.not_false, if_true] at hparse
  split at hparse
  · cases hparse
  · split at hparse
    · cases hparse
    · rename_i j hj
      generalize hH : (((HttpRequest.parse_request_line _ _).andThen _).andThen _) = H at hparse
      cases H with
      | throw e s => simp [Outcome.andThen] at hparse
      | ok r3 =>
        simp only [Outcome.andThen] at hparse
        have hf := parse_body_phase_frame
          { r3 with headers_parsed_ := true, request_buffer_ := substr_from data (k + 4) }
        rw [hparse] at hf
        have hm : r3.method_ = Method.GET := by
          have := hf.1
          simp only [Outcome.state] at this
          rw [← this]; exact hget
        unfold HttpRequest.parse_body_phase at hparse
        simp only [hm, Bool.true_and, beq_self_eq_true, Bool.true_or, if_true] at hparse
        split at hparse
        · simp only [Outcome.ok.injEq] at hparse
          subst hparse
          exact ⟨rfl, rfl, rfl⟩
        · rename_i hcond
          simp only [Outcome.ok.injEq] at hparse
          subst hparse
          simp only [Bool.not_eq_true', Bool.not_eq_false] at hcond
          exact ⟨hcond, rfl, rfl⟩

theorem handle_http_error_request (w : World) (c : Connection) (e : HttpStatusCode) :
    (c.handle_http_error w e).current_request_ = c.current_request_ ∧
    (c.handle_http_error w e).request_count_ = c.request_count_ := by
  unfold Connection.handle_http_error
  simp only
  split
  · exact ⟨rfl, rfl⟩
  · split
    · split <;> exact ⟨rfl, rfl⟩
    · exact ⟨rfl, rfl⟩

theorem select_server_block_request (w : World) (c : Connection) :
    (c.select_server_block_for_request w).current_request_ = c.current_request_ ∧
    (c.select_server_block_for_request w).request_count_ = c.request_count_ := by
  unfold Connection.select_server_block_for_request
  simp only
  split
  · exact ⟨rfl, rfl⟩
  · split
    · split <;> exact ⟨rfl, rfl⟩
    · exact ⟨rfl, rfl⟩

theorem handle_http_request_request (w : World) (c : Connection) :
    (c.handle_http_request w).state.current_request_ = c.current_request_ ∧
    (c.handle_http_request w).state.request_count_ ≤ c.request_count_ + 1 := by
  have hs := select_server_block_request w c
  unfold Connection.handle_http_request
  simp only
  split
  · have he := handle_http_error_request w (c.select_server_block_for_request w)
      INTERNAL_SERVER_ERROR
    simp only [Outcome.state]
    exact ⟨he.1.trans hs.1, by rw [he.2, hs.2]; omega⟩
  · split
    · simp only [Outcome.state]
      exact ⟨hs.1, by rw [hs.2]; omega⟩
    · split
      · simp only [Outcome.state]
        exact ⟨hs.1, by rw [hs.2]; omega⟩
      · simp only [Outcome.state]
        exact ⟨hs.1, by rw [hs.2]⟩

set_option maxRecDepth 100000 in
/-- C5 (counterexample): the requests for `/a` and `/b` arrive in one receive.
One request is counted, the queued octets are the single response to `/a`, and
the octets of the request for `/b` sit unparsed in the request buffer. When
the request for `/c` arrives next, it is the second request handled: the
request for `/b` was never handled and its octets are gone. -/
theorem C5_pipelined_counterexample :
    (accepted_connection.receive_client_data empty_world
      (RecvResult.data (request_a ++ request_b))).request_count_ = 1 ∧
    (accepted_connection.receive_client_data empty_world
      (RecvResult.data (request_a ++ request_b))).current_request_.get_path = lit "/a" ∧
    (accepted_connection.receive_client_data empty_world
      (RecvResult.data (request_a ++ request_b))).response_buffer_ =
      ((build_default_error_response empty_world.date NOT_FOUND).set_header (lit "Connection")
        (lit "keep-alive")).build ∧
    (accepted_connection.receive_client_data empty_world
      (RecvResult.data (request_a ++ request_b))).current_request_.request_buffer_ = request_b ∧
    ((accepted_connection.receive_client_data empty_world
      (RecvResult.data (request_a ++ request_b))).receive_client_data empty_world
      (RecvResult.data request_c)).request_count_ = 2 ∧
    ((accepted_connection.receive_client_data empty_world
      (RecvResult.data (request_a ++ request_b))).receive_client_data empty_world
      (RecvResult.data request_c)).current_request_.get_path = lit "/c" ∧
    ((accepted_connection.receive_client_data empty_world
      (RecvResult.data (request_a ++ request_b))).receive_client_data empty_world
      (RecvResult.data request_c)).current_request_.request_buffer_ = [] := by
  decide

/-- C5 (amended): on an open connection with no request in progress, let the
octets of two requests arrive in one receive, the first ending with the first
empty line of the stream, and let the parser accept them as a GET request.
Then the parsed request is complete with the second request's octets left
unparsed in its buffer; the connection runs the handler once, on that request,
and counts at most one request; the second request's octets are still in the
buffer afterwards, and at the next receive, if the connection is still open
and the handler returned, they are discarded: the receive goes on exactly as
from a fresh request. -/
theorem C5_pipelined_first_only (w : World) (c : Connection) (req1 req2 : Str) (r : HttpRequest)
    (hopen : c.should_close_ = false) (hidle : c.request_in_progress_ = false)
    (hlen : 4 ≤ req1.length)
    (hterm : find (req1 ++ req2) (lit "\r\n\r\n") = some (req1.length - 4))
    (hparse : c.current_request_.reset.append_data (req1 ++ req2) = Outcome.ok r)
    (hget : r.method_ = Method.GET) :
    r.complete_ = true ∧ r.request_buffer_ = req2 ∧
    c.receive_client_data w (RecvResult.data (req1 ++ req2)) =
      (match Connection.handle_http_request w
          { c with current_request_ := r, request_in_progress_ := true } with
        | Outcome.throw e c3 => c3.handle_http_error w e
        | Outcome.ok c3 => { c3 with request_in_progress_ := false }) ∧
    (c.receive_client_data w (RecvResult.data (req1 ++ req2))).current_request_ = r ∧
    (c.receive_client_data w (RecvResult.data (req1 ++ req2))).request_count_ ≤
      c.request_count_ + 1 ∧
    ∀ d, (c.receive_client_data w (RecvResult.data (req1 ++ req2))).should_close_ = false →
      (c.receive_client_data w (RecvResult.data (req1 ++ req2))).request_in_progress_ = false →
      (c.receive_client_data w (RecvResult.data (req1 ++ req2))).receive_client_data w
          (RecvResult.data d) =
        Connection.receive_client_data w
          { c.receive_client_data w (RecvResult.data (req1 ++ req2)) with
            current_request_ := { max_content_length_ := r.max_content_length_ } }
          (RecvResult.data d) := by
  obtain ⟨hc, _, hb⟩ := append_data_get_leaves_rest c.current_request_.reset r (req1 ++ req2)
    (req1.length - 4) rfl rfl rfl hterm hparse hget
  have hdrop : (req1 ++ req2).drop (req1.length - 4 + 4) = req2 := by
    have : req1.length - 4 + 4 = req1.length := by omega
    rw [this]; simp
  rw [hdrop] at hb
  have hrecv : c.receive_client_data w (RecvResult.data (req1 ++ req2)) =
      (match Connection.handle_http_request w
          { c with current_request_ := r, request_in_progress_ := true } with
        | Outcome.throw e c3 => c3.handle_http_error w e
        | Outcome.ok c3 => { c3 with request_in_progress_ := false }) := by
    unfold Connection.receive_client_data
    simp only [hopen, hidle, Bool.false_eq_true, if_false, Bool.not_false, if_true, hparse, hc]
  have hreq := handle_http_request_request w
    { c with current_request_ := r, request_in_progress_ := true }
  have hcur : (c.receive_client_data w (RecvResult.data (req1 ++ req2))).current_request_ = r ∧
      (c.receive_client_data w (RecvResult.data (req1 ++ req2))).request_count_ ≤
        c.request_count_ + 1 := by
    rw [hrecv]
    cases hh : Connection.handle_http_request w
        { c with current_request_ := r, request_in_progress_ := true } with
    | throw e c3 =>
      rw [hh] at hreq
      simp only [Outcome.state] at hreq
      have he := handle_http_error_request w c3 e
      simp only
      exact ⟨he.1.trans hreq.1, by rw [he.2]; exact hreq.2⟩
    | ok c3 =>
      rw [hh] at hreq
      simp only [Outcome.state] at hreq
      exact hreq
  refine ⟨hc, hb, hrecv, hcur.1, hcur.2, ?_⟩
  intro d hsc hip
  generalize c.receive_client_data w (RecvResult.data (req1 ++ req2)) = c2 at hsc hip hcur
  unfold Connection.receive_client_data
  simp only [hsc, hip, Bool.false_eq_true, if_false, Bool.not_false, if_true, reset_eq, hcur.1]

/-- C5 (amended), at the requests for `/a` and `/b` on a connection just
accepted, over the empty file system. -/
theorem C5_pipelined_first_only_witness :
    (accepted_connection.receive_client_data empty_world
      (RecvResult.data (request_a ++ request_b))).current_request_.request_buffer_ = request_b ∧
    (accepted_connection.receive_client_data empty_world
      (RecvResult.data (request_a ++ request_b))).request_count_ ≤ 0 + 1 := by
  have h := C5_pipelined_first_only empty_world accepted_connection request_a request_b
    (accepted_connection.current_request_.reset.append_data (request_a ++ request_b)).state
    (by decide) (by decide) (by decide) (by decide) (by decide) (by decide)
  exact ⟨by rw [h.2.2.2.1]; exact h.2.1, h.2.2.2.2.1⟩

/-! ## The tokens of the request line -/

theorem dropWhile_append_of_all {p : Char → Bool} (w s : Str) (hw : ∀ c ∈ w, p c = true) :
    (w ++ s).dropWhile p = s.dropWhile p := by
  induction w with
  | nil => rfl
  | cons c cs ih =>
    have hc : p c = true := hw c (List.mem_cons_self _ _)
    simp only [List.cons_append, List.dropWhile_cons, hc, if_true]
    exact ih (fun x hx => hw x (List.mem_cons_of_mem _ hx))

theorem takeWhile_append_stop {p : Char → Bool} (t s : Str) (ht : ∀ c ∈ t, p c = true)
    (hs : s = [] ∨ ∃ c r, s = c :: r ∧ p c = false) : (t ++ s).takeWhile p = t := by
  induction t with
  | nil =>
    rcases hs with h | ⟨c, r, h, hc⟩
    · simp [h]
    · simp [h, List.takeWhile_cons, hc]
  | cons c cs ih =>
    have hc : p c = true := ht c (List.mem_cons_self _ _)
    simp only [List.cons_append, List.takeWhile_cons, hc, if_true]
    rw [ih (fun x hx => ht x (List.mem_cons_of_mem _ hx))]

theorem dropWhile_append_stop {p : Char → Bool} (t s : Str) (ht : ∀ c ∈ t, p c = true)
    (hs : s = [] ∨ ∃ c r, s = c :: r ∧ p c = false) : (t ++ s).dropWhile p = s := by
  rw [dropWhile_append_of_all t s ht]
  rcases hs with h | ⟨c, r, h, hc⟩
  · simp [h]
  · simp [h, List.dropWhile_cons, hc]

theorem read_token_none_iff (s : Str) : read_token s = none ↔ ∀ c ∈ s, isspace c = true := by
  unfold read_token
  simp only
  constructor
  · intro h
    split at h
    · rename_i he
      have : s.dropWhile isspace = [] := by simpa using he
      exact fun c hc => (List.dropWhile_eq_nil_iff.1 this) c hc
    · cases h
  · intro h
    have : s.dropWhile isspace = [] := List.dropWhile_eq_nil_iff.2 h
    simp [this]

theorem read_token_append (w t rest : Str) (hw : ∀ c ∈ w, isspace c = true) (ht : t ≠ [])
    (hns : ∀ c ∈ t, isspace c = false)
    (hrest : rest = [] ∨ ∃ c r, rest = c :: r ∧ isspace c = true) :
    read_token (w ++ (t ++ rest)) = some (t, rest) := by
  unfold read_token
  simp only
  rw [dropWhile_append_of_all w _ hw]
  have hhead : (t ++ rest).dropWhile isspace = t ++ rest := by
    cases t with
    | nil => exact absurd rfl ht
    | cons c cs =>
      have := hns c (List.mem_cons_self _ _)
      simp [List.dropWhile_cons, this]
  rw [hhead]
  have hne : (t ++ rest).isEmpty = false := by
    cases t with
    | nil => exact absurd rfl ht
    | cons c cs => rfl
  rw [hne]
  have hp : ∀ c ∈ t, (fun c => !isspace c) c = true := fun c hc => by simp [hns c hc]
  have hs : rest = [] ∨ ∃ c r, rest = c :: r ∧ (fun c => !isspace c) c = false := by
    rcases hrest with h | ⟨c, r, h, hc⟩
    · exact Or.inl h
    · exact Or.inr ⟨c, r, h, by simp [hc]⟩
  simp only [Bool.false_eq_true, if_false]
  rw [takeWhile_append_stop t rest hp hs, dropWhile_append_stop t rest hp hs]

theorem read_token_some (s t rest : Str) (h : read_token s = some (t, rest)) :
    ∃ w, s = w ++ (t ++ rest) ∧ (∀ c ∈ w, isspace c = true) ∧ t ≠ [] ∧
      (∀ c ∈ t, isspace c = false) ∧ (rest = [] ∨ ∃ c r, rest = c :: r ∧ isspace c = true) := by
  unfold read_token at h
  simp only at h
  split at h
  · cases h
  · rename_i hne
    simp only [Option.some.injEq, Prod.mk.injEq] at h
    obtain ⟨h1, h2⟩ := h
    refine ⟨s.takeWhile isspace, ?_, ?_, ?_, ?_, ?_⟩
    · rw [← h1, ← h2, List.takeWhile_append_dropWhile, List.takeWhile_append_dropWhile]
    · intro c hc; exact List.mem_takeWhile_imp hc
    · rw [← h1]
      intro he
      cases hd : s.dropWhile isspace with
      | nil => rw [hd] at hne; simp at hne
      | cons c r =>
        have hc : isspace c = false := by
          have := List.head_dropWhile_not isspace s (by rw [hd]; simp)
          simpa [hd] using this
        rw [hd] at he
        simp [List.takeWhile_cons, hc] at he
    · intro c hc
      rw [← h1] at hc
      have := List.mem_takeWhile_imp hc
      simpa using this
    · rw [← h2]
      cases hd : (s.dropWhile isspace).dropWhile (fun c => !isspace c) with
      | nil => exact Or.inl rfl
      | cons c r =>
        refine Or.inr ⟨c, r, rfl, ?_⟩
        have := List.head_dropWhile_not (fun c => !isspace c) (s.dropWhile isspace)
          (by rw [hd]; simp)
        simpa [hd] using this

theorem extract_ok_iff (line m u v : Str) :
    extract_request_line_components line = Except.ok (m, u, v) ↔ ThreeTokens line m u v := by
  constructor
  · intro h
    unfold extract_request_line_components at h
    split at h
    · cases h
    · rename_i m1 r1 h1
      split at h
      · cases h
      · rename_i u1 r2 h2
        split at h
        · cases h
        · rename_i v1 r3 h3
          split at h
          · cases h
          · rename_i h4
            simp only [Except.ok.injEq, Prod.mk.injEq] at h
            obtain ⟨rfl, rfl, rfl⟩ := h
            obtain ⟨w0, e1, hw0, hm, hmn, hr1⟩ := read_token_some _ _ _ h1
            obtain ⟨w1, e2, hw1, hu, hun, hr2⟩ := read_token_some _ _ _ h2
            obtain ⟨w2, e3, hw2, hv, hvn, hr3⟩ := read_token_some _ _ _ h3
            have hw3 := (read_token_none_iff _).1 h4
            refine ⟨w0, w1, w2, r3, ?_, hw0, hw1, hw2, hw3, ?_, ?_, hm, hu, hv, hmn, hun, hvn⟩
            · rw [e1, e2, e3]; simp [List.append_assoc]
            · intro he
              subst he
              rcases hr1 with hr | ⟨c, r, hr, hc⟩
              · rw [hr] at e2; simp at e2; exact hu e2.1
              · rw [hr] at e2
                cases m1' : u1 with
                | nil => exact hu m1'
                | cons x xs =>
                  rw [m1'] at e2 hun
                  simp only [List.nil_append, List.cons_append, List.cons.injEq] at e2
                  have := hun x (List.mem_cons_self _ _)
                  rw [← e2.1, hc] at this
                  cases this
            · intro he
              subst he
              rcases hr2 with hr | ⟨c, r, hr, hc⟩
              · rw [hr] at e3; simp at e3; exact hv e3.1
              · rw [hr] at e3
                cases m1' : v1 with
                | nil => exact hv m1'
                | cons x xs =>
                  rw [m1'] at e3 hvn
                  simp only [List.nil_append, List.cons_append, List.cons.injEq] at e3
                  have := hvn x (List.mem_cons_self _ _)
                  rw [← e3.1, hc] at this
                  cases this
  · rintro ⟨w0, w1, w2, w3, e, hw0, hw1, hw2, hw3, hn1, hn2, hm, hu, hv, hmn, hun, hvn⟩
    have hstart : ∀ (w r : Str), w ≠ [] → (∀ c ∈ w, isspace c = true) →
        (w ++ r = [] ∨ ∃ c t, w ++ r = c :: t ∧ isspace c = true) := by
      intro w r hne hws
      cases w with
      | nil => exact absurd rfl hne
      | cons c cs => exact Or.inr ⟨c, cs ++ r, rfl, hws c (List.mem_cons_self _ _)⟩
    have e1 : line = w0 ++ (m ++ (w1 ++ (u ++ (w2 ++ (v ++ w3))))) := by
      rw [e]; simp [List.append_assoc]
    have h1 := read_token_append w0 m (w1 ++ (u ++ (w2 ++ (v ++ w3)))) hw0 hm hmn
      (hstart w1 _ hn1 hw1)
    have h2 := read_token_append w1 u (w2 ++ (v ++ w3)) hw1 hu hun (hstart w2 _ hn2 hw2)
    have h3 := read_token_append w2 v w3 hw2 hv hvn (by
      cases w3 with
      | nil => exact Or.inl rfl
      | cons c cs => exact Or.inr ⟨c, cs, rfl, hw3 c (List.mem_cons_self _ _)⟩)
    have h4 := (read_token_none_iff w3).2 hw3
    unfold extract_request_line_components
    rw [e1, h1]
    simp only
    rw [h2]
    simp only
    rw [h3]
    simp only
    rw [h4]

theorem extract_error (line : Str) (e : HttpStatusCode)
    (h : extract_request_line_components line = Except.error e) : e = BAD_REQUEST := by
  unfold extract_request_line_components at h
  split at h
  · cases h; rfl
  · split at h
    · cases h; rfl
    · split at h
      · cases h; rfl
      · split at h
        · cases h; rfl
        · cases h

/-! ## The request line: tokens, method, version -/

theorem from_string_unknown_iff (s : Str) :
    from_string s = Method.UNKNOWN ↔ s ∉ standard_method_names := by
  unfold from_string standard_method_names
  simp only [List.mem_cons, List.mem_singleton, not_or, beq_iff_eq]
  constructor
  · intro h
    repeat' (split at h; · cases h)
    simp_all
  · intro h
    obtain ⟨h1, h2, h3, h4, h5, h6, h7, h8, h9, _⟩ := h
    simp [h1, h2, h3, h4, h5, h6, h7, h8, h9]

theorem process_target_method (r : HttpRequest) (u : Str) :
    (r.process_target u).state.method_ = r.method_ ∧
    (r.process_target u).state.http_version_ = r.http_version_ ∧
    (r.process_target u).state.header_count_ = r.header_count_ := by
  unfold HttpRequest.process_target
  split
  · exact ⟨rfl, rfl, rfl⟩
  · split
    · exact ⟨rfl, rfl, rfl⟩
    · simp only
      split <;> exact ⟨rfl, rfl, rfl⟩

theorem parse_request_line_of_tokens (r : HttpRequest) (line m u v : Str)
    (h : ThreeTokens line m u v) :
    r.parse_request_line line =
      ((r.validate_method m).andThen fun r1 =>
        (r1.validate_http_version v).andThen fun r2 => r2.process_target u) := by
  unfold HttpRequest.parse_request_line
  rw [(extract_ok_iff _ _ _ _).2 h]

theorem parse_request_line_not_tokens (r : HttpRequest) (line : Str)
    (h : ¬ ∃ m u v, ThreeTokens line m u v) :
    r.parse_request_line line = Outcome.throw BAD_REQUEST r := by
  unfold HttpRequest.parse_request_line
  cases he : extract_request_line_components line with
  | error e => rw [extract_error _ _ he]
  | ok t =>
    obtain ⟨m, u, v⟩ := t
    exact absurd ⟨m, u, v, (extract_ok_iff _ _ _ _).1 he⟩ h

/-- C9: a request line that does not consist of exactly three white-space
separated tokens fails with 400. For a line of three tokens `m`, `u`, `v`: the
method stored is looked up from `m` upper-cased (so `get` and `GET` both denote
GET); if the upper-cased `m` is not one of the nine standard method names,
parsing fails with 501; otherwise, if `v` is neither `HTTP/1.1` nor `HTTP/1.0`,
parsing fails with 505. -/
theorem C9_request_line_tokens_method_version (r : HttpRequest) (line : Str) :
    ((¬ ∃ m u v, ThreeTokens line m u v) →
      r.parse_request_line line = Outcome.throw BAD_REQUEST r) ∧
    (∀ m u v, ThreeTokens line m u v →
      (r.parse_request_line line).state.method_ = from_string (m.map toupper) ∧
      (m.map toupper ∉ standard_method_names →
        (r.parse_request_line line).error = some NOT_IMPLEMENTED) ∧
      (m.map toupper ∈ standard_method_names → v ≠ lit "HTTP/1.1" → v ≠ lit "HTTP/1.0" →
        (r.parse_request_line line).error = some HTTP_VERSION_NOT_SUPPORTED)) ∧
    from_string ((lit "get").map toupper) = Method.GET ∧
    from_string ((lit "GET").map toupper) = Method.GET := by
  refine ⟨parse_request_line_not_tokens r line, ?_, by decide, by decide⟩
  intro m u v h
  rw [parse_request_line_of_tokens r line m u v h]
  unfold HttpRequest.validate_method
  simp only
  by_cases hk : from_string (m.map toupper) = Method.UNKNOWN
  · have hn := (from_string_unknown_iff _).1 hk
    simp only [hk, beq_self_eq_true, if_true, Outcome.andThen, Outcome.state, Outcome.error, hn,
      not_false_eq_true, true_implies, false_implies, and_self]
  · have hn : m.map toupper ∈ standard_method_names := by
      by_contra hc
      exact hk ((from_string_unknown_iff _).2 hc)
    have hb : (from_string (m.map toupper) == Method.UNKNOWN) = false := by simpa using hk
    simp only [hb, Bool.false_eq_true, if_false, Outcome.andThen, hn, not_true_eq_false,
      false_implies, true_implies, true_and]
    unfold HttpRequest.validate_http_version
    by_cases hv : (v != lit "HTTP/1.1" && v != lit "HTTP/1.0") = true
    · simp only [hv, if_true, Outcome.state, Outcome.error, implies_true, and_self]
    · simp only [hv, if_false]
      have hpt := process_target_method
        { r with method_ := from_string (m.map toupper), http_version_ := v } u
      refine ⟨hpt.1, ?_⟩
      intro h1 h2
      simp [h1, h2] at hv

/-- C9, at the request lines `get / HTTP/2.0`, `BREW / HTTP/1.1` and
`GET /`. -/
theorem C9_request_line_tokens_method_version_witness :
    (HttpRequest.parse_request_line {} (lit "get / HTTP/2.0")).error =
      some HTTP_VERSION_NOT_SUPPORTED ∧
    (HttpRequest.parse_request_line {} (lit "BREW / HTTP/1.1")).error = some NOT_IMPLEMENTED ∧
    HttpRequest.parse_request_line {} (lit "GET /") = Outcome.throw BAD_REQUEST {} := by
  refine ⟨?_, ?_, ?_⟩
  · exact ((C9_request_line_tokens_method_version {} (lit "get / HTTP/2.0")).2.1
      (lit "get") (lit "/") (lit "HTTP/2.0")
      ⟨[], lit " ", lit " ", [], by decide, by decide, by decide, by decide, by decide, by decide,
        by decide, by decide, by decide, by decide, by decide, by decide, by decide⟩).2.2
      (by decide) (by decide) (by decide)
  · exact ((C9_request_line_tokens_method_version {} (lit "BREW / HTTP/1.1")).2.1
      (lit "BREW") (lit "/") (lit "HTTP/1.1")
      ⟨[], lit " ", lit " ", [], by decide, by decide, by decide, by decide, by decide, by decide,
        by decide, by decide, by decide, by decide, by decide, by decide, by decide⟩).2.1
      (by decide)
  · apply (C9_request_line_tokens_method_version {} (lit "GET /")).1
    rintro ⟨m, u, v, h⟩
    have := (extract_ok_iff _ _ _ _).2 h
    revert this
    have : extract_request_line_components (lit "GET /") = Except.error BAD_REQUEST := by decide
    rw [this]
    intro h2
    cases h2

/-! ## The request target -/

theorem is_forbidden_literal_iff (c : Char) :
    is_forbidden_literal c = true ↔ c ∈ forbidden_literals := by
  unfold is_forbidden_literal forbidden_literals
  simp only [Bool.or_eq_true, beq_iff_eq, List.mem_cons, List.mem_singleton, List.mem_nil_iff,
    or_false, or_assoc]

theorem isxdigit_props (c : Char) (h : isxdigit c = true) :
    32 ≤ c.toNat ∧ c.toNat ≤ 126 ∧ c ∉ forbidden_literals ∧ c ≠ '%' := by
  have hr : (48 ≤ c.toNat ∧ c.toNat ≤ 57) ∨ (97 ≤ c.toNat ∧ c.toNat ≤ 102) ∨
      (65 ≤ c.toNat ∧ c.toNat ≤ 70) := by
    unfold isxdigit isdigit at h
    simp only [Bool.or_eq_true, Bool.and_eq_true, decide_eq_true_eq] at h
    have e0 : '0'.toNat = 48 := by decide
    have e9 : '9'.toNat = 57 := by decide
    have ea : 'a'.toNat = 97 := by decide
    have ef : 'f'.toNat = 102 := by decide
    have eA : 'A'.toNat = 65 := by decide
    have eF : 'F'.toNat = 70 := by decide
    rw [e0, e9, ea, ef, eA, eF] at h
    rcases h with (h | h) | h
    · exact Or.inl h
    · exact Or.inr (Or.inl h)
    · exact Or.inr (Or.inr h)
  refine ⟨by omega, by omega, ?_, ?_⟩
  · unfold forbidden_literals
    simp only [List.mem_cons, List.mem_singleton, List.mem_nil_iff, or_false, not_or]
    refine ⟨?_, ?_, ?_, ?_, ?_, ?_, ?_, ?_, ?_, ?_, ?_, ?_⟩ <;>
      (rintro rfl; revert hr; decide)
  · rintro rfl; revert hr; decide

theorem good_target_nil : GoodTarget [] := by
  refine ⟨by simp, ?_⟩
  intro pre post h
  simp at h

theorem good_target_cons_plain (c : Char) (rest : Str) (hc : c ≠ '%') :
    GoodTarget (c :: rest) ↔
      (32 ≤ c.toNat ∧ c.toNat ≤ 126 ∧ c ∉ forbidden_literals) ∧ GoodTarget rest := by
  constructor
  · rintro ⟨h1, h2⟩
    refine ⟨h1 c (List.mem_cons_self _ _), fun x hx => h1 x (List.mem_cons_of_mem _ hx), ?_⟩
    intro pre post e
    exact h2 (c :: pre) post (by rw [e]; rfl)
  · rintro ⟨hc1, h1, h2⟩
    refine ⟨?_, ?_⟩
    · intro x hx
      rcases List.mem_cons.1 hx with rfl | hx
      · exact hc1
      · exact h1 x hx
    · intro pre post e
      cases pre with
      | nil =>
        simp only [List.nil_append, List.cons.injEq] at e
        exact absurd e.1 hc
      | cons p ps =>
        simp only [List.cons_append, List.cons.injEq] at e
        exact h2 ps post e.2

theorem good_target_cons_percent (rest : Str) :
    GoodTarget ('%' :: rest) ↔
      ∃ h1 h2 t, rest = h1 :: h2 :: t ∧ isxdigit h1 = true ∧ isxdigit h2 = true ∧
        ¬ (h1 = '0' ∧ h2 = '0') ∧ GoodTarget t := by
  constructor
  · rintro ⟨g1, g2⟩
    obtain ⟨h1, h2, t, e, x1, x2, hz⟩ := g2 [] rest rfl
    refine ⟨h1, h2, t, e, x1, x2, hz, ?_, ?_⟩
    · intro x hx
      apply g1 x
      rw [e]
      exact List.mem_cons_of_mem _ (List.mem_cons_of_mem _ (List.mem_cons_of_mem _ hx))
    · intro pre post e2
      exact g2 ('%' :: h1 :: h2 :: pre) post (by rw [e, e2]; rfl)
  · rintro ⟨h1, h2, t, e, x1, x2, hz, g1, g2⟩
    have p1 := isxdigit_props h1 x1
    have p2 := isxdigit_props h2 x2
    subst e
    refine ⟨?_, ?_⟩
    · intro x hx
      rcases List.mem_cons.1 hx with rfl | hx
      · exact ⟨by decide, by decide, by decide⟩
      · rcases List.mem_cons.1 hx with rfl | hx
        · exact ⟨p1.1, p1.2.1, p1.2.2.1⟩
        · rcases List.mem_cons.1 hx with rfl | hx
          · exact ⟨p2.1, p2.2.1, p2.2.2.1⟩
          · exact g1 x hx
    · intro pre post e
      cases pre with
      | nil =>
        simp only [List.nil_append, List.cons.injEq, true_and] at e
        exact ⟨h1, h2, t, e.symm, x1, x2, hz⟩
      | cons p ps =>
        simp only [List.cons_append, List.cons.injEq] at e
        obtain ⟨_, e⟩ := e
        cases ps with
        | nil =>
          simp only [List.nil_append, List.cons.injEq] at e
          exact absurd e.1 p1.2.2.2
        | cons q qs =>
          simp only [List.cons_append, List.cons.injEq] at e
          obtain ⟨_, e⟩ := e
          cases qs with
          | nil =>
            simp only [List.nil_append, List.cons.injEq] at e
            exact absurd e.1 p2.2.2.2
          | cons s ss =>
            simp only [List.cons_append, List.cons.injEq] at e
            exact g2 ss post e.2

theorem validate_uri_characters_iff_aux (n : Nat) :
    ∀ u : Str, u.length ≤ n → (validate_uri_characters u = true ↔ GoodTarget u) := by
  induction n with
  | zero =>
    intro u hu
    have : u = [] := List.length_eq_zero.1 (by omega)
    subst this
    simp [validate_uri_characters, good_target_nil]
  | succ n ih =>
    intro u hu
    cases u with
    | nil => simp [validate_uri_characters, good_target_nil]
    | cons c rest =>
      simp only [List.length_cons] at hu
      by_cases hp : c = '%'
      · subst hp
        rw [good_target_cons_percent]
        cases rest with
        | nil => simp [validate_uri_characters]
        | cons h1 r1 =>
          cases r1 with
          | nil => simp [validate_uri_characters]
          | cons h2 t =>
            simp only [List.length_cons] at hu
            have iht := ih t (by omega)
            have hpr : ¬ (('%' : Char).toNat < 32 ∨ ('%' : Char).toNat > 126) := by decide
            simp only [validate_uri_characters, Bool.or_eq_true, decide_eq_true_eq, hpr, if_false,
              beq_self_eq_true, if_true]
            constructor
            · intro h
              split at h
              · cases h
              · rename_i hx
                split at h
                · cases h
                · rename_i hz
                  simp only [Bool.or_eq_true, Bool.not_eq_true', not_or, Bool.not_eq_false] at hx
                  simp only [Bool.and_eq_true, beq_iff_eq] at hz
                  exact ⟨h1, h2, t, rfl, hx.1, hx.2, hz, iht.1 h⟩
            · rintro ⟨a, b, t2, e, x1, x2, hz, g⟩
              simp only [List.cons.injEq] at e
              obtain ⟨rfl, rfl, rfl⟩ := e
              have hx : ¬ ((!isxdigit h1) = true ∨ (!isxdigit h2) = true) := by simp [x1, x2]
              have hz2 : ¬ ((h1 == '0' && h2 == '0') = true) := by
                simpa [Bool.and_eq_true, beq_iff_eq] using hz
              rw [if_neg hx, if_neg hz2]
              exact iht.2 g
      · rw [good_target_cons_plain c rest hp]
        have ihr := ih rest (by omega)
        have hb : (c == '%') = false := by simpa using hp
        have hunf : validate_uri_characters (c :: rest) =
            if (decide (c.toNat < 32) || decide (c.toNat > 126)) = true then false
            else if is_forbidden_literal c = true then false
            else validate_uri_characters rest := by
          rw [validate_uri_characters.eq_def]
          simp only [hb, Bool.false_eq_true, if_false]
        rw [hunf]
        constructor
        · intro h
          split at h
          · cases h
          · rename_i hr
            split at h
            · cases h
            · rename_i hf
              simp only [Bool.or_eq_true, decide_eq_true_eq, not_or, not_lt] at hr
              try simp only [not_or, not_lt] at hr
              refine ⟨⟨hr.1, by omega, ?_⟩, ihr.1 h⟩
              intro hm
              exact hf ((is_forbidden_literal_iff c).2 hm)
        · rintro ⟨⟨a, b, hf⟩, g⟩
          have hr : ¬ ((decide (c.toNat < 32) || decide (c.toNat > 126)) = true) := by
            simp only [Bool.or_eq_true, decide_eq_true_eq, not_or, not_lt]
            exact ⟨a, by omega⟩
          have hf2 : ¬ (is_forbidden_literal c = true) :=
            fun h => hf ((is_forbidden_literal_iff c).1 h)
          rw [if_neg hr, if_neg hf2]
          exact ihr.2 g

theorem validate_uri_characters_iff (u : Str) : validate_uri_characters u = true ↔ GoodTarget u :=
  validate_uri_characters_iff_aux u.length u (le_refl _)

theorem validate_uri_eq_characters (u : Str) : validate_uri u = validate_uri_characters u := by
  unfold validate_uri
  by_cases h : validate_uri_characters u = true
  · have hg := (validate_uri_characters_iff u).1 h
    have hns : contains u (lit ":// ") = false := by
      rw [Bool.eq_false_iff]
      intro hc
      obtain ⟨a, b, e⟩ := (contains_iff _ _).1 hc
      have hm : ' ' ∈ u := by
        rw [← e]
        have : ' ' ∈ lit ":// " := by decide
        simp [this]
      exact (hg.1 ' ' hm).2.2 (by decide)
    simp [h, hns]
  · simp [h]

theorem not_good_target_iff (u : Str) :
    ¬ GoodTarget u ↔
      ((∃ c ∈ u, c.toNat < 32 ∨ 126 < c.toNat) ∨ (∃ c ∈ u, c ∈ forbidden_literals) ∨
       (∃ pre post, u = pre ++ '%' :: post ∧
          ¬ ∃ h1 h2 t, post = h1 :: h2 :: t ∧ isxdigit h1 = true ∧ isxdigit h2 = true) ∨
       lit "%00" <:+: u) := by
  have hlit : lit "%00" = ['%', '0', '0'] := by decide
  constructor
  · intro hng
    by_contra hbad
    simp only [not_or] at hbad
    obtain ⟨b1, b2, b3, b4⟩ := hbad
    apply hng
    refine ⟨?_, ?_⟩
    · intro c hc
      refine ⟨?_, ?_, ?_⟩
      · by_contra hlt
        exact b1 ⟨c, hc, Or.inl (by omega)⟩
      · by_contra hgt
        exact b1 ⟨c, hc, Or.inr (by omega)⟩
      · intro hf
        exact b2 ⟨c, hc, hf⟩
    · intro pre post e
      by_contra hno
      apply b3
      refine ⟨pre, post, e, ?_⟩
      rintro ⟨h1, h2, t, ep, x1, x2⟩
      by_cases hz : h1 = '0' ∧ h2 = '0'
      · apply b4
        rw [hlit, e, ep, hz.1, hz.2]
        exact ⟨pre, t, by simp⟩
      · exact hno ⟨h1, h2, t, ep, x1, x2, hz⟩
  · rintro (⟨c, hc, hr⟩ | ⟨c, hc, hf⟩ | ⟨pre, post, e, hno⟩ | hinf) hg
    · have := hg.1 c hc
      omega
    · exact (hg.1 c hc).2.2 hf
    · obtain ⟨h1, h2, t, ep, x1, x2, _⟩ := hg.2 pre post e
      exact hno ⟨h1, h2, t, ep, x1, x2⟩
    · rw [hlit] at hinf
      obtain ⟨a, b, e⟩ := hinf
      obtain ⟨h1, h2, t, ep, _, _, hz⟩ := hg.2 a ('0' :: '0' :: b) (by rw [← e]; simp)
      simp only [List.cons.injEq] at ep
      exact hz ⟨ep.1.symm, ep.2.1.symm⟩

/-- C7: for a request line of three tokens with a recognised method, a
supported version and the target `u`: parsing fails with 414 when `u` is longer
than 2048 octets; it fails with 400 when `u` has at most 2048 octets and
contains an octet outside printable ASCII, a space or one of the literals
`< > " { } | \ ^ [ ]` and the backquote, a `%` that is not followed by two
hexadecimal digits, or the triplet `%00`; and it succeeds in every other
case. -/
theorem C7_request_target_validation (r : HttpRequest) (line m u v : Str)
    (h : ThreeTokens line m u v) (hm : m.map toupper ∈ standard_method_names)
    (hv : v = lit "HTTP/1.1" ∨ v = lit "HTTP/1.0") :
    (MAX_URI_LENGTH < u.length → (r.parse_request_line line).error = some URI_TOO_LONG) ∧
    (u.length ≤ MAX_URI_LENGTH →
      ((∃ c ∈ u, c.toNat < 32 ∨ 126 < c.toNat) ∨ (∃ c ∈ u, c ∈ forbidden_literals) ∨
       (∃ pre post, u = pre ++ '%' :: post ∧
          ¬ ∃ h1 h2 t, post = h1 :: h2 :: t ∧ isxdigit h1 = true ∧ isxdigit h2 = true) ∨
       lit "%00" <:+: u) →
      (r.parse_request_line line).error = some BAD_REQUEST) ∧
    (u.length ≤ MAX_URI_LENGTH →
      ¬ ((∃ c ∈ u, c.toNat < 32 ∨ 126 < c.toNat) ∨ (∃ c ∈ u, c ∈ forbidden_literals) ∨
       (∃ pre post, u = pre ++ '%' :: post ∧
          ¬ ∃ h1 h2 t, post = h1 :: h2 :: t ∧ isxdigit h1 = true ∧ isxdigit h2 = true) ∨
       lit "%00" <:+: u) →
      (r.parse_request_line line).error = none) := by
  have hune : u ≠ [] := by
    obtain ⟨_, _, _, _, _, _, _, _, _, _, _, _, hu, _⟩ := h
    exact hu
  have hk : (from_string (m.map toupper) == Method.UNKNOWN) = false := by
    rw [beq_eq_false_iff_ne]
    intro hc
    exact (from_string_unknown_iff _).1 hc hm
  have hvb : (v != lit "HTTP/1.1" && v != lit "HTTP/1.0") = false := by
    rcases hv with rfl | rfl <;> decide
  have hrw : r.parse_request_line line =
      HttpRequest.process_target
        { r with method_ := from_string (m.map toupper), http_version_ := v } u := by
    rw [parse_request_line_of_tokens r line m u v h]
    unfold HttpRequest.validate_method HttpRequest.validate_http_version
    simp only [hk, hvb, Bool.false_eq_true, if_false, Outcome.andThen]
  rw [hrw]
  have hempty : u.isEmpty = false := by
    cases u with
    | nil => exact absurd rfl hune
    | cons c cs => rfl
  unfold HttpRequest.process_target validate_uri_size
  simp only [hempty, Bool.false_eq_true, if_false]
  rw [validate_uri_eq_characters]
  refine ⟨?_, ?_, ?_⟩
  · intro hlong
    simp [hlong, Outcome.error]
  · intro hshort hbad
    have hng := (not_good_target_iff u).2 hbad
    have hvc : validate_uri_characters u = false := by
      rw [Bool.eq_false_iff]
      exact fun hc => hng ((validate_uri_characters_iff u).1 hc)
    have hnl : ¬ (u.length > MAX_URI_LENGTH) := by omega
    simp [hnl, hvc, Outcome.error]
  · intro hshort hgood
    have hg : GoodTarget u := by
      by_contra hc
      exact hgood ((not_good_target_iff u).1 hc)
    have hvc : validate_uri_characters u = true := (validate_uri_characters_iff u).2 hg
    have hnl : ¬ (u.length > MAX_URI_LENGTH) := by omega
    simp only [hnl, if_false, Bool.not_true, Bool.false_eq_true, hvc]
    split <;> rfl

/-- C7, at the request line `GET /a%00b HTTP/1.1`: the target holds the triplet
`%00` and parsing fails with 400. -/
theorem C7_request_target_validation_witness :
    (HttpRequest.parse_request_line {} (lit "GET /a%00b HTTP/1.1")).error = some BAD_REQUEST :=
  (C7_request_target_validation {} (lit "GET /a%00b HTTP/1.1") (lit "GET") (lit "/a%00b")
    (lit "HTTP/1.1")
    ⟨[], lit " ", lit " ", [], by decide, by decide, by decide, by decide, by decide, by decide,
      by decide, by decide, by decide, by decide, by decide, by decide, by decide⟩
    (by decide) (Or.inl rfl)).2.1 (by decide)
    (Or.inr (Or.inr (Or.inr ⟨lit "/a", lit "b", by decide⟩)))

/-! ## Header field lines -/

theorem token_char_not_colon (c : Char) (h : is_token_char c = true) :
    c ≠ ':' ∧ c ≠ ' ' ∧ c ≠ '\t' ∧ c ≠ '\r' ∧ c ≠ '\n' := by
  refine ⟨?_, ?_, ?_, ?_, ?_⟩ <;> (rintro rfl; revert h; decide)

theorem get?_append_last (name rest : Str) (hne : name ≠ []) :
    ∃ c ∈ name, (name ++ rest).get? (name.length - 1) = some c := by
  have hlt : name.length - 1 < name.length := by
    have : 0 < name.length := List.length_pos.2 hne
    omega
  refine ⟨name[name.length - 1], List.getElem_mem _, ?_⟩
  rw [List.get?_eq_getElem?, List.getElem?_append_left hlt, List.getElem?_eq_getElem hlt]

theorem parse_header_line_wf (f : Str × Str) (hwf : WellFormedField f) :
    parse_header_line (field_line f) =
      if (trim f.2).length > MAX_HEADER_SIZE then Except.error REQUEST_HEADER_FIELDS_TOO_LARGE
      else Except.ok (f.1, trim f.2) := by
  obtain ⟨name, raw⟩ := f
  obtain ⟨hne, htok, hhead, hval⟩ := hwf
  simp only at hne htok hhead hval
  have hnc : ∀ c ∈ name, (fun d => d != ':') c = true := by
    intro c hc
    simpa using (token_char_not_colon c (htok c hc)).1
  have htw : (name ++ ':' :: raw).takeWhile (fun d => d != ':') = name :=
    takeWhile_append_stop name (':' :: raw) hnc (Or.inr ⟨':', raw, rfl, by simp⟩)
  have hfind : find_char (name ++ ':' :: raw) ':' = some name.length := by
    unfold find_char
    rw [find_char_at_eq, htw]
    simp
  have hws : has_whitespace_before_colon (name ++ ':' :: raw) name.length = false := by
    unfold has_whitespace_before_colon
    have hpos : 0 < name.length := List.length_pos.2 hne
    obtain ⟨c, hc, hget⟩ := get?_append_last name (':' :: raw) hne
    have ht := token_char_not_colon c (htok c hc)
    simp only [hpos, gt_iff_lt, if_true, hget]
    simp [ht.2.1, ht.2.2.1]
  have hget1 : (name ++ ':' :: raw).get? (name.length + 1) = raw.head? := by
    rw [List.get?_eq_getElem?, List.getElem?_append_right (by omega)]
    have : name.length + 1 - name.length = 1 := by omega
    rw [this]
    cases raw <;> simp
  have htake : (name ++ ':' :: raw).take name.length = name := by simp
  have hany : name.any (fun c => c == ':') = false := by
    rw [Bool.eq_false_iff]
    intro h
    rw [List.any_eq_true] at h
    obtain ⟨c, hc, he⟩ := h
    simp only [beq_iff_eq] at he
    exact (token_char_not_colon c (htok c hc)).1 he
  have hmal : is_malformed_header_line (name ++ ':' :: raw) name.length = false := by
    unfold is_malformed_header_line
    rw [hws, hget1, htake, hany]
    have : (raw.head? == some ':') = false := by
      rw [beq_eq_false_iff_ne]; exact hhead
    simp [this]
  have hsub1 : substr (name ++ ':' :: raw) 0 name.length = name := by
    simp [substr]
  have hsub2 : substr_from (name ++ ':' :: raw) (name.length + 1) = raw := by
    simp [substr_from]
  have hname : validate_header_name name = none := by
    unfold validate_header_name
    have h1 : name.isEmpty = false := by
      cases name with
      | nil => exact absurd rfl hne
      | cons c cs => rfl
    have h2 : name.all is_token_char = true := by
      rw [List.all_eq_true]; exact htok
    simp [h1, h2]
  have hvalue : validate_header_value (trim raw) =
      if (trim raw).length > MAX_HEADER_SIZE then some REQUEST_HEADER_FIELDS_TOO_LARGE
      else none := by
    unfold validate_header_value
    have h2 : (trim raw).any
        (fun c => (decide (c.toNat < 0x20) && c.toNat != 0x09) || c.toNat == 0x7F) = false := by
      rw [Bool.eq_false_iff]
      intro h
      rw [List.any_eq_true] at h
      obtain ⟨c, hc, he⟩ := h
      apply hval c hc
      simp only [Bool.or_eq_true, Bool.and_eq_true, decide_eq_true_eq, bne_iff_ne, ne_eq,
        beq_iff_eq] at he
      exact he
    simp [h2]
  unfold parse_header_line field_line
  simp only [hfind, hmal, Bool.false_eq_true, if_false, hsub1, hsub2, hname, hvalue]
  by_cases hl : (trim raw).length > MAX_HEADER_SIZE
  · simp only [hl, if_true]
  · simp only [hl, if_false]

theorem store_header_count (r : HttpRequest) (n v : Str) :
    (r.header_count_ ≥ MAX_HEADERS →
      r.store_header n v = Outcome.throw REQUEST_HEADER_FIELDS_TOO_LARGE r) ∧
    (r.header_count_ < MAX_HEADERS →
      ∃ r1, r.store_header n v = Outcome.ok r1 ∧ r1.header_count_ = r.header_count_ + 1) := by
  unfold HttpRequest.store_header
  constructor
  · intro h
    simp [h]
  · intro h
    have : ¬ (r.header_count_ ≥ MAX_HEADERS) := by omega
    simp only [this, if_false]
    split <;> exact ⟨_, rfl, rfl⟩

theorem field_line_props (f : Str × Str) (hwf : WellFormedField f) :
    (field_line f).isEmpty = false ∧ is_header_continuation (field_line f) = false := by
  obtain ⟨name, raw⟩ := f
  obtain ⟨hne, htok, _, _⟩ := hwf
  simp only at hne htok
  cases name with
  | nil => exact absurd rfl hne
  | cons c cs =>
    have ht := token_char_not_colon c (htok c (List.mem_cons_self _ _))
    refine ⟨rfl, ?_⟩
    unfold is_header_continuation field_line
    simp [ht.2.1, ht.2.2.1]

/-- The lines that `parse_header_lines` sees are the field lines, each possibly
followed by a carriage return that `remove_carriage_return` takes off. -/
theorem parse_header_lines_fields (fields : List (Str × Str)) (raws : List Str)
    (hraw : List.Forall₂ (fun f raw => remove_carriage_return raw = field_line f) fields raws)
    (hwf : ∀ f ∈ fields, WellFormedField f) (r : HttpRequest) (n v : Str) (p : Nat)
    (hp : p = if n.isEmpty then 0 else 1)
    (hcount : r.header_count_ ≤ MAX_HEADERS) :
    (HttpRequest.parse_header_lines raws r n v).error =
      if (∃ f ∈ fields, (trim f.2).length > MAX_HEADER_SIZE) ∨
          r.header_count_ + p + fields.length > MAX_HEADERS
      then some REQUEST_HEADER_FIELDS_TOO_LARGE else none := by
  induction hraw generalizing r n v p with
  | nil =>
    have hex : ¬ ∃ f ∈ ([] : List (Str × Str)), (trim f.2).length > MAX_HEADER_SIZE := by simp
    simp only [HttpRequest.parse_header_lines, HttpRequest.store_pending_header]
    cases hn : n.isEmpty with
    | true =>
      rw [hn] at hp
      simp only [if_true] at hp
      subst hp
      have hL : (if (!true) = true then r.store_header n v else Outcome.ok r) = Outcome.ok r := by
        simp
      rw [hL]
      symm
      apply if_neg
      rintro (h | h)
      · exact hex h
      · simp only [List.length_nil] at h; omega
    | false =>
      rw [hn] at hp
      simp only [Bool.false_eq_true, if_false] at hp
      subst hp
      have hL : (if (!false) = true then r.store_header n v else Outcome.ok r) =
          r.store_header n v := by simp
      rw [hL]
      by_cases hc : r.header_count_ ≥ MAX_HEADERS
      · rw [(store_header_count r n v).1 hc]
        symm
        apply if_pos
        exact Or.inr (by simp only [List.length_nil]; omega)
      · obtain ⟨r1, h1, _⟩ := (store_header_count r n v).2 (by omega)
        rw [h1]
        symm
        apply if_neg
        rintro (h | h)
        · exact hex h
        · simp only [List.length_nil] at h; omega
  | @cons f raw fs raws hfr _ ih =>
    have hwf1 := hwf f (List.mem_cons_self _ _)
    have hwfs : ∀ g ∈ fs, WellFormedField g := fun g hg => hwf g (List.mem_cons_of_mem _ hg)
    obtain ⟨hne, hnc⟩ := field_line_props f hwf1
    simp only [HttpRequest.parse_header_lines, hfr, hne, hnc, Bool.false_eq_true, if_false]
    have hf1 : f.1.isEmpty = false := by
      cases hf : f.1 with
      | nil => exact absurd hf hwf1.1
      | cons c cs => rfl
    have hstep : ∀ r1 : HttpRequest, r1.header_count_ ≤ MAX_HEADERS →
        (match parse_header_line (field_line f) with
          | Except.error e => Outcome.throw e r1
          | Except.ok (n, v) => HttpRequest.parse_header_lines raws r1 n v).error =
        if (∃ g ∈ f :: fs, (trim g.2).length > MAX_HEADER_SIZE) ∨
            r1.header_count_ + 1 + fs.length > MAX_HEADERS
        then some REQUEST_HEADER_FIELDS_TOO_LARGE else none := by
      intro r1 hr1
      rw [parse_header_line_wf f hwf1]
      by_cases hlong : (trim f.2).length > MAX_HEADER_SIZE
      · rw [if_pos hlong]
        symm
        apply if_pos
        exact Or.inl ⟨f, List.mem_cons_self _ _, hlong⟩
      · rw [if_neg hlong]
        simp only
        rw [ih hwfs r1 f.1 (trim f.2) 1 (by rw [hf1]; rfl) hr1]
        apply if_congr _ rfl rfl
        constructor
        · rintro (⟨g, hg, hl⟩ | h)
          · exact Or.inl ⟨g, List.mem_cons_of_mem _ hg, hl⟩
          · exact Or.inr h
        · rintro (⟨g, hg, hl⟩ | h)
          · rcases List.mem_cons.1 hg with rfl | hg
            · exact absurd hl hlong
            · exact Or.inl ⟨g, hg, hl⟩
          · exact Or.inr h
    unfold HttpRequest.store_pending_header
    cases hn : n.isEmpty with
    | true =>
      rw [hn] at hp
      simp only [if_true] at hp
      subst hp
      have hL : (if (!true) = true then r.store_header n v else Outcome.ok r) = Outcome.ok r := by
        simp
      rw [hL]
      simp only
      rw [hstep r hcount]
      apply if_congr _ rfl rfl
      simp only [List.length_cons]
      constructor
      · rintro (h | h)
        · exact Or.inl h
        · exact Or.inr (by omega)
      · rintro (h | h)
        · exact Or.inl h
        · exact Or.inr (by omega)
    | false =>
      rw [hn] at hp
      simp only [Bool.false_eq_true, if_false] at hp
      subst hp
      have hL : (if (!false) = true then r.store_header n v else Outcome.ok r) =
          r.store_header n v := by simp
      rw [hL]
      by_cases hc : r.header_count_ ≥ MAX_HEADERS
      · rw [(store_header_count r n v).1 hc]
        symm
        apply if_pos
        exact Or.inr (by simp only [List.length_cons]; omega)
      · obtain ⟨r1, h1, h2⟩ := (store_header_count r n v).2 (by omega)
        rw [h1]
        simp only
        rw [hstep r1 (by omega), h2]
        apply if_congr _ rfl rfl
        simp only [List.length_cons]
        constructor
        · rintro (h | h)
          · exact Or.inl h
          · exact Or.inr (by omega)
        · rintro (h | h)
          · exact Or.inl h
          · exact Or.inr (by omega)

/-! ## The header block of a request, as `parse` cuts it -/

theorem lit_crlf : lit "\r\n" = ['\r', '\n'] := by decide

theorem lit_crlfcrlf : lit "\r\n\r\n" = ['\r', '\n', '\r', '\n'] := by decide

theorem getline_split_append (d : Char) (a rest : Str) (ha : d ∉ a) :
    getline_split d (a ++ d :: rest) = a :: getline_split d rest := by
  induction a with
  | nil => simp [getline_split]
  | cons c cs ih =>
    simp only [List.mem_cons, not_or] at ha
    have hc : (c == d) = false := by
      rw [beq_eq_false_iff_ne]; exact fun e => ha.1 e.symm
    have h := ih ha.2
    simp only [List.cons_append, getline_split, hc, Bool.false_eq_true, if_false]
    rw [show cs.append (d :: rest) = cs ++ d :: rest from rfl, h]

theorem getline_split_single (d : Char) (a : Str) (ha : d ∉ a) (hne : a ≠ []) :
    getline_split d a = [a] := by
  induction a with
  | nil => exact absurd rfl hne
  | cons c cs ih =>
    simp only [List.mem_cons, not_or] at ha
    have hc : (c == d) = false := by
      rw [beq_eq_false_iff_ne]; exact fun e => ha.1 e.symm
    cases cs with
    | nil => simp [getline_split, hc]
    | cons c2 cs2 =>
      have := ih ha.2 (by simp)
      simp only [getline_split, hc, Bool.false_eq_true, if_false] at this ⊢
      rw [this]

theorem intercalate_cons_cons (sep l l2 : Str) (ls : List Str) :
    sep.intercalate (l :: l2 :: ls) = l ++ sep ++ sep.intercalate (l2 :: ls) := by
  simp [List.intercalate, List.intersperse]

theorem intercalate_singleton (sep l : Str) : sep.intercalate [l] = l := by
  simp [List.intercalate, List.intersperse]

theorem remove_carriage_return_append (l : Str) : remove_carriage_return (l ++ ['\r']) = l := by
  unfold remove_carriage_return
  simp

theorem remove_carriage_return_id (l : Str) (h : l.getLast? ≠ some '\r') :
    remove_carriage_return l = l := by
  unfold remove_carriage_return
  simp [h]

theorem getline_split_block (L : List Str)
    (hL : ∀ l ∈ L, l ≠ [] ∧ '\n' ∉ l ∧ l.getLast? ≠ some '\r') :
    List.Forall₂ (fun l raw => remove_carriage_return raw = l) L
      (getline_split '\n' ((lit "\r\n").intercalate L)) := by
  induction L with
  | nil => simp [List.intercalate, getline_split]
  | cons l ls ih =>
    obtain ⟨h1, h2, h3⟩ := hL l (List.mem_cons_self _ _)
    cases ls with
    | nil =>
      rw [intercalate_singleton, getline_split_single '\n' l h2 h1]
      exact List.Forall₂.cons (remove_carriage_return_id l h3) List.Forall₂.nil
    | cons l2 ls2 =>
      rw [intercalate_cons_cons, lit_crlf]
      have e : l ++ ['\r', '\n'] ++ ['\r', '\n'].intercalate (l2 :: ls2) =
          (l ++ ['\r']) ++ '\n' :: ['\r', '\n'].intercalate (l2 :: ls2) := by simp
      rw [e, getline_split_append '\n' (l ++ ['\r']) _ (by simp [h2])]
      refine List.Forall₂.cons (remove_carriage_return_append l) ?_
      have := ih (fun x hx => hL x (List.mem_cons_of_mem _ hx))
      rw [lit_crlf] at this
      exact this

theorem find_at_skip (p0 : Char) (ps a b : Str) (i : Nat) (ha : p0 ∉ a) :
    find_at (p0 :: ps) (a ++ b) i = find_at (p0 :: ps) b (i + a.length) := by
  induction a generalizing i with
  | nil => simp
  | cons c cs ih =>
    simp only [List.mem_cons, not_or] at ha
    have hc : (c == p0) = false := by
      rw [beq_eq_false_iff_ne]; exact fun e => ha.1 e.symm
    have e : i + 1 + cs.length = i + (cs.length + 1) := by omega
    simp only [List.cons_append, find_at, starts_with, hc, Bool.false_and, Bool.false_eq_true,
      if_false, List.length_cons]
    rw [show cs.append b = cs ++ b from rfl, ih (i + 1) ha.2, e]

theorem find_at_crlf_step (c : Char) (b : Str) (i : Nat) (hc : c ≠ '\r') :
    find_at ['\r', '\n', '\r', '\n'] ('\r' :: '\n' :: c :: b) i =
      find_at ['\r', '\n', '\r', '\n'] (c :: b) (i + 2) := by
  have h1 : (c == '\r') = false := by rw [beq_eq_false_iff_ne]; exact hc
  have h2 : ('\n' == '\r') = false := by decide
  simp only [find_at, starts_with, beq_self_eq_true, Bool.true_and, h1, Bool.false_and,
    Bool.false_eq_true, if_false, h2]

theorem find_at_crlfcrlf_here (rest : Str) (i : Nat) :
    find_at ['\r', '\n', '\r', '\n'] ('\r' :: '\n' :: '\r' :: '\n' :: rest) i = some i := by
  simp [find_at, starts_with]

theorem find_at_block (L : List Str) (rest : Str) (i : Nat) (hne : L ≠ [])
    (hL : ∀ l ∈ L, l ≠ [] ∧ '\r' ∉ l) :
    find_at ['\r', '\n', '\r', '\n']
        (['\r', '\n'].intercalate L ++ '\r' :: '\n' :: '\r' :: '\n' :: rest) i =
      some (i + (['\r', '\n'].intercalate L).length) := by
  induction L generalizing i with
  | nil => exact absurd rfl hne
  | cons l ls ih =>
    obtain ⟨h1, h2⟩ := hL l (List.mem_cons_self _ _)
    cases ls with
    | nil =>
      rw [intercalate_singleton, find_at_skip '\r' _ l _ i h2, find_at_crlfcrlf_here]
    | cons l2 ls2 =>
      obtain ⟨h3, h4⟩ := hL l2 (List.mem_cons_of_mem _ (List.mem_cons_self _ _))
      rw [intercalate_cons_cons]
      have hhead : ∃ c t, ['\r', '\n'].intercalate (l2 :: ls2) = c :: t ∧ c ≠ '\r' := by
        cases l2 with
        | nil => exact absurd rfl h3
        | cons c t =>
          simp only [List.mem_cons, not_or] at h4
          cases ls2 with
          | nil => exact ⟨c, t, by rw [intercalate_singleton], fun e => h4.1 e.symm⟩
          | cons l3 ls3 =>
            exact ⟨c, t ++ ['\r', '\n'] ++ ['\r', '\n'].intercalate (l3 :: ls3),
              by rw [intercalate_cons_cons]; simp, fun e => h4.1 e.symm⟩
      obtain ⟨c, t, hct, hcne⟩ := hhead
      have ih2 := ih (i + l.length + 2) (by simp)
        (fun x hx => hL x (List.mem_cons_of_mem _ hx))
      rw [hct] at ih2 ⊢
      have e : l ++ ['\r', '\n'] ++ c :: t ++ '\r' :: '\n' :: '\r' :: '\n' :: rest =
          l ++ ('\r' :: '\n' :: c :: (t ++ '\r' :: '\n' :: '\r' :: '\n' :: rest)) := by simp
      rw [e, find_at_skip '\r' _ l _ i h2, find_at_crlf_step c _ _ hcne]
      have e2 : c :: (t ++ '\r' :: '\n' :: '\r' :: '\n' :: rest) =
          c :: t ++ '\r' :: '\n' :: '\r' :: '\n' :: rest := by simp
      rw [e2, ih2]
      simp only [List.length_append, List.length_cons, List.length_nil]
      congr 1
      omega

theorem find_head_end (line : Str) (L : List Str) (rest : Str) (hline : '\r' ∉ line)
    (hne : L ≠ []) (hL : ∀ l ∈ L, l ≠ [] ∧ '\r' ∉ l) :
    find (line ++ lit "\r\n" ++ (lit "\r\n").intercalate L ++ lit "\r\n\r\n" ++ rest)
        (lit "\r\n\r\n") =
      some ((line ++ lit "\r\n" ++ (lit "\r\n").intercalate L).length) := by
  unfold find
  rw [lit_crlf, lit_crlfcrlf]
  have hhead : ∃ c t, ['\r', '\n'].intercalate L = c :: t ∧ c ≠ '\r' := by
    cases L with
    | nil => exact absurd rfl hne
    | cons l ls =>
      obtain ⟨h1, h2⟩ := hL l (List.mem_cons_self _ _)
      cases l with
      | nil => exact absurd rfl h1
      | cons c t =>
        simp only [List.mem_cons, not_or] at h2
        cases ls with
        | nil => exact ⟨c, t, by rw [intercalate_singleton], fun e => h2.1 e.symm⟩
        | cons l3 ls3 =>
          exact ⟨c, t ++ ['\r', '\n'] ++ ['\r', '\n'].intercalate (l3 :: ls3),
            by rw [intercalate_cons_cons]; simp, fun e => h2.1 e.symm⟩
  obtain ⟨c, t, hct, hcne⟩ := hhead
  have hb := find_at_block L rest (0 + line.length + 2) hne hL
  rw [hct] at hb ⊢
  have e : line ++ ['\r', '\n'] ++ c :: t ++ ['\r', '\n', '\r', '\n'] ++ rest =
      line ++ ('\r' :: '\n' :: c :: (t ++ '\r' :: '\n' :: '\r' :: '\n' :: rest)) := by simp
  rw [e, find_at_skip '\r' _ line _ 0 hline, find_at_crlf_step c _ _ hcne]
  have e2 : c :: (t ++ '\r' :: '\n' :: '\r' :: '\n' :: rest) =
      c :: t ++ '\r' :: '\n' :: '\r' :: '\n' :: rest := by simp
  rw [e2, hb]
  simp only [List.length_append, List.length_cons, List.length_nil]
  congr 1
  omega

theorem find_first_crlf (line tail : Str) (hline : '\r' ∉ line) :
    find (line ++ lit "\r\n" ++ tail) (lit "\r\n") = some line.length := by
  unfold find
  rw [lit_crlf]
  have e : line ++ ['\r', '\n'] ++ tail = line ++ ('\r' :: '\n' :: tail) := by simp
  rw [e, find_at_skip '\r' _ line _ 0 hline]
  simp [find_at, starts_with]

/-- How `append_data` cuts a request whose request line and header lines hold
no carriage return: the request line goes to `parse_request_line`, the header
block to `parse_headers`, and the octets after the empty line become the
request buffer for the body phase. -/
theorem append_data_request_head (r0 : HttpRequest) (line : Str) (L : List Str) (rest : Str)
    (h0c : r0.complete_ = false) (h0p : r0.headers_parsed_ = false)
    (h0b : r0.request_buffer_ = [])
    (hline : '\r' ∉ line) (hne : L ≠ []) (hL : ∀ l ∈ L, l ≠ [] ∧ '\r' ∉ l) :
    r0.append_data
        (line ++ lit "\r\n" ++ (lit "\r\n").intercalate L ++ lit "\r\n\r\n" ++ rest) =
      ((((HttpRequest.parse_request_line
        { r0 with request_buffer_ :=
            line ++ lit "\r\n" ++ (lit "\r\n").intercalate L ++ lit "\r\n\r\n" ++ rest }
        line).andThen fun r1 => r1.parse_headers ((lit "\r\n").intercalate L)).andThen
        fun r2 => r2.validate_headers).andThen
        fun r3 => HttpRequest.parse_body_phase
          { r3 with headers_parsed_ := true, request_buffer_ := rest }) := by
  have hfind := find_head_end line L rest hline hne hL
  have hnonempty :
      (line ++ lit "\r\n" ++ (lit "\r\n").intercalate L ++ lit "\r\n\r\n" ++ rest).isEmpty =
        false := by
    rw [lit_crlf, lit_crlfcrlf]
    cases line <;> simp
  have hsec : substr (line ++ lit "\r\n" ++ (lit "\r\n").intercalate L ++ lit "\r\n\r\n" ++ rest) 0
      (line ++ lit "\r\n" ++ (lit "\r\n").intercalate L).length =
      line ++ lit "\r\n" ++ (lit "\r\n").intercalate L := by
    unfold substr
    rw [List.drop_zero, List.append_assoc _ (lit "\r\n\r\n") rest, List.take_left]
  have hrem : substr_from
      (line ++ lit "\r\n" ++ (lit "\r\n").intercalate L ++ lit "\r\n\r\n" ++ rest)
      ((line ++ lit "\r\n" ++ (lit "\r\n").intercalate L).length + 4) = rest := by
    unfold substr_from
    have e : (line ++ lit "\r\n" ++ (lit "\r\n").intercalate L).length + 4 =
        (line ++ lit "\r\n" ++ (lit "\r\n").intercalate L ++ lit "\r\n\r\n").length := by
      rw [List.length_append _ (lit "\r\n\r\n"), lit_crlfcrlf]; rfl
    rw [e, List.drop_left]
  have hfirst := find_first_crlf line ((lit "\r\n").intercalate L) hline
  have hline2 : substr (line ++ lit "\r\n" ++ (lit "\r\n").intercalate L) 0 line.length = line := by
    unfold substr
    rw [List.drop_zero, List.append_assoc, List.take_left]
  have hcontent : substr_from (line ++ lit "\r\n" ++ (lit "\r\n").intercalate L)
      (line.length + 2) = (lit "\r\n").intercalate L := by
    unfold substr_from
    have e : line.length + 2 = (line ++ lit "\r\n").length := by
      rw [List.length_append, lit_crlf]; rfl
    rw [e, List.drop_left]
  unfold HttpRequest.append_data
  simp only [h0b, h0c, List.nil_append, Bool.false_eq_true, if_false]
  unfold HttpRequest.parse
  simp only [hnonempty, h0c, h0p, Bool.false_eq_true, if_false, Bool.not_false, if_true, hfind,
    hsec, hrem, hfirst, hline2, hcontent]

theorem mem_trim_or_ows (s : Str) (c : Char) (hc : c ∈ s) : is_ows c = true ∨ c ∈ trim s := by
  rw [← List.takeWhile_append_dropWhile is_ows s] at hc
  rcases List.mem_append.1 hc with h | h
  · exact Or.inl (List.mem_takeWhile_imp h)
  · have h2 : c ∈ (s.dropWhile is_ows).reverse := List.mem_reverse.2 h
    rw [← List.takeWhile_append_dropWhile is_ows (s.dropWhile is_ows).reverse] at h2
    rcases List.mem_append.1 h2 with h3 | h3
    · exact Or.inl (List.mem_takeWhile_imp h3)
    · right
      unfold trim
      exact List.mem_reverse.2 h3

theorem field_line_clean (f : Str × Str) (hwf : WellFormedField f) :
    field_line f ≠ [] ∧ '\r' ∉ field_line f ∧ '\n' ∉ field_line f ∧
      (field_line f).getLast? ≠ some '\r' := by
  obtain ⟨name, raw⟩ := f
  obtain ⟨hne, htok, _, hval⟩ := hwf
  simp only at hne htok hval
  have hraw : ∀ c ∈ raw, c ≠ '\r' ∧ c ≠ '\n' := by
    intro c hc
    rcases mem_trim_or_ows raw c hc with h | h
    · constructor <;> (rintro rfl; revert h; decide)
    · have := hval c h
      constructor <;> (rintro rfl; revert this; decide)
  have hall : ∀ c ∈ field_line (name, raw), c ≠ '\r' ∧ c ≠ '\n' := by
    intro c hc
    unfold field_line at hc
    simp only [List.mem_append, List.mem_cons] at hc
    rcases hc with h | h | h
    · have := token_char_not_colon c (htok c h)
      exact ⟨this.2.2.2.1, this.2.2.2.2⟩
    · subst h; exact ⟨by decide, by decide⟩
    · exact hraw c h
  refine ⟨?_, fun h => (hall _ h).1 rfl, fun h => (hall _ h).2 rfl, ?_⟩
  · unfold field_line
    simp
  · intro h
    have := List.mem_of_getLast?_eq_some h
    exact (hall _ this).1 rfl

theorem parse_request_line_accepts (r : HttpRequest) (line m u v : Str)
    (h : ThreeTokens line m u v) (hm : m.map toupper ∈ standard_method_names)
    (hv : v = lit "HTTP/1.1" ∨ v = lit "HTTP/1.0") (hlen : u.length ≤ MAX_URI_LENGTH)
    (hgood : GoodTarget u) :
    ∃ r1, r.parse_request_line line = Outcome.ok r1 ∧ r1.header_count_ = r.header_count_ ∧
      r1.method_ = from_string (m.map toupper) := by
  have hune : u ≠ [] := by
    obtain ⟨_, _, _, _, _, _, _, _, _, _, _, _, hu, _⟩ := h
    exact hu
  have hk : (from_string (m.map toupper) == Method.UNKNOWN) = false := by
    rw [beq_eq_false_iff_ne]
    intro hc
    exact (from_string_unknown_iff _).1 hc hm
  have hvb : (v != lit "HTTP/1.1" && v != lit "HTTP/1.0") = false := by
    rcases hv with rfl | rfl <;> decide
  have hrw : r.parse_request_line line =
      HttpRequest.process_target
        { r with method_ := from_string (m.map toupper), http_version_ := v } u := by
    rw [parse_request_line_of_tokens r line m u v h]
    unfold HttpRequest.validate_method HttpRequest.validate_http_version
    simp only [hk, hvb, Bool.false_eq_true, if_false, Outcome.andThen]
  have hpt := process_target_method
    { r with method_ := from_string (m.map toupper), http_version_ := v } u
  rw [hrw]
  have hempty : u.isEmpty = false := by
    cases u with
    | nil => exact absurd rfl hune
    | cons c cs => rfl
  have hvc : validate_uri_characters u = true := (validate_uri_characters_iff u).2 hgood
  have hnl : ¬ (u.length > MAX_URI_LENGTH) := by omega
  have hok : ∃ r1, HttpRequest.process_target
      { r with method_ := from_string (m.map toupper), http_version_ := v } u =
        Outcome.ok r1 := by
    unfold HttpRequest.process_target validate_uri_size
    simp only [hempty, Bool.false_eq_true, if_false]
    rw [validate_uri_eq_characters]
    simp only [hnl, if_false, Bool.not_true, Bool.false_eq_true, hvc]
    split <;> exact ⟨_, rfl⟩
  obtain ⟨r1, h1⟩ := hok
  rw [h1] at hpt ⊢
  exact ⟨r1, rfl, hpt.2.2, hpt.1⟩

theorem validate_headers_error (r : HttpRequest) :
    r.validate_headers.error = none ∨ r.validate_headers.error = some BAD_REQUEST ∨
      r.validate_headers.error = some PAYLOAD_TOO_LARGE := by
  unfold HttpRequest.validate_headers
  simp only
  split
  · exact Or.inr (Or.inl rfl)
  · split
    · exact Or.inr (Or.inl rfl)
    · split
      · exact Or.inr (Or.inr rfl)
      · split
        · split
          · exact Or.inr (Or.inl rfl)
          · exact Or.inl rfl
        · exact Or.inl rfl

theorem parse_body_phase_no_octets (r : HttpRequest) (hb : r.request_buffer_ = []) :
    r.parse_body_phase.error ≠ some REQUEST_HEADER_FIELDS_TOO_LARGE := by
  have hpb : r.process_buffered_body = Outcome.ok r := by
    unfold HttpRequest.process_buffered_body
    simp [hb]
  unfold HttpRequest.parse_body_phase
  split
  · split
    · simp [Outcome.error]
    · split
      · unfold HttpRequest.check_body_framing
        simp only [hb, hpb]
        split
        · simp [Outcome.error, LENGTH_REQUIRED, REQUEST_HEADER_FIELDS_TOO_LARGE]
        · split
          · simp [Outcome.error]
          · split
            · rename_i e he
              simp only [Outcome.error, ne_eq, Option.some.injEq]
              split at he
              · split at he
                · cases he; decide
                · split at he
                  · cases he; decide
                  · cases he
              · cases he
            · split <;> simp [Outcome.error]
      · split
        · simp [Outcome.error]
        · rw [hpb]; simp [Outcome.error]
  · simp [Outcome.error]

/-! ## Limits on the header block -/

theorem header_block_lines (fields : List (Str × Str)) (hwf : ∀ f ∈ fields, WellFormedField f) :
    List.Forall₂ (fun f raw => remove_carriage_return raw = field_line f) fields
      (getline_split '\n' (header_block fields)) := by
  have h := getline_split_block (fields.map field_line) (by
    intro l hl
    obtain ⟨f, hf, rfl⟩ := List.mem_map.1 hl
    have := field_line_clean f (hwf f hf)
    exact ⟨this.1, this.2.2.1, this.2.2.2⟩)
  unfold header_block
  rw [List.forall₂_map_left_iff] at h
  exact h

theorem parse_headers_block_error (fields : List (Str × Str))
    (hwf : ∀ f ∈ fields, WellFormedField f) (r : HttpRequest) (hcount : r.header_count_ = 0) :
    (r.parse_headers (header_block fields)).error =
      if (∃ f ∈ fields, (trim f.2).length > MAX_HEADER_SIZE) ∨ fields.length > MAX_HEADERS
      then some REQUEST_HEADER_FIELDS_TOO_LARGE else none := by
  unfold HttpRequest.parse_headers
  rw [parse_header_lines_fields fields _ (header_block_lines fields hwf) hwf r [] [] 0 rfl
    (by rw [hcount]; exact Nat.zero_le _), hcount]
  simp only [Nat.zero_add]

/-- C8: take a request whose request line is valid and whose header field
lines are each syntactically well formed. If the header block has more than 100
field lines, or some field value is longer than 8192 octets after optional
white space is trimmed, parsing fails with 431. A block of at most 100 field
lines (so also one of exactly 100) with values of at most 8192 octets is
accepted by the header block parser, and, when no octet follows the empty
line, the request is not rejected with 431. -/
theorem C8_header_block_limits (r0 : HttpRequest) (line m u v : Str)
    (fields : List (Str × Str)) (rest : Str)
    (h0c : r0.complete_ = false) (h0p : r0.headers_parsed_ = false)
    (h0b : r0.request_buffer_ = []) (h0n : r0.header_count_ = 0)
    (hline : ThreeTokens line m u v) (hcr : '\r' ∉ line)
    (hm : m.map toupper ∈ standard_method_names)
    (hv : v = lit "HTTP/1.1" ∨ v = lit "HTTP/1.0") (hlen : u.length ≤ MAX_URI_LENGTH)
    (hgood : GoodTarget u) (hwf : ∀ f ∈ fields, WellFormedField f) :
    ((fields.length > MAX_HEADERS ∨ ∃ f ∈ fields, (trim f.2).length > MAX_HEADER_SIZE) →
      (r0.append_data
        (line ++ lit "\r\n" ++ header_block fields ++ lit "\r\n\r\n" ++ rest)).error =
        some REQUEST_HEADER_FIELDS_TOO_LARGE) ∧
    (fields.length ≤ MAX_HEADERS → (∀ f ∈ fields, (trim f.2).length ≤ MAX_HEADER_SIZE) →
      (∀ r1 : HttpRequest, r1.header_count_ = 0 →
        (r1.parse_headers (header_block fields)).error = none) ∧
      (fields ≠ [] →
        (r0.append_data (line ++ lit "\r\n" ++ header_block fields ++ lit "\r\n\r\n")).error ≠
          some REQUEST_HEADER_FIELDS_TOO_LARGE)) := by
  have hhead : ∀ rest2 : Str, fields ≠ [] →
      r0.append_data (line ++ lit "\r\n" ++ header_block fields ++ lit "\r\n\r\n" ++ rest2) =
      ((((HttpRequest.parse_request_line
        { r0 with request_buffer_ :=
            line ++ lit "\r\n" ++ header_block fields ++ lit "\r\n\r\n" ++ rest2 }
        line).andThen fun r1 => r1.parse_headers (header_block fields)).andThen
        fun r2 => r2.validate_headers).andThen
        fun r3 => HttpRequest.parse_body_phase
          { r3 with headers_parsed_ := true, request_buffer_ := rest2 }) := by
    intro rest2 hne
    unfold header_block
    apply append_data_request_head r0 line (fields.map field_line) rest2 h0c h0p h0b hcr
    · simpa using hne
    · intro l hl
      obtain ⟨f, hf, rfl⟩ := List.mem_map.1 hl
      have := field_line_clean f (hwf f hf)
      exact ⟨this.1, this.2.1⟩
  have hacc : ∀ rest2 : Str, ∃ r1, HttpRequest.parse_request_line
      { r0 with request_buffer_ :=
          line ++ lit "\r\n" ++ header_block fields ++ lit "\r\n\r\n" ++ rest2 } line =
      Outcome.ok r1 ∧ r1.header_count_ = 0 := by
    intro rest2
    obtain ⟨r1, h1, h2, _⟩ := parse_request_line_accepts
      { r0 with request_buffer_ :=
          line ++ lit "\r\n" ++ header_block fields ++ lit "\r\n\r\n" ++ rest2 }
      line m u v hline hm hv hlen hgood
    exact ⟨r1, h1, by rw [h2]; exact h0n⟩
  refine ⟨?_, ?_⟩
  · intro hbig
    have hne : fields ≠ [] := by
      rcases hbig with h | ⟨f, hf, _⟩
      · intro he; rw [he] at h; simp [MAX_HEADERS] at h
      · exact List.ne_nil_of_mem hf
    rw [hhead rest hne]
    obtain ⟨r1, h1, h2⟩ := hacc rest
    rw [h1]
    have herr := parse_headers_block_error fields hwf r1 h2
    rw [if_pos (by rcases hbig with h | h; exact Or.inr h; exact Or.inl h)] at herr
    simp only [Outcome.andThen]
    cases hph : r1.parse_headers (header_block fields) with
    | ok s => rw [hph] at herr; cases herr
    | throw e s =>
      rw [hph] at herr
      simp only [Outcome.error, Option.some.injEq] at herr
      simp only [Outcome.error, herr]
  · intro hcount hvals
    have hnot : ¬ ((∃ f ∈ fields, (trim f.2).length > MAX_HEADER_SIZE) ∨
        fields.length > MAX_HEADERS) := by
      rintro (⟨f, hf, hl⟩ | h)
      · have := hvals f hf; omega
      · omega
    refine ⟨?_, ?_⟩
    · intro r1 hr1
      rw [parse_headers_block_error fields hwf r1 hr1, if_neg hnot]
    · intro hne
      have h := hhead [] hne
      simp only [List.append_nil] at h
      rw [h]
      obtain ⟨r1, h1, h2⟩ := hacc []
      simp only [List.append_nil] at h1
      rw [h1]
      have herr := parse_headers_block_error fields hwf r1 h2
      rw [if_neg hnot] at herr
      simp only [Outcome.andThen]
      cases hph : r1.parse_headers (header_block fields) with
      | throw e s => rw [hph] at herr; cases herr
      | ok r2 =>
        simp only
        have hve := validate_headers_error r2
        cases hvh : r2.validate_headers with
        | throw e s =>
          rw [hvh] at hve
          simp only [Outcome.error, reduceCtorEq, Option.some.injEq, false_or] at hve
          simp only [Outcome.error, ne_eq, Option.some.injEq]
          rcases hve with h | h <;> (rw [h]; decide)
        | ok r3 =>
          simp only
          exact parse_body_phase_no_octets _ rfl

/-- C8, at the request `GET / HTTP/1.1` with the one field `Host: x`: it is not
rejected with 431. -/
theorem C8_header_block_limits_witness :
    (HttpRequest.append_data {} (lit "GET / HTTP/1.1" ++ lit "\r\n" ++
      header_block [(lit "Host", lit " x")] ++ lit "\r\n\r\n")).error ≠
      some REQUEST_HEADER_FIELDS_TOO_LARGE :=
  ((C8_header_block_limits {} (lit "GET / HTTP/1.1") (lit "GET") (lit "/") (lit "HTTP/1.1")
    [(lit "Host", lit " x")] [] rfl rfl rfl rfl
    ⟨[], lit " ", lit " ", [], by decide, by decide, by decide, by decide, by decide, by decide,
      by decide, by decide, by decide, by decide, by decide, by decide, by decide⟩
    (by decide) (by decide) (Or.inl rfl) (by decide)
    ((validate_uri_characters_iff _).1 (by decide))
    (by
      intro f hf
      simp only [List.mem_singleton] at hf
      subst hf
      exact ⟨by decide, by decide, by decide, by decide⟩)).2
    (by decide) (by decide)).2 (by decide)

/-! ## Content-Length together with chunked transfer coding -/

theorem validate_headers_length_and_chunked (r : HttpRequest)
    (hhost : r.http_version_ = lit "HTTP/1.1" → HttpHeaders.has r.headers_ (lit "Host") = true)
    (hcl : HttpHeaders.get r.headers_ (lit "Content-Length") ≠ [])
    (hte : value_contains (HttpHeaders.get r.headers_ (lit "Transfer-Encoding")) (lit "chunked") =
      true) :
    r.validate_headers.error =
      if is_valid_content_length (HttpHeaders.get r.headers_ (lit "Content-Length")) = true ∧
          (strtoul (HttpHeaders.get r.headers_ (lit "Content-Length")) 10).1 >
            r.max_content_length_
      then some PAYLOAD_TOO_LARGE else some BAD_REQUEST := by
  have h1 : (r.http_version_ == lit "HTTP/1.1" && !HttpHeaders.has r.headers_ (lit "Host")) =
      false := by
    by_cases hv : r.http_version_ = lit "HTTP/1.1"
    · simp [hhost hv]
    · have : (r.http_version_ == lit "HTTP/1.1") = false := by
        rw [beq_eq_false_iff_ne]; exact hv
      simp [this]
  have h2 : (HttpHeaders.get r.headers_ (lit "Content-Length")).isEmpty = false := by
    cases h : HttpHeaders.get r.headers_ (lit "Content-Length") with
    | nil => exact absurd h hcl
    | cons c cs => rfl
  have h3 : (HttpHeaders.get r.headers_ (lit "Transfer-Encoding")).isEmpty = false := by
    cases h : HttpHeaders.get r.headers_ (lit "Transfer-Encoding") with
    | nil =>
      rw [h] at hte
      revert hte
      decide
    | cons c cs => rfl
  unfold HttpRequest.validate_headers
  simp only [h1, Bool.false_eq_true, if_false, h2, Bool.not_false, Bool.true_and, h3, hte,
    Bool.and_self, if_true]
  by_cases hvalid : is_valid_content_length (HttpHeaders.get r.headers_ (lit "Content-Length")) =
      true
  · simp only [hvalid, Bool.not_true, Bool.false_eq_true, if_false, true_and]
    by_cases hbig : (strtoul (HttpHeaders.get r.headers_ (lit "Content-Length")) 10).1 >
        r.max_content_length_
    · simp [hbig, Outcome.error]
    · simp [hbig, Outcome.error]
  · simp [hvalid, Outcome.error]

/-- C10 (counterexample): a POST request with Host, `Content-Length: 99999999`
and `Transfer-Encoding: chunked` fails with 413, not with 400. -/
theorem C10_length_and_chunked_counterexample :
    (HttpRequest.append_data {} length_and_chunked_request).error = some PAYLOAD_TOO_LARGE ∧
    PAYLOAD_TOO_LARGE ≠ BAD_REQUEST := by
  decide

/-- C10 (amended): take a request whose request line and header block the
parser accepts (no carriage return inside a line, Host present when the
version is HTTP/1.1), and for which header lookup finds a non-empty
`Content-Length` value and a `Transfer-Encoding` value naming `chunked`.
Whatever the method, parsing fails: with 413 when the `Content-Length` value is
all digits and above the body-size cap, and with 400 in every other case. -/
theorem C10_length_and_chunked_rejected (r0 r1 r2 : HttpRequest) (line : Str) (L : List Str)
    (rest : Str)
    (h0c : r0.complete_ = false) (h0p : r0.headers_parsed_ = false)
    (h0b : r0.request_buffer_ = [])
    (hline : '\r' ∉ line) (hne : L ≠ []) (hL : ∀ l ∈ L, l ≠ [] ∧ '\r' ∉ l)
    (hrl : HttpRequest.parse_request_line
      { r0 with request_buffer_ :=
          line ++ lit "\r\n" ++ (lit "\r\n").intercalate L ++ lit "\r\n\r\n" ++ rest } line =
      Outcome.ok r1)
    (hph : r1.parse_headers ((lit "\r\n").intercalate L) = Outcome.ok r2)
    (hhost : r2.http_version_ = lit "HTTP/1.1" → HttpHeaders.has r2.headers_ (lit "Host") = true)
    (hcl : HttpHeaders.get r2.headers_ (lit "Content-Length") ≠ [])
    (hte : value_contains (HttpHeaders.get r2.headers_ (lit "Transfer-Encoding")) (lit "chunked") =
      true) :
    (r0.append_data
      (line ++ lit "\r\n" ++ (lit "\r\n").intercalate L ++ lit "\r\n\r\n" ++ rest)).error =
      if is_valid_content_length (HttpHeaders.get r2.headers_ (lit "Content-Length")) = true ∧
          (strtoul (HttpHeaders.get r2.headers_ (lit "Content-Length")) 10).1 >
            r2.max_content_length_
      then some PAYLOAD_TOO_LARGE else some BAD_REQUEST := by
  rw [append_data_request_head r0 line L rest h0c h0p h0b hline hne hL, hrl]
  simp only [Outcome.andThen]
  rw [hph]
  simp only
  have hv := validate_headers_length_and_chunked r2 hhost hcl hte
  cases hvh : r2.validate_headers with
  | ok s =>
    rw [hvh] at hv
    simp only [Outcome.error] at hv
    split at hv <;> cases hv
  | throw e s =>
    rw [hvh] at hv
    simp only [Outcome.error] at hv ⊢
    exact hv

/-- C10 (amended), at a PUT request with `Content-Length: 5` and
`Transfer-Encoding: chunked`: it fails with 400. -/
theorem C10_length_and_chunked_rejected_witness :
    (HttpRequest.append_data {}
      (lit "PUT /f HTTP/1.1" ++ lit "\r\n" ++
        (lit "\r\n").intercalate [lit "Host: x", lit "Content-Length: 5",
          lit "Transfer-Encoding: chunked"] ++ lit "\r\n\r\n" ++ lit "0\r\n\r\n")).error =
      some BAD_REQUEST := by
  have h := C10_length_and_chunked_rejected {}
    (HttpRequest.parse_request_line
      { request_buffer_ := lit "PUT /f HTTP/1.1" ++ lit "\r\n" ++
        (lit "\r\n").intercalate [lit "Host: x", lit "Content-Length: 5",
          lit "Transfer-Encoding: chunked"] ++ lit "\r\n\r\n" ++ lit "0\r\n\r\n" }
      (lit "PUT /f HTTP/1.1")).state
    ((HttpRequest.parse_request_line
      { request_buffer_ := lit "PUT /f HTTP/1.1" ++ lit "\r\n" ++
        (lit "\r\n").intercalate [lit "Host: x", lit "Content-Length: 5",
          lit "Transfer-Encoding: chunked"] ++ lit "\r\n\r\n" ++ lit "0\r\n\r\n" }
      (lit "PUT /f HTTP/1.1")).state.parse_headers
        ((lit "\r\n").intercalate [lit "Host: x", lit "Content-Length: 5",
          lit "Transfer-Encoding: chunked"])).state
    (lit "PUT /f HTTP/1.1")
    [lit "Host: x", lit "Content-Length: 5", lit "Transfer-Encoding: chunked"] (lit "0\r\n\r\n")
    rfl rfl rfl (by decide) (by decide) (by decide) (by decide) (by decide) (by decide)
    (by decide) (by decide)
  rw [h]
  decide

/-! ## The bounds of a parsed request -/

theorem starts_with_append (s b pat : Str) (h : pat.length ≤ s.length) :
    starts_with (s ++ b) pat = starts_with s pat := by
  induction pat generalizing s with
  | nil => cases s <;> cases b <;> simp [starts_with]
  | cons p ps ih =>
    cases s with
    | nil => simp at h
    | cons c cs =>
      simp only [List.cons_append, starts_with, List.append_eq]
      rw [ih cs (by simpa using h)]

theorem find_at_some_length (pat s : Str) (i k : Nat) (h : find_at pat s i = some k) :
    k + pat.length ≤ i + s.length := by
  induction s generalizing i with
  | nil =>
    simp only [find_at] at h
    cases pat with
    | nil => simp at h; simp; omega
    | cons p ps => simp at h
  | cons c cs ih =>
    simp only [find_at] at h
    by_cases hs : starts_with (c :: cs) pat = true
    · rw [if_pos hs] at h
      simp only [Option.some.injEq] at h
      have := ((starts_with_iff _ _).1 hs).length_le
      omega
    · rw [if_neg hs] at h
      have := ih (i + 1) h
      simp only [List.length_cons]
      omega

theorem find_at_append (pat a b : Str) (i k : Nat) (h : find_at pat a i = some k) :
    find_at pat (a ++ b) i = some k := by
  induction a generalizing i with
  | nil =>
    simp only [find_at] at h
    cases pat with
    | nil =>
      simp at h
      subst h
      cases b <;> simp [find_at, starts_with]
    | cons p ps => simp at h
  | cons c cs ih =>
    simp only [find_at] at h
    simp only [List.cons_append, find_at, List.append_eq]
    by_cases hs : starts_with (c :: cs) pat = true
    · rw [if_pos hs] at h
      have hs2 : starts_with (c :: (cs ++ b)) pat = true := by
        rw [starts_with_iff] at hs ⊢
        exact hs.trans (List.prefix_append (c :: cs) b)
      rw [if_pos hs2]
      exact h
    · rw [if_neg hs] at h
      have hlen := find_at_some_length pat cs (i + 1) k h
      have hge := find_at_ge pat cs (i + 1) k h
      have hs2 : starts_with (c :: (cs ++ b)) pat = starts_with (c :: cs) pat :=
        starts_with_append (c :: cs) b pat (by simp only [List.length_cons]; omega)
      rw [hs2, if_neg hs]
      exact ih (i + 1) h

theorem target_bounded_append (fed d : Str) (h : TargetBounded fed) : TargetBounded (fed ++ d) := by
  obtain ⟨j, m, u, v, hj, ht, hu⟩ := h
  have hlen := find_at_some_length _ _ _ _ hj
  refine ⟨j, m, u, v, find_at_append _ _ _ _ _ hj, ?_, hu⟩
  rw [List.take_append_of_le_length (by omega)]
  exact ht

theorem to_string_int_length (n : Int) (h0 : 0 ≤ n) (h1 : n ≤ 65535) :
    (to_string_int n).length ≤ 5 := by
  unfold to_string_int
  rw [if_neg (by omega)]
  exact Nat.toDigitsCore_length 10 (by decide) _ _ 5 (by omega) (by decide)

theorem validate_fields (u : Uri) :
    (Uri.validate u).host_ = u.host_ ∧ (Uri.validate u).port_ = u.port_ ∧
      (Uri.validate u).absolute_ = u.absolute_ := by
  unfold Uri.validate
  simp only
  split_ifs <;> simp

theorem extract_query_string_fields (u : Uri) (s : Str) :
    (Uri.extract_query_string u s).host_ = u.host_ ∧
      (Uri.extract_query_string u s).port_ = u.port_ ∧
      (Uri.extract_query_string u s).absolute_ = u.absolute_ ∧
      (Uri.extract_query_string u s).scheme_ = u.scheme_ := by
  unfold Uri.extract_query_string
  split <;> simp

theorem extract_authority_components_host (u : Uri) (a : Str) :
    (Uri.extract_authority_components u a).host_.length ≤ a.length ∧
      0 ≤ (Uri.extract_authority_components u a).port_ ∧
      (Uri.extract_authority_components u a).port_ ≤ 65535 := by
  have hd : (0 : Int) ≤ (if u.scheme_ == lit "https" then 443 else 80) ∧
      (if u.scheme_ == lit "https" then (443 : Int) else 80) ≤ 65535 := by
    split <;> omega
  unfold Uri.extract_authority_components
  simp only
  cases hfc : find_char a ':' with
  | none => exact ⟨Nat.le_refl _, hd⟩
  | some colon_pos =>
    simp only [substr, List.drop_zero, List.length_take]
    refine ⟨by omega, ?_⟩
    by_cases hp : (decide (atoi (substr_from a (colon_pos + 1)) ≤ 0) ||
        decide (atoi (substr_from a (colon_pos + 1)) > 65535)) = true
    · rw [if_pos hp]
      exact hd
    · rw [if_neg hp]
      simp only [Bool.or_eq_true, decide_eq_true_eq, not_or, not_le, not_lt] at hp
      omega

theorem parse_host_length (u0 : Uri) (s : Str) (h0 : u0.absolute_ = false)
    (h1 : (Uri.parse u0 s).absolute_ = true) :
    (Uri.parse u0 s).host_.length ≤ s.length ∧ 0 ≤ (Uri.parse u0 s).port_ ∧
      (Uri.parse u0 s).port_ ≤ 65535 := by
  unfold Uri.parse at h1 ⊢
  simp only at h1 ⊢
  rw [(validate_fields _).1, (validate_fields _).2.1]
  rw [(validate_fields _).2.2] at h1
  by_cases habs : is_absolute_uri s = true
  · rw [if_pos habs] at h1 ⊢
    unfold Uri.parse_absolute_uri at h1 ⊢
    cases hf : find s (lit "://") with
    | none =>
      rw [hf] at h1
      simp only at h1
      rw [h0] at h1
      cases h1
    | some scheme_end =>
      simp only
      cases hp : find_from s (lit "/") (scheme_end + 3) with
      | none =>
        simp only
        have := extract_authority_components_host
          { u0 with scheme_ := substr s 0 scheme_end, absolute_ := true, path_ := lit "/" }
          (substr_from s (scheme_end + 3))
        simp only [substr_from, List.length_drop] at this ⊢
        exact ⟨by omega, this.2⟩
      | some path_start =>
        simp only
        have := extract_authority_components_host
          (Uri.extract_query_string
            { u0 with scheme_ := substr s 0 scheme_end, absolute_ := true,
                      path_ := substr_from s path_start } (substr_from s path_start))
          (substr s (scheme_end + 3) (path_start - (scheme_end + 3)))
        simp only [substr, List.length_take, List.length_drop] at this ⊢
        exact ⟨by omega, this.2⟩
  · rw [if_neg habs] at h1
    simp only at h1
    rw [(extract_query_string_fields _ _).2.2.1] at h1
    simp only at h1
    rw [h0] at h1
    cases h1

theorem validate_headers_frame (r : HttpRequest) : BodyFrame r r.validate_headers.state := by
  unfold HttpRequest.validate_headers
  simp only
  split_ifs <;> exact ⟨rfl, rfl, rfl, rfl, rfl, fun h => h⟩

theorem process_target_ok (r r1 : HttpRequest) (u : Str)
    (h : r.process_target u = Outcome.ok r1) (ha : r.uri_.absolute_ = false) :
    u.length ≤ MAX_URI_LENGTH ∧ (HeadersBounded r → HeadersBounded r1) := by
  unfold HttpRequest.process_target at h
  by_cases hsz : validate_uri_size u = true
  · have hlen : u.length ≤ MAX_URI_LENGTH := by
      unfold validate_uri_size at hsz
      by_cases h1 : u.isEmpty = true
      · rw [if_pos h1] at hsz; cases hsz
      · rw [if_neg h1] at hsz
        by_cases h2 : u.length > MAX_URI_LENGTH
        · rw [if_pos h2] at hsz; cases hsz
        · omega
    refine ⟨hlen, ?_⟩
    simp only [hsz, Bool.not_true, Bool.false_eq_true, if_false] at h
    by_cases hv : validate_uri u = true
    · simp only [hv, Bool.not_true, Bool.false_eq_true, if_false] at h
      by_cases habs : (Uri.parse r.uri_ u).absolute_ = true
      · rw [if_pos habs] at h
        simp only [Outcome.ok.injEq] at h
        obtain ⟨hh, hp0, hp1⟩ := parse_host_length r.uri_ u ha habs
        have hps := to_string_int_length _ hp0 hp1
        intro hb
        subst h
        refine ⟨hb.1, ?_⟩
        refine add_header_bounded r.headers_ (lit "Host") _ ?_ hb.2
        have hM : MAX_URI_LENGTH = 2048 := rfl
        have hS : MAX_HEADER_SIZE = 8192 := rfl
        split
        · simp only [List.length_append, List.length_cons]
          omega
        · omega
      · rw [if_neg habs] at h
        simp only [Outcome.ok.injEq] at h
        intro hb
        subst h
        exact hb
    · simp only [hv, Bool.not_false, if_true] at h
      cases h
  · simp only [hsz, Bool.not_false, if_true] at h
    cases h

theorem parse_request_line_ok (r r1 : HttpRequest) (line : Str)
    (h : r.parse_request_line line = Outcome.ok r1) (ha : r.uri_.absolute_ = false) :
    (∃ m u v, ThreeTokens line m u v ∧ u.length ≤ MAX_URI_LENGTH) ∧
      (HeadersBounded r → HeadersBounded r1) := by
  by_cases ht : ∃ m u v, ThreeTokens line m u v
  · obtain ⟨m, u, v, ht⟩ := ht
    rw [parse_request_line_of_tokens r line m u v ht] at h
    unfold HttpRequest.validate_method HttpRequest.validate_http_version at h
    simp only at h
    by_cases hk : (from_string (m.map toupper) == Method.UNKNOWN) = true
    · rw [if_pos hk] at h
      simp only [Outcome.andThen] at h
      cases h
    · rw [if_neg hk] at h
      simp only [Outcome.andThen] at h
      by_cases hvb : (v != lit "HTTP/1.1" && v != lit "HTTP/1.0") = true
      · rw [if_pos hvb] at h
        simp only at h
        cases h
      · rw [if_neg hvb] at h
        simp only at h
        obtain ⟨hlen, hb⟩ := process_target_ok _ r1 u h ha
        exact ⟨⟨m, u, v, ht, hlen⟩, fun hr => hb hr⟩
  · rw [parse_request_line_not_tokens r line ht] at h
    cases h

theorem andThen_ok {o : Outcome HttpRequest} {f : HttpRequest → Outcome HttpRequest}
    {r : HttpRequest} (h : o.andThen f = Outcome.ok r) :
    ∃ s, o = Outcome.ok s ∧ f s = Outcome.ok r := by
  cases o with
  | ok s => exact ⟨s, rfl, h⟩
  | throw e s => cases h

theorem frame_of_ok {r s : HttpRequest} {o : Outcome HttpRequest} (hf : BodyFrame r o.state)
    (h : o = Outcome.ok s) : BodyFrame r s := by
  rw [h] at hf
  exact hf

theorem parse_body_phase_inv (fed : Str) (r r2 : HttpRequest)
    (h : r.parse_body_phase = Outcome.ok r2) (hb : HeadersBounded r)
    (hp : r.headers_parsed_ = true) (ht : TargetBounded fed) : ParserInv fed r2 := by
  have hf := frame_of_ok (parse_body_phase_frame r) h
  obtain ⟨_, _, _, h4, _, h6⟩ := hf
  refine ⟨h6 hb, ?_, fun _ => ht⟩
  intro hn
  rw [h4, hp] at hn
  cases hn

theorem append_data_inv (fed d : Str) (r r2 : HttpRequest) (hinv : ParserInv fed r)
    (h : r.append_data d = Outcome.ok r2) : ParserInv (fed ++ d) r2 := by
  obtain ⟨hb, hnp, hpt⟩ := hinv
  unfold HttpRequest.append_data at h
  simp only at h
  by_cases hc : r.complete_ = true
  · rw [if_pos hc] at h
    simp only [Outcome.ok.injEq] at h
    subst h
    have hp : r.headers_parsed_ = true := by
      cases hq : r.headers_parsed_ with
      | true => rfl
      | false =>
        rw [(hnp hq).1] at hc
        cases hc
    refine ⟨hb, ?_, fun _ => target_bounded_append fed d (hpt hp)⟩
    intro hn
    rw [hp] at hn
    cases hn
  · rw [if_neg hc] at h
    unfold HttpRequest.parse at h
    simp only at h
    by_cases he : (r.request_buffer_ ++ d).isEmpty = true
    · rw [if_pos he] at h
      cases h
    · rw [if_neg he, if_neg hc] at h
      cases hq : r.headers_parsed_ with
      | true =>
        rw [hq] at h
        simp only [Bool.not_true, Bool.false_eq_true, if_false] at h
        exact parse_body_phase_inv (fed ++ d) _ r2 h hb rfl
          (target_bounded_append fed d (hpt hq))
      | false =>
        obtain ⟨hcf, hbuf, hua⟩ := hnp hq
        rw [hq] at h
        simp only [Bool.not_false, if_true] at h
        rw [hbuf] at h
        cases hfe : find (fed ++ d) (lit "\r\n\r\n") with
        | none =>
          rw [hfe] at h
          simp only [Outcome.ok.injEq] at h
          subst h
          refine ⟨hb, fun _ => ⟨hcf, ?_, hua⟩, ?_⟩
          · simp only [hbuf]
          · intro hn
            cases hn
        | some k =>
          rw [hfe] at h
          simp only at h
          cases hfl : find (substr (fed ++ d) 0 k) (lit "\r\n") with
          | none =>
            rw [hfl] at h
            cases h
          | some j =>
            rw [hfl] at h
            simp only at h
            obtain ⟨s3, h3, hbody⟩ := andThen_ok h
            obtain ⟨s2, h2, hval⟩ := andThen_ok h3
            obtain ⟨s1, h1, hhdr⟩ := andThen_ok h2
            obtain ⟨⟨m, u, v, htok, hlen⟩, hb1⟩ :=
              parse_request_line_ok _ s1 _ h1 hua
            have hb2 := (frame_of_ok (parse_headers_frame s1 _) hhdr).2.2.2.2.2
            have hb3 := (frame_of_ok (validate_headers_frame s2) hval).2.2.2.2.2
            have hbs3 : HeadersBounded s3 := hb3 (hb2 (hb1 hb))
            have htb : TargetBounded (fed ++ d) := by
              have hjl := find_at_some_length _ _ _ _ hfl
              have hk : substr (fed ++ d) 0 k = (fed ++ d).take k := by
                simp [substr]
              rw [hk] at hfl htok hjl
              have hsplit : fed ++ d = (fed ++ d).take k ++ (fed ++ d).drop k :=
                (List.take_append_drop k (fed ++ d)).symm
              refine ⟨j, m, u, v, ?_, ?_, hlen⟩
              · have := find_at_append (lit "\r\n") ((fed ++ d).take k) ((fed ++ d).drop k) 0 j hfl
                rw [← hsplit] at this
                exact this
              · have e : substr ((fed ++ d).take k) 0 j = (fed ++ d).take j := by
                  simp only [substr, List.drop_zero, List.take_take]
                  simp only [List.length_take] at hjl
                  congr 1
                  omega
                rw [e] at htok
                exact htok
            exact parse_body_phase_inv (fed ++ d) _ r2 hbody hbs3 rfl htb

theorem feed_inv (chunks : List Str) (fed : Str) (r r2 : HttpRequest) (hinv : ParserInv fed r)
    (h : feed r chunks = Outcome.ok r2) : ParserInv (fed ++ chunks.flatten) r2 := by
  induction chunks generalizing fed r with
  | nil =>
    simp only [feed, Outcome.ok.injEq] at h
    subst h
    simpa using hinv
  | cons d ds ih =>
    simp only [feed] at h
    cases ha : r.append_data d with
    | ok r1 =>
      rw [ha] at h
      simp only at h
      have := ih (fed ++ d) r1 (append_data_inv fed d r r1 hinv ha) h
      simpa using this
    | throw e r1 =>
      rw [ha] at h
      cases h

theorem andThen_ok_right (o : Outcome HttpRequest) : o.andThen Outcome.ok = o := by
  cases o <;> rfl

theorem parse_header_lines_store (fields : List (Str × Str)) (raws : List Str)
    (hraw : List.Forall₂ (fun f raw => remove_carriage_return raw = field_line f) fields raws)
    (hwf : ∀ f ∈ fields, WellFormedField f)
    (hshort : ∀ f ∈ fields, (trim f.2).length ≤ MAX_HEADER_SIZE) (r : HttpRequest) (n v : Str) :
    HttpRequest.parse_header_lines raws r n v =
      (r.store_pending_header n v).andThen fun r1 => store_fields r1 fields := by
  induction hraw generalizing r n v with
  | nil =>
    simp only [HttpRequest.parse_header_lines]
    exact (andThen_ok_right _).symm
  | @cons f raw fs raws hfr _ ih =>
    have hwf1 := hwf f (List.mem_cons_self _ _)
    have hwfs : ∀ g ∈ fs, WellFormedField g := fun g hg => hwf g (List.mem_cons_of_mem _ hg)
    have hs1 := hshort f (List.mem_cons_self _ _)
    have hss : ∀ g ∈ fs, (trim g.2).length ≤ MAX_HEADER_SIZE :=
      fun g hg => hshort g (List.mem_cons_of_mem _ hg)
    obtain ⟨hne, hnc⟩ := field_line_props f hwf1
    simp only [HttpRequest.parse_header_lines, hfr, hne, hnc, Bool.false_eq_true, if_false]
    have hf1 : f.1.isEmpty = false := by
      cases hf : f.1 with
      | nil => exact absurd hf hwf1.1
      | cons c cs => rfl
    rw [parse_header_line_wf f hwf1, if_neg (by omega)]
    cases hsp : r.store_pending_header n v with
    | throw e r1 => rfl
    | ok r1 =>
      simp only [Outcome.andThen]
      rw [ih hwfs hss r1 f.1 (trim f.2)]
      simp only [HttpRequest.store_pending_header, hf1, Bool.not_false, if_true, store_fields]

theorem parse_headers_store (fields : List (Str × Str)) (hwf : ∀ f ∈ fields, WellFormedField f)
    (hshort : ∀ f ∈ fields, (trim f.2).length ≤ MAX_HEADER_SIZE) (r : HttpRequest) :
    r.parse_headers (header_block fields) = store_fields r fields := by
  unfold HttpRequest.parse_headers
  rw [parse_header_lines_store fields _ (header_block_lines fields hwf) hwf hshort r [] []]
  rfl

theorem dropWhile_none {p : Char → Bool} (s : Str) (h : ∀ c ∈ s, p c = false) :
    s.dropWhile p = s := by
  cases s with
  | nil => rfl
  | cons c cs => simp [List.dropWhile, h c (List.mem_cons_self _ _)]

theorem trim_plain (s : Str) (h : ∀ c ∈ s, is_ows c = false) : trim s = s := by
  unfold trim
  rw [dropWhile_none s h, dropWhile_none s.reverse (fun c hc => h c (List.mem_reverse.1 hc)),
    List.reverse_reverse]

theorem long_value_mem (c : Char) (h : c ∈ long_value) : c = 'a' :=
  List.eq_of_mem_replicate h

theorem long_value_trim : trim long_value = long_value :=
  trim_plain _ (fun c hc => by rw [long_value_mem c hc]; decide)

theorem long_value_length : long_value.length = MAX_HEADER_SIZE :=
  List.length_replicate _ _

theorem accept_field_wf : WellFormedField (lit "Accept", long_value) := by
  refine ⟨by decide, by decide, ?_, ?_⟩
  · intro h
    have := long_value_mem ':' (List.mem_of_mem_head? h)
    revert this
    decide
  · intro c hc
    rw [long_value_trim] at hc
    rw [long_value_mem c hc]
    decide

theorem two_accept_fields_wf :
    ∀ f ∈ [(lit "Host", lit " x"), (lit "Accept", long_value), (lit "Accept", long_value)],
      WellFormedField f ∧ (trim f.2).length ≤ MAX_HEADER_SIZE := by
  intro f hf
  simp only [List.mem_cons, List.mem_singleton, List.not_mem_nil, or_false] at hf
  have hhost : WellFormedField (lit "Host", lit " x") ∧
      (trim (lit "Host", lit " x").2).length ≤ MAX_HEADER_SIZE := by
    refine ⟨⟨by decide, by decide, by decide, by decide⟩, by decide⟩
  have hacc : WellFormedField (lit "Accept", long_value) ∧
      (trim (lit "Accept", long_value).2).length ≤ MAX_HEADER_SIZE := by
    refine ⟨accept_field_wf, ?_⟩
    show (trim long_value).length ≤ MAX_HEADER_SIZE
    rw [long_value_trim, long_value_length]
  rcases hf with rfl | rfl | rfl
  · exact hhost
  · exact hacc
  · exact hacc

theorem parse_request_line_get_root (r : HttpRequest) (hu : r.uri_ = {}) :
    r.parse_request_line (lit "GET / HTTP/1.1") =
      Outcome.ok { r with
        method_ := Method.GET, http_version_ := lit "HTTP/1.1", uri_ := Uri.parse {} (lit "/") } := by
  rw [parse_request_line_of_tokens r _ (lit "GET") (lit "/") (lit "HTTP/1.1")
    ⟨[], lit " ", lit " ", [], by decide, by decide, by decide, by decide, by decide, by decide,
      by decide, by decide, by decide, by decide, by decide, by decide, by decide⟩]
  unfold HttpRequest.validate_method HttpRequest.validate_http_version HttpRequest.process_target
  have h1 : from_string ((lit "GET").map toupper) = Method.GET := by decide
  have h2 : (lit "HTTP/1.1" != lit "HTTP/1.1" && lit "HTTP/1.1" != lit "HTTP/1.0") = false := by
    decide
  have h3 : validate_uri_size (lit "/") = true := by decide
  have h4 : validate_uri (lit "/") = true := by decide
  have h5 : (Uri.parse {} (lit "/")).absolute_ = false := by decide
  have h6 : (Method.GET == Method.UNKNOWN) = false := by decide
  simp only [h1, h2, h3, h4, h5, h6, hu, Outcome.andThen, Bool.false_eq_true, if_false,
    Bool.not_true]

theorem store_header_plain (r : HttpRequest) (n v : Str) (hc : r.header_count_ < MAX_HEADERS)
    (hn : compare_insensitive n (lit "Transfer-Encoding") = false) :
    r.store_header n v =
      Outcome.ok { r with
        headers_ := add_header r.headers_ n v, header_count_ := r.header_count_ + 1 } := by
  unfold HttpRequest.store_header
  rw [if_neg (by omega)]
  simp only [hn, Bool.false_eq_true, if_false]

theorem add_header_accept_first (v : Str) :
    add_header [(lit "Host", lit "x")] (lit "Accept") v =
      [(lit "Accept", v), (lit "Host", lit "x")] := by
  have h1 : is_single_value_header (lit "Accept") = false := by decide
  have h2 : is_special_multiple_header (lit "Accept") = false := by decide
  have h3 : is_combinable_header (lit "Accept") = true := by decide
  have h4 : (lit "Host" == lit "Accept") = false := by decide
  have h5 : str_lt (lit "Accept") (lit "Host") = true := by decide
  simp only [add_header, h1, h2, h3, hm_find, h4, hm_insert, h5, Bool.false_eq_true, if_false,
    if_true]

theorem add_header_accept_second (v w : Str) :
    add_header [(lit "Accept", v), (lit "Host", lit "x")] (lit "Accept") w =
      [(lit "Accept", v ++ lit ", " ++ w), (lit "Host", lit "x")] := by
  have h1 : is_single_value_header (lit "Accept") = false := by decide
  have h2 : is_special_multiple_header (lit "Accept") = false := by decide
  have h3 : is_combinable_header (lit "Accept") = true := by decide
  have h5 : str_lt (lit "Accept") (lit "Host") = true := by decide
  simp only [add_header, h1, h2, h3, hm_find, hm_erase, hm_insert, h5, beq_self_eq_true,
    Bool.false_eq_true, if_false, if_true]

theorem andThen_ok_eq (s : HttpRequest) (f : HttpRequest → Outcome HttpRequest) :
    (Outcome.ok s).andThen f = f s := rfl

theorem store_two_accept (r : HttpRequest) (v : Str) (hv : trim v = v)
    (h0 : r.header_count_ = 0) (hh : r.headers_ = []) :
    store_fields r [(lit "Host", lit " x"), (lit "Accept", v), (lit "Accept", v)] =
      Outcome.ok { r with
        headers_ := [(lit "Accept", v ++ lit ", " ++ v), (lit "Host", lit "x")]
        header_count_ := 3 } := by
  have ht : trim (lit " x") = lit "x" := by decide
  have hn1 : compare_insensitive (lit "Host") (lit "Transfer-Encoding") = false := by decide
  have hn2 : compare_insensitive (lit "Accept") (lit "Transfer-Encoding") = false := by decide
  have ha0 : add_header [] (lit "Host") (lit "x") = [(lit "Host", lit "x")] := by decide
  simp only [store_fields, ht, hv]
  rw [store_header_plain _ _ _ (by rw [h0]; decide) hn1]
  simp only [Outcome.andThen, hh, ha0, h0]
  rw [store_header_plain _ _ _ (by simp [MAX_HEADERS]) hn2]
  simp only [Outcome.andThen, add_header_accept_first]
  rw [store_header_plain _ _ _ (by simp [MAX_HEADERS]) hn2]
  simp only [Outcome.andThen, add_header_accept_second]

theorem validate_headers_two_accept (r : HttpRequest) (v : Str)
    (hv : r.http_version_ = lit "HTTP/1.1")
    (hh : r.headers_ = [(lit "Accept", v), (lit "Host", lit "x")]) :
    r.validate_headers = Outcome.ok r := by
  have hv1 : (lit "HTTP/1.1" == lit "HTTP/1.1") = true := by decide
  have hc1 : compare_insensitive (lit "Accept") (lit "Host") = false := by decide
  have hc2 : compare_insensitive (lit "Host") (lit "Host") = true := by decide
  have hc3 : compare_insensitive (lit "Accept") (lit "Content-Length") = false := by decide
  have hc4 : compare_insensitive (lit "Host") (lit "Content-Length") = false := by decide
  have hc5 : compare_insensitive (lit "Accept") (lit "Transfer-Encoding") = false := by decide
  have hc6 : compare_insensitive (lit "Host") (lit "Transfer-Encoding") = false := by decide
  simp only [HttpRequest.validate_headers, hv, hh, HttpHeaders.has, HttpHeaders.get, List.any,
    hv1, hc1, hc2, hc3, hc4, hc5, hc6, Bool.false_or, Bool.or_false, Bool.not_true,
    Bool.and_false, Bool.false_eq_true, if_false, List.isEmpty, Bool.false_and]

theorem parse_body_phase_get (r : HttpRequest) (hp : r.headers_parsed_ = true)
    (hc : r.complete_ = false) (hm : r.method_ = Method.GET) :
    r.parse_body_phase = Outcome.ok { r with complete_ := true } := by
  simp only [HttpRequest.parse_body_phase, hp, hc, hm, Bool.not_false, Bool.and_self, if_true,
    beq_self_eq_true, Bool.true_or]

theorem two_accept_parsed :
    HttpRequest.append_data {} two_accept_request =
      Outcome.ok
        { method_ := Method.GET, http_version_ := lit "HTTP/1.1", uri_ := Uri.parse {} (lit "/"),
          headers_ := [(lit "Accept", long_value ++ lit ", " ++ long_value), (lit "Host", lit "x")],
          header_count_ := 3, headers_parsed_ := true, complete_ := true } := by
  have hwf := two_accept_fields_wf
  have hhead := append_data_request_head {} (lit "GET / HTTP/1.1")
    ([(lit "Host", lit " x"), (lit "Accept", long_value), (lit "Accept", long_value)].map
      field_line) [] rfl rfl rfl (by decide) (by simp) (by
      intro l hl
      obtain ⟨f, hf, rfl⟩ := List.mem_map.1 hl
      have := field_line_clean f (hwf f hf).1
      exact ⟨this.1, this.2.1⟩)
  simp only [List.append_nil] at hhead
  have hps := parse_headers_store
    [(lit "Host", lit " x"), (lit "Accept", long_value), (lit "Accept", long_value)]
    (fun f hf => (hwf f hf).1) (fun f hf => (hwf f hf).2)
  unfold header_block at hps
  unfold two_accept_request header_block
  rw [hhead, parse_request_line_get_root _ rfl, andThen_ok_eq, hps,
    store_two_accept _ long_value long_value_trim rfl rfl, andThen_ok_eq,
    validate_headers_two_accept _ _ rfl rfl, andThen_ok_eq,
    parse_body_phase_get _ rfl rfl rfl]

/-- C6 (counterexample): a GET request with two `Accept` field lines of 8192
octets each is parsed without an error and is complete, and the value stored
under `Accept` has 16386 octets. -/
theorem C6_combined_value_counterexample :
    (HttpRequest.append_data {} two_accept_request).error = none ∧
    (HttpRequest.append_data {} two_accept_request).state.complete_ = true ∧
    (lit "Accept", long_value ++ lit ", " ++ long_value) ∈
      (HttpRequest.append_data {} two_accept_request).state.headers_ ∧
    (long_value ++ lit ", " ++ long_value).length = 16386 ∧ MAX_HEADER_SIZE = 8192 := by
  rw [two_accept_parsed]
  refine ⟨rfl, rfl, List.mem_cons_self _ _, ?_, rfl⟩
  simp only [List.length_append, long_value_length]
  decide

/-- C6 (amended): feed any octet sequence, in any number of `append_data`
calls, to a fresh `HttpRequest` (with any body-size cap). If no call raises and
the request is complete, then at most 100 header fields were stored, every
value stored in the header map under a name that is not combinable has at most
8192 octets, and the request target, the second token of the line before the
first CRLF of the octets fed, had at most 2048 octets. -/
theorem C6_complete_request_bounds (cap : Nat) (chunks : List Str) (r : HttpRequest)
    (hfeed : feed { max_content_length_ := cap } chunks = Outcome.ok r)
    (hc : r.complete_ = true) :
    r.header_count_ ≤ MAX_HEADERS ∧
    (∀ kv ∈ r.headers_, is_combinable_header kv.1 = false → kv.2.length ≤ MAX_HEADER_SIZE) ∧
    ∃ j m u v, find chunks.flatten (lit "\r\n") = some j ∧
      ThreeTokens (chunks.flatten.take j) m u v ∧ u.length ≤ MAX_URI_LENGTH := by
  have h0 : ParserInv [] ({ max_content_length_ := cap } : HttpRequest) :=
    ⟨⟨Nat.zero_le _, fun kv hkv => by cases hkv⟩, fun _ => ⟨rfl, rfl, rfl⟩,
      fun hp => by cases hp⟩
  have hinv := feed_inv chunks [] _ r h0 hfeed
  simp only [List.nil_append] at hinv
  obtain ⟨hb, hnp, hpt⟩ := hinv
  have hp : r.headers_parsed_ = true := by
    cases hq : r.headers_parsed_ with
    | true => rfl
    | false =>
      rw [(hnp hq).1] at hc
      cases hc
  exact ⟨hb.1, hb.2, hpt hp⟩

/-- C6 (amended), at the request `GET /a HTTP/1.1` with `Host: x` delivered in
two pieces. -/
theorem C6_complete_request_bounds_witness :
    (feed {} [lit "GET /a HT", lit "TP/1.1\r\nHost: x\r\n\r\n"]).state.header_count_ ≤
      MAX_HEADERS ∧
    (∀ kv ∈ (feed {} [lit "GET /a HT", lit "TP/1.1\r\nHost: x\r\n\r\n"]).state.headers_,
      is_combinable_header kv.1 = false → kv.2.length ≤ MAX_HEADER_SIZE) ∧
    ∃ j m u v,
      find [lit "GET /a HT", lit "TP/1.1\r\nHost: x\r\n\r\n"].flatten (lit "\r\n") = some j ∧
      ThreeTokens ([lit "GET /a HT", lit "TP/1.1\r\nHost: x\r\n\r\n"].flatten.take j) m u v ∧
      u.length ≤ MAX_URI_LENGTH :=
  C6_complete_request_bounds DEFAULT_MAX_CONTENT_LENGTH
    [lit "GET /a HT", lit "TP/1.1\r\nHost: x\r\n\r\n"]
    (feed {} [lit "GET /a HT", lit "TP/1.1\r\nHost: x\r\n\r\n"]).state (by decide) (by decide)

/-! ## Percent-encoding -/

theorem uri_encode_unreserved (s : Str) (h : ∀ c ∈ s, Unreserved c) : uri_encode s = s := by
  induction s with
  | nil => rfl
  | cons c cs ih =>
    have hc : (isalnum c || c == '-' || c == '_' || c == '.' || c == '~') = true := by
      rcases h c (List.mem_cons_self _ _) with h1 | h1 | h1 | h1 | h1 | h1
      · simp [isalnum, h1]
      · simp [isalnum, h1]
      · simp [h1]
      · simp [h1]
      · simp [h1]
      · simp [h1]
    simp only [uri_encode, hc, if_true]
    rw [ih (fun d hd => h d (List.mem_cons_of_mem _ hd))]

theorem uri_decode_no_percent (s : Str) (h : '%' ∉ s) : uri_decode s = Except.ok s := by
  induction s with
  | nil => rfl
  | cons c t ih =>
    have hc : (c == '%') = false := by
      rw [beq_eq_false_iff_ne]
      intro he
      exact h (by rw [he]; exact List.mem_cons_self _ _)
    have ht : '%' ∉ t := fun hm => h (List.mem_cons_of_mem _ hm)
    cases t with
    | nil => rfl
    | cons h1 t2 =>
      cases t2 with
      | nil => rfl
      | cons h2 rest =>
        rw [uri_decode, hc]
        simp only [Bool.false_eq_true, if_false]
        rw [ih ht]

theorem unreserved_not_percent (c : Char) (h : Unreserved c) : c ≠ '%' := by
  rintro rfl
  revert h
  unfold Unreserved
  decide

/-- C18: for every string made only of unreserved ASCII characters (letters,
digits, `-`, `_`, `.`, `~`), `Uri::encode` leaves the string as it is and
`Uri::decode` of the result returns the string, without throwing. -/
theorem C18_decode_encode_unreserved (s : Str) (h : ∀ c ∈ s, Unreserved c) :
    uri_decode (uri_encode s) = Except.ok s := by
  rw [uri_encode_unreserved s h]
  exact uri_decode_no_percent s (fun hm => unreserved_not_percent _ (h _ hm) rfl)

/-- C18, at the string `Az09-_.~`. -/
theorem C18_decode_encode_unreserved_witness :
    uri_decode (uri_encode (lit "Az09-_.~")) = Except.ok (lit "Az09-_.~") :=
  C18_decode_encode_unreserved (lit "Az09-_.~") (by
    intro c hc
    simp only [lit, String.toList, List.mem_cons, List.mem_singleton, List.not_mem_nil,
      or_false] at hc
    unfold Unreserved
    rcases hc with rfl | rfl | rfl | rfl | rfl | rfl | rfl | rfl <;> decide)

/-! ## Path normalisation -/

theorem getline_split_mem (d : Char) (s seg : Str) (h : seg ∈ getline_split d s) :
    d ∉ seg ∧ ∀ c ∈ seg, c ∈ s := by
  induction s generalizing seg with
  | nil => simp [getline_split] at h
  | cons c cs ih =>
    simp only [getline_split] at h
    by_cases hc : (c == d) = true
    · rw [if_pos hc] at h
      rcases List.mem_cons.1 h with rfl | h
      · simp
      · obtain ⟨h1, h2⟩ := ih seg h
        exact ⟨h1, fun x hx => List.mem_cons_of_mem _ (h2 x hx)⟩
    · rw [if_neg hc] at h
      have hcd : c ≠ d := by simpa using hc
      cases hg : getline_split d cs with
      | nil =>
        rw [hg] at h
        simp only [List.mem_singleton] at h
        subst h
        exact ⟨by simpa using fun e => hcd e.symm, by simp⟩
      | cons sg sgs =>
        rw [hg] at h
        simp only at h
        rcases List.mem_cons.1 h with rfl | h
        · obtain ⟨h1, h2⟩ := ih sg (by rw [hg]; exact List.mem_cons_self _ _)
          refine ⟨?_, ?_⟩
          · simp only [List.mem_cons, not_or]
            exact ⟨fun e => hcd e.symm, h1⟩
          · intro x hx
            rcases List.mem_cons.1 hx with rfl | hx
            · exact List.mem_cons_self _ _
            · exact List.mem_cons_of_mem _ (h2 x hx)
        · obtain ⟨h1, h2⟩ := ih seg (by rw [hg]; exact List.mem_cons_of_mem _ h)
          exact ⟨h1, fun x hx => List.mem_cons_of_mem _ (h2 x hx)⟩

theorem collapse_slashes_mem (fuel : Nat) (p : Str) (c : Char)
    (h : c ∈ collapse_slashes fuel p) : c ∈ p ∨ c = '/' := by
  induction fuel generalizing p with
  | zero => exact Or.inl (by simpa [collapse_slashes] using h)
  | succ n ih =>
    simp only [collapse_slashes] at h
    cases hf : find p (lit "// ") with
    | none =>
      rw [hf] at h
      exact Or.inl h
    | some k =>
      rw [hf] at h
      simp only at h
      rcases ih _ h with h1 | h1
      · rcases List.mem_append.1 h1 with h2 | h2
        · exact Or.inl (List.mem_of_mem_take h2)
        · rcases List.mem_cons.1 h2 with h3 | h3
          · exact Or.inr h3
          · exact Or.inl (List.mem_of_mem_drop h3)
      · exact Or.inr h1

theorem collect_segments_clean (L acc : List Str) (hacc : CleanSegments acc)
    (hL : ∀ s ∈ L, '/' ∉ s ∧ '\\' ∉ s) : CleanSegments (collect_segments L acc) := by
  induction L generalizing acc with
  | nil => simpa [collect_segments] using hacc
  | cons s more ih =>
    have hmore : ∀ x ∈ more, '/' ∉ x ∧ '\\' ∉ x := fun x hx => hL x (List.mem_cons_of_mem _ hx)
    simp only [collect_segments]
    by_cases h1 : (s == lit "..") = true
    · rw [if_pos h1]
      exact ih _ (fun x hx => hacc x (List.mem_of_mem_dropLast hx)) hmore
    · rw [if_neg h1]
      by_cases h2 : (s != lit "." && !s.isEmpty) = true
      · rw [if_pos h2]
        apply ih _ _ hmore
        intro x hx
        rcases List.mem_append.1 hx with hx | hx
        · exact hacc x hx
        · simp only [List.mem_singleton] at hx
          subst hx
          simp only [Bool.and_eq_true, bne_iff_ne, ne_eq, Bool.not_eq_true',
            List.isEmpty_eq_false] at h2
          have h3 := hL x (List.mem_cons_self _ _)
          exact ⟨by intro e; rw [e] at h2; simp at h2, by simpa using h1, h2.1, h3.1, h3.2⟩
      · rw [if_neg h2]
        exact ih _ hacc hmore

theorem normalize_path_shape (p : Str) :
    ∃ segs, CleanSegments segs ∧ normalize_path p = '/' :: join_segments segs := by
  unfold normalize_path
  by_cases he : p.isEmpty = true
  · rw [if_pos he]
    exact ⟨[], fun s hs => (by cases hs), by decide⟩
  · rw [if_neg he]
    refine ⟨_, ?_, rfl⟩
    apply collect_segments_clean _ _ (fun s hs => by cases hs)
    intro s hs
    obtain ⟨h1, h2⟩ := getline_split_mem '/' _ s hs
    refine ⟨h1, ?_⟩
    intro hb
    rcases collapse_slashes_mem _ _ _ (h2 _ hb) with h3 | h3
    · obtain ⟨c, _, hc⟩ := List.mem_map.1 h3
      by_cases hcb : (c == '\\') = true
      · rw [if_pos hcb] at hc
        revert hc
        decide
      · rw [if_neg hcb] at hc
        subst hc
        simp at hcb
    · revert h3
      decide

theorem join_segments_mem (segs : List Str) (c : Char) (h : c ∈ join_segments segs) :
    c = '/' ∨ ∃ s ∈ segs, c ∈ s := by
  induction segs with
  | nil => simp [join_segments] at h
  | cons s more ih =>
    cases more with
    | nil =>
      simp only [join_segments] at h
      exact Or.inr ⟨s, List.mem_cons_self _ _, h⟩
    | cons s2 more2 =>
      simp only [join_segments] at h
      rcases List.mem_append.1 h with h1 | h1
      · exact Or.inr ⟨s, List.mem_cons_self _ _, h1⟩
      · rcases List.mem_cons.1 h1 with h2 | h2
        · exact Or.inl h2
        · rcases ih h2 with h3 | ⟨x, hx, hc⟩
          · exact Or.inl h3
          · exact Or.inr ⟨x, List.mem_cons_of_mem _ hx, hc⟩

theorem join_segments_head (segs : List Str) (hc : CleanSegments segs) :
    (join_segments segs).head? ≠ some '/' := by
  cases segs with
  | nil => simp [join_segments]
  | cons s more =>
    obtain ⟨hne, _, _, hs, _⟩ := hc s (List.mem_cons_self _ _)
    cases s with
    | nil => exact absurd rfl hne
    | cons c cs =>
      have hcs : c ≠ '/' := fun e => hs (by rw [e]; exact List.mem_cons_self _ _)
      cases more with
      | nil => simpa [join_segments] using hcs
      | cons s2 more2 => simpa [join_segments] using hcs

theorem find_at_slash_step (rest : Str) (i : Nat) (h : rest.head? ≠ some '/') :
    find_at ['/', '/', ' '] ('/' :: rest) i = find_at ['/', '/', ' '] rest (i + 1) := by
  have : starts_with ('/' :: rest) ['/', '/', ' '] = false := by
    cases rest with
    | nil => simp [starts_with]
    | cons c cs =>
      have hc : (c == '/') = false := by
        rw [beq_eq_false_iff_ne]
        intro e
        exact h (by rw [e]; rfl)
      simp [starts_with, hc]
  simp only [find_at, this, Bool.false_eq_true, if_false]

theorem find_at_join_none (segs : List Str) (hc : CleanSegments segs) (i : Nat) :
    find_at ['/', '/', ' '] (join_segments segs) i = none := by
  induction segs generalizing i with
  | nil => simp [join_segments, find_at]
  | cons s more ih =>
    have hs := (hc s (List.mem_cons_self _ _)).2.2.2.1
    have hmore : CleanSegments more := fun x hx => hc x (List.mem_cons_of_mem _ hx)
    cases more with
    | nil =>
      simp only [join_segments]
      have := find_at_skip '/' ['/', ' '] s [] i hs
      rw [List.append_nil] at this
      rw [this]
      simp [find_at]
    | cons s2 more2 =>
      simp only [join_segments]
      rw [find_at_skip '/' ['/', ' '] s _ i hs,
        find_at_slash_step _ _ (join_segments_head _ hmore)]
      exact ih hmore _

theorem getline_split_join (segs : List Str) (hc : CleanSegments segs) :
    getline_split '/' (join_segments segs) = segs := by
  induction segs with
  | nil => rfl
  | cons s more ih =>
    obtain ⟨hne, _, _, hs, _⟩ := hc s (List.mem_cons_self _ _)
    have hmore : CleanSegments more := fun x hx => hc x (List.mem_cons_of_mem _ hx)
    cases more with
    | nil =>
      simp only [join_segments]
      exact getline_split_single '/' s hs hne
    | cons s2 more2 =>
      simp only [join_segments]
      rw [getline_split_append '/' s _ hs, ih hmore]

theorem collect_segments_clean_id (segs acc : List Str) (hc : CleanSegments segs) :
    collect_segments segs acc = acc ++ segs := by
  induction segs generalizing acc with
  | nil => simp [collect_segments]
  | cons s more ih =>
    obtain ⟨hne, h2, h1, _, _⟩ := hc s (List.mem_cons_self _ _)
    have hmore : CleanSegments more := fun x hx => hc x (List.mem_cons_of_mem _ hx)
    have e1 : (s == lit "..") = false := by rw [beq_eq_false_iff_ne]; exact h2
    have e2 : (s != lit "." && !s.isEmpty) = true := by
      cases s with
      | nil => exact absurd rfl hne
      | cons c cs => simpa using h1
    simp only [collect_segments, e1, e2, Bool.false_eq_true, if_false, if_true]
    rw [ih _ hmore]
    simp

theorem normalize_path_clean (segs : List Str) (hc : CleanSegments segs) :
    normalize_path ('/' :: join_segments segs) = '/' :: join_segments segs := by
  have hmap : ('/' :: join_segments segs).map (fun c => if c == '\\' then '/' else c) =
      '/' :: join_segments segs := by
    conv => rhs; rw [← List.map_id ('/' :: join_segments segs)]
    apply List.map_congr_left
    intro c hcm
    have hcb : c ≠ '\\' := by
      rcases List.mem_cons.1 hcm with h | h
      · rw [h]; decide
      · rcases join_segments_mem _ _ h with h1 | ⟨s, hs, hcs⟩
        · rw [h1]; decide
        · intro e
          exact (hc s hs).2.2.2.2 (by rw [← e]; exact hcs)
    have : (c == '\\') = false := by rw [beq_eq_false_iff_ne]; exact hcb
    simp [this]
  have hfind : find ('/' :: join_segments segs) (lit "// ") = none := by
    unfold find
    rw [show lit "// " = ['/', '/', ' '] from by decide,
      find_at_slash_step _ _ (join_segments_head _ hc)]
    exact find_at_join_none segs hc _
  have hcol : ∀ n, collapse_slashes n ('/' :: join_segments segs) = '/' :: join_segments segs := by
    intro n
    cases n with
    | zero => rfl
    | succ m => simp only [collapse_slashes, hfind]
  unfold normalize_path
  simp only [List.isEmpty_cons, Bool.false_eq_true, if_false]
  rw [hmap, hcol]
  have hsplit : getline_split '/' ('/' :: join_segments segs) = [] :: segs := by
    simp only [getline_split, beq_self_eq_true, if_true]
    rw [getline_split_join segs hc]
  rw [hsplit]
  have hdrop : collect_segments ([] :: segs) [] = collect_segments segs [] := by
    have e1 : (([] : Str) == lit "..") = false := by decide
    have e2 : (([] : Str) != lit "." && !([] : Str).isEmpty) = false := by decide
    simp only [collect_segments, e1, e2, Bool.false_eq_true, if_false]
  rw [hdrop, collect_segments_clean_id segs [] hc]
  simp

/-- C17: for every string `p`, `Uri::normalize_path` is idempotent: normalising
the normalised path gives the same path. -/
theorem C17_normalize_path_idempotent (p : Str) :
    normalize_path (normalize_path p) = normalize_path p := by
  obtain ⟨segs, hc, hp⟩ := normalize_path_shape p
  rw [hp]
  exact normalize_path_clean segs hc

/-! ## Header maps -/

theorem compare_insensitive_refl (a : Str) : compare_insensitive a a = true := by
  unfold compare_insensitive
  simp only [bne_self_eq_false, Bool.false_eq_true, if_false, List.all_eq_true]
  intro p hp
  have := List.of_mem_zip hp
  induction a with
  | nil => simp at hp
  | cons c cs ih =>
    simp only [List.zip_cons_cons, List.mem_cons] at hp
    rcases hp with rfl | hp
    · simp
    · exact ih hp (List.of_mem_zip hp)

theorem mem_hm_insert_self (n v : Str) (h : HeaderMap) : (n, v) ∈ hm_insert n v h := by
  induction h with
  | nil => simp [hm_insert]
  | cons kv rest ih =>
    obtain ⟨k, w⟩ := kv
    simp only [hm_insert]
    split
    · exact List.mem_cons_self _ _
    · exact List.mem_cons_of_mem _ ih

theorem sublist_hm_insert (n v : Str) (h : HeaderMap) : h.Sublist (hm_insert n v h) := by
  induction h with
  | nil => simp
  | cons kv rest ih =>
    obtain ⟨k, w⟩ := kv
    simp only [hm_insert]
    split
    · exact List.Sublist.cons _ (List.Sublist.refl _)
    · exact List.Sublist.cons₂ _ ih

theorem other_entries_hm_insert (n v : Str) (h : HeaderMap) :
    other_entries n (hm_insert n v h) = other_entries n h := by
  induction h with
  | nil => simp [hm_insert, other_entries]
  | cons kv rest ih =>
    obtain ⟨k, w⟩ := kv
    simp only [hm_insert]
    split
    · simp [other_entries]
    · simp only [other_entries, List.filter_cons] at ih ⊢
      rw [ih]

theorem entries_for_hm_insert_length (n v : Str) (h : HeaderMap) :
    (entries_for n (hm_insert n v h)).length = (entries_for n h).length + 1 := by
  induction h with
  | nil => simp [hm_insert, entries_for]
  | cons kv rest ih =>
    obtain ⟨k, w⟩ := kv
    simp only [hm_insert]
    split
    · simp [entries_for]
    · simp only [entries_for, List.filter_cons] at ih ⊢
      split
      · simp only [List.length_cons, ih]
      · exact ih

theorem entries_for_hm_insert_nil (n v : Str) (h : HeaderMap) (hn : entries_for n h = []) :
    entries_for n (hm_insert n v h) = [(n, v)] := by
  induction h with
  | nil => simp [hm_insert, entries_for]
  | cons kv rest ih =>
    obtain ⟨k, w⟩ := kv
    simp only [entries_for, List.filter_cons] at hn
    by_cases hk : (k == n) = true
    · simp [hk] at hn
    · simp only [hk, Bool.false_eq_true, if_false] at hn
      simp only [hm_insert]
      split
      · simp only [entries_for, List.filter_cons, beq_self_eq_true, if_true, hk,
          Bool.false_eq_true, if_false]
        rw [show List.filter (fun kv => kv.1 == n) rest = [] from hn]
      · simp only [entries_for, List.filter_cons, hk, Bool.false_eq_true, if_false]
        exact ih hn

theorem other_entries_hm_erase (n : Str) (h : HeaderMap) :
    other_entries n (hm_erase n h) = other_entries n h := by
  induction h with
  | nil => rfl
  | cons kv rest ih =>
    obtain ⟨k, w⟩ := kv
    simp only [hm_erase]
    by_cases hk : (k == n) = true
    · simp [other_entries, hk]
    · simp only [hk, Bool.false_eq_true, if_false, other_entries, List.filter_cons,
        Bool.not_false, if_true] at ih ⊢
      rw [ih]

theorem entries_for_hm_erase (n : Str) (h : HeaderMap) :
    entries_for n (hm_erase n h) = (entries_for n h).tail := by
  induction h with
  | nil => rfl
  | cons kv rest ih =>
    obtain ⟨k, w⟩ := kv
    simp only [hm_erase]
    by_cases hk : (k == n) = true
    · simp [entries_for, hk]
    · simp only [hk, Bool.false_eq_true, if_false, entries_for, List.filter_cons] at ih ⊢
      exact ih

theorem hm_find_eq (n : Str) (h : HeaderMap) :
    hm_find n h = (entries_for n h).head?.map (fun kv => kv.2) := by
  induction h with
  | nil => rfl
  | cons kv rest ih =>
    obtain ⟨k, w⟩ := kv
    simp only [hm_find, entries_for, List.filter_cons]
    by_cases hk : (k == n) = true
    · simp [hk]
    · simp only [hk, Bool.false_eq_true, if_false]
      exact ih

theorem entries_for_keys (n : Str) (h : HeaderMap) : ∀ kv ∈ entries_for n h, kv.1 = n := by
  intro kv hkv
  have := (List.mem_filter.1 hkv).2
  simpa using this

theorem get_eq_of_exact (n : Str) (m : HeaderMap)
    (hci : ∀ kv ∈ m, compare_insensitive kv.1 n = true → kv.1 = n) :
    HttpHeaders.get m n = ((entries_for n m).head?.map (fun kv => kv.2)).getD [] := by
  induction m with
  | nil => rfl
  | cons kv rest ih =>
    obtain ⟨k, w⟩ := kv
    have hrest : ∀ kv ∈ rest, compare_insensitive kv.1 n = true → kv.1 = n :=
      fun x hx => hci x (List.mem_cons_of_mem _ hx)
    simp only [HttpHeaders.get, entries_for, List.filter_cons]
    by_cases hc : compare_insensitive k n = true
    · have hk : k = n := hci (k, w) (List.mem_cons_self _ _) hc
      simp [hk, compare_insensitive_refl]
    · have hk : (k == n) = false := by
        rw [beq_eq_false_iff_ne]
        intro e
        rw [e] at hc
        exact hc (compare_insensitive_refl n)
      simp only [hc, hk, Bool.false_eq_true, if_false]
      exact ih hrest

theorem get_hm_insert_other (n v name : Str) (h : HeaderMap)
    (hc : compare_insensitive n name = false) :
    HttpHeaders.get (hm_insert n v h) name = HttpHeaders.get h name := by
  induction h with
  | nil => simp [hm_insert, HttpHeaders.get, hc]
  | cons kv rest ih =>
    obtain ⟨k, w⟩ := kv
    simp only [hm_insert]
    split
    · simp [HttpHeaders.get, hc]
    · simp only [HttpHeaders.get, ih]

theorem get_hm_erase_other (n name : Str) (h : HeaderMap)
    (hc : compare_insensitive n name = false) :
    HttpHeaders.get (hm_erase n h) name = HttpHeaders.get h name := by
  induction h with
  | nil => rfl
  | cons kv rest ih =>
    obtain ⟨k, w⟩ := kv
    simp only [hm_erase]
    by_cases hk : (k == n) = true
    · have : k = n := by simpa using hk
      subst this
      simp [HttpHeaders.get, hc]
    · simp only [hk, Bool.false_eq_true, if_false, HttpHeaders.get, ih]

theorem get_add_header_other (h : HeaderMap) (n v name : Str)
    (hc : compare_insensitive n name = false) :
    HttpHeaders.get (add_header h n v) name = HttpHeaders.get h name := by
  unfold add_header replace_header
  split_ifs <;> (try split) <;>
    simp only [get_hm_insert_other _ _ _ _ hc, get_hm_erase_other _ _ _ hc]

theorem has_hm_insert (n v name : Str) (h : HeaderMap) :
    HttpHeaders.has (hm_insert n v h) name =
      (compare_insensitive n name || HttpHeaders.has h name) := by
  induction h with
  | nil => simp [hm_insert, HttpHeaders.has]
  | cons kv rest ih =>
    obtain ⟨k, w⟩ := kv
    simp only [hm_insert]
    split
    · simp [HttpHeaders.has]
    · simp only [HttpHeaders.has, List.any_cons] at ih ⊢
      rw [ih]
      cases compare_insensitive k name <;> cases compare_insensitive n name <;> simp

theorem has_hm_erase_other (n name : Str) (h : HeaderMap)
    (hc : compare_insensitive n name = false) :
    HttpHeaders.has (hm_erase n h) name = HttpHeaders.has h name := by
  induction h with
  | nil => rfl
  | cons kv rest ih =>
    obtain ⟨k, w⟩ := kv
    simp only [hm_erase]
    by_cases hk : (k == n) = true
    · have : k = n := by simpa using hk
      subst this
      simp [HttpHeaders.has, hc]
    · simp only [hk, Bool.false_eq_true, if_false, HttpHeaders.has, List.any_cons] at ih ⊢
      rw [ih]

theorem has_add_header (h : HeaderMap) (n v name : Str) :
    HttpHeaders.has (add_header h n v) name =
      (compare_insensitive n name || HttpHeaders.has h name) := by
  by_cases hc : compare_insensitive n name = true
  · have : HttpHeaders.has (add_header h n v) name = true := by
      have hmem : ∃ w, (n, w) ∈ add_header h n v := by
        unfold add_header replace_header
        split_ifs <;> (try split) <;> exact ⟨_, mem_hm_insert_self _ _ _⟩
      obtain ⟨w, hw⟩ := hmem
      unfold HttpHeaders.has
      rw [List.any_eq_true]
      exact ⟨(n, w), hw, hc⟩
    rw [this, hc]
    rfl
  · have hc2 : compare_insensitive n name = false := by simpa using hc
    rw [hc2, Bool.false_or]
    unfold add_header replace_header
    split_ifs <;> (try split) <;>
      simp only [has_hm_insert, has_hm_erase_other _ _ _ hc2, hc2, Bool.false_or]

theorem has_false_iff (h : HeaderMap) (name : Str) :
    HttpHeaders.has h name = false ↔ ∀ kv ∈ h, compare_insensitive kv.1 name = false := by
  unfold HttpHeaders.has
  rw [List.any_eq_false]
  constructor
  · intro hh kv hkv
    simpa using hh kv hkv
  · intro hh kv hkv
    simpa using hh kv hkv

theorem get_add_header_fresh (h : HeaderMap) (n v name : Str)
    (hh : HttpHeaders.has h name = false) (hc : compare_insensitive n name = true) :
    HttpHeaders.get (add_header h n v) name = v ∧ add_header h n v = hm_insert n v h := by
  have hall := (has_false_iff h name).1 hh
  have hfind : hm_find n h = none := by
    rw [hm_find_eq]
    cases he : entries_for n h with
    | nil => rfl
    | cons kv rest =>
      have hm : kv ∈ entries_for n h := by rw [he]; exact List.mem_cons_self _ _
      have hk := entries_for_keys n h kv hm
      have := hall kv (List.mem_filter.1 hm).1
      rw [hk, hc] at this
      cases this
  have heq : add_header h n v = hm_insert n v h := by
    unfold add_header replace_header
    rw [hfind]
    split_ifs <;> rfl
  refine ⟨?_, heq⟩
  rw [heq]
  clear heq hfind hh
  induction h with
  | nil => simp [hm_insert, HttpHeaders.get, hc]
  | cons kv rest ih =>
    obtain ⟨k, w⟩ := kv
    have hk := hall (k, w) (List.mem_cons_self _ _)
    simp only at hk
    simp only [hm_insert]
    split
    · simp [HttpHeaders.get, hc]
    · simp only [HttpHeaders.get, hk, Bool.false_eq_true, if_false]
      exact ih (fun x hx => hall x (List.mem_cons_of_mem _ hx))

theorem length_hm_insert (n v : Str) (h : HeaderMap) :
    (hm_insert n v h).length = h.length + 1 := by
  induction h with
  | nil => rfl
  | cons kv rest ih =>
    obtain ⟨k, w⟩ := kv
    simp only [hm_insert]
    split
    · rfl
    · simp only [List.length_cons, ih]

theorem entries_for_nil_of_find_none (n : Str) (h : HeaderMap) (hf : hm_find n h = none) :
    entries_for n h = [] := by
  rw [hm_find_eq] at hf
  cases he : entries_for n h with
  | nil => rfl
  | cons kv rest =>
    rw [he] at hf
    simp at hf

theorem entries_for_of_find_some (n old : Str) (h : HeaderMap) (hf : hm_find n h = some old)
    (hu : (entries_for n h).length ≤ 1) : entries_for n h = [(n, old)] := by
  rw [hm_find_eq] at hf
  cases he : entries_for n h with
  | nil => rw [he] at hf; simp at hf
  | cons kv rest =>
    rw [he] at hf hu
    have hk := entries_for_keys n h kv (by rw [he]; exact List.mem_cons_self _ _)
    simp only [List.head?_cons, Option.map_some', Option.some.injEq] at hf
    cases rest with
    | nil =>
      obtain ⟨k, w⟩ := kv
      simp only at hk hf
      rw [hk, hf]
    | cons x xs => simp at hu

theorem entries_for_replace_header (h : HeaderMap) (n v : Str)
    (hu : (entries_for n h).length ≤ 1) : entries_for n (replace_header h n v) = [(n, v)] := by
  unfold replace_header
  cases hf : hm_find n h with
  | none => exact entries_for_hm_insert_nil n v h (entries_for_nil_of_find_none n h hf)
  | some old =>
    apply entries_for_hm_insert_nil
    rw [entries_for_hm_erase, entries_for_of_find_some n old h hf hu]
    rfl

theorem other_entries_add_header (h : HeaderMap) (n v : Str) :
    other_entries n (add_header h n v) = other_entries n h := by
  unfold add_header replace_header
  split_ifs <;> (try split) <;>
    simp only [other_entries_hm_insert, other_entries_hm_erase]

theorem add_header_replace_kind (h : HeaderMap) (n v : Str)
    (hk : is_single_value_header n = true ∨
      (is_special_multiple_header n = false ∧ is_combinable_header n = false)) :
    add_header h n v = replace_header h n v := by
  unfold add_header
  rcases hk with h1 | ⟨h2, h3⟩
  · rw [if_pos h1]
  · split_ifs <;> first | rfl | simp_all

theorem get_add_header_replace (h : HeaderMap) (n v : Str)
    (hk : is_single_value_header n = true ∨
      (is_special_multiple_header n = false ∧ is_combinable_header n = false))
    (hu : (entries_for n h).length ≤ 1)
    (hci : ∀ kv ∈ h, compare_insensitive kv.1 n = true → kv.1 = n) :
    HttpHeaders.get (add_header h n v) n = v := by
  rw [add_header_replace_kind h n v hk]
  have he := entries_for_replace_header h n v hu
  rw [get_eq_of_exact n _ ?_, he]
  · rfl
  · intro kv hkv hc
    rcases mem_replace_header h n v kv hkv with h1 | h1
    · rw [h1]
    · exact hci kv h1 hc

theorem entries_for_add_header_other (h : HeaderMap) (n v k : Str) (hk : k ≠ n) :
    entries_for k (add_header h n v) = entries_for k h := by
  have e : ∀ m : HeaderMap, entries_for k (other_entries n m) = entries_for k m := by
    intro m
    simp only [entries_for, other_entries, List.filter_filter]
    apply List.filter_congr
    intro kv _
    by_cases hx : (kv.1 == k) = true
    · have : kv.1 = k := by simpa using hx
      have hne : (kv.1 == n) = false := by
        rw [beq_eq_false_iff_ne, this]
        exact hk
      simp [hx, hne]
    · simp [hx]
  rw [← e (add_header h n v), other_entries_add_header, e h]

/-- C13: `HttpHeaders::add_header` follows the storage policy with field names
compared octet for octet, as `std::multimap::find` compares them, on a header
map that holds at most one entry for `n` where the policy replaces or combines.
Entries under other names are untouched. If `n` is in the single-value set or
in no set, exactly the entry `(n, v)` remains for `n`, and looking `n` up
yields `v` (with the case-insensitive lookup too, when no stored name differs
from `n` only in case). If `n` is in the special-multiple set, a new entry is
added and all earlier entries are kept. If `n` is combinable, the one entry for
`n` holds the earlier value followed by `", "` and `v`, or `v` when there was
none. A stored name that differs from `n` in case is not found: adding `host`
to a map that holds `Host` leaves two entries, and looking `host` up yields the
old value. -/
theorem C13_add_header_policy (h : HeaderMap) (n v : Str) :
    other_entries n (add_header h n v) = other_entries n h ∧
    ((is_single_value_header n = true ∨
        (is_special_multiple_header n = false ∧ is_combinable_header n = false)) →
      (entries_for n h).length ≤ 1 →
      entries_for n (add_header h n v) = [(n, v)] ∧ hm_find n (add_header h n v) = some v ∧
      ((∀ kv ∈ h, compare_insensitive kv.1 n = true → kv.1 = n) →
        HttpHeaders.get (add_header h n v) n = v)) ∧
    (is_single_value_header n = false → is_special_multiple_header n = true →
      h.Sublist (add_header h n v) ∧ (n, v) ∈ add_header h n v ∧
      (add_header h n v).length = h.length + 1) ∧
    (is_single_value_header n = false → is_special_multiple_header n = false →
      is_combinable_header n = true → (entries_for n h).length ≤ 1 →
      entries_for n (add_header h n v) =
        [(n, match hm_find n h with
              | some old => old ++ lit ", " ++ v
              | none => v)]) ∧
    (add_header [(lit "Host", lit "a")] (lit "host") (lit "b") =
        [(lit "Host", lit "a"), (lit "host", lit "b")] ∧
      HttpHeaders.get (add_header [(lit "Host", lit "a")] (lit "host") (lit "b")) (lit "host") =
        lit "a") := by
  refine ⟨other_entries_add_header h n v, ?_, ?_, ?_, by decide⟩
  · intro hk hu
    rw [add_header_replace_kind h n v hk]
    have he := entries_for_replace_header h n v hu
    refine ⟨he, by rw [hm_find_eq, he]; rfl, ?_⟩
    intro hci
    rw [get_eq_of_exact n _ ?_, he]
    · rfl
    · intro kv hkv hc
      rcases mem_replace_header h n v kv hkv with h1 | h1
      · rw [h1]
      · exact hci kv h1 hc
  · intro h1 h2
    have e : add_header h n v = hm_insert n v h := by
      unfold add_header
      rw [if_neg (by rw [h1]; simp), if_pos h2]
    rw [e]
    exact ⟨sublist_hm_insert n v h, mem_hm_insert_self n v h, length_hm_insert n v h⟩
  · intro h1 h2 h3 hu
    unfold add_header
    rw [if_neg (by rw [h1]; simp), if_neg (by rw [h2]; simp), if_pos h3]
    cases hf : hm_find n h with
    | none =>
      simp only
      exact entries_for_hm_insert_nil n v h (entries_for_nil_of_find_none n h hf)
    | some old =>
      simp only
      apply entries_for_hm_insert_nil
      rw [entries_for_hm_erase, entries_for_of_find_some n old h hf hu]
      rfl

/-- C13, at a map that holds `Host: a`, for the new value `b` of `Host`. -/
theorem C13_add_header_policy_witness :
    entries_for (lit "Host") (add_header [(lit "Host", lit "a")] (lit "Host") (lit "b")) =
      [(lit "Host", lit "b")] :=
  ((C13_add_header_policy [(lit "Host", lit "a")] (lit "Host") (lit "b")).2.1
    (Or.inl (by decide)) (by decide)).1

/-! ## The Host header of an absolute target -/

theorem process_target_host (r r1 : HttpRequest) (u : Str)
    (h : r.process_target u = Outcome.ok r1) (hh : r.headers_ = [])
    (habs : r1.uri_.absolute_ = true) :
    r1.get_header (lit "Host") =
      if r1.uri_.port_ != 80 && r1.uri_.port_ != 443 then
        r1.uri_.host_ ++ ':' :: to_string_int r1.uri_.port_
      else r1.uri_.host_ := by
  unfold HttpRequest.process_target at h
  by_cases hsz : validate_uri_size u = true
  · simp only [hsz, Bool.not_true, Bool.false_eq_true, if_false] at h
    by_cases hv : validate_uri u = true
    · simp only [hv, Bool.not_true, Bool.false_eq_true, if_false] at h
      by_cases ha : (Uri.parse r.uri_ u).absolute_ = true
      · rw [if_pos ha] at h
        simp only [Outcome.ok.injEq] at h
        subst h
        simp only [HttpRequest.get_header, hh]
        exact (get_add_header_fresh [] (lit "Host") _ (lit "Host") rfl (by decide)).1
      · rw [if_neg ha] at h
        simp only [Outcome.ok.injEq] at h
        subst h
        exact absurd habs ha
    · simp only [hv, Bool.not_false, if_true] at h
      cases h
  · simp only [hsz, Bool.not_false, if_true] at h
    cases h

/-- C11: once the request line with an absolute target is processed on a
request without headers, the `Host` header is the host of the authority, with
`:port` appended when the port is neither 80 nor 443. A `Host` field of the
header block is stored afterwards and replaces it: the request
`GET http://example.com/a HTTP/1.1` with `Host: other.test` is parsed without
error and its `Host` header is `other.test`, while the host of its target is
`example.com`; without that field the `Host` header is `example.com`, and
`example.com:8080` for the authority `example.com:8080`. -/
theorem C11_host_field_replaces_authority :
    (∀ (r r1 : HttpRequest) (u : Str), r.process_target u = Outcome.ok r1 → r.headers_ = [] →
      r1.uri_.absolute_ = true →
      r1.get_header (lit "Host") =
        if r1.uri_.port_ != 80 && r1.uri_.port_ != 443 then
          r1.uri_.host_ ++ ':' :: to_string_int r1.uri_.port_
        else r1.uri_.host_) ∧
    (HttpRequest.append_data {} absolute_target_request).error = none ∧
    (HttpRequest.append_data {} absolute_target_request).state.complete_ = true ∧
    (HttpRequest.append_data {} absolute_target_request).state.uri_.absolute_ = true ∧
    (HttpRequest.append_data {} absolute_target_request).state.uri_.host_ = lit "example.com" ∧
    (HttpRequest.append_data {} absolute_target_request).state.get_header (lit "Host") =
      lit "other.test" ∧
    (HttpRequest.append_data {}
      (lit "GET http://example.com/a HTTP/1.1\r\nAccept: x\r\n\r\n")).state.get_header
        (lit "Host") = lit "example.com" ∧
    (HttpRequest.append_data {}
      (lit "GET http://example.com:8080/a HTTP/1.1\r\nAccept: x\r\n\r\n")).state.get_header
        (lit "Host") = lit "example.com:8080" := by
  refine ⟨fun r r1 u h hh habs => process_target_host r r1 u h hh habs, ?_⟩
  decide

/-- C11, at the target `http://example.com:8080/a` on a fresh request. -/
theorem C11_host_field_replaces_authority_witness :
    (HttpRequest.process_target {} (lit "http://example.com:8080/a")).state.get_header
      (lit "Host") = lit "example.com:8080" := by
  have h := C11_host_field_replaces_authority.1 {}
    (HttpRequest.process_target {} (lit "http://example.com:8080/a")).state
    (lit "http://example.com:8080/a") (by decide) rfl (by decide)
  rw [h]
  decide

/-! ## The chunked flag and Content-Length -/

/-- C14: on a fresh request, in every state reached by `append_data` calls that
raise no error, complete implies headers parsed. The chunked flag does not
imply that no `Content-Length` header is stored: a chunked request whose
trailer section carries `Content-Length: 5` is parsed without error and is
complete with the chunked flag set and that header stored, and so is a chunked
request whose header block carries a `Content-Length` field with an empty
value. -/
theorem C14_complete_implies_parsed_not_length (cap : Nat) (chunks : List Str) (r : HttpRequest)
    (hfeed : feed { max_content_length_ := cap } chunks = Outcome.ok r) :
    (r.complete_ = true → r.headers_parsed_ = true) ∧
    ((HttpRequest.append_data {} chunked_trailer_request).error = none ∧
      (HttpRequest.append_data {} chunked_trailer_request).state.complete_ = true ∧
      (HttpRequest.append_data {} chunked_trailer_request).state.chunked_ = true ∧
      HttpHeaders.has (HttpRequest.append_data {} chunked_trailer_request).state.headers_
        (lit "Content-Length") = true ∧
      (HttpRequest.append_data {} chunked_trailer_request).state.get_header
        (lit "Content-Length") = lit "5") ∧
    ((HttpRequest.append_data {} chunked_empty_length_request).error = none ∧
      (HttpRequest.append_data {} chunked_empty_length_request).state.complete_ = true ∧
      (HttpRequest.append_data {} chunked_empty_length_request).state.chunked_ = true ∧
      HttpHeaders.has (HttpRequest.append_data {} chunked_empty_length_request).state.headers_
        (lit "Content-Length") = true) := by
  have h0 : ParserInv [] ({ max_content_length_ := cap } : HttpRequest) :=
    ⟨⟨Nat.zero_le _, fun kv hkv => by cases hkv⟩, fun _ => ⟨rfl, rfl, rfl⟩,
      fun hp => by cases hp⟩
  obtain ⟨_, hnp, _⟩ := feed_inv chunks [] _ r h0 hfeed
  refine ⟨?_, by decide, by decide⟩
  intro hc
  cases hq : r.headers_parsed_ with
  | true => rfl
  | false =>
    rw [(hnp hq).1] at hc
    cases hc

/-- C14, at a chunked request delivered in two pieces. -/
theorem C14_complete_implies_parsed_not_length_witness :
    (feed {} [lit "POST /u HTTP/1.1\r\nHost: x\r\nTransfer-Encoding: chunked\r\n\r\n",
      lit "0\r\n\r\n"]).state.complete_ = true ∧
    (feed {} [lit "POST /u HTTP/1.1\r\nHost: x\r\nTransfer-Encoding: chunked\r\n\r\n",
      lit "0\r\n\r\n"]).state.headers_parsed_ = true :=
  ⟨by decide,
    (C14_complete_implies_parsed_not_length DEFAULT_MAX_CONTENT_LENGTH
      [lit "POST /u HTTP/1.1\r\nHost: x\r\nTransfer-Encoding: chunked\r\n\r\n", lit "0\r\n\r\n"]
      (feed {} [lit "POST /u HTTP/1.1\r\nHost: x\r\nTransfer-Encoding: chunked\r\n\r\n",
        lit "0\r\n\r\n"]).state (by decide)).1 (by decide)⟩

/-! ## Validation of a header field line -/

theorem find_char_first_colon (n v : Str) (hn : ':' ∉ n) :
    find_char (n ++ ':' :: v) ':' = some n.length := by
  have hnc : ∀ c ∈ n, (fun d => d != ':') c = true := by
    intro c hc
    simp only [bne_iff_ne, ne_eq]
    intro e
    exact hn (by rw [← e]; exact hc)
  have htw : (n ++ ':' :: v).takeWhile (fun d => d != ':') = n :=
    takeWhile_append_stop n (':' :: v) hnc (Or.inr ⟨':', v, rfl, by simp⟩)
  unfold find_char
  rw [find_char_at_eq, htw]
  simp

theorem find_char_none (line : Str) (h : ':' ∉ line) : find_char line ':' = none := by
  unfold find_char
  rw [find_char_at_eq, if_neg h]

theorem parse_header_line_split (n v : Str) (hn : ':' ∉ n) :
    parse_header_line (n ++ ':' :: v) =
      if is_malformed_header_line (n ++ ':' :: v) n.length then Except.error BAD_REQUEST
      else
        match validate_header_name n with
        | some e => Except.error e
        | none =>
          match validate_header_value (trim v) with
          | some e => Except.error e
          | none => Except.ok (n, trim v) := by
  have hsub1 : substr (n ++ ':' :: v) 0 n.length = n := by simp [substr]
  have hsub2 : substr_from (n ++ ':' :: v) (n.length + 1) = v := by simp [substr_from]
  unfold parse_header_line
  simp only [find_char_first_colon n v hn, hsub1, hsub2]

theorem is_malformed_of_double_colon (n v : Str) (hv : v.head? = some ':') :
    is_malformed_header_line (n ++ ':' :: v) n.length = true := by
  cases v with
  | nil => simp at hv
  | cons c cs =>
    simp only [List.head?_cons, Option.some.injEq] at hv
    subst hv
    unfold is_malformed_header_line
    have hget : (n ++ ':' :: ':' :: cs).get? (n.length + 1) = some ':' := by
      rw [List.get?_eq_getElem?, List.getElem?_append_right (by omega)]
      have : n.length + 1 - n.length = 1 := by omega
      rw [this]
      simp
    have hlen : n.length + 1 < (n ++ ':' :: ':' :: cs).length := by
      simp only [List.length_append, List.length_cons]
      omega
    simp only [hget, hlen, decide_True, beq_self_eq_true, Bool.and_self, if_true]
    split <;> rfl

theorem is_malformed_false (n v : Str) (hne : n ≠ []) (htok : ∀ c ∈ n, is_token_char c = true)
    (hhead : v.head? ≠ some ':') :
    is_malformed_header_line (n ++ ':' :: v) n.length = false := by
  have hws : has_whitespace_before_colon (n ++ ':' :: v) n.length = false := by
    unfold has_whitespace_before_colon
    have hpos : 0 < n.length := List.length_pos.2 hne
    obtain ⟨c, hc, hget⟩ := get?_append_last n (':' :: v) hne
    have ht := token_char_not_colon c (htok c hc)
    simp only [hpos, gt_iff_lt, if_true, hget]
    simp [ht.2.1, ht.2.2.1]
  have hget1 : (n ++ ':' :: v).get? (n.length + 1) = v.head? := by
    rw [List.get?_eq_getElem?, List.getElem?_append_right (by omega)]
    have : n.length + 1 - n.length = 1 := by omega
    rw [this]
    cases v <;> simp
  have htake : (n ++ ':' :: v).take n.length = n := by simp
  have hany : n.any (fun c => c == ':') = false := by
    rw [Bool.eq_false_iff]
    intro h
    rw [List.any_eq_true] at h
    obtain ⟨c, hc, he⟩ := h
    simp only [beq_iff_eq] at he
    exact (token_char_not_colon c (htok c hc)).1 he
  unfold is_malformed_header_line
  rw [hws, hget1, htake, hany]
  have : (v.head? == some ':') = false := by
    rw [beq_eq_false_iff_ne]; exact hhead
  simp [this]

theorem validate_header_name_eq (n : Str) :
    validate_header_name n =
      if n = [] ∨ ∃ c ∈ n, is_token_char c = false then some BAD_REQUEST else none := by
  unfold validate_header_name
  cases n with
  | nil => simp
  | cons c cs =>
    simp only [List.isEmpty_cons, Bool.false_eq_true, if_false, reduceCtorEq, false_or]
    by_cases hall : (c :: cs).all is_token_char = true
    · rw [if_pos hall, if_neg]
      rintro ⟨d, hd, hf⟩
      rw [List.all_eq_true] at hall
      rw [hall d hd] at hf
      cases hf
    · rw [if_neg hall, if_pos]
      rw [List.all_eq_true] at hall
      push_neg at hall
      obtain ⟨d, hd, hf⟩ := hall
      exact ⟨d, hd, by simpa using hf⟩

theorem validate_header_value_eq (x : Str) :
    validate_header_value x =
      if x.length > MAX_HEADER_SIZE then some REQUEST_HEADER_FIELDS_TOO_LARGE
      else if ∃ c ∈ x, ControlOctet c then some BAD_REQUEST
      else none := by
  unfold validate_header_value
  by_cases hl : x.length > MAX_HEADER_SIZE
  · rw [if_pos hl, if_pos hl]
  · rw [if_neg hl, if_neg hl]
    apply if_congr _ rfl rfl
    rw [List.any_eq_true]
    constructor
    · rintro ⟨c, hc, he⟩
      refine ⟨c, hc, ?_⟩
      simp only [Bool.or_eq_true, Bool.and_eq_true, decide_eq_true_eq, bne_iff_ne, ne_eq,
        beq_iff_eq] at he
      exact he
    · rintro ⟨c, hc, he⟩
      refine ⟨c, hc, ?_⟩
      simp only [Bool.or_eq_true, Bool.and_eq_true, decide_eq_true_eq, bne_iff_ne, ne_eq,
        beq_iff_eq]
      exact he

theorem parse_header_line_bad (n v : Str) (hn : ':' ∉ n)
    (hbad : n = [] ∨ (∃ c ∈ n, is_token_char c = false) ∨ v.head? = some ':') :
    parse_header_line (n ++ ':' :: v) = Except.error BAD_REQUEST := by
  rw [parse_header_line_split n v hn]
  by_cases hm : is_malformed_header_line (n ++ ':' :: v) n.length = true
  · rw [if_pos hm]
  · rw [if_neg hm]
    rcases hbad with h | h | h
    · rw [validate_header_name_eq, if_pos (Or.inl h)]
    · rw [validate_header_name_eq, if_pos (Or.inr h)]
    · exact absurd (is_malformed_of_double_colon n v h) hm

theorem last_ows_not_token (n : Str) (c : Char) (hl : n.getLast? = some c)
    (hc : is_ows c = true) : ∃ d ∈ n, is_token_char d = false := by
  refine ⟨c, List.mem_of_getLast?_eq_some hl, ?_⟩
  have : c = ' ' ∨ c = '\t' := by simpa [is_ows] using hc
  rcases this with rfl | rfl <;> decide

theorem parse_headers_single (r : HttpRequest) (line : Str) (hne : line ≠ [])
    (hnl : '\n' ∉ line) (hcr : line.getLast? ≠ some '\r') :
    r.parse_headers line =
      if is_header_continuation line then Outcome.throw BAD_REQUEST r
      else
        match parse_header_line line with
        | Except.error e => Outcome.throw e r
        | Except.ok (a, b) => r.store_pending_header a b := by
  unfold HttpRequest.parse_headers
  rw [getline_split_single '\n' line hnl hne]
  have he : line.isEmpty = false := by
    cases line with
    | nil => exact absurd rfl hne
    | cons c cs => rfl
  simp only [HttpRequest.parse_header_lines, remove_carriage_return_id line hcr, he,
    Bool.false_eq_true, if_false]
  by_cases hcont : is_header_continuation line = true
  · rw [if_pos hcont, if_pos hcont]
  · rw [if_neg hcont, if_neg hcont]
    simp only [HttpRequest.store_pending_header, List.isEmpty_nil, Bool.not_true,
      Bool.false_eq_true, if_false]

/-- C12 (counterexample): the field line `X-A: a<0x80>b`, whose value holds the
octet 0x80, is accepted by `HttpRequest::parse_headers` and stored. -/
theorem C12_obs_text_counterexample :
    (HttpRequest.parse_headers {} (lit "X-A: a\x80b")).error = none ∧
    (HttpRequest.parse_headers {} (lit "X-A: a\x80b")).state.headers_ =
      [(lit "X-A", lit "a\x80b")] ∧
    (lit "a\x80b").map Char.toNat = [97, 128, 98] := by
  decide

/-- C12 (amended): take a header field line `n:v` whose name `n` holds no
colon. `HttpRequest::parse_header_line` fails with 400 if the name is empty,
holds an octet outside the tchar set (so also if SP or HTAB stands before the
colon), or if the colon is followed directly by another colon. Otherwise it
fails with 431 if the value, with leading and trailing SP and HTAB removed, is
longer than 8192 octets; otherwise with 400 if that value holds a control
octet (below 0x20 other than HTAB, or 0x7F); otherwise the line is accepted
with the name and the trimmed value, octets 0x80 to 0xFF included. A line
without a colon fails with 400. `HttpRequest::parse_headers` on such a single
line fails with 400 when the line begins with SP or HTAB, and otherwise throws
what `parse_header_line` throws or stores the name and the trimmed value with
`store_header`. -/
theorem C12_field_line_validation (n v : Str) (hn : ':' ∉ n) :
    ((n = [] ∨ (∃ c ∈ n, is_token_char c = false) ∨
        (∃ c, n.getLast? = some c ∧ is_ows c = true) ∨ v.head? = some ':') →
      parse_header_line (n ++ ':' :: v) = Except.error BAD_REQUEST) ∧
    (n ≠ [] → (∀ c ∈ n, is_token_char c = true) → v.head? ≠ some ':' →
      ((trim v).length > MAX_HEADER_SIZE →
        parse_header_line (n ++ ':' :: v) = Except.error REQUEST_HEADER_FIELDS_TOO_LARGE) ∧
      ((trim v).length ≤ MAX_HEADER_SIZE → (∃ c ∈ trim v, ControlOctet c) →
        parse_header_line (n ++ ':' :: v) = Except.error BAD_REQUEST) ∧
      ((trim v).length ≤ MAX_HEADER_SIZE → (∀ c ∈ trim v, ¬ ControlOctet c) →
        parse_header_line (n ++ ':' :: v) = Except.ok (n, trim v))) ∧
    (∀ line : Str, ':' ∉ line → parse_header_line line = Except.error BAD_REQUEST) ∧
    (∀ (r : HttpRequest) (line : Str), line.head? = some ' ' ∨ line.head? = some '\t' →
      '\n' ∉ line → r.parse_headers line = Outcome.throw BAD_REQUEST r) ∧
    (∀ r : HttpRequest, '\n' ∉ n ++ ':' :: v → (n ++ ':' :: v).getLast? ≠ some '\r' →
      r.parse_headers (n ++ ':' :: v) =
        match parse_header_line (n ++ ':' :: v) with
        | Except.error e => Outcome.throw e r
        | Except.ok (a, b) => r.store_header a b) := by
  have hA : (n = [] ∨ (∃ c ∈ n, is_token_char c = false) ∨
        (∃ c, n.getLast? = some c ∧ is_ows c = true) ∨ v.head? = some ':') →
      parse_header_line (n ++ ':' :: v) = Except.error BAD_REQUEST := by
    rintro (h | h | ⟨c, hl, hc⟩ | h)
    · exact parse_header_line_bad n v hn (Or.inl h)
    · exact parse_header_line_bad n v hn (Or.inr (Or.inl h))
    · exact parse_header_line_bad n v hn (Or.inr (Or.inl (last_ows_not_token n c hl hc)))
    · exact parse_header_line_bad n v hn (Or.inr (Or.inr h))
  refine ⟨hA, ?_, ?_, ?_, ?_⟩
  · intro hne htok hhead
    have hsplit := parse_header_line_split n v hn
    have hname : validate_header_name n = none := by
      rw [validate_header_name_eq]
      apply if_neg
      rintro (h | ⟨c, hc, hf⟩)
      · exact hne h
      · rw [htok c hc] at hf
        cases hf
    rw [is_malformed_false n v hne htok hhead, hname] at hsplit
    simp only [Bool.false_eq_true, if_false] at hsplit
    refine ⟨?_, ?_, ?_⟩
    · intro hl
      have hv : validate_header_value (trim v) = some REQUEST_HEADER_FIELDS_TOO_LARGE := by
        rw [validate_header_value_eq, if_pos hl]
      rw [hsplit, hv]
    · intro hl hc
      have hnl : ¬ (trim v).length > MAX_HEADER_SIZE := by omega
      have hv : validate_header_value (trim v) = some BAD_REQUEST := by
        rw [validate_header_value_eq, if_neg hnl, if_pos hc]
      rw [hsplit, hv]
    · intro hl hc
      have hnl : ¬ (trim v).length > MAX_HEADER_SIZE := by omega
      have hnc : ¬ ∃ c ∈ trim v, ControlOctet c := by
        rintro ⟨c, hcm, hco⟩
        exact hc c hcm hco
      have hv : validate_header_value (trim v) = none := by
        rw [validate_header_value_eq, if_neg hnl, if_neg hnc]
      rw [hsplit, hv]
  · intro line hl
    unfold parse_header_line
    rw [find_char_none line hl]
  · intro r line hhead hnl
    have hne : line ≠ [] := by
      intro e
      rw [e] at hhead
      simp at hhead
    have hcr : line.getLast? ≠ some '\r' ∨ line.getLast? = some '\r' := by
      by_cases h : line.getLast? = some '\r'
      · exact Or.inr h
      · exact Or.inl h
    have hcont : ∀ l : Str, l.head? = some ' ' ∨ l.head? = some '\t' →
        is_header_continuation l = true := by
      intro l hl
      unfold is_header_continuation
      rcases hl with h | h <;> simp [h]
    unfold HttpRequest.parse_headers
    rw [getline_split_single '\n' line hnl hne]
    have hrc : (remove_carriage_return line).head? = some ' ' ∨
        (remove_carriage_return line).head? = some '\t' := by
      unfold remove_carriage_return
      split
      · rename_i hlast
        cases line with
        | nil => exact absurd rfl hne
        | cons c cs =>
          cases cs with
          | nil =>
            simp only [List.getLast?_singleton, beq_iff_eq, Option.some.injEq] at hlast
            subst hlast
            simp at hhead
          | cons d ds => simpa using hhead
      · exact hhead
    have hrne : (remove_carriage_return line).isEmpty = false := by
      cases hx : remove_carriage_return line with
      | nil => rw [hx] at hrc; simp at hrc
      | cons c cs => rfl
    simp only [HttpRequest.parse_header_lines, hrne, hcont _ hrc, Bool.false_eq_true, if_false,
      if_true]
  · intro r hnl hcr
    rw [parse_headers_single r _ (by simp) hnl hcr]
    by_cases hcont : is_header_continuation (n ++ ':' :: v) = true
    · rw [if_pos hcont]
      have hbadn : n = [] ∨ ∃ c ∈ n, is_token_char c = false := by
        cases n with
        | nil => exact Or.inl rfl
        | cons c cs =>
          right
          refine ⟨c, List.mem_cons_self _ _, ?_⟩
          have : c = ' ' ∨ c = '\t' := by
            simpa [is_header_continuation] using hcont
          rcases this with rfl | rfl <;> decide
      have hb : parse_header_line (n ++ ':' :: v) = Except.error BAD_REQUEST := by
        rcases hbadn with h | h
        · exact parse_header_line_bad n v hn (Or.inl h)
        · exact parse_header_line_bad n v hn (Or.inr (Or.inl h))
      rw [hb]
    · rw [if_neg hcont]
      cases hp : parse_header_line (n ++ ':' :: v) with
      | error e => rfl
      | ok p =>
        obtain ⟨a, b⟩ := p
        simp only
        have ha : a = n := by
          by_cases hbad : n = [] ∨ (∃ c ∈ n, is_token_char c = false) ∨ v.head? = some ':'
          · rw [parse_header_line_bad n v hn hbad] at hp
            cases hp
          · have hsplit := parse_header_line_split n v hn
            rw [hp] at hsplit
            split at hsplit
            · cases hsplit
            · split at hsplit
              · cases hsplit
              · split at hsplit
                · cases hsplit
                · simp only [Except.ok.injEq, Prod.mk.injEq] at hsplit
                  exact hsplit.1
        have hane : a.isEmpty = false := by
          rw [ha]
          cases n with
          | nil =>
            rw [parse_header_line_bad [] v hn (Or.inl rfl)] at hp
            cases hp
          | cons c cs => rfl
        simp only [HttpRequest.store_pending_header, hane, Bool.not_false, if_true]

/-- C12 (amended), at the field line `Host: example.com `. -/
theorem C12_field_line_validation_witness :
    parse_header_line (lit "Host" ++ ':' :: lit " example.com ") =
      Except.ok (lit "Host", lit "example.com") :=
  ((C12_field_line_validation (lit "Host") (lit " example.com ") (by decide)).2.1
    (by decide) (by decide) (by decide)).2.2 (by decide) (by
      intro c hc
      have : trim (lit " example.com ") = lit "example.com" := by decide
      rw [this] at hc
      revert c
      unfold ControlOctet
      decide)

/-! ## Normalised header names -/

theorem char_ofNat_toNat (n : Nat) (h : n < 55296) : (Char.ofNat n).toNat = n := by
  have hv : n.isValidChar := Or.inl h
  unfold Char.ofNat
  rw [dif_pos hv]
  unfold Char.ofNatAux Char.toNat
  simp only [UInt32.toNat]
  have : n < UInt32.size := by
    have : 55296 < UInt32.size := by decide
    omega
  simp [Nat.mod_eq_of_lt this]

theorem char_eq_of_toNat (a b : Char) (h : a.toNat = b.toNat) : a = b := by
  rw [← Char.ofNat_toNat a, ← Char.ofNat_toNat b, h]

theorem toupper_toNat (c : Char) :
    (toupper c).toNat = if 97 ≤ c.toNat ∧ c.toNat ≤ 122 then c.toNat - 32 else c.toNat := by
  unfold toupper islower
  have ha : 'a'.toNat = 97 := rfl
  have hz : 'z'.toNat = 122 := rfl
  rw [ha, hz]
  by_cases h : 97 ≤ c.toNat ∧ c.toNat ≤ 122
  · rw [if_pos h]
    simp only [h.1, h.2, decide_True, Bool.and_self, if_true]
    exact char_ofNat_toNat _ (by omega)
  · rw [if_neg h]
    have : (decide (97 ≤ c.toNat) && decide (c.toNat ≤ 122)) = false := by
      simpa using h
    rw [this]
    rfl

theorem tolower_toNat (c : Char) :
    (tolower c).toNat = if 65 ≤ c.toNat ∧ c.toNat ≤ 90 then c.toNat + 32 else c.toNat := by
  unfold tolower isupper
  have ha : 'A'.toNat = 65 := rfl
  have hz : 'Z'.toNat = 90 := rfl
  rw [ha, hz]
  by_cases h : 65 ≤ c.toNat ∧ c.toNat ≤ 90
  · rw [if_pos h]
    simp only [h.1, h.2, decide_True, Bool.and_self, if_true]
    exact char_ofNat_toNat _ (by omega)
  · rw [if_neg h]
    have : (decide (65 ≤ c.toNat) && decide (c.toNat ≤ 90)) = false := by
      simpa using h
    rw [this]
    rfl

theorem toupper_idem (c : Char) : toupper (toupper c) = toupper c := by
  apply char_eq_of_toNat
  rw [toupper_toNat (toupper c), toupper_toNat c]
  split_ifs <;> omega

theorem tolower_idem (c : Char) : tolower (tolower c) = tolower c := by
  apply char_eq_of_toNat
  rw [tolower_toNat (tolower c), tolower_toNat c]
  split_ifs <;> omega

theorem tolower_eq_dash (c : Char) : (tolower c == '-') = (c == '-') := by
  have hd : '-'.toNat = 45 := rfl
  have h1 := tolower_toNat c
  by_cases hc : c = '-'
  · subst hc
    decide
  · have hc2 : (c == '-') = false := by rw [beq_eq_false_iff_ne]; exact hc
    rw [hc2, beq_eq_false_iff_ne]
    intro e
    rw [e, hd] at h1
    have hn : c.toNat ≠ 45 := by
      intro h
      exact hc (char_eq_of_toNat _ _ (by rw [h, hd]))
    split_ifs at h1 <;> omega

theorem toupper_of_tolower_eq (a b : Char) (h : tolower a = tolower b) :
    toupper a = toupper b := by
  apply char_eq_of_toNat
  have h1 := congrArg Char.toNat h
  rw [tolower_toNat, tolower_toNat] at h1
  rw [toupper_toNat, toupper_toNat]
  split_ifs at h1 ⊢ <;> omega

theorem dash_of_tolower_eq (a b : Char) (h : tolower a = tolower b) :
    (a == '-') = (b == '-') := by
  rw [← tolower_eq_dash a, ← tolower_eq_dash b, h]

theorem normalize_name_from_idem (s : Str) (f : Bool) :
    normalize_name_from (normalize_name_from s f) f = normalize_name_from s f := by
  induction s generalizing f with
  | nil => cases f <;> rfl
  | cons c cs ih =>
    cases f with
    | true =>
      simp only [normalize_name_from, toupper_idem, ih]
    | false =>
      by_cases hc : (c == '-') = true
      · simp only [normalize_name_from, hc, if_true, ih]
      · have hc2 : (c == '-') = false := by simpa using hc
        have hl : (tolower c == '-') = false := by rw [tolower_eq_dash, hc2]
        simp only [normalize_name_from, hc2, Bool.false_eq_true, if_false, hl, tolower_idem, ih]

theorem normalize_name_idem (s : Str) : normalize_name (normalize_name s) = normalize_name s :=
  normalize_name_from_idem s true

theorem normalize_name_from_congr (a b : Str) (f : Bool) (hlen : a.length = b.length)
    (hz : ∀ p ∈ List.zip a b, tolower p.1 = tolower p.2) :
    normalize_name_from a f = normalize_name_from b f := by
  induction a generalizing b f with
  | nil =>
    cases b with
    | nil => rfl
    | cons d ds => simp at hlen
  | cons c cs ih =>
    cases b with
    | nil => simp at hlen
    | cons d ds =>
      have hcd : tolower c = tolower d := hz (c, d) (by simp)
      have hrest : ∀ p ∈ List.zip cs ds, tolower p.1 = tolower p.2 :=
        fun p hp => hz p (by simp [hp])
      have hl : cs.length = ds.length := by simpa using hlen
      cases f with
      | true =>
        simp only [normalize_name_from, toupper_of_tolower_eq c d hcd, ih ds false hl hrest]
      | false =>
        simp only [normalize_name_from, dash_of_tolower_eq c d hcd, hcd]
        split
        · rename_i hdash
          have : c = d := by
            have h1 : (c == '-') = true := by rw [dash_of_tolower_eq c d hcd]; exact hdash
            have h2 : c = '-' := by simpa using h1
            have h3 : d = '-' := by simpa using hdash
            rw [h2, h3]
          rw [this, ih ds true hl hrest]
        · rw [ih ds false hl hrest]

theorem normalize_name_of_compare_insensitive (a b : Str)
    (h : compare_insensitive a b = true) : normalize_name a = normalize_name b := by
  unfold compare_insensitive at h
  by_cases hl : (a.length != b.length) = true
  · rw [if_pos hl] at h
    cases h
  · rw [if_neg hl] at h
    have hlen : a.length = b.length := by simpa using hl
    rw [List.all_eq_true] at h
    exact normalize_name_from_congr a b true hlen (fun p hp => by simpa using h p hp)

theorem normalized_key_exact (k n : Str) (hk : normalize_name k = k) (hn : normalize_name n = n)
    (hc : compare_insensitive k n = true) : k = n := by
  rw [← hk, ← hn]
  exact normalize_name_of_compare_insensitive k n hc

/-! ## Content-Length, Date and Server of a response -/

theorem response_inv_add_header (h : HeaderMap) (n v : Str) (hinv : ResponseHeadersInv h) :
    ResponseHeadersInv (add_header h (normalize_name n) v) := by
  obtain ⟨hkeys, hcount⟩ := hinv
  refine ⟨?_, ?_⟩
  · intro kv hkv
    rcases mem_add_header h _ v kv hkv with h1 | h1 | h1
    · rw [h1]
      exact normalize_name_idem n
    · exact hkeys kv h1
    · rw [h1.1]
      exact normalize_name_idem n
  · by_cases hn : normalize_name n = lit "Content-Length"
    · rw [hn, add_header_replace_kind h _ v (Or.inl (by decide)),
        entries_for_replace_header h _ v hcount]
      exact Nat.le_refl 1
    · rw [entries_for_add_header_other h _ v _ (fun e => hn e.symm)]
      exact hcount

theorem built_inv (r : HttpResponse) (hb : Built r) :
    ResponseHeadersInv r.headers_ ∧ HttpHeaders.has r.headers_ (lit "Date") = true ∧
      HttpHeaders.has r.headers_ (lit "Server") = true := by
  induction hb with
  | new date =>
    have h0 : ResponseHeadersInv [] := ⟨fun kv hkv => (by cases hkv), Nat.zero_le _⟩
    have e : (HttpResponse.new date).headers_ =
        add_header (add_header [] (normalize_name (lit "Date")) date)
          (normalize_name (lit "Server")) (lit "WebServ") := rfl
    rw [e]
    refine ⟨response_inv_add_header _ _ _ (response_inv_add_header _ _ _ h0), ?_, ?_⟩
    · have : compare_insensitive (normalize_name (lit "Date")) (lit "Date") = true := by decide
      simp [has_add_header, this]
    · have : compare_insensitive (normalize_name (lit "Server")) (lit "Server") = true := by
        decide
      simp [has_add_header, this]
  | set_status r s _ ih => exact ih
  | set_header r n v _ ih =>
    have e : (r.set_header n v).headers_ = add_header r.headers_ (normalize_name n) v := rfl
    rw [e]
    refine ⟨response_inv_add_header _ _ _ ih.1, ?_, ?_⟩
    · simp only [has_add_header, ih.2.1, Bool.or_true]
    · simp only [has_add_header, ih.2.2, Bool.or_true]
  | set_body r b _ ih =>
    have e : (r.set_body b).headers_ =
        add_header r.headers_ (normalize_name (lit "Content-Length"))
          (to_string_nat b.length) := rfl
    rw [e]
    refine ⟨response_inv_add_header _ _ _ ih.1, ?_, ?_⟩
    · simp only [has_add_header, ih.2.1, Bool.or_true]
    · simp only [has_add_header, ih.2.2, Bool.or_true]

theorem finished_set_body (r : HttpResponse) (b : Str) (hb : Built r) :
    Finished (r.set_body b) := by
  obtain ⟨⟨hkeys, hcount⟩, hd, hs⟩ := built_inv r hb
  have hn : normalize_name (lit "Content-Length") = lit "Content-Length" := by decide
  refine ⟨?_, ?_, ?_⟩
  · simp only [HttpResponse.get_header, HttpResponse.set_body, HttpResponse.set_header, hn]
    apply get_add_header_replace _ _ _ (Or.inl (by decide)) hcount
    intro kv hkv hc
    exact normalized_key_exact kv.1 _ (hkeys kv hkv) hn hc
  · simp only [HttpResponse.set_body, HttpResponse.set_header, has_add_header, hd, Bool.or_true]
  · simp only [HttpResponse.set_body, HttpResponse.set_header, has_add_header, hs, Bool.or_true]

theorem finished_set_header (r : HttpResponse) (n v : Str) (hf : Finished r)
    (hn : compare_insensitive (normalize_name n) (lit "Content-Length") = false) :
    Finished (r.set_header n v) := by
  obtain ⟨h1, h2, h3⟩ := hf
  refine ⟨?_, ?_, ?_⟩
  · simp only [HttpResponse.get_header, HttpResponse.set_header] at h1 ⊢
    rw [get_add_header_other _ _ _ _ hn]
    exact h1
  · simp only [HttpResponse.set_header, has_add_header, h2, Bool.or_true]
  · simp only [HttpResponse.set_header, has_add_header, h3, Bool.or_true]

theorem finished_try_load_error_page (w : World) (resp r : HttpResponse) (path : Str)
    (status : HttpStatusCode) (hb : Built resp)
    (h : try_load_error_page w resp path status = some r) : Finished r := by
  unfold try_load_error_page at h
  cases hr : w.read_file path with
  | none => rw [hr] at h; cases h
  | some content =>
    rw [hr] at h
    simp only [Option.some.injEq] at h
    subst h
    exact finished_set_body _ _ (Built.set_header _ _ _ (Built.set_status _ _ hb))

theorem finished_find_custom_error_page (w : World) (resp r : HttpResponse)
    (status : HttpStatusCode) (sb : ServerBlock) (loc : Option LocationBlock) (hb : Built resp)
    (h : find_custom_error_page w resp status sb loc = Except.ok (some r)) : Finished r := by
  have hserver : ∀ x : HttpResponse,
      (match sb.error_pages.lookup status with
        | some page => try_load_error_page w resp (sb.root ++ page) status
        | none => none) = some x → Finished x := by
    intro x hx
    cases hl : sb.error_pages.lookup status with
    | none => rw [hl] at hx; cases hx
    | some page =>
      rw [hl] at hx
      exact finished_try_load_error_page w resp x _ status hb hx
  unfold find_custom_error_page at h
  simp only at h
  cases loc with
  | none =>
    simp only [Except.ok.injEq] at h
    exact hserver r h
  | some l =>
    simp only at h
    cases hl : l.error_pages.lookup status with
    | none =>
      rw [hl] at h
      simp only [Except.ok.injEq] at h
      exact hserver r h
    | some page =>
      rw [hl] at h
      simp only at h
      cases hroot : get_root_directory sb l with
      | error e => rw [hroot] at h; cases h
      | ok root_dir =>
        rw [hroot] at h
        simp only at h
        cases ht : try_load_error_page w resp (root_dir ++ page) status with
        | some x =>
          rw [ht] at h
          simp only [Except.ok.injEq, Option.some.injEq] at h
          subst h
          exact finished_try_load_error_page w resp x _ status hb ht
        | none =>
          rw [ht] at h
          simp only [Except.ok.injEq] at h
          exact hserver r h

theorem finished_default_error_response (date : Str) (status : HttpStatusCode) :
    Finished (build_default_error_response date status) :=
  finished_set_body _ _ (Built.set_header _ _ _ (Built.set_status _ _ (Built.new date)))

theorem finished_allow_step (status : HttpStatusCode) (loc : Option LocationBlock)
    (resp r : HttpResponse) (hresp : Finished resp)
    (hx : (if status == METHOD_NOT_ALLOWED then
        match loc with
        | some l => Except.ok (resp.set_header (lit "Allow") (allow_header_value l))
        | none => Except.ok (resp.set_header (lit "Allow") (lit "GET, POST, DELETE"))
      else (Except.ok resp : Except HttpStatusCode HttpResponse)) = Except.ok r) :
    Finished r := by
  have hallow : compare_insensitive (normalize_name (lit "Allow")) (lit "Content-Length") =
      false := by decide
  split at hx
  · cases loc with
    | none =>
      simp only [Except.ok.injEq] at hx
      subst hx
      exact finished_set_header _ _ _ hresp hallow
    | some l =>
      simp only [Except.ok.injEq] at hx
      subst hx
      exact finished_set_header _ _ _ hresp hallow
  · simp only [Except.ok.injEq] at hx
    subst hx
    exact hresp

theorem finished_create_error_response (w : World) (status : HttpStatusCode) (sb : ServerBlock)
    (loc : Option LocationBlock) (r : HttpResponse)
    (h : create_error_response w status sb loc = Except.ok r) : Finished r := by
  unfold create_error_response at h
  cases hc : find_custom_error_page w (HttpResponse.new w.date) status sb loc with
  | error e => rw [hc] at h; cases h
  | ok custom =>
    rw [hc] at h
    cases custom with
    | none =>
      exact finished_allow_step status loc _ r (finished_default_error_response w.date status) h
    | some x =>
      exact finished_allow_step status loc x r
        (finished_find_custom_error_page w _ x status sb loc (Built.new _) hc) h

theorem finished_handle_redirect (resp : HttpResponse) (url : Str) (code : Int)
    (hb : Built resp) : Finished (handle_redirect resp url code) := by
  unfold handle_redirect
  exact finished_set_header _ _ _
    (finished_set_body _ _ (Built.set_header _ _ _ (Built.set_status _ _ hb))) (by decide)

theorem built_cgi_process_headers (headers : HeaderMap) (resp : HttpResponse)
    (status : HttpStatusCode) (hb : Built resp) :
    Built (cgi_process_headers headers resp status).1 := by
  induction headers generalizing resp status with
  | nil => exact hb
  | cons kv rest ih =>
    obtain ⟨k, v⟩ := kv
    simp only [cgi_process_headers]
    split
    · split
      · exact ih _ _ hb
      · exact ih _ _ hb
    · exact ih _ _ (Built.set_header _ _ _ hb)

theorem finished_cgi_build_response (date : Str) (headers : HeaderMap) (body : Str) :
    Finished (cgi_build_response date headers body) := by
  unfold cgi_build_response
  have hb := built_cgi_process_headers headers (HttpResponse.new date) OK (Built.new date)
  cases hp : cgi_process_headers headers (HttpResponse.new date) OK with
  | mk response status =>
    rw [hp] at hb
    simp only at hb ⊢
    have hf := finished_set_body (response.set_status status) body (Built.set_status _ _ hb)
    split
    · exact finished_set_header _ _ _ hf (by decide)
    · exact hf

/-- C15: every response made by the constructor and the setters of
`HttpResponse` and finished with `set_body` has a `Content-Length` header equal
to the decimal length of the body, and a `Date` and a `Server` header. The same
holds for the default error response, for every response of
`create_error_response` (custom page or default, with or without `Allow`), for
the redirect response, and for the response that `CgiResponse::build_response`
builds from any CGI header map, also one that carries its own
`Content-Length`, `Date` or `Server`, and so for `build_from_output`. -/
theorem C15_content_length_date_server :
    (∀ (r : HttpResponse) (b : Str), Built r → Finished (r.set_body b)) ∧
    (∀ (date : Str) (status : HttpStatusCode),
      Finished (build_default_error_response date status)) ∧
    (∀ (w : World) (status : HttpStatusCode) (sb : ServerBlock) (loc : Option LocationBlock)
      (r : HttpResponse), create_error_response w status sb loc = Except.ok r → Finished r) ∧
    (∀ (date url : Str) (code : Int),
      Finished (handle_redirect (HttpResponse.new date) url code)) ∧
    (∀ (date : Str) (headers : HeaderMap) (body : Str),
      Finished (cgi_build_response date headers body)) ∧
    (∀ date cgi_output : Str, Finished (cgi_build_from_output date cgi_output)) :=
  ⟨finished_set_body, finished_default_error_response, finished_create_error_response,
    fun date url code => finished_handle_redirect _ url code (Built.new date),
    finished_cgi_build_response,
    fun date out => by
      unfold cgi_build_from_output
      exact finished_cgi_build_response _ _ _⟩

/-- C15, at the response built from the CGI output
`Content-Length: 999`, `Date: x`, `Server: y` with the body `hello`, and at a
body set on a fresh response. -/
theorem C15_content_length_date_server_witness :
    Finished ((HttpResponse.new (lit "Sun, 06 Nov 1994 08:49:37 GMT")).set_body (lit "hello")) ∧
    (cgi_build_from_output (lit "Sun, 06 Nov 1994 08:49:37 GMT")
      (lit "Content-Length: 999\r\nDate: x\r\nServer: y\r\n\r\nhello")).get_header
        (lit "Content-Length") = lit "5" :=
  ⟨C15_content_length_date_server.1 _ _ (Built.new _), by decide⟩

/-! ## Location matching and the method gate of the handler -/

theorem match_exact_some (ls : List LocationBlock) (uri : Str)
    (h : ∃ l ∈ ls, l.exact_match = true ∧ l.path = uri) :
    ∃ l ∈ ls, match_exact ls uri = some l ∧ l.exact_match = true ∧ l.path = uri := by
  induction ls with
  | nil =>
    obtain ⟨l, hl, _⟩ := h
    cases hl
  | cons x xs ih =>
    simp only [match_exact]
    by_cases hx : (x.exact_match && uri == x.path) = true
    · rw [if_pos hx]
      simp only [Bool.and_eq_true, beq_iff_eq] at hx
      exact ⟨x, List.mem_cons_self _ _, rfl, hx.1, hx.2.symm⟩
    · rw [if_neg hx]
      obtain ⟨l, hl, he, hp⟩ := h
      rcases List.mem_cons.1 hl with rfl | hl
      · exfalso
        apply hx
        simp [he, hp]
      · obtain ⟨l2, hl2, h2⟩ := ih ⟨l, hl, he, hp⟩
        exact ⟨l2, List.mem_cons_of_mem _ hl2, h2⟩

theorem match_longest_none_iff (ls : List LocationBlock) (uri : Str) :
    match_longest ls uri 0 none = none ↔
      ∀ l ∈ ls, l.exact_match = false → l.path <+: uri → l.path = [] := by
  obtain ⟨n, h1, _, h3⟩ := match_longest_spec ls ls uri 0 none (fun _ h => h)
    (by simp [LongestInv])
  cases hres : match_longest ls uri 0 none with
  | none =>
    rw [hres] at h1
    simp only [LongestInv] at h1
    subst h1
    refine ⟨fun _ => ?_, fun _ => rfl⟩
    intro l hl he hp
    have := h3 l hl he hp
    exact List.length_eq_zero.1 (by omega)
  | some l =>
    rw [hres] at h1
    simp only [LongestInv] at h1
    obtain ⟨hmem, hex, hpre, hlen, hpos⟩ := h1
    constructor
    · intro h; cases h
    · intro h
      have h0 := h l hmem hex hpre
      rw [h0] at hlen
      simp at hlen
      omega

theorem match_location_none_iff (sb : ServerBlock) (uri : Str) :
    sb.match_location uri = none ↔
      (∀ l ∈ sb.locations, l.exact_match = true → l.path ≠ uri) ∧
      (∀ l ∈ sb.locations, l.exact_match = false → l.path <+: uri → l.path = []) := by
  unfold ServerBlock.match_location
  cases he : match_exact sb.locations uri with
  | some l =>
    simp only [reduceCtorEq, false_iff, not_and]
    intro h
    rw [(match_exact_none_iff _ _).2 h] at he
    cases he
  | none =>
    simp only
    rw [match_longest_none_iff]
    exact ⟨fun h => ⟨(match_exact_none_iff _ _).1 he, h⟩, fun h => h.2⟩

theorem validate_path_not_empty (l : LocationBlock) (h : l.validate_path = true) : l.path ≠ [] := by
  intro he
  unfold LocationBlock.validate_path at h
  rw [he] at h
  cases h

/-- C19: on a server block whose location paths are not empty, as those of
every loaded configuration are (`parse_location_block` and
`LocationBlock::validate_path` refuse an empty path): if some location with
the exact-match flag has a path equal to the request path, `match_location`
returns an exact-match location with that path, whatever the non-exact
locations are. It returns no
location exactly when no exact-match location has a path equal to the request
path and no non-exact location has a path that is a prefix of it; in that case
`handle_request` answers 404. -/
theorem C19_exact_first_else_not_found (sb : ServerBlock) (uri : Str)
    (hpaths : ∀ l ∈ sb.locations, l.path ≠ []) :
    ((∃ l ∈ sb.locations, l.exact_match = true ∧ l.path = uri) →
      ∃ l ∈ sb.locations, sb.match_location uri = some l ∧ l.exact_match = true ∧
        l.path = uri) ∧
    (sb.match_location uri = none ↔
      (∀ l ∈ sb.locations, l.exact_match = true → l.path ≠ uri) ∧
      (∀ l ∈ sb.locations, l.exact_match = false → ¬ l.path <+: uri)) ∧
    (∀ (w : World) (request : HttpRequest), request.get_path = uri →
      sb.match_location uri = none →
      ∃ r, handle_request w request sb = Except.ok r ∧ r.status_ = NOT_FOUND) := by
  refine ⟨?_, ?_, ?_⟩
  · intro h
    obtain ⟨l, hl, hm, he, hp⟩ := match_exact_some sb.locations uri h
    refine ⟨l, hl, ?_, he, hp⟩
    unfold ServerBlock.match_location
    rw [hm]
  · rw [match_location_none_iff]
    constructor
    · rintro ⟨h1, h2⟩
      exact ⟨h1, fun l hl he hp => hpaths l hl (h2 l hl he hp)⟩
    · rintro ⟨h1, h2⟩
      exact ⟨h1, fun l hl he hp => absurd hp (h2 l hl he)⟩
  · intro w request hpath hnone
    unfold handle_request
    rw [hpath, hnone]
    exact create_error_response_no_location w NOT_FOUND sb

/-- C19, at a server block with the non-exact `/api` and the exact `/api`: the
request path `/api` gets the exact-match location, and the request path `/x`,
of which no location path is a prefix, gets none. -/
theorem C19_exact_first_else_not_found_witness :
    (∀ l ∈ ({ locations := [{ path := lit "/api" },
        { path := lit "/api", exact_match := true }] } : ServerBlock).locations,
      l.validate_path = true) ∧
    (∃ l ∈ ({ locations := [{ path := lit "/api" },
        { path := lit "/api", exact_match := true }] } : ServerBlock).locations,
      ServerBlock.match_location { locations := [{ path := lit "/api" },
        { path := lit "/api", exact_match := true }] } (lit "/api") = some l ∧
      l.exact_match = true ∧ l.path = lit "/api") ∧
    ServerBlock.match_location { locations := [{ path := lit "/api" },
        { path := lit "/api", exact_match := true }] } (lit "/x") = none :=
  ⟨by decide,
    (C19_exact_first_else_not_found { locations := [{ path := lit "/api" },
        { path := lit "/api", exact_match := true }] } (lit "/api")
      (fun l hl => validate_path_not_empty l (by revert l; decide))).1
      ⟨{ path := lit "/api", exact_match := true }, by decide, rfl, rfl⟩,
    (C19_exact_first_else_not_found { locations := [{ path := lit "/api" },
        { path := lit "/api", exact_match := true }] } (lit "/x")
      (fun l hl => validate_path_not_empty l (by revert l; decide))).2.1.2
      ⟨by decide, by decide⟩⟩

theorem find_custom_error_page_some (w : World) (resp r : HttpResponse)
    (status : HttpStatusCode) (sb : ServerBlock) (loc : Option LocationBlock)
    (h : find_custom_error_page w resp status sb loc = Except.ok (some r)) :
    ∃ path, try_load_error_page w resp path status = some r := by
  have hserver : ∀ x : HttpResponse,
      (match sb.error_pages.lookup status with
        | some page => try_load_error_page w resp (sb.root ++ page) status
        | none => none) = some x → ∃ path, try_load_error_page w resp path status = some x := by
    intro x hx
    cases hl : sb.error_pages.lookup status with
    | none => rw [hl] at hx; cases hx
    | some page =>
      rw [hl] at hx
      exact ⟨_, hx⟩
  unfold find_custom_error_page at h
  simp only at h
  cases loc with
  | none =>
    simp only [Except.ok.injEq] at h
    exact hserver r h
  | some l =>
    simp only at h
    cases hl : l.error_pages.lookup status with
    | none =>
      rw [hl] at h
      simp only [Except.ok.injEq] at h
      exact hserver r h
    | some page =>
      rw [hl] at h
      simp only at h
      cases hroot : get_root_directory sb l with
      | error e => rw [hroot] at h; cases h
      | ok root_dir =>
        rw [hroot] at h
        simp only at h
        cases ht : try_load_error_page w resp (root_dir ++ page) status with
        | some x =>
          rw [ht] at h
          simp only [Except.ok.injEq, Option.some.injEq] at h
          subst h
          exact ⟨_, ht⟩
        | none =>
          rw [ht] at h
          simp only [Except.ok.injEq] at h
          exact hserver r h

theorem error_page_no_allow (date content : Str) (status : HttpStatusCode) :
    HttpHeaders.has ((((HttpResponse.new date).set_status status).set_header (lit "Content-Type")
      (lit "text/html")).set_body content).headers_ (lit "Allow") = false := by
  have h1 : compare_insensitive (normalize_name (lit "Content-Length")) (lit "Allow") = false := by
    decide
  have h2 : compare_insensitive (normalize_name (lit "Content-Type")) (lit "Allow") = false := by
    decide
  have h3 : compare_insensitive (normalize_name (lit "Server")) (lit "Allow") = false := by decide
  have h4 : compare_insensitive (normalize_name (lit "Date")) (lit "Allow") = false := by decide
  simp only [HttpResponse.set_body, HttpResponse.set_header, HttpResponse.set_status,
    HttpResponse.new, has_add_header, h1, h2, h3, h4, Bool.false_or]
  rfl

theorem create_error_response_allow (w : World) (sb : ServerBlock) (loc : LocationBlock)
    (r : HttpResponse)
    (h : create_error_response w METHOD_NOT_ALLOWED sb (some loc) = Except.ok r) :
    r.get_header (lit "Allow") = allow_header_value loc := by
  have hn : normalize_name (lit "Allow") = lit "Allow" := by decide
  have hset : ∀ resp : HttpResponse, HttpHeaders.has resp.headers_ (lit "Allow") = false →
      (resp.set_header (lit "Allow") (allow_header_value loc)).get_header (lit "Allow") =
        allow_header_value loc := by
    intro resp hresp
    simp only [HttpResponse.get_header, HttpResponse.set_header, hn]
    exact (get_add_header_fresh _ _ _ _ hresp (compare_insensitive_refl _)).1
  unfold create_error_response at h
  cases hc : find_custom_error_page w (HttpResponse.new w.date) METHOD_NOT_ALLOWED sb
      (some loc) with
  | error e => rw [hc] at h; cases h
  | ok custom =>
    rw [hc] at h
    have hm : (METHOD_NOT_ALLOWED == METHOD_NOT_ALLOWED) = true := by decide
    simp only [hm, if_true, Except.ok.injEq] at h
    subst h
    cases custom with
    | none => exact hset _ (error_page_no_allow _ _ _)
    | some x =>
      obtain ⟨path, hp⟩ := find_custom_error_page_some w _ x _ sb _ hc
      unfold try_load_error_page at hp
      cases hr : w.read_file path with
      | none => rw [hr] at hp; cases hp
      | some content =>
        rw [hr] at hp
        simp only [Option.some.injEq] at hp
        subst hp
        exact hset _ (error_page_no_allow _ _ _)

theorem allow_header_value_eq (loc : LocationBlock) :
    allow_header_value loc =
      if allowed_implemented_names loc = [] then lit "GET"
      else (lit ", ").intercalate (allowed_implemented_names loc) := by
  unfold allow_header_value allowed_implemented_names
  cases h1 : loc.is_allows_method Method.GET <;> cases h2 : loc.is_allows_method Method.POST <;>
    cases h3 : loc.is_allows_method Method.DELETE <;> simp [List.filter, h1, h2, h3]

theorem get_root_directory_ok (sb : ServerBlock) (loc : LocationBlock)
    (hroot : loc.root ≠ [] ∨ sb.root ≠ []) : ∃ root, get_root_directory sb loc = Except.ok root := by
  unfold get_root_directory
  by_cases h1 : loc.root = []
  · have h2 : sb.root ≠ [] := by
      rcases hroot with h | h
      · exact absurd h1 h
      · exact h
    have e1 : loc.root.isEmpty = true := by rw [h1]; rfl
    have e2 : sb.root.isEmpty = false := by
      cases hs : sb.root with
      | nil => exact absurd hs h2
      | cons c cs => rfl
    simp [e1, e2]
  · have e1 : loc.root.isEmpty = false := by
      cases hs : loc.root with
      | nil => exact absurd hs h1
      | cons c cs => rfl
    simp [e1]

theorem validate_root_not_empty (sb : ServerBlock) (h : sb.validate_root = true) :
    sb.root ≠ [] := by
  intro he
  unfold ServerBlock.validate_root at h
  rw [he] at h
  cases h

/-- C20: take a request whose path matches a location without a redirect
target, where the location or the server block has a root directory, as every
server block of a loaded configuration has (`ServerBlock::validate_root`
refuses one without). `handle_request` answers 501 when the method is TRACE.
Otherwise it answers 405 when the method is not one of GET, POST, DELETE or is
not in the allowed set of the location, and that response carries an `Allow`
header listing exactly those of GET, POST, DELETE that the location allows, in
that order, joined by `", "` (GET alone if it allows none of them). -/
theorem C20_method_gate (w : World) (sb : ServerBlock) (request : HttpRequest)
    (loc : LocationBlock) (hm : sb.match_location request.get_path = some loc)
    (hr : loc.redirect = []) (hroot : loc.root ≠ [] ∨ sb.root ≠ []) :
    (request.method_ = Method.TRACE →
      ∃ r, handle_request w request sb = Except.ok r ∧ r.status_ = NOT_IMPLEMENTED) ∧
    (request.method_ ≠ Method.TRACE →
      (is_implemented request.method_ = false ∨
        loc.is_allows_method request.method_ = false) →
      ∃ r, handle_request w request sb = Except.ok r ∧ r.status_ = METHOD_NOT_ALLOWED ∧
        r.get_header (lit "Allow") =
          if allowed_implemented_names loc = [] then lit "GET"
          else (lit ", ").intercalate (allowed_implemented_names loc)) := by
  obtain ⟨root, hrd⟩ := get_root_directory_ok sb loc hroot
  have hre : loc.redirect.isEmpty = true := by rw [hr]; rfl
  refine ⟨?_, ?_⟩
  · intro ht
    have hd : dispatch_request w sb request loc = Except.error NOT_IMPLEMENTED := by
      unfold dispatch_request
      have : (request.method_ == Method.TRACE) = true := by rw [ht]; rfl
      simp only [hre, Bool.not_true, Bool.false_eq_true, if_false, this, if_true]
    unfold handle_request
    rw [hm]
    simp only [hd]
    exact create_error_response_with_root w NOT_IMPLEMENTED sb loc root hrd
  · intro ht hbad
    have hd : dispatch_request w sb request loc = Except.error METHOD_NOT_ALLOWED := by
      unfold dispatch_request
      have h1 : (request.method_ == Method.TRACE) = false := by
        rw [beq_eq_false_iff_ne]; exact ht
      simp only [hre, Bool.not_true, Bool.false_eq_true, if_false, h1]
      by_cases hi : is_implemented request.method_ = true
      · have ha : loc.is_allows_method request.method_ = false := by
          rcases hbad with h | h
          · rw [hi] at h; cases h
          · exact h
        simp only [hi, ha, Bool.not_true, Bool.false_eq_true, if_false, Bool.not_false, if_true]
      · have hi2 : is_implemented request.method_ = false := by simpa using hi
        simp only [hi2, Bool.not_false, if_true]
    unfold handle_request
    rw [hm]
    simp only [hd]
    obtain ⟨r, h1, h2⟩ := create_error_response_with_root w METHOD_NOT_ALLOWED sb loc root hrd
    refine ⟨r, h1, h2, ?_⟩
    rw [create_error_response_allow w sb loc r h1, allow_header_value_eq]

/-- C20, at a DELETE request for `/` on the server block with root
`/var/www` whose location `/` allows GET only. -/
theorem C20_method_gate_witness :
    ∃ r, handle_request empty_world (HttpRequest.append_data {} delete_root_request).state
        root_server = Except.ok r ∧ r.status_ = METHOD_NOT_ALLOWED ∧
      r.get_header (lit "Allow") = lit "GET" := by
  obtain ⟨r, h1, h2, h3⟩ := (C20_method_gate empty_world root_server
    (HttpRequest.append_data {} delete_root_request).state { path := lit "/" }
    (by decide) (by decide) (Or.inr (validate_root_not_empty root_server (by decide)))).2
    (by decide) (Or.inr (by decide))
  refine ⟨r, h1, h2, ?_⟩
  rw [h3]
  decide

/-! ## Serialising and parsing the header block of a response -/

theorem getline_split_header_lines (h : HeaderMap)
    (hnl : ∀ kv ∈ h, '\n' ∉ kv.1 ∧ '\n' ∉ kv.2) :
    getline_split '\n' (build_header_lines h) =
      h.map fun kv => kv.1 ++ lit ": " ++ kv.2 ++ ['\r'] := by
  induction h with
  | nil => rfl
  | cons kv rest ih =>
    obtain ⟨k, v⟩ := kv
    obtain ⟨h1, h2⟩ := hnl (k, v) (List.mem_cons_self _ _)
    simp only at h1 h2
    have e : build_header_lines ((k, v) :: rest) =
        (k ++ lit ": " ++ v ++ ['\r']) ++ '\n' :: build_header_lines rest := by
      simp only [build_header_lines, lit_crlf]
      simp
    have hno : '\n' ∉ k ++ lit ": " ++ v ++ ['\r'] := by
      have : '\n' ∉ lit ": " := by decide
      simp [h1, h2, this]
    rw [e, getline_split_append '\n' _ _ hno, ih (fun x hx => hnl x (List.mem_cons_of_mem _ hx))]
    rfl

theorem trim_cons_space (v : Str) : trim (' ' :: v) = trim v := by
  unfold trim
  have : is_ows ' ' = true := by decide
  simp [List.dropWhile, this]

theorem hm_insert_append (n v : Str) (acc : HeaderMap)
    (h : ∀ a ∈ acc, str_lt n a.1 = false) : hm_insert n v acc = acc ++ [(n, v)] := by
  induction acc with
  | nil => rfl
  | cons kv rest ih =>
    obtain ⟨k, w⟩ := kv
    have hk := h (k, w) (List.mem_cons_self _ _)
    simp only at hk
    simp only [hm_insert, hk, Bool.false_eq_true, if_false, List.cons_append]
    rw [ih (fun a ha => h a (List.mem_cons_of_mem _ ha))]

theorem single_not_special (n : Str) (h : is_single_value_header n = true) :
    is_special_multiple_header n = false := by
  unfold is_single_value_header at h
  unfold is_special_multiple_header
  simp only [Bool.or_eq_true, beq_iff_eq] at h
  rcases h with ((((((((((h | h) | h) | h) | h) | h) | h) | h) | h) | h) | h) | h <;>
    (simp only [h]; decide)

theorem add_header_append (acc : HeaderMap) (n v : Str)
    (hlt : ∀ a ∈ acc, str_lt n a.1 = false)
    (hdup : ∀ a ∈ acc, a.1 = n → is_special_multiple_header n = true) :
    add_header acc n v = acc ++ [(n, v)] := by
  rw [← hm_insert_append n v acc hlt]
  by_cases hs : is_special_multiple_header n = true
  · have h1 : is_single_value_header n = false := by
      cases h : is_single_value_header n with
      | false => rfl
      | true =>
        rw [single_not_special n h] at hs
        cases hs
    unfold add_header
    simp only [h1, hs, Bool.false_eq_true, if_false, if_true]
  · have hfind : hm_find n acc = none := by
      apply Option.eq_none_iff_forall_not_mem.2
      intro old hold
      rw [hm_find_eq] at hold
      cases he : entries_for n acc with
      | nil => rw [he] at hold; simp at hold
      | cons kv rest =>
        have hm : kv ∈ entries_for n acc := by rw [he]; exact List.mem_cons_self _ _
        exact hs (hdup kv (List.mem_filter.1 hm).1 (entries_for_keys n acc kv hm))
    unfold add_header replace_header
    rw [hfind]
    split_ifs <;> rfl

theorem foldl_add_header_append (es acc : HeaderMap) (h : RoundTripOrder (acc ++ es)) :
    es.foldl (fun a kv => add_header a kv.1 kv.2) acc = acc ++ es := by
  induction es generalizing acc with
  | nil => simp
  | cons e rest ih =>
    have hp := h
    unfold RoundTripOrder at hp
    rw [List.pairwise_append] at hp
    obtain ⟨_, _, hcross⟩ := hp
    have hstep : add_header acc e.1 e.2 = acc ++ [e] := by
      apply add_header_append
      · intro a ha
        exact (hcross a ha e (List.mem_cons_self _ _)).1
      · intro a ha hk
        rw [← hk]
        exact (hcross a ha e (List.mem_cons_self _ _)).2 hk
    simp only [List.foldl_cons, hstep]
    rw [ih (acc ++ [e]) (by simpa using h)]
    simp

theorem store_fields_headers (fields : List (Str × Str)) (r : HttpRequest)
    (hc : r.header_count_ + fields.length ≤ MAX_HEADERS) :
    ∃ s, store_fields r fields = Outcome.ok s ∧
      s.headers_ = fields.foldl (fun a f => add_header a f.1 (trim f.2)) r.headers_ := by
  induction fields generalizing r with
  | nil => exact ⟨r, rfl, rfl⟩
  | cons f rest ih =>
    simp only [List.length_cons] at hc
    have hlt : ¬ r.header_count_ ≥ MAX_HEADERS := by omega
    simp only [store_fields, HttpRequest.store_header, hlt, if_false]
    split
    · simp only [Outcome.andThen]
      obtain ⟨s, h1, h2⟩ := ih { r with
          headers_ := add_header r.headers_ f.1 (trim f.2)
          header_count_ := r.header_count_ + 1
          chunked_ := value_contains (trim f.2) (lit "chunked") } (by simp only; omega)
      exact ⟨s, h1, h2⟩
    · simp only [Outcome.andThen]
      obtain ⟨s, h1, h2⟩ := ih { r with
          headers_ := add_header r.headers_ f.1 (trim f.2)
          header_count_ := r.header_count_ + 1 } (by simp only; omega)
      exact ⟨s, h1, h2⟩

theorem control_octet_newline : ControlOctet '\n' ∧ ControlOctet '\r' := by
  unfold ControlOctet
  decide

theorem parse_header_lines_round_trip (h : HeaderMap) (horder : RoundTripOrder h)
    (hnames : ∀ kv ∈ h, kv.1 ≠ [] ∧ ∀ c ∈ kv.1, is_token_char c = true)
    (hvalues : ∀ kv ∈ h, trim kv.2 = kv.2 ∧ kv.2.length ≤ MAX_HEADER_SIZE ∧
      ∀ c ∈ kv.2, ¬ ControlOctet c)
    (hcount : h.length ≤ MAX_HEADERS) :
    ∃ s, HttpRequest.parse_headers {} (build_header_lines h) = Outcome.ok s ∧ s.headers_ = h := by
  have hnl : ∀ kv ∈ h, '\n' ∉ kv.1 ∧ '\n' ∉ kv.2 := by
    intro kv hkv
    refine ⟨fun hm => ?_, fun hm => ?_⟩
    · exact (token_char_not_colon _ ((hnames kv hkv).2 _ hm)).2.2.2.2 rfl
    · exact (hvalues kv hkv).2.2 _ hm control_octet_newline.1
  have hwf : ∀ f ∈ h.map (fun kv => (kv.1, ' ' :: kv.2)), WellFormedField f := by
    intro f hf
    obtain ⟨kv, hkv, rfl⟩ := List.mem_map.1 hf
    refine ⟨(hnames kv hkv).1, (hnames kv hkv).2, by simp, ?_⟩
    intro c hc
    simp only [trim_cons_space, (hvalues kv hkv).1] at hc
    exact (hvalues kv hkv).2.2 c hc
  have hshort : ∀ f ∈ h.map (fun kv => (kv.1, ' ' :: kv.2)),
      (trim f.2).length ≤ MAX_HEADER_SIZE := by
    intro f hf
    obtain ⟨kv, hkv, rfl⟩ := List.mem_map.1 hf
    simp only [trim_cons_space, (hvalues kv hkv).1]
    exact (hvalues kv hkv).2.1
  have hraw : List.Forall₂ (fun f raw => remove_carriage_return raw = field_line f)
      (h.map (fun kv => (kv.1, ' ' :: kv.2)))
      (getline_split '\n' (build_header_lines h)) := by
    rw [getline_split_header_lines h hnl, List.forall₂_map_left_iff, List.forall₂_map_right_iff]
    apply List.forall₂_same.2
    intro kv _
    rw [remove_carriage_return_append]
    have : lit ": " = [':', ' '] := by decide
    simp [field_line, this]
  unfold HttpRequest.parse_headers
  rw [parse_header_lines_store _ _ hraw hwf hshort {} [] []]
  have hsp : HttpRequest.store_pending_header {} [] [] = Outcome.ok {} := rfl
  rw [hsp]
  simp only [Outcome.andThen]
  obtain ⟨s, h1, h2⟩ := store_fields_headers (h.map (fun kv => (kv.1, ' ' :: kv.2))) {}
    (by simp only [List.length_map]; exact (Nat.zero_add _).symm ▸ hcount)
  refine ⟨s, h1, ?_⟩
  rw [h2, List.foldl_map]
  have hf : (fun (a : HeaderMap) (kv : Str × Str) => add_header a kv.1 (trim (' ' :: kv.2))) =
      fun a kv => add_header a kv.1 (trim kv.2) := by
    funext a kv
    rw [trim_cons_space]
  have hfold : ∀ (es acc : HeaderMap), (∀ kv ∈ es, trim kv.2 = kv.2) →
      es.foldl (fun a kv => add_header a kv.1 (trim kv.2)) acc =
        es.foldl (fun a kv => add_header a kv.1 kv.2) acc := by
    intro es
    induction es with
    | nil => intro acc _; rfl
    | cons e rest ih =>
      intro acc he
      simp only [List.foldl_cons, he e (List.mem_cons_self _ _)]
      exact ih _ (fun kv hkv => he kv (List.mem_cons_of_mem _ hkv))
  show List.foldl (fun a kv => add_header a kv.1 (trim (' ' :: kv.2)))
    (({} : HttpRequest).headers_) h = h
  rw [hf, hfold h _ (fun kv hkv => (hvalues kv hkv).1)]
  have := foldl_add_header_append h [] (by simpa using horder)
  simpa using this

/-- C16 (counterexample): the response with the header `X-Note` set to
` padded` (with a leading space) is serialised with that value, and parsing its
header block stores `padded`: the header map parsed differs from the header map
of the response. -/
theorem C16_padded_value_counterexample :
    (HttpRequest.parse_headers {} (build_header_lines padded_response.headers_)).error = none ∧
    (HttpRequest.parse_headers {} (build_header_lines padded_response.headers_)).state.headers_ ≠
      padded_response.headers_ ∧
    HttpHeaders.get padded_response.headers_ (lit "X-Note") = lit " padded" ∧
    HttpHeaders.get
      (HttpRequest.parse_headers {} (build_header_lines padded_response.headers_)).state.headers_
      (lit "X-Note") = lit "padded" := by
  decide

/-- C16 (amended): take a response whose header map holds at most 100 entries
in the iteration order of the multimap, stores a name twice only if it is
`Set-Cookie` or `WWW-Authenticate`, whose names are non-empty tokens, and whose
values have no leading or trailing SP or HTAB, no control octet and at most
8192 octets. The header lines that `build` writes between the status line and
the empty line, parsed by `HttpRequest::parse_headers` on a fresh request, are
accepted and yield a header map equal to the header map of the response. -/
theorem C16_header_round_trip (r : HttpResponse) (horder : RoundTripOrder r.headers_)
    (hnames : ∀ kv ∈ r.headers_, kv.1 ≠ [] ∧ ∀ c ∈ kv.1, is_token_char c = true)
    (hvalues : ∀ kv ∈ r.headers_, trim kv.2 = kv.2 ∧ kv.2.length ≤ MAX_HEADER_SIZE ∧
      ∀ c ∈ kv.2, ¬ ControlOctet c)
    (hcount : r.headers_.length ≤ MAX_HEADERS) :
    r.build =
      lit "HTTP/1.1 " ++ to_string_nat r.status_ ++ lit " " ++ get_status_message r.status_ ++
        lit "\r\n" ++ build_header_lines r.headers_ ++ lit "\r\n" ++ r.body_ ∧
    (HttpRequest.parse_headers {} (build_header_lines r.headers_)).error = none ∧
    (HttpRequest.parse_headers {} (build_header_lines r.headers_)).state.headers_ =
      r.headers_ := by
  obtain ⟨s, h1, h2⟩ := parse_header_lines_round_trip r.headers_ horder hnames hvalues hcount
  refine ⟨rfl, ?_, ?_⟩
  · rw [h1]; rfl
  · rw [h1]; exact h2

/-- C16 (amended), at the default error response for 404. -/
theorem C16_header_round_trip_witness :
    (HttpRequest.parse_headers {} (build_header_lines
      (build_default_error_response (lit "Thu, 01 Jan 1970 00:00:00 GMT")
        NOT_FOUND).headers_)).state.headers_ =
      (build_default_error_response (lit "Thu, 01 Jan 1970 00:00:00 GMT") NOT_FOUND).headers_ :=
  (C16_header_round_trip
    (build_default_error_response (lit "Thu, 01 Jan 1970 00:00:00 GMT") NOT_FOUND)
    (by unfold RoundTripOrder; decide) (by decide) (by decide) (by decide)).2.2

/-! ## Redirects -/

theorem new_response_has_no (date name : Str)
    (h1 : compare_insensitive (lit "Date") name = false)
    (h2 : compare_insensitive (lit "Server") name = false) :
    HttpHeaders.has (HttpResponse.new date).headers_ name = false := by
  have e : (HttpResponse.new date).headers_ =
      add_header (add_header [] (normalize_name (lit "Date")) date)
        (normalize_name (lit "Server")) (lit "WebServ") := rfl
  have n1 : normalize_name (lit "Date") = lit "Date" := by decide
  have n2 : normalize_name (lit "Server") = lit "Server" := by decide
  rw [e, n1, n2, has_add_header, has_add_header, h1, h2]
  rfl

theorem handle_redirect_status (response : HttpResponse) (url : Str) (code : Int) :
    (handle_redirect response url code).status_ =
      if code = 301 then 301 else if code = 302 then 302 else if code = 303 then 303
      else if code = 307 then 307 else if code = 308 then 308 else 301 := by
  unfold handle_redirect
  simp only [HttpResponse.set_header, HttpResponse.set_body, HttpResponse.set_status]
  rfl

theorem handle_redirect_location (date url : Str) (code : Int) :
    (handle_redirect (HttpResponse.new date) url code).get_header (lit "Location") = url := by
  unfold handle_redirect
  simp only [HttpResponse.set_header, HttpResponse.set_body, HttpResponse.set_status,
    HttpResponse.get_header]
  have n1 : normalize_name (lit "Location") = lit "Location" := by decide
  have n2 : normalize_name (lit "Content-Length") = lit "Content-Length" := by decide
  have n3 : normalize_name (lit "Content-Type") = lit "Content-Type" := by decide
  rw [n1, n2, n3, get_add_header_other _ _ _ _ (by decide),
    get_add_header_other _ _ _ _ (by decide)]
  exact (get_add_header_fresh _ _ _ _
    (new_response_has_no date _ (by decide) (by decide)) (by decide)).1

theorem process_redirect_directive_codes (location l2 : LocationBlock) (values : List Str)
    (h : process_redirect_directive location values = some l2) :
    l2.redirect_status_code ∈ redirect_codes ∧
      (values.length = 1 → l2.redirect_status_code = 302) := by
  unfold process_redirect_directive at h
  match values, h with
  | [url], h =>
    simp only [Option.some.injEq] at h
    subst h
    exact ⟨by simp [redirect_codes, REDIRECT_FOUND], fun _ => rfl⟩
  | [status_str, url], h =>
    simp only at h
    cases hp : parse_status_digits status_str 0 with
    | none => rw [hp] at h; cases h
    | some code =>
      rw [hp] at h
      simp only at h
      split_ifs at h with hc
      simp only [Option.some.injEq] at h
      subst h
      refine ⟨?_, fun hl => by cases hl⟩
      simp only [bne_iff_ne, ne_eq, Bool.and_eq_true, decide_eq_true_eq, not_and, not_not] at hc
      simp only [redirect_codes, List.mem_cons, List.mem_singleton, List.not_mem_nil, or_false]
      by_cases h1 : code = 301
      · exact Or.inl h1
      by_cases h2 : code = 302
      · exact Or.inr (Or.inl h2)
      by_cases h3 : code = 303
      · exact Or.inr (Or.inr (Or.inl h3))
      by_cases h4 : code = 307
      · exact Or.inr (Or.inr (Or.inr (Or.inl h4)))
      exact Or.inr (Or.inr (Or.inr (Or.inr (hc ⟨⟨⟨h1, h2⟩, h3⟩, h4⟩))))

/-- A request whose matched location has a redirect target is answered with
the target in the `Location` header; the status is the redirect status code of
the location when that is one of 301, 302, 303, 307, 308, and 301 for any
other number. -/
theorem handle_request_redirect (w : World) (request : HttpRequest) (sb : ServerBlock)
    (location : LocationBlock)
    (hm : sb.match_location request.get_path = some location) (hr : location.redirect ≠ []) :
    ∃ response, handle_request w request sb = Except.ok response ∧
      response.get_header (lit "Location") = location.redirect ∧
      (location.redirect_status_code ∈ redirect_codes →
        (response.status_ : Int) = location.redirect_status_code) ∧
      (location.redirect_status_code ∉ redirect_codes → response.status_ = 301) := by
  have hre : location.redirect.isEmpty = false := by
    cases h : location.redirect with
    | nil => exact absurd h hr
    | cons c cs => rfl
  have hd : dispatch_request w sb request location =
      Except.ok (handle_redirect (HttpResponse.new w.date) location.redirect
        (if location.redirect_status_code > 0 then location.redirect_status_code
          else DEFAULT_REDIRECT_STATUS)) := by
    unfold dispatch_request
    simp only [hre, Bool.not_false, if_true]
  have hh : handle_request w request sb =
      Except.ok (handle_redirect (HttpResponse.new w.date) location.redirect
        (if location.redirect_status_code > 0 then location.redirect_status_code
          else DEFAULT_REDIRECT_STATUS)) := by
    unfold handle_request
    rw [hm]
    simp only [hd]
  have hin : location.redirect_status_code ∈ redirect_codes →
      ((handle_redirect (HttpResponse.new w.date) location.redirect
        (if location.redirect_status_code > 0 then location.redirect_status_code
          else DEFAULT_REDIRECT_STATUS)).status_ : Int) = location.redirect_status_code := by
    intro hc
    rw [handle_redirect_status]
    simp only [redirect_codes, List.mem_cons, List.mem_singleton, List.not_mem_nil,
      or_false] at hc
    rcases hc with h | h | h | h | h <;> rw [h] <;> rfl
  refine ⟨_, hh, handle_redirect_location _ _ _, hin, ?_⟩
  · intro hc
    rw [handle_redirect_status]
    simp only [redirect_codes, List.mem_cons, List.mem_singleton, List.not_mem_nil,
      or_false, not_or] at hc
    obtain ⟨h1, h2, h3, h4, h5⟩ := hc
    by_cases hp : location.redirect_status_code > 0
    · simp only [hp, if_true, h1, h2, h3, h4, h5, if_false]
    · simp only [hp, if_false, DEFAULT_REDIRECT_STATUS, if_true]

/-- C21: for every request whose matched location has a redirect target,
whatever the method, `handle_request` returns a response whose `Location`
header equals the target and whose status is the redirect status code of the
location when that is one of 301, 302, 303, 307, 308. When the redirect fields
of the location are those the configuration parser stores for a `return` or
`redirect` directive, the code is one of the five, and the status is 302 when
the directive gave the target alone, with no status code. -/
theorem C21_redirect_status (w : World) (request : HttpRequest) (sb : ServerBlock)
    (location : LocationBlock)
    (hm : sb.match_location request.get_path = some location) (hr : location.redirect ≠ []) :
    ∃ response, handle_request w request sb = Except.ok response ∧
      response.get_header (lit "Location") = location.redirect ∧
      (location.redirect_status_code ∈ redirect_codes →
        (response.status_ : Int) = location.redirect_status_code) ∧
      (∀ l0 values parsed, process_redirect_directive l0 values = some parsed →
        location.redirect_status_code = parsed.redirect_status_code →
        (response.status_ : Int) = location.redirect_status_code ∧
        location.redirect_status_code ∈ redirect_codes ∧
        (values.length = 1 → response.status_ = 302)) := by
  obtain ⟨response, h1, h2, h3, _⟩ := handle_request_redirect w request sb location hm hr
  refine ⟨response, h1, h2, h3, ?_⟩
  intro l0 values parsed hv hc
  obtain ⟨h5, h6⟩ := process_redirect_directive_codes l0 parsed values hv
  rw [← hc] at h5 h6
  refine ⟨h3 h5, h5, fun hl => ?_⟩
  have h7 := (h3 h5).trans (h6 hl)
  exact_mod_cast h7

/-- C21, at a GET request for `/old` on a server block whose location `/old`
holds what the directive `return /new` leaves: the answer is 302 with the
`Location` header `/new`. -/
theorem C21_redirect_status_witness :
    ∃ response,
      handle_request empty_world (HttpRequest.append_data {} old_request).state
        { root := lit "/var/www",
          locations := [{ path := lit "/old", redirect := lit "/new",
                          redirect_status_code := 302 }] } = Except.ok response ∧
      response.get_header (lit "Location") = lit "/new" ∧ response.status_ = 302 := by
  obtain ⟨response, h1, h2, _, h5⟩ := C21_redirect_status empty_world
    (HttpRequest.append_data {} old_request).state
    { root := lit "/var/www",
      locations := [{ path := lit "/old", redirect := lit "/new", redirect_status_code := 302 }] }
    { path := lit "/old", redirect := lit "/new", redirect_status_code := 302 }
    (by decide) (by decide)
  exact ⟨response, h1, h2,
    (h5 { path := lit "/old" } [lit "/new"] _ rfl rfl).2.2 (by decide)⟩

/-! ## Closing the connection after an error -/

theorem select_server_block_frame (w : World) (c : Connection) :
    (c.select_server_block_for_request w).should_close_ = c.should_close_ ∧
    (c.select_server_block_for_request w).current_request_ = c.current_request_ ∧
    (c.select_server_block_for_request w).request_count_ = c.request_count_ ∧
    (c.select_server_block_for_request w).request_in_progress_ = c.request_in_progress_ := by
  unfold Connection.select_server_block_for_request
  simp only
  split_ifs
  · exact ⟨rfl, rfl, rfl, rfl⟩
  · split
    · exact ⟨rfl, rfl, rfl, rfl⟩
    · exact ⟨rfl, rfl, rfl, rfl⟩
  · exact ⟨rfl, rfl, rfl, rfl⟩

theorem handle_http_request_buffered (w : World) (c : Connection) (sb : ServerBlock)
    (response : HttpResponse)
    (hsb : (c.select_server_block_for_request w).server_block_ = some sb)
    (hr : handle_request w c.current_request_ sb = Except.ok response)
    (hcgi : response.get_header (lit "X-CGI-Processing") ≠ lit "true") :
    c.handle_http_request w = Outcome.ok
      { c.select_server_block_for_request w with
        should_close_ := c.should_close_ || !c.current_request_.is_keep_alive ||
          decide (c.request_count_ + 1 ≥ MAX_REQUESTS)
        request_count_ := c.request_count_ + 1
        response_buffer_ :=
          (if c.current_request_.is_keep_alive then
            response.set_header (lit "Connection") (lit "keep-alive")
          else response.set_header (lit "Connection") (lit "close")).build } := by
  obtain ⟨h1, h2, h3, _⟩ := select_server_block_frame w c
  unfold Connection.handle_http_request
  simp only [hsb, h2, hr]
  have hne : (response.get_header (lit "X-CGI-Processing") == lit "true") = false := by
    rw [beq_eq_false_iff_ne]; exact hcgi
  simp only [hne, Bool.false_eq_true, if_false, h1, h3]

/-- C22: `handle_http_error` marks the connection to close for every status
that is 5xx or one of 400, 408, 411, 413, 414, 415, and for any other status,
while a request is in progress, exactly when the connection was marked already
or the request is not keep-alive. `handle_http_request` does not look at the
status of the response that the handler returns: the connection is marked to
close exactly when it was marked already, the request is not keep-alive, or
the request limit is reached. So a keep-alive TRACE request, which the handler
answers 501, leaves the connection open, with `Connection: keep-alive` in the
response. -/
theorem C22_close_policy (w : World) (c : Connection) :
    (∀ status, should_close_connection status = true ↔
      (500 ≤ status ∨ status ∈ [400, 408, 411, 413, 414, 415])) ∧
    (∀ status, should_close_connection status = true →
      (c.handle_http_error w status).should_close_ = true) ∧
    (∀ status, should_close_connection status = false → c.request_in_progress_ = true →
      (c.handle_http_error w status).should_close_ =
        (c.should_close_ || !c.current_request_.is_keep_alive)) ∧
    (∀ sb response, (c.select_server_block_for_request w).server_block_ = some sb →
      handle_request w c.current_request_ sb = Except.ok response →
      response.get_header (lit "X-CGI-Processing") ≠ lit "true" →
      (c.handle_http_request w).error = none ∧
      (c.handle_http_request w).state.should_close_ =
        (c.should_close_ || !c.current_request_.is_keep_alive ||
          decide (c.request_count_ + 1 ≥ MAX_REQUESTS))) ∧
    ((HttpRequest.append_data {} trace_request).state.is_keep_alive = true ∧
      (accepted_connection.receive_client_data empty_world
        (RecvResult.data trace_request)).should_close_ = false ∧
      starts_with (accepted_connection.receive_client_data empty_world
        (RecvResult.data trace_request)).response_buffer_
        (lit "HTTP/1.1 501 Not Implemented\r\nConnection: keep-alive\r\n") = true) := by
  refine ⟨?_, ?_, ?_, ?_, by decide, by decide, by decide⟩
  · intro status
    unfold should_close_connection
    simp only [BAD_REQUEST, REQUEST_TIMEOUT, LENGTH_REQUIRED, PAYLOAD_TOO_LARGE, URI_TOO_LONG,
      UNSUPPORTED_MEDIA_TYPE, List.mem_cons, List.mem_singleton, List.not_mem_nil, or_false]
    by_cases h : status ≥ 500
    · simp [h]
    · have h2 : ¬ 500 ≤ status := h
      simp only [h, if_false, h2, false_or, Bool.or_eq_true, beq_iff_eq, or_assoc]
  · intro status hs
    unfold Connection.handle_http_error
    simp only [hs, if_true]
  · intro status hs hp
    unfold Connection.handle_http_error
    simp only [hs, Bool.false_eq_true, if_false, hp, if_true]
    cases hk : c.current_request_.is_keep_alive <;> simp
  · intro sb response hsb hr hcgi
    rw [handle_http_request_buffered w c sb response hsb hr hcgi]
    exact ⟨rfl, rfl⟩

/-- C22, at the status 500 on a connection just accepted. -/
theorem C22_close_policy_witness :
    should_close_connection 500 = true ∧
    (accepted_connection.handle_http_error empty_world 500).should_close_ = true :=
  ⟨by decide, (C22_close_policy empty_world accepted_connection).2.1 500 (by decide)⟩

/-! ## The request limit of a connection -/

theorem select_server_block_some (w : World) (c : Connection) (sb : ServerBlock)
    (hc : c.server_block_ = some sb)
    (hblock : ∀ name port block, w.get_server_block name port = some block → block = sb) :
    (c.select_server_block_for_request w).server_block_ = some sb := by
  unfold Connection.select_server_block_for_request
  simp only
  split_ifs
  · exact hc
  · split
    · rename_i block hb
      rw [hblock _ _ block hb]
    · exact hc
  · exact hc

theorem handled_in_turn_inv (w : World) (request : HttpRequest) (c : Connection)
    (sb : ServerBlock) (response : HttpResponse)
    (hka : request.is_keep_alive = true)
    (hopen : c.should_close_ = false) (hcount : c.request_count_ = 0)
    (hsb : c.server_block_ = some sb)
    (hblock : ∀ name port block, w.get_server_block name port = some block → block = sb)
    (hr : handle_request w request sb = Except.ok response)
    (hcgi : response.get_header (lit "X-CGI-Processing") ≠ lit "true") (k : Nat) :
    (handled_in_turn w request c k).request_count_ = k ∧
    (handled_in_turn w request c k).should_close_ = decide (k ≥ MAX_REQUESTS) ∧
    (handled_in_turn w request c k).server_block_ = some sb ∧
    (1 ≤ k → (handled_in_turn w request c k).response_buffer_ =
      (response.set_header (lit "Connection") (lit "keep-alive")).build) := by
  induction k with
  | zero =>
    refine ⟨hcount, ?_, hsb, fun h => absurd h (by decide)⟩
    rw [show handled_in_turn w request c 0 = c from rfl, hopen]
    decide
  | succ k ih =>
    obtain ⟨i1, i2, i3, _⟩ := ih
    have hs := select_server_block_some w
      { handled_in_turn w request c k with current_request_ := request } sb i3 hblock
    have hb := handle_http_request_buffered w
      { handled_in_turn w request c k with current_request_ := request } sb response hs hr hcgi
    have e : handled_in_turn w request c (k + 1) =
        (Connection.handle_http_request w
          { handled_in_turn w request c k with current_request_ := request }).state := rfl
    rw [e, hb]
    refine ⟨?_, ?_, hs, fun _ => ?_⟩
    · show (handled_in_turn w request c k).request_count_ + 1 = k + 1
      rw [i1]
    · show ((handled_in_turn w request c k).should_close_ || !request.is_keep_alive ||
        decide ((handled_in_turn w request c k).request_count_ + 1 ≥ MAX_REQUESTS)) =
        decide (k + 1 ≥ MAX_REQUESTS)
      rw [i1, i2, hka]
      by_cases h : k ≥ MAX_REQUESTS
      · have h2 : k + 1 ≥ MAX_REQUESTS := Nat.le_succ_of_le h
        simp [h, h2]
      · simp [h]
    · show (if request.is_keep_alive = true then
          response.set_header (lit "Connection") (lit "keep-alive")
        else response.set_header (lit "Connection") (lit "close")).build = _
      rw [hka]
      rfl

/-- C23: on a connection that is open and has served no request, with one
server block, let keep-alive requests that the handler answers be handled one
after another by `handle_http_request`. After the `k`-th request the count is
`k`, the response buffered is the handler's response with the header
`Connection: keep-alive`, and the connection is marked to close exactly when
`k` is at least 100: the first 99 responses leave the connection open, and the
100th marks it to close although it too carries `Connection: keep-alive`. -/
theorem C23_request_limit (w : World) (request : HttpRequest) (c : Connection)
    (sb : ServerBlock) (response : HttpResponse)
    (hka : request.is_keep_alive = true)
    (hopen : c.should_close_ = false) (hcount : c.request_count_ = 0)
    (hsb : c.server_block_ = some sb)
    (hblock : ∀ name port block, w.get_server_block name port = some block → block = sb)
    (hr : handle_request w request sb = Except.ok response)
    (hcgi : response.get_header (lit "X-CGI-Processing") ≠ lit "true") (k : Nat) (hk : 1 ≤ k) :
    (handled_in_turn w request c k).request_count_ = k ∧
    (handled_in_turn w request c k).response_buffer_ =
      (response.set_header (lit "Connection") (lit "keep-alive")).build ∧
    (lit "Connection", lit "keep-alive") ∈
      (response.set_header (lit "Connection") (lit "keep-alive")).headers_ ∧
    (k < 100 → (handled_in_turn w request c k).should_close_ = false) ∧
    (100 ≤ k → (handled_in_turn w request c k).should_close_ = true) := by
  obtain ⟨h1, h2, _, h4⟩ :=
    handled_in_turn_inv w request c sb response hka hopen hcount hsb hblock hr hcgi k
  refine ⟨h1, h4 hk, ?_, ?_, ?_⟩
  · have n : normalize_name (lit "Connection") = lit "Connection" := by decide
    have hkind : add_header response.headers_ (lit "Connection") (lit "keep-alive") =
        replace_header response.headers_ (lit "Connection") (lit "keep-alive") :=
      add_header_replace_kind _ _ _ (Or.inr ⟨by decide, by decide⟩)
    show (lit "Connection", lit "keep-alive") ∈
      add_header response.headers_ (normalize_name (lit "Connection")) (lit "keep-alive")
    rw [n, hkind]
    unfold replace_header
    split <;> exact mem_hm_insert_self _ _ _
  · intro hlt
    rw [h2]
    simp only [MAX_REQUESTS, ge_iff_le, decide_eq_false_iff_not, not_le]
    exact hlt
  · intro hge
    rw [h2]
    simp only [MAX_REQUESTS, ge_iff_le, decide_eq_true_eq]
    exact hge

/-- C23, at the 100th GET request for an existing file on a connection just
accepted: the response buffered is a 200 response that carries
`Connection: keep-alive`, and the connection is marked to close. -/
theorem C23_request_limit_witness :
    (handled_in_turn one_file_world (HttpRequest.append_data {} hello_request).state
      accepted_connection 100).should_close_ = true ∧
    starts_with (handled_in_turn one_file_world (HttpRequest.append_data {} hello_request).state
      accepted_connection 100).response_buffer_
      (lit "HTTP/1.1 200 OK\r\nConnection: keep-alive\r\n") = true := by
  obtain ⟨_, h2, _, _, h5⟩ := C23_request_limit one_file_world
    (HttpRequest.append_data {} hello_request).state accepted_connection root_server
    (((HttpResponse.new one_file_world.date).set_header (lit "Content-Type")
      (lit "application/octet-stream")).set_body (lit "hello\n"))
    (by decide) (by decide) (by decide) (by decide) (fun _ _ _ h => by cases h) (by decide)
    (by decide) 100 (by decide)
  refine ⟨h5 (by decide), ?_⟩
  rw [h2]
  decide

/-! ## The status of a CGI response -/

theorem parse_cgi_header_lines_status (lines : List Str) (m : HeaderMap)
    (hm : (entries_for (lit "Status") m).length ≤ 1) :
    (entries_for (lit "Status") (parse_cgi_header_lines lines m)).length ≤ 1 := by
  induction lines generalizing m with
  | nil => exact hm
  | cons raw more ih =>
    unfold parse_cgi_header_lines
    simp only
    split_ifs
    · exact ih m hm
    · split
      · rename_i colon_pos _
        apply ih
        by_cases hn : substr (remove_carriage_return raw) 0 colon_pos = lit "Status"
        · rw [hn, add_header_replace_kind _ _ _ (Or.inr ⟨by decide, by decide⟩),
            entries_for_replace_header _ _ _ hm]
          exact Nat.le_refl 1
        · rw [entries_for_add_header_other _ _ _ _ (fun h => hn h.symm)]
          exact hm
      · exact ih m hm

theorem parse_cgi_output_status (o : Str) :
    (entries_for (lit "Status") (parse_cgi_output o).1).length ≤ 1 := by
  unfold parse_cgi_output
  simp only
  split
  · exact Nat.zero_le 1
  · exact parse_cgi_header_lines_status _ _ (Nat.zero_le 1)

theorem cgi_process_headers_status (hs : HeaderMap) (response : HttpResponse)
    (status : HttpStatusCode) :
    (cgi_process_headers hs response status).2 =
      (entries_for (lit "Status") hs).foldl
        (fun st kv => if 100 ≤ atoi kv.2 ∧ atoi kv.2 ≤ 599 then (atoi kv.2).toNat else st)
        status := by
  induction hs generalizing response status with
  | nil => rfl
  | cons kv rest ih =>
    obtain ⟨k, v⟩ := kv
    unfold cgi_process_headers
    by_cases hk : k = lit "Status"
    · subst hk
      have e : entries_for (lit "Status") ((lit "Status", v) :: rest) =
          (lit "Status", v) :: entries_for (lit "Status") rest := by
        simp [entries_for, List.filter]
      rw [e, List.foldl_cons]
      by_cases hr : 100 ≤ atoi v ∧ atoi v ≤ 599
      · have hb : (atoi v ≥ 100 && atoi v ≤ 599) = true := by
          simp only [ge_iff_le, Bool.and_eq_true, decide_eq_true_eq]
          exact hr
        simp only [beq_self_eq_true, if_true, hb, hr, and_self]
        exact ih _ _
      · have hb : (atoi v ≥ 100 && atoi v ≤ 599) = false := by
          rw [← Bool.not_eq_true]
          simp only [ge_iff_le, Bool.and_eq_true, decide_eq_true_eq]
          exact hr
        simp only [beq_self_eq_true, if_true, hb, Bool.false_eq_true, if_false, hr]
        exact ih _ _
    · have hb : (k == lit "Status") = false := by rw [beq_eq_false_iff_ne]; exact hk
      have e : entries_for (lit "Status") ((k, v) :: rest) = entries_for (lit "Status") rest := by
        simp [entries_for, List.filter, hb]
      rw [e]
      simp only [hb, Bool.false_eq_true, if_false]
      exact ih _ _

theorem cgi_build_response_status (date : Str) (headers : HeaderMap) (body : Str) :
    (cgi_build_response date headers body).status_ =
      (cgi_process_headers headers (HttpResponse.new date) OK).2 := by
  unfold cgi_build_response
  simp only
  split_ifs <;> rfl

/-- C26 (counterexample): a `Status` field of 99 and one of 700 are in the header
map that `parse_cgi_output` returns, and the response built has status 200 in
both cases, not 100 and 599. -/
theorem C26_out_of_range_counterexample :
    hm_find (lit "Status") (parse_cgi_output low_status_output).1 = some (lit "99") ∧
    atoi (lit "99") = 99 ∧
    (cgi_build_from_output (lit "Thu, 01 Jan 1970 00:00:00 GMT") low_status_output).status_ = 200 ∧
    hm_find (lit "Status") (parse_cgi_output high_status_output).1 = some (lit "700 Too High") ∧
    atoi (lit "700 Too High") = 700 ∧
    (cgi_build_from_output (lit "Thu, 01 Jan 1970 00:00:00 GMT") high_status_output).status_ =
      200 := by
  decide

/-- C26 (amended): for every CGI output, the status of the response built by
`build_from_output` is 200 when the header map parsed from the output has no
entry named `Status`; otherwise it is the leading integer of that entry's value
when the integer is between 100 and 599, and 200 when it is not. -/
theorem C26_cgi_status (date o : Str) :
    (cgi_build_from_output date o).status_ =
      match hm_find (lit "Status") (parse_cgi_output o).1 with
      | none => 200
      | some v => if 100 ≤ atoi v ∧ atoi v ≤ 599 then (atoi v).toNat else 200 := by
  have hu := parse_cgi_output_status o
  have e : (cgi_build_from_output date o).status_ =
      (cgi_process_headers (parse_cgi_output o).1 (HttpResponse.new date) OK).2 := by
    unfold cgi_build_from_output
    exact cgi_build_response_status _ _ _
  rw [e, cgi_process_headers_status]
  cases hf : hm_find (lit "Status") (parse_cgi_output o).1 with
  | none =>
    rw [entries_for_nil_of_find_none _ _ hf]
    rfl
  | some v =>
    rw [entries_for_of_find_some _ _ _ hf hu]
    rfl

/-! ## The body and the content type of a CGI response -/

theorem find_at_first (pat pre rest : Str) (i : Nat) (hhere : pat <+: rest)
    (hfirst : ∀ j < pre.length, ¬ pat <+: (pre ++ rest).drop j) :
    find_at pat (pre ++ rest) i = some (i + pre.length) := by
  induction pre generalizing i with
  | nil =>
    cases rest with
    | nil =>
      have : pat = [] := by simpa using hhere
      subst this
      rfl
    | cons c cs =>
      have hs : starts_with (c :: cs) pat = true := (starts_with_iff _ _).2 hhere
      simp only [List.nil_append, find_at, hs, if_true, List.length_nil, Nat.add_zero]
  | cons c cs ih =>
    have h0 : starts_with (c :: (cs ++ rest)) pat = false := by
      rw [← Bool.not_eq_true, starts_with_iff]
      exact hfirst 0 (Nat.succ_pos _)
    have hstep : find_at pat (cs ++ rest) (i + 1) = some (i + 1 + cs.length) :=
      ih (i + 1) (fun j hj => hfirst (j + 1) (Nat.succ_lt_succ hj))
    simp only [List.cons_append, find_at, List.append_eq, h0, Bool.false_eq_true, if_false,
      hstep, List.length_cons, Option.some.injEq]
    omega

theorem find_first (pat pre post : Str)
    (hfirst : ∀ j < pre.length, ¬ pat <+: (pre ++ pat ++ post).drop j) :
    find (pre ++ pat ++ post) pat = some pre.length := by
  unfold find
  rw [List.append_assoc] at hfirst ⊢
  rw [find_at_first pat pre (pat ++ post) 0 (List.prefix_append _ _) hfirst, Nat.zero_add]

theorem find_none_of_absent (s pat : Str) (h : ¬ pat <:+: s) : find s pat = none := by
  unfold find
  cases hf : find_at pat s 0 with
  | none => rfl
  | some k =>
    exact absurd ((find_at_isSome_iff pat s 0).1 (by rw [hf]; rfl)) h

theorem compare_insensitive_iff_map (a b : Str) :
    compare_insensitive a b = true ↔ a.map tolower = b.map tolower := by
  unfold compare_insensitive
  induction a generalizing b with
  | nil => cases b <;> simp
  | cons c cs ih =>
    cases b with
    | nil => simp
    | cons d ds =>
      have ih2 := ih ds
      by_cases hl : cs.length = ds.length
      · simp only [hl, bne_self_eq_false, Bool.false_eq_true, if_false] at ih2
        simp only [List.length_cons, hl, bne_self_eq_false, Bool.false_eq_true, if_false,
          List.zip_cons_cons, List.all_cons, Bool.and_eq_true, beq_iff_eq, List.map_cons,
          List.cons.injEq, ih2]
      · have hne : (cs.length + 1 != ds.length + 1) = true := by
          simp only [bne_iff_ne, ne_eq, Nat.add_right_cancel_iff]
          exact hl
        simp only [List.length_cons, hne, if_true, Bool.false_eq_true, List.map_cons,
          List.cons.injEq, false_iff, not_and]
        intro _ hm
        exact hl (by simpa using congrArg List.length hm)

theorem tolower_toupper (c : Char) : tolower (toupper c) = tolower c := by
  apply char_eq_of_toNat
  rw [tolower_toNat, tolower_toNat, toupper_toNat]
  split_ifs <;> omega

theorem map_tolower_normalize_name_from (s : Str) (f : Bool) :
    (normalize_name_from s f).map tolower = s.map tolower := by
  induction s generalizing f with
  | nil => cases f <;> rfl
  | cons c cs ih =>
    cases f with
    | true =>
      simp only [normalize_name_from, List.map_cons, tolower_toupper, ih]
    | false =>
      simp only [normalize_name_from]
      split_ifs
      · simp only [List.map_cons, ih]
      · simp only [List.map_cons, tolower_idem, ih]

theorem compare_insensitive_normalize_name (k name : Str) :
    compare_insensitive (normalize_name k) name = compare_insensitive k name := by
  have h1 := compare_insensitive_iff_map (normalize_name k) name
  have h2 := compare_insensitive_iff_map k name
  unfold normalize_name at h1 ⊢
  rw [map_tolower_normalize_name_from] at h1
  cases ha : compare_insensitive (normalize_name_from k true) name <;>
    cases hb : compare_insensitive k name <;> simp_all

theorem has_set_header (r : HttpResponse) (k v name : Str) :
    HttpHeaders.has (r.set_header k v).headers_ name =
      (compare_insensitive k name || HttpHeaders.has r.headers_ name) := by
  show HttpHeaders.has (add_header r.headers_ (normalize_name k) v) name = _
  rw [has_add_header, compare_insensitive_normalize_name]

theorem get_of_has_false (h : HeaderMap) (name : Str) (hh : HttpHeaders.has h name = false) :
    HttpHeaders.get h name = [] := by
  induction h with
  | nil => rfl
  | cons kv rest ih =>
    obtain ⟨k, v⟩ := kv
    have hall := (has_false_iff _ _).1 hh
    have hk : compare_insensitive k name = false := hall (k, v) (List.mem_cons_self _ _)
    have hrest : HttpHeaders.has rest name = false :=
      (has_false_iff _ _).2 (fun kv hkv => hall kv (List.mem_cons_of_mem _ hkv))
    simp only [HttpHeaders.get, hk, Bool.false_eq_true, if_false]
    exact ih hrest

theorem cgi_process_headers_has (hs : HeaderMap) (response : HttpResponse)
    (status : HttpStatusCode) (name : Str)
    (hno : ∀ kv ∈ hs, compare_insensitive kv.1 name = false) :
    HttpHeaders.has (cgi_process_headers hs response status).1.headers_ name =
      HttpHeaders.has response.headers_ name := by
  induction hs generalizing response status with
  | nil => rfl
  | cons kv rest ih =>
    obtain ⟨k, v⟩ := kv
    have hrest : ∀ kv ∈ rest, compare_insensitive kv.1 name = false :=
      fun kv hkv => hno kv (List.mem_cons_of_mem _ hkv)
    have hk : compare_insensitive k name = false := hno (k, v) (List.mem_cons_self _ _)
    unfold cgi_process_headers
    by_cases hks : (k == lit "Status") = true
    · simp only [hks, if_true]
      split_ifs
      · exact ih _ _ hrest
      · exact ih _ _ hrest
    · simp only [hks, Bool.false_eq_true, if_false]
      rw [ih _ _ hrest, has_set_header, hk]
      rfl

theorem cgi_default_content_type (date : Str) (headers : HeaderMap) (body : Str)
    (hno : HttpHeaders.has headers (lit "Content-Type") = false) :
    (cgi_build_response date headers body).get_header (lit "Content-Type") = lit "text/html" := by
  have hall := (has_false_iff _ _).1 hno
  have h1 : HttpHeaders.has
      (cgi_process_headers headers (HttpResponse.new date) OK).1.headers_
      (lit "Content-Type") = false := by
    rw [cgi_process_headers_has _ _ _ _ hall]
    exact new_response_has_no date _ (by decide) (by decide)
  have h2 : HttpHeaders.has
      ((((cgi_process_headers headers (HttpResponse.new date) OK).1.set_status
        (cgi_process_headers headers (HttpResponse.new date) OK).2).set_body body).headers_)
      (lit "Content-Type") = false := by
    show HttpHeaders.has (HttpResponse.set_header _ (lit "Content-Length") _).headers_ _ = false
    rw [has_set_header]
    show (compare_insensitive (lit "Content-Length") (lit "Content-Type") ||
      HttpHeaders.has (cgi_process_headers headers (HttpResponse.new date) OK).1.headers_
        (lit "Content-Type")) = false
    rw [h1]
    decide
  have h3 := get_of_has_false _ _ h2
  unfold cgi_build_response
  simp only
  have h4 : (((((cgi_process_headers headers (HttpResponse.new date) OK).1.set_status
        (cgi_process_headers headers (HttpResponse.new date) OK).2).set_body body).get_header
        (lit "Content-Type")).isEmpty) = true := by
    show (HttpHeaders.get _ _).isEmpty = true
    rw [h3]
    rfl
  rw [if_pos h4]
  show HttpHeaders.get (add_header _ (normalize_name (lit "Content-Type")) _) _ = _
  have n : normalize_name (lit "Content-Type") = lit "Content-Type" := by decide
  rw [n]
  exact (get_add_header_fresh _ _ _ _ h2 (by decide)).1

theorem body_after (o : Str) (e : Nat) (post : Str) (hd : o.drop e = post) :
    (if e < o.length then substr_from o e else []) = post := by
  split_ifs with hlt
  · exact hd
  · rw [← hd, List.drop_eq_nil_of_le (Nat.le_of_not_lt hlt)]

/-- C27: for every CGI output, `parse_cgi_output` takes as body the octets after
the first CRLF CRLF; when the output holds no CRLF CRLF, the octets after the
first LF LF; and when it holds neither, the whole output, with no headers. The
response built from the output has `Content-Type: text/html` whenever the
header map parsed from the output has no entry named `Content-Type`. -/
theorem C27_cgi_body_and_content_type (date o : Str) :
    (∀ pre post, o = pre ++ lit "\r\n\r\n" ++ post →
      (∀ j < pre.length, ¬ lit "\r\n\r\n" <+: o.drop j) → (parse_cgi_output o).2 = post) ∧
    (¬ lit "\r\n\r\n" <:+: o → ∀ pre post, o = pre ++ lit "\n\n" ++ post →
      (∀ j < pre.length, ¬ lit "\n\n" <+: o.drop j) → (parse_cgi_output o).2 = post) ∧
    (¬ lit "\r\n\r\n" <:+: o → ¬ lit "\n\n" <:+: o → parse_cgi_output o = ([], o)) ∧
    (HttpHeaders.has (parse_cgi_output o).1 (lit "Content-Type") = false →
      (cgi_build_from_output date o).get_header (lit "Content-Type") = lit "text/html") := by
  refine ⟨?_, ?_, ?_, ?_⟩
  · intro pre post ho hfirst
    have hf : find o (lit "\r\n\r\n") = some pre.length := by
      rw [ho] at hfirst ⊢
      exact find_first _ _ _ hfirst
    unfold parse_cgi_output
    simp only [hf]
    apply body_after
    rw [ho]
    simp [lit]
  · intro hno pre post ho hfirst
    have hf1 : find o (lit "\r\n\r\n") = none := find_none_of_absent _ _ hno
    have hf : find o (lit "\n\n") = some pre.length := by
      rw [ho] at hfirst ⊢
      exact find_first _ _ _ hfirst
    unfold parse_cgi_output
    simp only [hf1, hf]
    apply body_after
    rw [ho]
    simp [lit]
  · intro h1 h2
    unfold parse_cgi_output
    simp only [find_none_of_absent _ _ h1, find_none_of_absent _ _ h2]
  · intro hno
    unfold cgi_build_from_output
    exact cgi_default_content_type date _ _ hno

/-- C27, at a CGI output with a content type of its own and at one with no
header block. -/
theorem C27_cgi_body_and_content_type_witness :
    (parse_cgi_output (lit "X-A: 1\r\n\r\nbody\r\n\r\nmore")).2 = lit "body\r\n\r\nmore" ∧
    (parse_cgi_output (lit "X-A: 1\n\nbody")).2 = lit "body" ∧
    parse_cgi_output (lit "plain text") = ([], lit "plain text") ∧
    (cgi_build_from_output (lit "Thu, 01 Jan 1970 00:00:00 GMT")
      (lit "X-A: 1\r\n\r\nbody")).get_header (lit "Content-Type") = lit "text/html" :=
  ⟨(C27_cgi_body_and_content_type [] (lit "X-A: 1\r\n\r\nbody\r\n\r\nmore")).1
      (lit "X-A: 1") (lit "body\r\n\r\nmore") (by decide) (by decide),
    (C27_cgi_body_and_content_type [] (lit "X-A: 1\n\nbody")).2.1 (by decide)
      (lit "X-A: 1") (lit "body") (by decide) (by decide),
    (C27_cgi_body_and_content_type [] (lit "plain text")).2.2.1 (by decide) (by decide),
    (C27_cgi_body_and_content_type (lit "Thu, 01 Jan 1970 00:00:00 GMT")
      (lit "X-A: 1\r\n\r\nbody")).2.2.2 (by decide)⟩

/-! ## Duplicate server names -/

theorem checks_pairs_nil : ChecksPairs (fun m => Except.ok m) [] := by
  intro m hm
  simp only [List.append_nil]
  exact ⟨trivial, hm⟩

theorem checks_pairs_seq (f g : ServerNameMap → Except Str ServerNameMap)
    (ps qs : List (Str × Int)) (hf : ChecksPairs f ps) (hg : ChecksPairs g qs) :
    ChecksPairs
      (fun m => match f m with
        | Except.error e => Except.error e
        | Except.ok m1 => g m1) (ps ++ qs) := by
  intro m hm
  have h1 := hf m hm
  simp only
  cases hfm : f m with
  | error e =>
    rw [hfm] at h1
    simp only at h1 ⊢
    intro hn
    rw [← List.append_assoc] at hn
    exact h1 hn.of_append_left
  | ok m1 =>
    rw [hfm] at h1
    simp only at h1 ⊢
    obtain ⟨hk, hn⟩ := h1
    have h2 := hg m1 (by rw [hk]; exact hn)
    cases hgm : g m1 with
    | error e =>
      rw [hgm] at h2
      simp only at h2 ⊢
      rw [← List.append_assoc, ← hk]
      exact h2
    | ok m2 =>
      rw [hgm] at h2
      simp only at h2 ⊢
      rw [← List.append_assoc, ← hk]
      exact h2

theorem check_listen_entries_pairs (name normalized_name : Str) (listen : List (Str × Int)) :
    ChecksPairs (check_listen_entries name normalized_name listen)
      (listen.map fun l => (normalized_name, l.2)) := by
  induction listen with
  | nil => exact checks_pairs_nil
  | cons l more ih =>
    intro m hm
    unfold check_listen_entries
    simp only
    by_cases hany : (m.any fun e => e.1 == (normalized_name, l.2)) = true
    · simp only [hany, if_true, List.map_cons]
      intro hn
      have hmem : (normalized_name, l.2) ∈ m.map Prod.fst := by
        simp only [List.any_eq_true, beq_iff_eq] at hany
        obtain ⟨e, he, heq⟩ := hany
        exact List.mem_map.2 ⟨e, he, heq⟩
      exact (List.nodup_append.1 hn).2.2 hmem (List.mem_cons_self _ _)
    · have hnot : (normalized_name, l.2) ∉ m.map Prod.fst := by
        intro hmem
        apply hany
        obtain ⟨e, he, heq⟩ := List.mem_map.1 hmem
        simp only [List.any_eq_true, beq_iff_eq]
        exact ⟨e, he, heq⟩
      simp only [hany, Bool.false_eq_true, if_false, List.map_cons]
      have hm2 : ((m ++ [((normalized_name, l.2), name)]).map Prod.fst).Nodup := by
        simp only [List.map_append, List.map_cons, List.map_nil]
        rw [List.nodup_append]
        refine ⟨hm, List.nodup_singleton _, ?_⟩
        intro p hp hq
        rw [List.mem_singleton] at hq
        exact hnot (hq ▸ hp)
      have h2 := ih (m ++ [((normalized_name, l.2), name)]) hm2
      have e : (m ++ [((normalized_name, l.2), name)]).map Prod.fst ++
            (more.map fun l => (normalized_name, l.2)) =
          m.map Prod.fst ++ (normalized_name, l.2) :: (more.map fun l => (normalized_name, l.2)) := by
        simp
      rw [e] at h2
      exact h2

theorem check_server_names_pairs (listen : List (Str × Int)) (names : List Str) :
    ChecksPairs (check_server_names listen names)
      (names.flatMap fun name => listen.map fun l => (normalize_server_name name, l.2)) := by
  induction names with
  | nil => exact checks_pairs_nil
  | cons name more ih =>
    have h := checks_pairs_seq _ _ _ _
      (check_listen_entries_pairs name (normalize_server_name name) listen) ih
    intro m hm
    have h2 := h m hm
    unfold check_server_names
    simp only [List.flatMap_cons]
    exact h2

theorem check_blocks_pairs (blocks : List ServerBlock) :
    ChecksPairs (check_blocks blocks) (blocks.flatMap declared_pairs) := by
  induction blocks with
  | nil => exact checks_pairs_nil
  | cons block more ih =>
    have h := checks_pairs_seq _ _ _ _
      (check_server_names_pairs block.listen block.server_names) ih
    intro m hm
    have h2 := h m hm
    unfold check_blocks
    simp only [List.flatMap_cons]
    exact h2

theorem check_duplicate_server_names_iff (blocks : List ServerBlock) :
    check_duplicate_server_names blocks = Except.ok () ↔
      (blocks.flatMap declared_pairs).Nodup := by
  have h := check_blocks_pairs blocks [] List.nodup_nil
  unfold check_duplicate_server_names
  cases hc : check_blocks blocks [] with
  | error e =>
    rw [hc] at h
    simp only [List.map_nil, List.nil_append] at h
    simp only [h, iff_false]
    intro hx
    cases hx
  | ok m =>
    rw [hc] at h
    simp only [List.map_nil, List.nil_append] at h
    simp only [h.2]

/-- C29 (counterexample): a single server block that lists the names `a.com`
and `A.COM.` on port 8080 is refused, although no other server block is there
to share the pair. -/
theorem C29_single_block_counterexample :
    check_duplicate_server_names [twice_named_server] =
      Except.error (lit "Duplicate server name + port combination: A.COM. on port 8080") := by
  decide

/-- C29 (amended): `check_duplicate_server_names` accepts a list of server
blocks exactly when the (server name, port) pairs declared, one for each
server name and each listen entry of each block, names compared after
case-folding and stripping trailing dots, are all distinct; a pair that one
block declares twice raises the error too. When no block declares a pair twice
by itself, the list is accepted exactly when no two different blocks declare
the same pair. -/
theorem C29_duplicate_pairs (blocks : List ServerBlock) :
    (check_duplicate_server_names blocks = Except.ok () ↔
      (blocks.flatMap declared_pairs).Nodup) ∧
    ((∀ b ∈ blocks, (declared_pairs b).Nodup) →
      (check_duplicate_server_names blocks = Except.ok () ↔
        blocks.Pairwise fun a b => ∀ p ∈ declared_pairs a, p ∉ declared_pairs b)) := by
  refine ⟨check_duplicate_server_names_iff blocks, fun hb => ?_⟩
  rw [check_duplicate_server_names_iff, List.flatMap, List.nodup_flatten, List.pairwise_map]
  constructor
  · intro h
    exact h.2.imp (fun hd p hp hq => hd hp hq)
  · intro h
    refine ⟨?_, h.imp (fun hd p hp hq => hd p hp hq)⟩
    intro l hl
    obtain ⟨b, hbm, rfl⟩ := List.mem_map.1 hl
    exact hb b hbm

/-- C29 (amended), at two server blocks that declare `a.com` on port 8080 with
a different spelling. -/
theorem C29_duplicate_pairs_witness :
    ¬ (check_duplicate_server_names clashing_servers = Except.ok ()) := by
  intro h
  have hp := ((C29_duplicate_pairs clashing_servers).2 (by decide)).1 h
  revert hp
  decide

/-! ## The allowed methods of a location -/

theorem duplicate_method_none_iff (ms : List Method) : duplicate_method ms = none ↔ ms.Nodup := by
  induction ms with
  | nil => simp [duplicate_method]
  | cons m more ih =>
    unfold duplicate_method
    rw [List.nodup_cons]
    by_cases hmem : m ∈ more
    · have hany : (more.any fun m2 => m == m2) = true := by
        simp only [List.any_eq_true, beq_iff_eq]
        exact ⟨m, hmem, rfl⟩
      simp only [hany, if_true, hmem, not_true_eq_false, false_and]
      exact ⟨fun h => (by cases h), fun h => h.elim⟩
    · have hany : (more.any fun m2 => m == m2) = false := by
        rw [← Bool.not_eq_true]
        simp only [List.any_eq_true, beq_iff_eq, not_exists, not_and]
        intro x hx hmx
        exact hmem (hmx ▸ hx)
      simp only [hany, Bool.false_eq_true, if_false, hmem, not_false_eq_true, true_and]
      exact ih

theorem validate_methods_iff (l : LocationBlock) :
    l.validate_methods = Except.ok () ↔ (l.allowed_methods ≠ [] ∧ l.allowed_methods.Nodup) := by
  unfold LocationBlock.validate_methods
  cases hm : l.allowed_methods with
  | nil =>
    simp only [List.isEmpty_nil, if_true, ne_eq, not_true_eq_false, false_and, iff_false]
    intro h
    cases h
  | cons m more =>
    simp only [List.isEmpty_cons, Bool.false_eq_true, if_false, ne_eq, not_false_eq_true,
      true_and, reduceCtorEq]
    rw [← duplicate_method_none_iff]
    cases hd : duplicate_method (m :: more) with
    | none => simp
    | some d => simp

/-- C30: `LocationBlock::validate_methods`, which the parser of a configuration
file runs on every location, accepts a location exactly when its list of
allowed methods is non-empty and holds no method twice. The built-in default
configuration, which `load_config` returns without any check when no file name
is given, has the lists GET, GET and GET, GET, POST: the constructor of
`LocationBlock` has put GET in the list before `load_default_config` adds it
again, and `validate_methods` refuses both locations. -/
theorem C30_allowed_methods :
    (∀ l : LocationBlock, l.validate_methods = Except.ok () ↔
      (l.allowed_methods ≠ [] ∧ l.allowed_methods.Nodup)) ∧
    load_default_config.map (fun sb => sb.locations.map fun l => l.allowed_methods) =
      [[[Method.GET, Method.GET]], [[Method.GET, Method.GET, Method.POST]]] ∧
    (∀ sb ∈ load_default_config, ∀ l ∈ sb.locations,
      ¬ l.allowed_methods.Nodup ∧
      l.validate_methods = Except.error (lit "Duplicate HTTP method in location: GET")) := by
  refine ⟨validate_methods_iff, by decide, by decide⟩

/-- C30, at a location that allows GET, POST and DELETE. -/
theorem C30_allowed_methods_witness :
    (({ path := lit "/", allowed_methods := [Method.GET, Method.POST, Method.DELETE] } :
      LocationBlock).allowed_methods ≠ [] ∧
    ({ path := lit "/", allowed_methods := [Method.GET, Method.POST, Method.DELETE] } :
      LocationBlock).allowed_methods.Nodup) :=
  (C30_allowed_methods.1
    { path := lit "/", allowed_methods := [Method.GET, Method.POST, Method.DELETE] }).1
    (by decide)

/-! ## The server block of a request -/

theorem port_of_descriptor_none (s : Server) (fd_ : Int)
    (hfd : ∀ socket ∈ s.listen_sockets_, socket.2 ≠ fd_) : s.port_of_descriptor fd_ = none := by
  unfold Server.port_of_descriptor
  have : s.listen_sockets_.find? (fun socket => socket.2 == fd_) = none := by
    rw [List.find?_eq_none]
    intro socket hs
    simp only [beq_iff_eq]
    exact hfd socket hs
  rw [this]
  rfl

theorem find_named_block_some (blocks : List ServerBlock) (host : Str) (port : Int)
    (block : ServerBlock) (h : find_named_block blocks host port = some block) :
    block ∈ blocks ∧ (∃ listen ∈ block.listen, listen.2 = port) ∧
      ∃ name ∈ block.server_names, normalize_server_name name = normalize_server_name host := by
  induction blocks with
  | nil => cases h
  | cons b more ih =>
    unfold find_named_block at h
    split_ifs at h with hb
    · simp only [Option.some.injEq] at h
      subst h
      simp only [List.any_eq_true, Bool.and_eq_true, beq_iff_eq,
        ServerBlock.matches_server_name] at hb
      obtain ⟨listen, hl, hp, name, hn, hname⟩ := hb
      exact ⟨List.mem_cons_self _ _, ⟨listen, hl, hp⟩, ⟨name, hn, hname⟩⟩
    · obtain ⟨h1, h2, h3⟩ := ih h
      exact ⟨List.mem_cons_of_mem _ h1, h2, h3⟩

theorem find_named_block_none (blocks : List ServerBlock) (host : Str) (port : Int)
    (h : find_named_block blocks host port = none) (block : ServerBlock) (hb : block ∈ blocks)
    (hl : ∃ listen ∈ block.listen, listen.2 = port) :
    ∀ name ∈ block.server_names, normalize_server_name name ≠ normalize_server_name host := by
  induction blocks with
  | nil => cases hb
  | cons b more ih =>
    unfold find_named_block at h
    split_ifs at h with hany
    rcases List.mem_cons.1 hb with rfl | hmem
    · intro name hn heq
      apply hany
      obtain ⟨listen, hl1, hp⟩ := hl
      simp only [List.any_eq_true, Bool.and_eq_true, beq_iff_eq,
        ServerBlock.matches_server_name]
      exact ⟨listen, hl1, hp, name, hn, heq⟩
    · exact ih h hmem

/-- C24: the descriptor of a connection differs from the descriptor of every
listening socket. When the `Host` header carries no port,
`select_server_block_for_request` looks for a listening socket with the
descriptor of the connection, finds none, and leaves the connection as it is:
the server block is not selected by name. When the header carries a port, the
block is looked up with that port, not with the port on which the connection
was accepted: the block becomes the first server block with a listen entry for
the port of the header whose server names contain the host name (case-folded,
trailing dots stripped), else the default block of that port, and stays what
it was when there is neither. -/
theorem C24_server_block_selection (s : Server) (w : World) (fd_ : Int) (c : Connection)
    (hfd : ∀ socket ∈ s.listen_sockets_, socket.2 ≠ fd_) :
    (find_char (c.current_request_.get_header (lit "Host")) ':' = none →
      c.select_server_block_for_request (s.world fd_ w) = c) ∧
    (∀ k, find_char (c.current_request_.get_header (lit "Host")) ':' = some k →
      substr (c.current_request_.get_header (lit "Host")) 0 k ≠ [] →
      atoi (substr_from (c.current_request_.get_header (lit "Host")) (k + 1)) ≠ -1 →
      (c.select_server_block_for_request (s.world fd_ w)).server_block_ =
        match s.get_server_block (substr (c.current_request_.get_header (lit "Host")) 0 k)
            (atoi (substr_from (c.current_request_.get_header (lit "Host")) (k + 1))) with
        | some block => some block
        | none => c.server_block_) ∧
    (∀ host port block, find_named_block s.server_blocks_ host port = some block →
      s.get_server_block host port = some block ∧ block ∈ s.server_blocks_ ∧
      (∃ listen ∈ block.listen, listen.2 = port) ∧
      ∃ name ∈ block.server_names, normalize_server_name name = normalize_server_name host) ∧
    (∀ host port, find_named_block s.server_blocks_ host port = none →
      s.get_server_block host port =
        ((s.default_blocks_.find? fun e => e.1 == port).map fun e => e.2) ∧
      ∀ block ∈ s.server_blocks_, (∃ listen ∈ block.listen, listen.2 = port) →
        ∀ name ∈ block.server_names,
          normalize_server_name name ≠ normalize_server_name host) := by
  have hport : (s.world fd_ w).listen_port_of_fd = none := port_of_descriptor_none s fd_ hfd
  have hget : (s.world fd_ w).get_server_block = s.get_server_block := rfl
  refine ⟨?_, ?_, ?_, ?_⟩
  · intro hnone
    unfold Connection.select_server_block_for_request
    simp only [hnone, hport]
    split_ifs
    · rfl
    · rename_i h1 h2
      simp at h2
    · rfl
  · intro k hk hname hatoi
    unfold Connection.select_server_block_for_request
    simp only [hk, hget]
    have hne : (substr (c.current_request_.get_header (lit "Host")) 0 k).isEmpty = false := by
      cases hs : substr (c.current_request_.get_header (lit "Host")) 0 k with
      | nil => exact absurd hs hname
      | cons a b => rfl
    have hhost : (c.current_request_.get_header (lit "Host")).isEmpty = false := by
      cases hs : c.current_request_.get_header (lit "Host") with
      | nil => rw [hs] at hk; cases hk
      | cons a b => rfl
    have hp : (atoi (substr_from (c.current_request_.get_header (lit "Host")) (k + 1)) != -1) =
        true := by
      rw [bne_iff_ne]; exact hatoi
    simp only [hhost, Bool.false_and, Bool.false_eq_true, if_false, hne, Bool.not_false, hp,
      Bool.and_self, if_true]
    cases s.get_server_block (substr (c.current_request_.get_header (lit "Host")) 0 k)
      (atoi (substr_from (c.current_request_.get_header (lit "Host")) (k + 1))) <;> rfl
  · intro host port block h
    refine ⟨?_, find_named_block_some _ _ _ _ h⟩
    unfold Server.get_server_block
    rw [h]
  · intro host port h
    refine ⟨?_, fun block hb hl => find_named_block_none _ _ _ h block hb hl⟩
    unfold Server.get_server_block
    rw [h]

/-- C24, at a connection accepted on port 8080 of a server with the virtual
hosts `a.com`, the default of the port, and `b.com`: a request with
`Host: b.com` leaves the connection with the block of `a.com`, and a request
with `Host: b.com:8080` selects the block of `b.com`. -/
theorem C24_server_block_selection_witness :
    two_host_connection.server_block_ = some host_a ∧
    (HttpRequest.append_data {} host_b_request).state.get_header (lit "Host") = lit "b.com" ∧
    (Connection.select_server_block_for_request (two_host_server.world 4 empty_world)
      { two_host_connection with
        current_request_ := (HttpRequest.append_data {} host_b_request).state }).server_block_ =
      some host_a ∧
    (Connection.select_server_block_for_request (two_host_server.world 4 empty_world)
      { two_host_connection with
        current_request_ :=
          (HttpRequest.append_data {} host_b_port_request).state }).server_block_ =
      some host_b := by
  refine ⟨by decide, by decide, ?_, ?_⟩
  · rw [(C24_server_block_selection two_host_server empty_world 4
      { two_host_connection with
        current_request_ := (HttpRequest.append_data {} host_b_request).state }
      (by decide)).1 (by decide)]
    decide
  · rw [(C24_server_block_selection two_host_server empty_world 4
      { two_host_connection with
        current_request_ := (HttpRequest.append_data {} host_b_port_request).state }
      (by decide)).2.1 5 (by decide) (by decide) (by decide)]
    decide

/-! ## The CGI environment -/

theorem hm_insert_perm (k v : Str) (m : HeaderMap) : (hm_insert k v m).Perm ((k, v) :: m) := by
  induction m with
  | nil => exact List.Perm.refl _
  | cons e rest ih =>
    obtain ⟨k2, v2⟩ := e
    unfold hm_insert
    split_ifs
    · exact List.Perm.refl _
    · exact (List.Perm.cons _ ih).trans (List.Perm.swap _ _ _)

theorem env_set_keys_of_any (m : CgiEnvironmentMap) (k v : Str) :
    (m.map fun e => if e.1 == k then (e.1, v) else e).map Prod.fst = m.map Prod.fst := by
  induction m with
  | nil => rfl
  | cons e rest ih =>
    simp only [List.map_cons, ih]
    split_ifs <;> rfl

theorem mem_keys_env_set (m : CgiEnvironmentMap) (k v x : Str)
    (h : x ∈ (env_set m k v).map Prod.fst) : x = k ∨ x ∈ m.map Prod.fst := by
  unfold env_set at h
  split_ifs at h
  · rw [env_set_keys_of_any] at h
    exact Or.inr h
  · have hp := ((hm_insert_perm k v m).map Prod.fst).mem_iff.1 h
    simp only [List.map_cons, List.mem_cons] at hp
    exact hp

theorem mem_keys_env_set_self (m : CgiEnvironmentMap) (k v : Str) :
    k ∈ (env_set m k v).map Prod.fst := by
  unfold env_set
  split_ifs with hany
  · rw [env_set_keys_of_any]
    simp only [List.any_eq_true, beq_iff_eq] at hany
    obtain ⟨e, he, hk⟩ := hany
    exact List.mem_map.2 ⟨e, he, hk⟩
  · exact ((hm_insert_perm k v m).map Prod.fst).mem_iff.2 (by simp)

theorem env_set_nodup (m : CgiEnvironmentMap) (k v : Str) (h : (m.map Prod.fst).Nodup) :
    ((env_set m k v).map Prod.fst).Nodup := by
  unfold env_set
  split_ifs with hany
  · rw [env_set_keys_of_any]
    exact h
  · rw [((hm_insert_perm k v m).map Prod.fst).nodup_iff]
    simp only [List.map_cons, List.nodup_cons]
    refine ⟨?_, h⟩
    intro hmem
    apply hany
    obtain ⟨e, he, hk⟩ := List.mem_map.1 hmem
    simp only [List.any_eq_true, beq_iff_eq]
    exact ⟨e, he, hk⟩

theorem env_find_none_of_not_mem (m : CgiEnvironmentMap) (k : Str)
    (h : k ∉ m.map Prod.fst) : env_find m k = none := by
  unfold env_find
  have : m.find? (fun e => e.1 == k) = none := by
    rw [List.find?_eq_none]
    intro e he
    simp only [beq_iff_eq]
    intro hk
    exact h (List.mem_map.2 ⟨e, he, hk⟩)
  rw [this]
  rfl

theorem env_find_mem (m : CgiEnvironmentMap) (k v : Str) (h : env_find m k = some v) :
    (k, v) ∈ m := by
  unfold env_find at h
  cases hf : m.find? (fun e => e.1 == k) with
  | none => rw [hf] at h; cases h
  | some e =>
    rw [hf] at h
    simp only [Option.map_some', Option.some.injEq] at h
    have h1 := List.find?_some hf
    have h2 := List.mem_of_find?_eq_some hf
    simp only [beq_iff_eq] at h1
    obtain ⟨a, b⟩ := e
    simp only at h1 h
    subst h1
    subst h
    exact h2

theorem env_find_hm_insert_other (m : CgiEnvironmentMap) (k v x : Str) (hx : x ≠ k) :
    env_find (hm_insert k v m) x = env_find m x := by
  have hk : (k == x) = false := by rw [beq_eq_false_iff_ne]; exact fun h => hx h.symm
  induction m with
  | nil => simp [hm_insert, env_find, List.find?, hk]
  | cons e rest ih =>
    obtain ⟨k2, v2⟩ := e
    unfold hm_insert
    split_ifs
    · simp only [env_find, List.find?, hk]
    · unfold env_find at ih ⊢
      simp only [List.find?]
      cases (k2 == x)
      · exact ih
      · rfl

theorem env_find_hm_insert_self (m : CgiEnvironmentMap) (k v : Str)
    (hno : k ∉ m.map Prod.fst) : env_find (hm_insert k v m) k = some v := by
  induction m with
  | nil => simp [hm_insert, env_find, List.find?]
  | cons e rest ih =>
    obtain ⟨k2, v2⟩ := e
    have hk2 : (k2 == k) = false := by
      rw [beq_eq_false_iff_ne]
      intro h
      exact hno (by simp [h])
    have hrest : k ∉ rest.map Prod.fst := fun h => hno (by simp [h])
    unfold hm_insert
    split_ifs
    · simp [env_find, List.find?]
    · have ih2 := ih hrest
      unfold env_find at ih2 ⊢
      simp only [List.find?, hk2]
      exact ih2

theorem env_find_map_self (m : CgiEnvironmentMap) (k v : Str)
    (hany : (m.any fun e => e.1 == k) = true) :
    env_find (m.map fun e => if e.1 == k then (e.1, v) else e) k = some v := by
  induction m with
  | nil => cases hany
  | cons e rest ih =>
    unfold env_find at ih ⊢
    by_cases he : (e.1 == k) = true
    · simp only [List.map_cons, he, if_true, List.find?]
      rfl
    · have he2 : (e.1 == k) = false := by simpa using he
      have hrest : (rest.any fun e => e.1 == k) = true := by
        simpa [List.any_cons, he2] using hany
      simp only [List.map_cons, he2, Bool.false_eq_true, if_false, List.find?]
      exact ih hrest

theorem env_find_map_other (m : CgiEnvironmentMap) (k v x : Str) (hx : x ≠ k) :
    env_find (m.map fun e => if e.1 == k then (e.1, v) else e) x = env_find m x := by
  induction m with
  | nil => rfl
  | cons e rest ih =>
    unfold env_find at ih ⊢
    by_cases he : (e.1 == k) = true
    · have hex : (e.1 == x) = false := by
        rw [beq_eq_false_iff_ne]
        intro h
        simp only [beq_iff_eq] at he
        exact hx (h.symm.trans he)
      simp only [List.map_cons, he, if_true, List.find?, hex]
      exact ih
    · have he2 : (e.1 == k) = false := by simpa using he
      simp only [List.map_cons, he2, Bool.false_eq_true, if_false, List.find?]
      cases (e.1 == x)
      · exact ih
      · rfl

theorem env_find_env_set_self (m : CgiEnvironmentMap) (k v : Str) :
    env_find (env_set m k v) k = some v := by
  unfold env_set
  split_ifs with hany
  · exact env_find_map_self m k v hany
  · apply env_find_hm_insert_self
    intro hmem
    apply hany
    obtain ⟨e, he, hk⟩ := List.mem_map.1 hmem
    simp only [List.any_eq_true, beq_iff_eq]
    exact ⟨e, he, hk⟩

theorem env_find_env_set_other (m : CgiEnvironmentMap) (k v x : Str) (hx : x ≠ k) :
    env_find (env_set m k v) x = env_find m x := by
  unfold env_set
  split_ifs
  · exact env_find_map_other m k v x hx
  · exact env_find_hm_insert_other m k v x hx

theorem add_http_headers_nodup (hs : HeaderMap) (m : CgiEnvironmentMap)
    (h : (m.map Prod.fst).Nodup) : ((add_http_headers hs m).map Prod.fst).Nodup := by
  induction hs generalizing m with
  | nil => exact h
  | cons e rest ih =>
    obtain ⟨n, v⟩ := e
    unfold add_http_headers
    simp only
    split
    · exact ih _ (env_set_nodup _ _ _ h)
    · exact ih _ (env_set_nodup _ _ _ h)

theorem mem_keys_add_http_headers (hs : HeaderMap) (m : CgiEnvironmentMap) (x : Str)
    (h : x ∈ (add_http_headers hs m).map Prod.fst) :
    x ∈ m.map Prod.fst ∨ ∃ kv ∈ hs, x = to_cgi_env_name kv.1 := by
  induction hs generalizing m with
  | nil => exact Or.inl h
  | cons e rest ih =>
    obtain ⟨n, v⟩ := e
    unfold add_http_headers at h
    simp only at h
    have step : ∀ value, x ∈ (add_http_headers rest (env_set m (to_cgi_env_name n) value)).map
        Prod.fst → x ∈ m.map Prod.fst ∨ ∃ kv ∈ (n, v) :: rest, x = to_cgi_env_name kv.1 := by
      intro value hx
      rcases ih _ hx with h1 | ⟨kv, hkv, hk⟩
      · rcases mem_keys_env_set _ _ _ _ h1 with h2 | h2
        · exact Or.inr ⟨(n, v), List.mem_cons_self _ _, h2⟩
        · exact Or.inl h2
      · exact Or.inr ⟨kv, List.mem_cons_of_mem _ hkv, hk⟩
    split at h
    · exact step _ h
    · exact step _ h

theorem add_http_headers_find (hs : HeaderMap) (m : CgiEnvironmentMap) (x : Str) :
    env_find (add_http_headers hs m) x =
      (header_values_for hs x).foldl append_value (env_find m x) := by
  induction hs generalizing m with
  | nil => rfl
  | cons e rest ih =>
    obtain ⟨n, v⟩ := e
    unfold add_http_headers
    simp only
    by_cases hx : to_cgi_env_name n = x
    · have hv : header_values_for ((n, v) :: rest) x = v :: header_values_for rest x := by
        simp [header_values_for, List.filter, hx]
      rw [hv, List.foldl_cons]
      subst hx
      cases hf : env_find m (to_cgi_env_name n) with
      | none =>
        simp only
        rw [ih, env_find_env_set_self]
        rfl
      | some old =>
        simp only
        rw [ih, env_find_env_set_self]
        rfl
    · have hb : (to_cgi_env_name n == x) = false := by rw [beq_eq_false_iff_ne]; exact hx
      have hv : header_values_for ((n, v) :: rest) x = header_values_for rest x := by
        simp [header_values_for, List.filter, hb]
      rw [hv]
      have hx2 : x ≠ to_cgi_env_name n := fun h => hx h.symm
      split
      · rw [ih, env_find_env_set_other _ _ _ _ hx2]
      · rw [ih, env_find_env_set_other _ _ _ _ hx2]

theorem intercalate_cons_flatten (sep a : Str) (vs : List Str) :
    sep.intercalate (a :: vs) = a ++ (vs.map fun v => sep ++ v).flatten := by
  induction vs generalizing a with
  | nil => simp [List.intercalate]
  | cons b more ih =>
    have h := ih b
    simp only [List.intercalate, List.intersperse, List.flatten_cons, List.map_cons] at h ⊢
    rw [h]
    simp

theorem foldl_append_value (a : Str) (vs : List Str) :
    vs.foldl append_value (some a) = some ((lit ", ").intercalate (a :: vs)) := by
  rw [intercalate_cons_flatten]
  induction vs generalizing a with
  | nil => simp
  | cons b more ih =>
    rw [List.foldl_cons]
    show List.foldl append_value (some (a ++ (lit ", " ++ b))) more = _
    rw [ih]
    simp

theorem foldl_append_value_none (vs : List Str) (hne : vs ≠ []) :
    vs.foldl append_value none = some ((lit ", ").intercalate vs) := by
  cases vs with
  | nil => exact absurd rfl hne
  | cons a more => exact foldl_append_value a more

theorem infix_intercalate (sep v : Str) (vs : List Str) (h : v ∈ vs) :
    v <:+: sep.intercalate vs := by
  induction vs with
  | nil => cases h
  | cons a more ih =>
    rw [intercalate_cons_flatten]
    rcases List.mem_cons.1 h with rfl | hm
    · exact ⟨[], (more.map fun x => sep ++ x).flatten, by simp⟩
    · cases more with
      | nil => cases hm
      | cons b rest =>
        have h2 := ih hm
        rw [intercalate_cons_flatten] at h2
        obtain ⟨s, t, hst⟩ := h2
        refine ⟨a ++ sep ++ s, t, ?_⟩
        simp only [List.map_cons, List.flatten_cons, List.append_assoc] at hst ⊢
        rw [hst]

theorem to_cgi_env_name_head (n : Str) : (to_cgi_env_name n).head? = some 'H' := rfl

theorem toupper_ne_equals (c : Char) (h : c ≠ '=') : toupper c ≠ '=' := by
  intro he
  have h1 := toupper_toNat c
  rw [he] at h1
  have h2 : ('=' : Char).toNat = 61 := rfl
  rw [h2] at h1
  apply h
  apply char_eq_of_toNat
  rw [h2]
  split_ifs at h1 <;> omega

theorem to_cgi_env_name_no_equals (n : Str) (h : '=' ∉ n) : '=' ∉ to_cgi_env_name n := by
  unfold to_cgi_env_name
  intro hmem
  rcases List.mem_append.1 hmem with h1 | h1
  · revert h1
    decide
  · obtain ⟨c, hc, he⟩ := List.mem_map.1 h1
    split_ifs at he
    · cases he
    · exact toupper_ne_equals c (fun hce => h (hce ▸ hc)) he

theorem entry_name_render (k v : Str) (h : '=' ∉ k) : entry_name (k ++ lit "=" ++ v) = k := by
  unfold entry_name
  rw [List.append_assoc]
  have hk : ∀ c ∈ k, (fun c => c != '=') c = true := by
    intro c hc
    simp only [bne_iff_ne, ne_eq]
    intro he
    exact h (he ▸ hc)
  exact takeWhile_append_stop k (lit "=" ++ v) hk (Or.inr ⟨'=', v, rfl, rfl⟩)

theorem keys_property_env_set (P : Str → Prop) (m : CgiEnvironmentMap) (k v : Str)
    (hm : ∀ x ∈ m.map Prod.fst, P x) (hk : P k) : ∀ x ∈ (env_set m k v).map Prod.fst, P x := by
  intro x hx
  rcases mem_keys_env_set m k v x hx with rfl | h
  · exact hk
  · exact hm x h

/-! ### The header names that the parser stores -/

theorem names_frame_refl (r : HttpRequest) : NamesFrame r r := fun h => h

theorem names_frame_trans {a b c : HttpRequest} (h1 : NamesFrame a b) (h2 : NamesFrame b c) :
    NamesFrame a c := fun h => h2 (h1 h)

theorem add_header_names (h : HeaderMap) (n v : Str) (hn : ∀ c ∈ n, is_token_char c = true)
    (hh : TokenNames h) : TokenNames (add_header h n v) := by
  intro kv hm
  rcases mem_add_header _ _ _ _ hm with h1 | h1 | h1
  · rw [h1]; exact hn
  · exact hh kv h1
  · rw [h1.1]; exact hn

theorem store_header_names (r : HttpRequest) (n v : Str)
    (hn : ∀ c ∈ n, is_token_char c = true) : NamesFrame r (r.store_header n v).state := by
  unfold HttpRequest.store_header
  split
  · exact names_frame_refl r
  · split
    · exact fun h => add_header_names _ _ _ hn h
    · exact fun h => add_header_names _ _ _ hn h

theorem store_pending_header_names (r : HttpRequest) (n v : Str)
    (hn : ∀ c ∈ n, is_token_char c = true) :
    NamesFrame r (r.store_pending_header n v).state := by
  unfold HttpRequest.store_pending_header
  split
  · exact store_header_names r n v hn
  · exact names_frame_refl r

theorem parse_header_line_name (line n v : Str)
    (h : parse_header_line line = Except.ok (n, v)) : ∀ c ∈ n, is_token_char c = true := by
  unfold parse_header_line at h
  split at h
  · cases h
  · split at h
    · cases h
    · simp only at h
      split at h
      · cases h
      · rename_i hname
        split at h
        · cases h
        · simp only [Except.ok.injEq, Prod.mk.injEq] at h
          rw [← h.1]
          unfold validate_header_name at hname
          split at hname
          · cases hname
          · rename_i hall
            split at hname
            · rename_i hall2
              exact List.all_eq_true.1 hall2
            · cases hname

theorem parse_header_lines_names (lines : List Str) (r : HttpRequest) (n v : Str)
    (hn : ∀ c ∈ n, is_token_char c = true) :
    NamesFrame r (HttpRequest.parse_header_lines lines r n v).state := by
  induction lines generalizing r n v with
  | nil => exact store_pending_header_names r n v hn
  | cons raw more ih =>
    simp only [HttpRequest.parse_header_lines]
    split
    · exact ih r n v hn
    · split
      · exact names_frame_refl r
      · have hs := store_pending_header_names r n v hn
        cases hsp : r.store_pending_header n v with
        | throw e r1 => rw [hsp] at hs; exact hs
        | ok r1 =>
          rw [hsp] at hs
          simp only
          cases hpl : parse_header_line (remove_carriage_return raw) with
          | error e => exact hs
          | ok nv =>
            obtain ⟨n2, v2⟩ := nv
            exact names_frame_trans hs (ih r1 n2 v2 (parse_header_line_name _ _ _ hpl))

theorem parse_headers_names (r : HttpRequest) (content : Str) :
    NamesFrame r (r.parse_headers content).state :=
  parse_header_lines_names _ r [] [] (fun c hc => by cases hc)

theorem andThen_names {r : HttpRequest} {o : Outcome HttpRequest}
    {f : HttpRequest → Outcome HttpRequest} (h1 : NamesFrame r o.state)
    (h2 : ∀ x, NamesFrame x (f x).state) : NamesFrame r (o.andThen f).state := by
  cases o with
  | ok s => exact names_frame_trans h1 (h2 s)
  | throw e s => exact h1

theorem process_final_chunk_names (r : HttpRequest) :
    NamesFrame r r.process_final_chunk.state := by
  unfold HttpRequest.process_final_chunk
  simp only
  split
  · apply andThen_names
    · split
      · exact parse_headers_names r _
      · exact names_frame_refl r
    · intro x; exact fun h => h
  · split
    · exact fun h => h
    · split
      · exact fun h => h
      · exact names_frame_refl r

theorem take_chunk_data_names (next : HttpRequest → Outcome HttpRequest)
    (hnext : ∀ x, NamesFrame x (next x).state) (r : HttpRequest) :
    NamesFrame r (HttpRequest.take_chunk_data next r).state := by
  unfold HttpRequest.take_chunk_data
  split
  · exact names_frame_refl r
  · exact fun h => hnext _ h

theorem chunk_loop_names (fuel : Nat) (r : HttpRequest) :
    NamesFrame r (HttpRequest.chunk_loop fuel r).state := by
  induction fuel generalizing r with
  | zero => exact names_frame_refl r
  | succ fuel ih =>
    simp only [HttpRequest.chunk_loop]
    split
    · exact names_frame_refl r
    · split
      · split
        · exact names_frame_refl r
        · split
          · exact fun h => h
          · split
            · exact fun h => process_final_chunk_names _ h
            · exact fun h => take_chunk_data_names _ ih _ h
      · exact take_chunk_data_names _ ih _

theorem parse_body_names (r : HttpRequest) (data : Str) :
    NamesFrame r (r.parse_body data).state := by
  unfold HttpRequest.parse_body
  split
  · unfold HttpRequest.parse_chunked_body
    exact fun h => chunk_loop_names _ _ h
  · unfold HttpRequest.parse_normal_body
    simp only
    split
    · exact names_frame_refl r
    · split
      · exact fun h => h
      · split
        · exact names_frame_refl r
        · split
          · exact names_frame_refl r
          · split
            · exact fun h => h
            · exact fun h => h

theorem process_buffered_body_names (r : HttpRequest) :
    NamesFrame r r.process_buffered_body.state := by
  unfold HttpRequest.process_buffered_body
  split
  · apply andThen_names (parse_body_names r _)
    intro x
    split
    · exact fun h => h
    · exact names_frame_refl x
  · exact names_frame_refl r

theorem check_body_framing_names (r : HttpRequest) :
    NamesFrame r r.check_body_framing.state := by
  unfold HttpRequest.check_body_framing
  simp only
  split
  · exact names_frame_refl r
  · split
    · exact fun h => h
    · split
      · exact names_frame_refl r
      · split
        · exact fun h => h
        · exact process_buffered_body_names r

theorem parse_body_phase_names (r : HttpRequest) : NamesFrame r r.parse_body_phase.state := by
  unfold HttpRequest.parse_body_phase
  split
  · split
    · exact fun h => h
    · split
      · exact check_body_framing_names r
      · split
        · exact fun h => h
        · exact process_buffered_body_names r
  · exact names_frame_refl r

theorem validate_headers_names (r : HttpRequest) : NamesFrame r r.validate_headers.state := by
  unfold HttpRequest.validate_headers
  simp only
  split
  · exact names_frame_refl r
  · split
    · exact names_frame_refl r
    · split
      · exact names_frame_refl r
      · split
        · split
          · exact fun h => h
          · exact fun h => h
        · exact names_frame_refl r

theorem process_target_names (r : HttpRequest) (u : Str) :
    NamesFrame r (r.process_target u).state := by
  unfold HttpRequest.process_target
  split
  · exact names_frame_refl r
  · split
    · exact names_frame_refl r
    · simp only
      split
      · exact fun h => add_header_names r.headers_ (lit "Host") _ (by decide) h
      · exact fun h => h

theorem parse_request_line_names (r : HttpRequest) (line : Str) :
    NamesFrame r (r.parse_request_line line).state := by
  unfold HttpRequest.parse_request_line
  split
  · exact names_frame_refl r
  · apply andThen_names
    · unfold HttpRequest.validate_method
      simp only
      split
      · exact fun h => h
      · exact fun h => h
    · intro x
      apply andThen_names
      · unfold HttpRequest.validate_http_version
        split
        · exact names_frame_refl x
        · exact fun h => h
      · intro y
        exact process_target_names y _

theorem parse_names (r : HttpRequest) (raw : Str) : NamesFrame r (r.parse raw).state := by
  unfold HttpRequest.parse
  split
  · exact names_frame_refl r
  · split
    · exact names_frame_refl r
    · split
      · split
        · exact names_frame_refl r
        · simp only
          split
          · exact names_frame_refl r
          · apply andThen_names
            · apply andThen_names
              · apply andThen_names
                · exact parse_request_line_names r _
                · intro x; exact parse_headers_names x _
              · intro x; exact validate_headers_names x
            · intro x
              exact fun h => parse_body_phase_names _ h
      · exact parse_body_phase_names r

theorem append_data_names (r : HttpRequest) (data : Str) :
    NamesFrame r (r.append_data data).state := by
  unfold HttpRequest.append_data
  simp only
  split
  · exact fun h => h
  · exact fun h => parse_names _ _ h

theorem feed_names (chunks : List Str) (r : HttpRequest) :
    NamesFrame r (feed r chunks).state := by
  induction chunks generalizing r with
  | nil => exact names_frame_refl r
  | cons d ds ih =>
    simp only [feed]
    have h1 := append_data_names r d
    cases ha : r.append_data d with
    | ok r1 =>
      rw [ha] at h1
      exact names_frame_trans h1 (ih r1)
    | throw e r1 =>
      rw [ha] at h1
      exact h1

theorem token_char_not_equals (c : Char) (h : is_token_char c = true) : c ≠ '=' := by
  intro he
  rw [he] at h
  revert h
  decide

theorem keys_property_cond (P : Str → Prop) (b : Bool) (m : CgiEnvironmentMap) (k v : Str)
    (hm : ∀ x ∈ m.map Prod.fst, P x) (hk : P k) :
    ∀ x ∈ (if b = true then env_set m k v else m).map Prod.fst, P x := by
  cases b
  · exact hm
  · exact keys_property_env_set P m k v hm hk

theorem fixed_variables_keys (request : HttpRequest) (script_path : Str) (server_port : Int)
    (client_ip client_host : Str) :
    ∀ x ∈ (add_client_info (add_script_info request script_path
        (add_server_info request (add_request_metadata request []) server_port))
        client_ip client_host).map Prod.fst,
      x.head? ≠ some 'H' ∧ '=' ∉ x := by
  have h0 : ∀ x ∈ ([] : CgiEnvironmentMap).map Prod.fst, x.head? ≠ some 'H' ∧ '=' ∉ x :=
    fun x hx => by cases hx
  have h1 : ∀ x ∈ (add_request_metadata request []).map Prod.fst,
      x.head? ≠ some 'H' ∧ '=' ∉ x := by
    unfold add_request_metadata
    simp only
    exact keys_property_cond _ _ _ _ _ (keys_property_cond _ _ _ _ _
      (keys_property_env_set _ _ _ _ (keys_property_env_set _ _ _ _
        (keys_property_env_set _ _ _ _ h0 (by decide)) (by decide)) (by decide))
      (by decide)) (by decide)
  have h2 : ∀ x ∈ (add_server_info request (add_request_metadata request [])
      server_port).map Prod.fst, x.head? ≠ some 'H' ∧ '=' ∉ x := by
    unfold add_server_info
    exact keys_property_env_set _ _ _ _ (keys_property_env_set _ _ _ _
      (keys_property_env_set _ _ _ _ (keys_property_env_set _ _ _ _ h1 (by decide))
        (by decide)) (by decide)) (by decide)
  have h3 : ∀ x ∈ (add_script_info request script_path (add_server_info request
      (add_request_metadata request []) server_port)).map Prod.fst,
      x.head? ≠ some 'H' ∧ '=' ∉ x := by
    unfold add_script_info
    exact keys_property_env_set _ _ _ _ (keys_property_env_set _ _ _ _
      (keys_property_env_set _ _ _ _ (keys_property_env_set _ _ _ _ h2 (by decide))
        (by decide)) (by decide)) (by decide)
  unfold add_client_info
  exact keys_property_env_set _ _ _ _ (keys_property_env_set _ _ _ _ h3 (by decide))
    (by decide)

theorem fixed_variables_nodup (request : HttpRequest) (script_path : Str) (server_port : Int)
    (client_ip client_host : Str) :
    ((add_client_info (add_script_info request script_path
        (add_server_info request (add_request_metadata request []) server_port))
        client_ip client_host).map Prod.fst).Nodup := by
  have h1 : ((add_request_metadata request []).map Prod.fst).Nodup := by
    unfold add_request_metadata
    simp only
    split_ifs <;>
      repeat (first | exact List.nodup_nil | apply env_set_nodup)
  have h2 : ((add_server_info request (add_request_metadata request [])
      server_port).map Prod.fst).Nodup := by
    unfold add_server_info
    exact env_set_nodup _ _ _ (env_set_nodup _ _ _ (env_set_nodup _ _ _
      (env_set_nodup _ _ _ h1)))
  have h3 : ((add_script_info request script_path (add_server_info request
      (add_request_metadata request []) server_port)).map Prod.fst).Nodup := by
    unfold add_script_info
    exact env_set_nodup _ _ _ (env_set_nodup _ _ _ (env_set_nodup _ _ _
      (env_set_nodup _ _ _ h2)))
  unfold add_client_info
  exact env_set_nodup _ _ _ (env_set_nodup _ _ _ h3)

/-- C25: for every request, `CgiEnvironment::build` returns one entry
`name=value` for each entry of a map whose keys are pairwise distinct. For
every request header (n, v) the map holds, under the name `HTTP_` followed by n
upper-cased with each `-` replaced by `_`, the values of all the request
headers that map to that name, in iteration order, joined by `", "`; v is among
them. When no header name holds a `=`, no two entries of the vector have the
same text before their first `=`; this is so for the headers of every request
that the parser has produced from the octets of a connection. -/
theorem C25_cgi_environment (request : HttpRequest) (script_path : Str) (server_port : Int)
    (client_ip client_host : Str) :
    CgiEnvironment.build request script_path server_port client_ip client_host =
      (build_env_map request script_path server_port client_ip client_host).map
        (fun e => e.1 ++ lit "=" ++ e.2) ∧
    ((build_env_map request script_path server_port client_ip client_host).map
      Prod.fst).Nodup ∧
    (∀ kv ∈ request.headers_,
      (to_cgi_env_name kv.1,
        (lit ", ").intercalate (header_values_for request.headers_ (to_cgi_env_name kv.1))) ∈
        build_env_map request script_path server_port client_ip client_host ∧
      (to_cgi_env_name kv.1 ++ lit "=" ++
        (lit ", ").intercalate (header_values_for request.headers_ (to_cgi_env_name kv.1))) ∈
        CgiEnvironment.build request script_path server_port client_ip client_host ∧
      kv.2 ∈ header_values_for request.headers_ (to_cgi_env_name kv.1) ∧
      kv.2 <:+:
        (lit ", ").intercalate (header_values_for request.headers_ (to_cgi_env_name kv.1))) ∧
    ((∀ kv ∈ request.headers_, '=' ∉ kv.1) →
      ((CgiEnvironment.build request script_path server_port client_ip client_host).map
        entry_name).Nodup) ∧
    (∀ cap chunks parsed, feed { max_content_length_ := cap } chunks = Outcome.ok parsed →
      request.headers_ = parsed.headers_ →
      ((CgiEnvironment.build request script_path server_port client_ip client_host).map
        entry_name).Nodup) := by
  have hkeys := fixed_variables_keys request script_path server_port client_ip client_host
  have hnd := fixed_variables_nodup request script_path server_port client_ip client_host
  have hnodup : ((build_env_map request script_path server_port client_ip client_host).map
      Prod.fst).Nodup := by
    unfold build_env_map
    exact env_set_nodup _ _ _ (add_http_headers_nodup _ _ hnd)
  have hmem : ∀ kv ∈ request.headers_,
      kv.2 ∈ header_values_for request.headers_ (to_cgi_env_name kv.1) := by
    intro kv hkv
    unfold header_values_for
    exact List.mem_map.2 ⟨kv, List.mem_filter.2 ⟨hkv, by simp⟩, rfl⟩
  have hentry : ∀ kv ∈ request.headers_,
      (to_cgi_env_name kv.1,
        (lit ", ").intercalate (header_values_for request.headers_ (to_cgi_env_name kv.1))) ∈
        build_env_map request script_path server_port client_ip client_host := by
    intro kv hkv
    apply env_find_mem
    unfold build_env_map
    simp only
    have hg : to_cgi_env_name kv.1 ≠ lit "GATEWAY_INTERFACE" := by
      intro h
      have := to_cgi_env_name_head kv.1
      rw [h] at this
      revert this
      decide
    rw [env_find_env_set_other _ _ _ _ hg, add_http_headers_find,
      env_find_none_of_not_mem _ _
        (fun h => (hkeys _ h).1 (to_cgi_env_name_head kv.1))]
    exact foldl_append_value_none _ (List.ne_nil_of_mem (hmem kv hkv))
  have hnames : (∀ kv ∈ request.headers_, '=' ∉ kv.1) →
      ((CgiEnvironment.build request script_path server_port client_ip client_host).map
        entry_name).Nodup := by
    intro hno
    have hall : ∀ x ∈ (build_env_map request script_path server_port client_ip
        client_host).map Prod.fst, '=' ∉ x := by
      unfold build_env_map
      apply keys_property_env_set (fun x => '=' ∉ x)
      · intro x hx
        rcases mem_keys_add_http_headers _ _ _ hx with h | ⟨kv, hkv, rfl⟩
        · exact (hkeys x h).2
        · exact to_cgi_env_name_no_equals _ (hno kv hkv)
      · decide
    have e : (CgiEnvironment.build request script_path server_port client_ip client_host).map
        entry_name =
        (build_env_map request script_path server_port client_ip client_host).map Prod.fst := by
      unfold CgiEnvironment.build map_to_vector
      rw [List.map_map]
      apply List.map_congr_left
      intro e he
      exact entry_name_render e.1 e.2 (hall e.1 (List.mem_map.2 ⟨e, he, rfl⟩))
    rw [e]
    exact hnodup
  refine ⟨rfl, hnodup, fun kv hkv => ⟨hentry kv hkv, ?_, hmem kv hkv,
    infix_intercalate _ _ _ (hmem kv hkv)⟩, hnames, ?_⟩
  · exact List.mem_map.2 ⟨_, hentry kv hkv, rfl⟩
  · intro cap chunks parsed hfeed hheaders
    apply hnames
    have hf := feed_names chunks { max_content_length_ := cap }
    rw [hfeed] at hf
    have ht : TokenNames parsed.headers_ := hf (fun kv hkv => by cases hkv)
    intro kv hkv hmem2
    rw [hheaders] at hkv
    exact token_char_not_equals '=' (ht kv hkv '=' hmem2) rfl

/-- C25, at a request parsed from the octets of a connection, with two header
fields that map to the same variable name. -/
theorem C25_cgi_environment_witness :
    (lit "HTTP_X_TAG=one, two") ∈
      CgiEnvironment.build (HttpRequest.append_data {} two_tag_request).state
        (lit "/var/www/cgi/a.py") 8080 (lit "127.0.0.1") (lit "127.0.0.1") ∧
    ((CgiEnvironment.build (HttpRequest.append_data {} two_tag_request).state
        (lit "/var/www/cgi/a.py") 8080 (lit "127.0.0.1") (lit "127.0.0.1")).map
      entry_name).Nodup :=
  ⟨((C25_cgi_environment (HttpRequest.append_data {} two_tag_request).state
      (lit "/var/www/cgi/a.py") 8080 (lit "127.0.0.1") (lit "127.0.0.1")).2.2.1
      (lit "X-Tag", lit "one") (by decide)).2.1,
    (C25_cgi_environment (HttpRequest.append_data {} two_tag_request).state
      (lit "/var/www/cgi/a.py") 8080 (lit "127.0.0.1") (lit "127.0.0.1")).2.2.2.2
      DEFAULT_MAX_CONTENT_LENGTH [two_tag_request]
      (HttpRequest.append_data {} two_tag_request).state (by decide) rfl⟩

/-! ## Multipart uploads -/

theorem find_from_first (pre mid rest pat : Str) (hhere : pat <+: rest)
    (hfirst : ∀ j < mid.length, ¬ pat <+: (mid ++ rest).drop j) :
    find_from (pre ++ (mid ++ rest)) pat pre.length = some (pre.length + mid.length) := by
  unfold find_from
  have hle : pre.length ≤ (pre ++ (mid ++ rest)).length := by
    rw [List.length_append]; exact Nat.le_add_right _ _
  rw [if_pos hle, List.drop_left]
  exact find_at_first pat mid rest pre.length hhere hfirst

theorem find_from_none (pre rest pat : Str) (hno : ¬ pat <:+: rest) :
    find_from (pre ++ rest) pat pre.length = none := by
  unfold find_from
  have hle : pre.length ≤ (pre ++ rest).length := by
    rw [List.length_append]; exact Nat.le_add_right _ _
  rw [if_pos hle, List.drop_left]
  cases hf : find_at pat rest pre.length with
  | none => rfl
  | some k => exact absurd ((find_at_isSome_iff pat rest pre.length).1 (by rw [hf]; rfl)) hno

theorem substr_middle (pre mid rest : Str) (n : Nat) (hn : n = mid.length) :
    substr (pre ++ (mid ++ rest)) pre.length n = mid := by
  unfold substr
  rw [List.drop_left, hn, List.take_left]

theorem handle_file_part_writes (fs : UploadStore) (headers content a name b : Str)
    (location : LocationBlock)
    (hh : headers = a ++ (lit "filename=\"" ++ (name ++ (lit "\"" ++ b))))
    (hfirst : ∀ j < a.length, ¬ lit "filename=\"" <+: headers.drop j)
    (hq : '"' ∉ name) (hname : name ≠ [])
    (hdir : location.upload_store ≠ [])
    (hmk : fs.mkdir_ok location.upload_store = true)
    (hex : fs.existed (location.upload_store ++ lit "/" ++ name) = false)
    (hw : fs.written.any (fun f => f.1 == location.upload_store ++ lit "/" ++ name) = false)
    (hop : fs.open_ok (location.upload_store ++ lit "/" ++ name) = true) :
    handle_file_part fs headers content location =
      ({ fs with written := (location.upload_store ++ lit "/" ++ name, content) :: fs.written },
        Except.ok true) := by
  have hfind : find headers (lit "filename=\"") = some a.length := by
    unfold find
    rw [hh] at hfirst ⊢
    rw [find_at_first _ a _ 0 (List.prefix_append _ _) hfirst, Nat.zero_add]
  have hh2 : headers = (a ++ lit "filename=\"") ++ (name ++ (lit "\"" ++ b)) := by
    rw [hh, List.append_assoc]
  have hlen : (a ++ lit "filename=\"").length = a.length + FILENAME_PREFIX_LENGTH := by
    rw [List.length_append]
    rfl
  have hend : find_from headers (lit "\"") (a.length + FILENAME_PREFIX_LENGTH) =
      some (a.length + FILENAME_PREFIX_LENGTH + name.length) := by
    rw [hh2, ← hlen]
    apply find_from_first
    · exact List.prefix_append _ _
    · intro j hj hp
      have hd : (name ++ (lit "\"" ++ b)).drop j = name.drop j ++ (lit "\"" ++ b) := by
        rw [List.drop_append_of_le_length (Nat.le_of_lt hj)]
      rw [hd] at hp
      cases hn : name.drop j with
      | nil =>
        have := List.drop_eq_nil_iff.1 hn
        omega
      | cons c cs =>
        rw [hn] at hp
        obtain ⟨t, ht⟩ := hp
        have hc : c = '"' := by
          have h0 := congrArg List.head? ht
          simp [lit] at h0
          exact h0.symm
        apply hq
        rw [← hc]
        exact List.mem_of_mem_drop (hn ▸ List.mem_cons_self c cs)
  have hsub : substr headers (a.length + FILENAME_PREFIX_LENGTH)
      (a.length + FILENAME_PREFIX_LENGTH + name.length - (a.length + FILENAME_PREFIX_LENGTH)) =
      name := by
    rw [hh2, ← hlen]
    exact substr_middle _ _ _ _ (by omega)
  have hne : name.isEmpty = false := by
    cases hn : name with
    | nil => exact absurd hn hname
    | cons c cs => rfl
  have hde : location.upload_store.isEmpty = false := by
    cases hn : location.upload_store with
    | nil => exact absurd hn hdir
    | cons c cs => rfl
  unfold handle_file_part
  simp only [hfind, hend, hsub, hne, Bool.false_eq_true, if_false, get_upload_directory, hde,
    ensure_upload_directory, hmk, Bool.not_true, hex, hw, Bool.or_self, hop]

theorem upload_loop_one_part (fs : UploadStore) (location : LocationBlock)
    (delimiter headers payload tail a name b : Str) (n : Nat)
    (hpart : ∀ j < (headers ++ (lit "\r\n\r\n" ++ (payload ++ lit "\r\n"))).length,
      ¬ delimiter <+: ((headers ++ (lit "\r\n\r\n" ++ (payload ++ lit "\r\n"))) ++
        (delimiter ++ tail)).drop j)
    (hblank : ∀ j < headers.length,
      ¬ lit "\r\n\r\n" <+: (headers ++ (lit "\r\n\r\n" ++ (payload ++ lit "\r\n"))).drop j)
    (htail : ¬ delimiter <:+: tail)
    (hh : headers = a ++ (lit "filename=\"" ++ (name ++ (lit "\"" ++ b))))
    (hfirst : ∀ j < a.length, ¬ lit "filename=\"" <+: headers.drop j)
    (hq : '"' ∉ name) (hname : name ≠ [])
    (hdir : location.upload_store ≠ [])
    (hmk : fs.mkdir_ok location.upload_store = true)
    (hex : fs.existed (location.upload_store ++ lit "/" ++ name) = false)
    (hw : fs.written.any (fun f => f.1 == location.upload_store ++ lit "/" ++ name) = false)
    (hop : fs.open_ok (location.upload_store ++ lit "/" ++ name) = true) :
    upload_loop
      (delimiter ++ ((headers ++ (lit "\r\n\r\n" ++ (payload ++ lit "\r\n"))) ++
        (delimiter ++ tail)))
      delimiter location (n + 2) fs 0 false =
      ({ fs with
          written := (location.upload_store ++ lit "/" ++ name, payload ++ lit "\r\n") ::
            fs.written },
        Except.ok true) := by
  have h0 : find_from
      (delimiter ++ ((headers ++ (lit "\r\n\r\n" ++ (payload ++ lit "\r\n"))) ++
        (delimiter ++ tail))) delimiter 0 = some 0 := by
    have := find_from_first [] []
      (delimiter ++ ((headers ++ (lit "\r\n\r\n" ++ (payload ++ lit "\r\n"))) ++
        (delimiter ++ tail))) delimiter (List.prefix_append _ _)
      (fun j hj => absurd hj (Nat.not_lt_zero j))
    simpa using this
  have h1 : find_from
      (delimiter ++ ((headers ++ (lit "\r\n\r\n" ++ (payload ++ lit "\r\n"))) ++
        (delimiter ++ tail))) delimiter (0 + delimiter.length) =
      some (delimiter.length +
        (headers ++ (lit "\r\n\r\n" ++ (payload ++ lit "\r\n"))).length) := by
    rw [Nat.zero_add]
    exact find_from_first delimiter _ _ delimiter (List.prefix_append _ _) hpart
  have h2 : substr
      (delimiter ++ ((headers ++ (lit "\r\n\r\n" ++ (payload ++ lit "\r\n"))) ++
        (delimiter ++ tail))) (0 + delimiter.length)
      (delimiter.length + (headers ++ (lit "\r\n\r\n" ++ (payload ++ lit "\r\n"))).length -
        (0 + delimiter.length)) =
      headers ++ (lit "\r\n\r\n" ++ (payload ++ lit "\r\n")) := by
    rw [Nat.zero_add]
    exact substr_middle _ _ _ _ (by omega)
  have h3 : find (headers ++ (lit "\r\n\r\n" ++ (payload ++ lit "\r\n"))) (lit "\r\n\r\n") =
      some headers.length := by
    unfold find
    rw [find_at_first _ headers _ 0 (List.prefix_append _ _) hblank, Nat.zero_add]
  have h4 : substr (headers ++ (lit "\r\n\r\n" ++ (payload ++ lit "\r\n"))) 0 headers.length =
      headers := by
    unfold substr
    rw [List.drop_zero, List.take_left]
  have h5 : substr_from (headers ++ (lit "\r\n\r\n" ++ (payload ++ lit "\r\n")))
      (headers.length + 4) = payload ++ lit "\r\n" := by
    unfold substr_from
    rw [← List.append_assoc]
    have : headers.length + 4 = (headers ++ lit "\r\n\r\n").length := by
      rw [List.length_append]; rfl
    rw [this, List.drop_left]
  have h6 := handle_file_part_writes fs headers (payload ++ lit "\r\n") a name b location hh
    hfirst hq hname hdir hmk hex hw hop
  have h7 : find_from
      (delimiter ++ ((headers ++ (lit "\r\n\r\n" ++ (payload ++ lit "\r\n"))) ++
        (delimiter ++ tail))) delimiter
      (delimiter.length + (headers ++ (lit "\r\n\r\n" ++ (payload ++ lit "\r\n"))).length) =
      some (delimiter.length +
        (headers ++ (lit "\r\n\r\n" ++ (payload ++ lit "\r\n"))).length) := by
    have := find_from_first
      (delimiter ++ (headers ++ (lit "\r\n\r\n" ++ (payload ++ lit "\r\n")))) []
      (delimiter ++ tail) delimiter (List.prefix_append _ _)
      (fun j hj => absurd hj (Nat.not_lt_zero j))
    simpa [List.append_assoc] using this
  have h8 : find_from
      (delimiter ++ ((headers ++ (lit "\r\n\r\n" ++ (payload ++ lit "\r\n"))) ++
        (delimiter ++ tail))) delimiter
      (delimiter.length + (headers ++ (lit "\r\n\r\n" ++ (payload ++ lit "\r\n"))).length +
        delimiter.length) = none := by
    have := find_from_none
      (delimiter ++ ((headers ++ (lit "\r\n\r\n" ++ (payload ++ lit "\r\n"))) ++ delimiter))
      tail delimiter htail
    simpa [List.append_assoc, Nat.add_assoc] using this
  rw [upload_loop]
  simp only [h0, h1, h2, h3, h4, h5, h6]
  rw [upload_loop]
  simp only [h7, h8]

/-- C28: take a multipart body with boundary B that consists of one part, laid
out as `--B` CRLF part-headers CRLF CRLF d CRLF `--B--`, where the delimiter
`--B` occurs nowhere else, the part headers hold no empty line and name a
non-empty file name in `filename="..."`, and the file can be created in the
upload store. Then `process_multipart_upload` answers 201 and writes one file,
`<upload_store>/<filename>`, and the octets written are d followed by CRLF:
the CRLF that precedes the closing delimiter is written to the file as
well. -/
theorem C28_upload_writes_payload_and_crlf (fs : UploadStore) (sb : ServerBlock)
    (request : HttpRequest) (response : HttpResponse) (location : LocationBlock)
    (boundary part_headers payload tail a name b : Str)
    (hbody : request.body_ = one_part_body boundary part_headers payload tail)
    (hpart : ∀ j < (part_octets part_headers payload).length,
      ¬ (lit "--" ++ boundary) <+:
        (part_octets part_headers payload ++ (lit "--" ++ boundary ++ lit "--" ++ tail)).drop j)
    (hblank : ∀ j < (lit "\r\n" ++ part_headers).length,
      ¬ lit "\r\n\r\n" <+: (part_octets part_headers payload).drop j)
    (htail : ¬ (lit "--" ++ boundary) <:+: (lit "--" ++ tail))
    (hh : part_headers = a ++ lit "filename=\"" ++ name ++ lit "\"" ++ b)
    (hfirst : ∀ j < (lit "\r\n" ++ a).length,
      ¬ lit "filename=\"" <+: (lit "\r\n" ++ part_headers).drop j)
    (hq : '"' ∉ name) (hname : name ≠ [])
    (hdir : location.upload_store ≠ [])
    (hmk : fs.mkdir_ok location.upload_store = true)
    (hex : fs.existed (location.upload_store ++ lit "/" ++ name) = false)
    (hw : fs.written.any (fun f => f.1 == location.upload_store ++ lit "/" ++ name) = false)
    (hop : fs.open_ok (location.upload_store ++ lit "/" ++ name) = true) :
    ∃ created : HttpResponse,
      process_multipart_upload fs sb request boundary response location =
        ({ fs with
            written := (location.upload_store ++ lit "/" ++ name, payload ++ lit "\r\n") ::
              fs.written },
          Except.ok created) ∧
      created.status_ = CREATED := by
  have hde : location.upload_store.isEmpty = false := by
    cases hn : location.upload_store with
    | nil => exact absurd hn hdir
    | cons c cs => rfl
  have hb : request.body_ =
      (lit "--" ++ boundary) ++ (((lit "\r\n" ++ part_headers) ++
        (lit "\r\n\r\n" ++ (payload ++ lit "\r\n"))) ++
        ((lit "--" ++ boundary) ++ (lit "--" ++ tail))) := by
    rw [hbody, one_part_body]
    simp only [List.append_assoc]
  have hpo : part_octets part_headers payload =
      (lit "\r\n" ++ part_headers) ++ (lit "\r\n\r\n" ++ (payload ++ lit "\r\n")) := by
    rw [part_octets]
    simp only [List.append_assoc]
  have hlen : ∃ n, request.body_.length + 1 = n + 2 := by
    refine ⟨request.body_.length - 1, ?_⟩
    have : 1 ≤ request.body_.length := by
      rw [hb]
      simp only [List.length_append]
      have : (lit "--").length = 2 := rfl
      omega
    omega
  obtain ⟨n, hn⟩ := hlen
  have hloop := upload_loop_one_part fs location (lit "--" ++ boundary)
    (lit "\r\n" ++ part_headers) payload (lit "--" ++ tail) (lit "\r\n" ++ a) name b n
    (by
      intro j hj
      have h := hpart j (by rw [hpo]; exact hj)
      rw [hpo] at h
      simpa only [List.append_assoc] using h)
    (by
      intro j hj
      have h := hblank j hj
      rw [hpo] at h
      exact h)
    htail
    (by rw [hh]; simp only [List.append_assoc])
    hfirst hq hname hdir hmk hex hw hop
  unfold process_multipart_upload
  simp only [get_upload_directory, hde, Bool.false_eq_true, if_false, hn]
  rw [hb, hloop]
  exact ⟨_, rfl, rfl⟩

/-- C28, at the upload of the specification's example, with boundary `B`, the
file name `a.txt` and the payload `HELLO`: the file `/tmp/up/a.txt` is written
with the seven octets `HELLO` CRLF. -/
theorem C28_upload_writes_payload_and_crlf_witness :
    (HttpRequest.append_data {} upload_request).error = none ∧
    (HttpRequest.append_data {} upload_request).state.complete_ = true ∧
    extract_boundary (HttpRequest.append_data {} upload_request).state = lit "B" ∧
    ∃ created : HttpResponse,
      handle_multipart_form_data empty_store root_server
        (HttpRequest.append_data {} upload_request).state
        (HttpResponse.new (lit "Thu, 01 Jan 1970 00:00:00 GMT")) upload_location =
        ({ empty_store with written := [(lit "/tmp/up/a.txt", lit "HELLO\r\n")] },
          Except.ok created) ∧
      created.status_ = CREATED := by
  refine ⟨by decide, by decide, by decide, ?_⟩
  obtain ⟨created, h1, h2⟩ := C28_upload_writes_payload_and_crlf empty_store root_server
    (HttpRequest.append_data {} upload_request).state
    (HttpResponse.new (lit "Thu, 01 Jan 1970 00:00:00 GMT")) upload_location
    (lit "B") upload_part_headers (lit "HELLO") (lit "\r\n")
    (lit "Content-Disposition: form-data; name=\"f\"; ") (lit "a.txt") []
    (by decide) (by decide) (by decide) (by decide) (by decide) (by decide) (by decide)
    (by decide) (by decide) rfl rfl rfl rfl
  refine ⟨created, ?_, h2⟩
  have hbd : extract_boundary (HttpRequest.append_data {} upload_request).state = lit "B" := by
    decide
  unfold handle_multipart_form_data
  simp only [hbd]
  exact h1

/-! ## The `listen` directive -/

theorem push_listen_values_listen (values : List Str) (server parsed : ServerBlock)
    (h : push_listen_values values server = some parsed) :
    parsed.listen.map some = server.listen.map some ++ values.map parse_host_port := by
  induction values generalizing server with
  | nil =>
    simp only [push_listen_values, Option.some.injEq] at h
    subst h
    simp
  | cons value more ih =>
    unfold push_listen_values at h
    cases hp : parse_host_port value with
    | none => rw [hp] at h; cases h
    | some host_port =>
      rw [hp] at h
      simp only at h
      rw [ih _ h]
      simp [hp]

/-- C31: every `listen` directive first clears the bind-tuple list of the server
block, so after two directives that are both accepted the list holds the
tuples of the values of the second directive only, whatever the first one
was. -/
theorem C31_listen_directive_replaces (server first second : ServerBlock)
    (values1 values2 : List Str)
    (h1 : parse_listen_directive server values1 = some first)
    (h2 : parse_listen_directive first values2 = some second) :
    second.listen.map some = values2.map parse_host_port ∧
    first.listen.map some = values1.map parse_host_port ∧
    ∃ alone, parse_listen_directive server values2 = some alone ∧
      alone.listen = second.listen := by
  have key : ∀ (s t : ServerBlock) (values : List Str),
      parse_listen_directive s values = some t →
      t.listen.map some = values.map parse_host_port := by
    intro s t values h
    unfold parse_listen_directive at h
    simp only at h
    split_ifs at h
    have := push_listen_values_listen values _ t h
    simpa using this
  have hsome : ∀ (s : ServerBlock) (values : List Str) (t : ServerBlock),
      push_listen_values values s = some t → ∀ s2 : ServerBlock,
      ∃ t2, push_listen_values values s2 = some t2 := by
    intro s values
    induction values generalizing s with
    | nil => exact fun t _ s2 => ⟨s2, rfl⟩
    | cons value more ih =>
      intro t h s2
      unfold push_listen_values at h ⊢
      cases hp : parse_host_port value with
      | none => rw [hp] at h; cases h
      | some host_port =>
        rw [hp] at h
        simp only at h ⊢
        exact ih _ t h _
  refine ⟨key _ _ _ h2, key _ _ _ h1, ?_⟩
  have h2b := h2
  unfold parse_listen_directive at h2b
  simp only at h2b
  split_ifs at h2b with he
  obtain ⟨alone, ha⟩ := hsome _ _ _ h2b { server with listen := [] }
  have hal : parse_listen_directive server values2 = some alone := by
    unfold parse_listen_directive
    simp only [he, Bool.false_eq_true, if_false]
    exact ha
  refine ⟨alone, hal, ?_⟩
  have e1 := key _ _ _ hal
  have e2 := key _ _ _ h2
  have : alone.listen.map some = second.listen.map some := by rw [e1, e2]
  exact List.map_injective_iff.2 (Option.some_injective _) this

/-- C31, at a server block with the directives `listen 8080;` and
`listen 127.0.0.1:9090;`: only the second tuple is kept. -/
theorem C31_listen_directive_replaces_witness :
    parse_listen_directive {} [lit "8080"] =
      some { listen := [(lit "0.0.0.0", 8080)] } ∧
    parse_listen_directive { listen := [(lit "0.0.0.0", 8080)] } [lit "127.0.0.1:9090"] =
      some { listen := [(lit "127.0.0.1", 9090)] } ∧
    ({ listen := [(lit "127.0.0.1", 9090)] } : ServerBlock).listen.map some =
      [lit "127.0.0.1:9090"].map parse_host_port :=
  ⟨by decide, by decide,
    (C31_listen_directive_replaces {} { listen := [(lit "0.0.0.0", 8080)] }
      { listen := [(lit "127.0.0.1", 9090)] } [lit "8080"] [lit "127.0.0.1:9090"]
      (by decide) (by decide)).1⟩

/-! ## The inherited body-size cap -/

theorem inherit_locations_spec (server_cap : Nat) (locations : List LocationBlock) :
    List.Forall₂ (InheritsCap server_cap) locations (inherit_locations server_cap locations) := by
  induction locations with
  | nil => exact List.Forall₂.nil
  | cons location more ih =>
    unfold inherit_locations
    refine List.Forall₂.cons ?_ ih
    refine ⟨fun h => ?_, fun h => ?_⟩
    · simp [h]
    · simp [h]

/-- C32: `inherit_client_max_body_size` returns as many server blocks as it is
given, and each differs from the one it comes from in its locations only;
these are as many as before, a location whose cap was set explicitly is
unchanged, and any other location differs in its cap only, which is the cap of
its server block. -/
theorem C32_inherit_client_max_body_size (server_blocks : List ServerBlock) :
    List.Forall₂ InheritsCaps server_blocks (inherit_client_max_body_size server_blocks) := by
  induction server_blocks with
  | nil => exact List.Forall₂.nil
  | cons server more ih =>
    unfold inherit_client_max_body_size
    exact List.Forall₂.cons ⟨rfl, inherit_locations_spec _ _⟩ ih

/-! ## The event poller -/

theorem mem_fd_events_set (fd events : Int) (m : List (Int × Int)) (x : Int) :
    x ∈ (fd_events_set fd events m).map Prod.fst ↔ x = fd ∨ x ∈ m.map Prod.fst := by
  induction m with
  | nil => simp [fd_events_set]
  | cons e rest ih =>
    obtain ⟨k, v⟩ := e
    unfold fd_events_set
    split_ifs with h1 h2
    · simp only [beq_iff_eq] at h1
      subst h1
      simp
    · simp
    · simp only [List.map_cons, List.mem_cons, ih]
      tauto

theorem update_poll_fds_some (fd events : Int) (fds updated : List PollFd)
    (h : update_poll_fds fd events fds = some updated) :
    fd ∈ fds.map PollFd.fd ∧ updated.map PollFd.fd = fds.map PollFd.fd := by
  induction fds generalizing updated with
  | nil => cases h
  | cons pfd rest ih =>
    unfold update_poll_fds at h
    split_ifs at h with hf
    · simp only [Option.some.injEq] at h
      subst h
      simp only [beq_iff_eq] at hf
      simp [hf]
    · cases hu : update_poll_fds fd events rest with
      | none => rw [hu] at h; cases h
      | some u =>
        rw [hu] at h
        simp only [Option.some.injEq] at h
        subst h
        obtain ⟨h1, h2⟩ := ih u hu
        simp [h1, h2]

theorem update_poll_fds_none (fd events : Int) (fds : List PollFd)
    (h : fd ∉ fds.map PollFd.fd) : update_poll_fds fd events fds = none := by
  induction fds with
  | nil => rfl
  | cons pfd rest ih =>
    unfold update_poll_fds
    have h1 : (pfd.fd == fd) = false := by
      rw [beq_eq_false_iff_ne]
      intro he
      exact h (by simp [he])
    have h2 : fd ∉ rest.map PollFd.fd := fun hm => h (by simp [hm])
    simp only [h1, Bool.false_eq_true, if_false, ih h2]

theorem polling_same_descriptors (p : EventPoller) (hp : Polling p) :
    ∀ x, x ∈ p.poll_fds_.map PollFd.fd ↔ x ∈ p.fd_events_.map Prod.fst := by
  induction hp with
  | empty => intro x; simp
  | watch p q fd events _ hw ih =>
    intro x
    unfold EventPoller.watch_fd at hw
    split_ifs at hw
    simp only [Except.ok.injEq] at hw
    subst hw
    simp only [List.map_append, List.mem_append, List.map_cons, List.map_nil,
      List.mem_singleton, mem_fd_events_set, ih x]
    tauto
  | update p q fd events _ hu ih =>
    intro x
    unfold EventPoller.update_events at hu
    cases h : update_poll_fds fd events p.poll_fds_ with
    | none => rw [h] at hu; cases hu
    | some updated =>
      rw [h] at hu
      simp only [Except.ok.injEq] at hu
      subst hu
      obtain ⟨h1, h2⟩ := update_poll_fds_some _ _ _ _ h
      simp only [h2, mem_fd_events_set, ih x]
      constructor
      · exact fun hx => Or.inr hx
      · rintro (rfl | hx)
        · exact (ih x).1 h1
        · exact hx
  | unwatch p fd _ ih =>
    intro x
    unfold EventPoller.unwatch_fd
    simp only [List.mem_map, List.mem_filter, Bool.not_eq_true', beq_eq_false_iff_ne, ne_eq]
    constructor
    · rintro ⟨pfd, ⟨hm, hne⟩, rfl⟩
      obtain ⟨e, he, hk⟩ := List.mem_map.1 ((ih pfd.fd).1 (List.mem_map.2 ⟨pfd, hm, rfl⟩))
      exact ⟨e, ⟨he, by rw [hk]; exact hne⟩, hk⟩
    · rintro ⟨e, ⟨hm, hne⟩, rfl⟩
      obtain ⟨pfd, hp2, hk⟩ := List.mem_map.1 ((ih e.1).2 (List.mem_map.2 ⟨e, hm, rfl⟩))
      exact ⟨pfd, ⟨hp2, by rw [hk]; exact hne⟩, hk⟩

/-- C33 (counterexample): `unwatch_fd` on a descriptor that is not watched does
not fail; it returns with the poller as it was. -/
theorem C33_unwatch_unknown_counterexample :
    ¬ EventPoller.watches watching_three 7 ∧
    EventPoller.unwatch_fd watching_three 7 =
      watching_three := by
  refine ⟨?_, by decide⟩
  unfold EventPoller.watches
  decide

/-- C33 (amended): on every poller produced by the member functions from the
empty one, `watch_fd` on a descriptor that is watched throws, and so does
`update_events` on a descriptor that is not watched, with nothing modified in
either case; `unwatch_fd` throws nothing, and on a descriptor that is not
watched it leaves the poller as it was. -/
theorem C33_poller_errors (p : EventPoller) (hp : Polling p) (fd events : Int) :
    (p.watches fd →
      p.watch_fd fd events = Except.error (lit "File descriptor already being monitored")) ∧
    (¬ p.watches fd →
      p.update_events fd events = Except.error (lit "File descriptor not found")) ∧
    (¬ p.watches fd → p.unwatch_fd fd = p) := by
  have hsame := polling_same_descriptors p hp
  refine ⟨?_, ?_, ?_⟩
  · intro hw
    unfold EventPoller.watches at hw
    unfold EventPoller.watch_fd
    have : (p.fd_events_.any fun e => e.1 == fd) = true := by
      obtain ⟨e, he, hk⟩ := List.mem_map.1 hw
      simp only [List.any_eq_true, beq_iff_eq]
      exact ⟨e, he, hk⟩
    rw [if_pos this]
  · intro hw
    unfold EventPoller.watches at hw
    unfold EventPoller.update_events
    rw [update_poll_fds_none fd events _ (fun h => hw ((hsame fd).1 h))]
  · intro hw
    unfold EventPoller.watches at hw
    have h2 : fd ∉ p.poll_fds_.map PollFd.fd := fun h => hw ((hsame fd).1 h)
    unfold EventPoller.unwatch_fd
    have e1 : p.poll_fds_.filter (fun pfd => !(pfd.fd == fd)) = p.poll_fds_ := by
      rw [List.filter_eq_self]
      intro pfd hm
      simp only [Bool.not_eq_true', beq_eq_false_iff_ne, ne_eq]
      intro he
      exact h2 (List.mem_map.2 ⟨pfd, hm, he⟩)
    have e2 : p.fd_events_.filter (fun e => !(e.1 == fd)) = p.fd_events_ := by
      rw [List.filter_eq_self]
      intro e hm
      simp only [Bool.not_eq_true', beq_eq_false_iff_ne, ne_eq]
      intro he
      exact hw (List.mem_map.2 ⟨e, hm, he⟩)
    rw [e1, e2]

/-- C33 (amended), at a poller that watches the descriptor 3 and not the
descriptor 7. -/
theorem C33_poller_errors_witness :
    Polling watching_three ∧ watching_three.watches 3 ∧ ¬ watching_three.watches 7 ∧
    EventPoller.watch_fd watching_three 3 4 =
      Except.error (lit "File descriptor already being monitored") ∧
    EventPoller.update_events watching_three 7 4 = Except.error (lit "File descriptor not found") ∧
    EventPoller.unwatch_fd watching_three 7 = watching_three := by
  have hp : Polling watching_three :=
    Polling.watch {} _ 3 1 Polling.empty (by decide)
  have h3 : watching_three.watches 3 := by unfold EventPoller.watches; decide
  have h7 : ¬ watching_three.watches 7 := by unfold EventPoller.watches; decide
  exact ⟨hp, h3, h7, (C33_poller_errors watching_three hp 3 4).1 h3,
    (C33_poller_errors watching_three hp 7 4).2.1 h7,
    (C33_poller_errors watching_three hp 7 4).2.2 h7⟩

/-! ## Resolving a request path to a file-system path -/

theorem uri_decode_cons (c : Char) (s : Str) (hc : c ≠ '%') :
    uri_decode (c :: s) = (uri_decode s).map fun d => c :: d := by
  have hb : (c == '%') = false := by rw [beq_eq_false_iff_ne]; exact hc
  cases s with
  | nil => rfl
  | cons h1 t =>
    cases t with
    | nil => rfl
    | cons h2 rest =>
      rw [uri_decode, hb]
      simp only [Bool.false_eq_true, if_false]
      cases uri_decode (h1 :: h2 :: rest) <;> rfl

theorem uri_decode_append (a b d : Str) (ha : '%' ∉ a) (hb : uri_decode b = Except.ok d) :
    uri_decode (a ++ b) = Except.ok (a ++ d) := by
  induction a with
  | nil => exact hb
  | cons c t ih =>
    have hc : c ≠ '%' := fun he => ha (by rw [he]; exact List.mem_cons_self _ _)
    have ht : '%' ∉ t := fun hm => ha (List.mem_cons_of_mem _ hm)
    rw [List.cons_append, uri_decode_cons _ _ hc, ih ht]
    rfl

theorem find_self_append (p rest : Str) : find (p ++ rest) p = some 0 := by
  unfold find
  cases h : p ++ rest with
  | nil =>
    have hp : p = [] := (List.append_eq_nil.1 h).1
    subst hp
    rfl
  | cons c cs =>
    unfold find_at
    have : starts_with (c :: cs) p = true := by
      rw [starts_with_iff, ← h]
      exact List.prefix_append _ _
    rw [if_pos this]

/-- C34 (counterexample): with the server root `/var/www` and the prefix
location `/img`, which has no root of its own, the request path `/img/a.png`
resolves to `/var/www/img/a.png`: the location path is kept, it is not
removed. -/
theorem C34_location_path_kept_counterexample :
    resolve_file_path { root := lit "/var/www" } (lit "/img/a.png") { path := lit "/img" } =
      Except.ok (lit "/var/www/img/a.png") ∧
    get_root_directory { root := lit "/var/www" } { path := lit "/img" } =
      Except.ok (lit "/var/www") ∧
    lit "/var/www/img/a.png" ≠ lit "/var/www" ++ lit "/a.png" := by
  decide

/-- C34 (amended): when a root is configured and the request path decodes,
`resolve_file_path` returns `<root>/<index>`, with the root of the location if
it is set and of the server otherwise, for the request paths `""` and `"/"` and
for the path of an exact-match location; for the location `/` it returns that
root followed by the decoded request path; and for another location whose path
has no percent escape and a request path that continues it with a `/`, it
returns the root of the location followed by the decoded remainder when the
location has a root, and the root of the server followed by the location path
and the decoded remainder when it has none. -/
theorem C34_resolve_file_path (sb : ServerBlock) (location : LocationBlock)
    (request_path root_dir decoded : Str)
    (hroot : get_root_directory sb location = Except.ok root_dir)
    (hdec : uri_decode request_path = Except.ok decoded) :
    root_dir = (if location.root.isEmpty then sb.root else location.root) ∧
    (request_path = [] ∨ request_path = lit "/" ∨
        (location.exact_match = true ∧ request_path = location.path) →
      resolve_file_path sb request_path location =
        Except.ok (root_dir ++ lit "/" ++ location.index)) ∧
    (request_path ≠ [] → request_path ≠ lit "/" → location.exact_match = false →
        location.path = lit "/" →
      resolve_file_path sb request_path location = Except.ok (root_dir ++ decoded)) ∧
    (∀ rest remainder : Str, location.path ≠ [] → location.path ≠ lit "/" →
        '%' ∉ location.path →
        request_path = location.path ++ '/' :: rest →
        uri_decode ('/' :: rest) = Except.ok remainder →
      resolve_file_path sb request_path location =
        Except.ok (if location.root.isEmpty then sb.root ++ location.path ++ remainder
          else location.root ++ remainder)) := by
  refine ⟨?_, ?_, ?_, ?_⟩
  · unfold get_root_directory at hroot
    split_ifs at hroot with h1 h2
    · simp only [Bool.not_eq_true', List.isEmpty_eq_false] at h1
      have : location.root.isEmpty = false := by
        cases hr : location.root with
        | nil => exact absurd hr (by simpa using h1)
        | cons _ _ => rfl
      simp only [this, Bool.false_eq_true, if_false]
      exact (Except.ok.inj hroot).symm
    · have : location.root.isEmpty = true := by simpa using h1
      simp only [this, if_true]
      exact (Except.ok.inj hroot).symm
  · rintro (h | h | ⟨he, hp⟩)
    · subst h
      unfold resolve_file_path
      rw [hroot]
      rfl
    · subst h
      unfold resolve_file_path
      rw [hroot]
      rfl
    · have c2 : is_exact_match_for_location request_path location = true := by
        unfold is_exact_match_for_location
        simp [he, hp]
      unfold resolve_file_path
      rw [hroot]
      simp only [hdec, c2, if_true]
      split_ifs
      · rfl
      · rfl
  · intro h1 h2 he hp
    unfold resolve_file_path
    rw [hroot]
    have c1 : (request_path.isEmpty || request_path == lit "/") = false := by
      rw [Bool.or_eq_false_iff]
      constructor
      · cases hr : request_path with
        | nil => exact absurd hr h1
        | cons _ _ => rfl
      · rw [beq_eq_false_iff_ne]; exact h2
    have c2 : is_exact_match_for_location request_path location = false := by
      unfold is_exact_match_for_location
      rw [he]
      rfl
    have c3 : is_prefix_match_for_location request_path location = true := by
      unfold is_prefix_match_for_location
      rw [hp]
      rfl
    simp only [c1, hdec, c2, c3, Bool.false_eq_true, if_false, if_true]
    unfold build_prefix_match_path
    rw [hp]
    rfl
  · intro rest remainder hne hp hpc hreq hrem
    have hdl : uri_decode location.path = Except.ok location.path :=
      uri_decode_no_percent _ hpc
    have hd2 : decoded = location.path ++ remainder := by
      have := uri_decode_append location.path _ remainder hpc hrem
      rw [← hreq, hdec] at this
      exact Except.ok.inj this
    obtain ⟨tail, htail⟩ : ∃ tail, remainder = '/' :: tail := by
      rw [uri_decode_cons _ _ (by decide)] at hrem
      cases hr : uri_decode rest with
      | error e => rw [hr] at hrem; cases hrem
      | ok d =>
        rw [hr] at hrem
        exact ⟨d, (Except.ok.inj hrem).symm⟩
    have hlen : 0 < location.path.length := List.length_pos.2 hne
    have c1 : (request_path.isEmpty || request_path == lit "/") = false := by
      rw [Bool.or_eq_false_iff]
      constructor
      · rw [hreq]
        cases location.path <;> rfl
      · rw [beq_eq_false_iff_ne, hreq]
        intro hc
        have := congrArg List.length hc
        simp only [List.length_append, List.length_cons] at this
        have h1 : (lit "/").length = 1 := rfl
        omega
    have c2 : is_exact_match_for_location request_path location = false := by
      unfold is_exact_match_for_location
      rw [Bool.and_eq_false_iff]
      right
      rw [beq_eq_false_iff_ne, hreq]
      intro hc
      have := congrArg List.length hc
      simp only [List.length_append, List.length_cons] at this
      omega
    have c3 : is_prefix_match_for_location request_path location = true := by
      unfold is_prefix_match_for_location
      have e1 : (location.path == lit "/") = false := by rw [beq_eq_false_iff_ne]; exact hp
      have e2 : (find request_path location.path != some 0) = false := by
        rw [hreq, find_self_append]
        rfl
      have e3 : request_path.get? location.path.length = some '/' := by
        rw [hreq, List.get?_eq_getElem?, List.getElem?_append_right (le_refl _)]
        simp
      simp only [e1, e2, e3, Bool.false_eq_true, if_false, beq_self_eq_true, Bool.or_true]
    have b1 : (location.path == lit "/") = false := by rw [beq_eq_false_iff_ne]; exact hp
    have b2 : decoded.length > location.path.length := by
      rw [hd2, htail]
      simp
    have b3 : substr_from decoded location.path.length = remainder := by
      unfold substr_from
      rw [hd2, List.drop_left]
    have b4 : (decoded == location.path) = false := by
      rw [beq_eq_false_iff_ne]
      intro hc
      rw [hc] at b2
      exact lt_irrefl _ b2
    have hres : build_prefix_match_path root_dir decoded location =
        Except.ok (if location.root.isEmpty then sb.root ++ location.path ++ remainder
          else location.root ++ remainder) := by
      unfold build_prefix_match_path
      simp only [b1, hdl, b2, b3, b4, Bool.false_eq_true, if_false, if_true, Bool.false_and]
      rw [htail]
      simp only [List.isEmpty_cons, Bool.not_false, List.head?_cons, bne_self_eq_false,
        Bool.and_false, Bool.false_eq_true, if_false]
      cases hr : location.root.isEmpty with
      | true =>
        have hroot2 := hroot
        unfold get_root_directory at hroot2
        simp only [hr, Bool.not_true, Bool.false_eq_true, if_false] at hroot2
        split_ifs at hroot2
        rw [← Except.ok.inj hroot2]
        simp
      | false => simp
    unfold resolve_file_path
    rw [hroot]
    simp only [c1, hdec, c2, c3, Bool.false_eq_true, if_false, if_true]
    exact hres

/-- C34 (amended), at the server root `/var/www`, the location `/img` and the
request path `/img/a%20b.png`. -/
theorem C34_resolve_file_path_witness :
    get_root_directory { root := lit "/var/www" } { path := lit "/img" } =
      Except.ok (lit "/var/www") ∧
    uri_decode (lit "/img/a%20b.png") = Except.ok (lit "/img/a b.png") ∧
    resolve_file_path { root := lit "/var/www" } (lit "/img/a%20b.png") { path := lit "/img" } =
      Except.ok (lit "/var/www/img/a b.png") :=
  ⟨by decide, by decide,
    (C34_resolve_file_path { root := lit "/var/www" } { path := lit "/img" }
      (lit "/img/a%20b.png") (lit "/var/www") (lit "/img/a b.png") (by decide) (by decide)).2.2.2
      (lit "a%20b.png") (lit "/a b.png") (by decide) (by decide) (by decide) (by decide)
      (by decide)⟩

/-! ## Percent-encoded dot segments -/

/-- C37: for every server with a root and the location `/`, the request path
`/%2e%2e/%2e%2e/etc/passwd` passes the URI validation and
`validate_file_access`, and `resolve_file_path` returns the root followed by
`/../../etc/passwd`, which has two `..` segments after the root. -/
theorem C37_encoded_dots_leave_root (sb : ServerBlock) (hroot : sb.root ≠ []) :
    validate_uri escaped_dots_path = true ∧
    validate_file_access escaped_dots_path false = none ∧
    resolve_file_path sb escaped_dots_path { path := lit "/" } =
      Except.ok (sb.root ++ lit "/../../etc/passwd") ∧
    path_segments (lit "/../../etc/passwd") = [[], lit "..", lit "..", lit "etc", lit "passwd"] := by
  refine ⟨by decide, by decide, ?_, by decide⟩
  have hr : get_root_directory sb { path := lit "/" } = Except.ok sb.root := by
    unfold get_root_directory
    have : sb.root.isEmpty = false := by
      cases h : sb.root with
      | nil => exact absurd h hroot
      | cons _ _ => rfl
    simp [this]
  have hd : uri_decode escaped_dots_path = Except.ok (lit "/../../etc/passwd") := by decide
  unfold resolve_file_path
  rw [hr]
  have c1 : (escaped_dots_path.isEmpty || escaped_dots_path == lit "/") = false := by decide
  have c2 : is_exact_match_for_location escaped_dots_path { path := lit "/" } = false := by decide
  have c3 : is_prefix_match_for_location escaped_dots_path { path := lit "/" } = true := by decide
  simp only [c1, hd, c2, c3, Bool.false_eq_true, if_false, if_true]
  unfold build_prefix_match_path
  simp

/-- C37, at the server root `/var/www`: the request is parsed to the path with
the encoded dots, and the handler answers 200 with the content of
`/var/www/../../etc/passwd`. -/
theorem C37_encoded_dots_leave_root_witness :
    resolve_file_path root_server escaped_dots_path { path := lit "/" } =
      Except.ok (lit "/var/www/../../etc/passwd") ∧
    (HttpRequest.append_data {} escaped_dots_request).error = none ∧
    (HttpRequest.append_data {} escaped_dots_request).state.get_path = escaped_dots_path ∧
    (handle_request passwd_world (HttpRequest.append_data {} escaped_dots_request).state
      root_server).map (fun r => (r.status_, r.body_)) = Except.ok (200, lit "root:x:0:0\n") :=
  ⟨(C37_encoded_dots_leave_root root_server (by decide)).2.2.1, by decide, by decide, by decide⟩

/-! ## The request parser after an error that keeps the connection -/

/-- C39: when the octets received on a connection with no request in progress
make `append_data` throw a status that does not force the close, on a
keep-alive request, `receive_client_data` leaves the connection open with the
request still marked in progress and the parser as the error left it, not
reset; the octets received next are appended to that parser. -/
theorem C39_error_keeps_request (w : World) (c : Connection) (octets : Str)
    (e : HttpStatusCode) (r : HttpRequest)
    (hopen : c.should_close_ = false) (hfresh : c.request_in_progress_ = false)
    (hthrow : c.current_request_.reset.append_data octets = Outcome.throw e r)
    (hstatus : should_close_connection e = false) (hkeep : r.is_keep_alive = true) :
    (c.receive_client_data w (RecvResult.data octets)).should_close_ = false ∧
    (c.receive_client_data w (RecvResult.data octets)).request_in_progress_ = true ∧
    (c.receive_client_data w (RecvResult.data octets)).current_request_ = r ∧
    ∀ (more : Str) (e2 : HttpStatusCode) (r2 : HttpRequest),
      r.append_data more = Outcome.throw e2 r2 →
      ((c.receive_client_data w (RecvResult.data octets)).receive_client_data w
          (RecvResult.data more)).current_request_ = r2 := by
  have hrecv : c.receive_client_data w (RecvResult.data octets) =
      { c with
        current_request_ := r
        request_in_progress_ := true
        response_buffer_ :=
          ((build_default_error_response w.date e).set_header (lit "Connection")
            (lit "keep-alive")).build } := by
    unfold Connection.receive_client_data
    simp only [hopen, hfresh, Bool.false_eq_true, if_false, Bool.not_false, if_true, hthrow]
    unfold Connection.handle_http_error
    simp only [hstatus, hkeep, hopen, Bool.false_eq_true, if_false, if_true, Bool.not_true,
      Bool.not_false, Bool.and_self]
  rw [hrecv]
  refine ⟨hopen, rfl, rfl, ?_⟩
  intro more e2 r2 h2
  unfold Connection.receive_client_data
  simp only [hopen, Bool.false_eq_true, if_false, Bool.not_true, h2]
  unfold Connection.handle_http_error
  simp only
  split_ifs <;> rfl

set_option maxRecDepth 100000 in
/-- C39, at a request with 101 field lines, which is refused with 431, followed
by a well-formed request: the second request is answered 431 too, although a
connection with no rejected request answers it 200. -/
theorem C39_error_keeps_request_witness :
    (HttpRequest.append_data (HttpRequest.reset {}) many_headers_request).error = some 431 ∧
    should_close_connection 431 = false ∧
    ((Connection.receive_client_data served_world {}
        (RecvResult.data many_headers_request)).request_in_progress_ = true ∧
      (Connection.receive_client_data served_world {}
        (RecvResult.data many_headers_request)).current_request_ =
        (HttpRequest.append_data (HttpRequest.reset {}) many_headers_request).state) ∧
    ((Connection.receive_client_data served_world
        (Connection.receive_client_data served_world {} (RecvResult.data many_headers_request))
        (RecvResult.data hello_request)).response_buffer_.take 12 = lit "HTTP/1.1 431" ∧
      (Connection.receive_client_data served_world {}
        (RecvResult.data hello_request)).response_buffer_.take 12 = lit "HTTP/1.1 200") := by
  have h := C39_error_keeps_request served_world {} many_headers_request 431
    (HttpRequest.append_data (HttpRequest.reset {}) many_headers_request).state
    rfl rfl (by decide) (by decide) (by decide)
  exact ⟨by decide, by decide, ⟨h.2.1, h.2.2.1⟩, by decide, by decide⟩

/-! ## The script and `PATH_INFO` of a CGI request -/

theorem uri_decode_total_of_length (n : Nat) :
    ∀ s : Str, s.length ≤ n → NoEncodedNul s → ∃ d, uri_decode s = Except.ok d := by
  induction n using Nat.strong_induction_on with
  | _ n ih =>
    intro s hn h
    match s, h, hn with
    | [], _, _ => exact ⟨_, rfl⟩
    | [c], _, _ => exact ⟨_, rfl⟩
    | [c, d], _, _ => exact ⟨_, rfl⟩
    | c :: h1 :: h2 :: rest, h, hn =>
      simp only [List.length_cons] at hn
      unfold uri_decode
      by_cases hc : (c == '%') = true
      · have hz : (h1 == '0' && h2 == '0') = false := by
          rw [Bool.eq_false_iff]
          intro hz
          simp only [Bool.and_eq_true, beq_iff_eq] at hz hc
          apply h
          rw [hc, hz.1, hz.2]
          exact ⟨[], rest, rfl⟩
        have hr : NoEncodedNul rest := by
          intro hi
          apply h
          exact hi.trans (List.IsSuffix.isInfix ⟨[c, h1, h2], rfl⟩)
        obtain ⟨d, hd⟩ := ih rest.length (by omega) rest (le_refl _) hr
        simp only [hc, hz, if_true, Bool.false_eq_true, if_false, hd]
        exact ⟨_, rfl⟩
      · have hr : NoEncodedNul (h1 :: h2 :: rest) := by
          intro hi
          apply h
          exact hi.trans (List.IsSuffix.isInfix ⟨[c], rfl⟩)
        obtain ⟨d, hd⟩ := ih (h1 :: h2 :: rest).length (by simp only [List.length_cons]; omega) _
          (le_refl _) hr
        simp only [hc, if_false, hd]
        exact ⟨_, rfl⟩

theorem uri_decode_total (s : Str) (h : NoEncodedNul s) : ∃ d, uri_decode s = Except.ok d :=
  uri_decode_total_of_length s.length s (le_refl _) h

theorem resolve_file_path_total (sb : ServerBlock) (location : LocationBlock) (p root_dir : Str)
    (hroot : get_root_directory sb location = Except.ok root_dir)
    (hp : NoEncodedNul p) (hl : NoEncodedNul location.path) :
    ∃ file, resolve_file_path sb p location = Except.ok file := by
  obtain ⟨d, hd⟩ := uri_decode_total p hp
  obtain ⟨dl, hdl⟩ := uri_decode_total _ hl
  unfold resolve_file_path
  rw [hroot]
  simp only [hd]
  split_ifs
  · exact ⟨_, rfl⟩
  · exact ⟨_, rfl⟩
  · unfold build_prefix_match_path
    simp only [hdl]
    split_ifs <;> exact ⟨_, rfl⟩
  · exact ⟨_, rfl⟩

theorem lookup_isSome_iff (keys : List (Str × Str)) (ext : Str) :
    (keys.lookup ext).isSome = true ↔ ext ∈ keys.map Prod.fst := by
  induction keys with
  | nil => simp
  | cons e rest ih =>
    obtain ⟨k, v⟩ := e
    rw [List.lookup_cons]
    by_cases hk : (ext == k) = true
    · simp only [hk, Option.isSome_some, List.map_cons, List.mem_cons, true_iff]
      left
      simpa using hk
    · have hk2 : (ext == k) = false := by simpa using hk
      simp only [hk2, ih, List.map_cons, List.mem_cons]
      constructor
      · exact fun h => Or.inr h
      · rintro (h | h)
        · exact absurd (by simpa using h) hk
        · exact h

theorem last_segment_append (before segment : Str)
    (hb : before = [] ∨ ∃ b, before = b ++ ['/']) (hs : '/' ∉ segment) :
    last_segment (before ++ segment) = segment := by
  unfold last_segment
  rw [List.reverse_append]
  have hall : ∀ c ∈ segment.reverse, (c != '/') = true := by
    intro c hc
    rw [bne_iff_ne]
    rintro rfl
    exact hs (List.mem_reverse.1 hc)
  rcases hb with rfl | ⟨b, rfl⟩
  · rw [List.reverse_nil, List.append_nil, List.takeWhile_eq_self_iff.2 hall, List.reverse_reverse]
  · rw [List.reverse_append, List.reverse_singleton, List.singleton_append,
      List.takeWhile_append_of_pos hall]
    simp

theorem has_cgi_extension_iff (location : LocationBlock) (before segment : Str)
    (hb : before = [] ∨ ∃ b, before = b ++ ['/']) (hs : '/' ∉ segment)
    (hext : ∀ e ∈ location.cgi_handlers, '/' ∉ e.1) :
    has_cgi_extension location (before ++ segment) = true ↔
      HasCgiExtension location (before ++ segment) := by
  unfold HasCgiExtension
  rw [last_segment_append before segment hb hs]
  unfold has_cgi_extension segment_extension
  by_cases hdot : '.' ∈ segment
  · obtain ⟨pre, post, hsplit, hpost⟩ : ∃ pre post, segment = pre ++ '.' :: post ∧ '.' ∉ post := by
      have hfl : find_last_of_at '.' segment 0 ≠ none := fun h =>
        ((find_last_of_at_none _ _ _).1 h) hdot
      cases hf : find_last_of_at '.' segment 0 with
      | none => exact absurd hf hfl
      | some j =>
        obtain ⟨pre2, post2, h3, h4, _⟩ := find_last_of_at_some _ _ _ _ hf
        exact ⟨pre2, post2, h3, h4⟩
    have hfind : find_last_of (before ++ segment) '.' = some (before ++ pre).length := by
      rw [hsplit, ← List.append_assoc]
      exact find_last_of_eq '.' (before ++ pre) post hpost
    have hdrop : substr_from (before ++ segment) (before ++ pre).length = '.' :: post := by
      unfold substr_from
      rw [hsplit, ← List.append_assoc, List.drop_left]
    have htw : (segment.reverse.takeWhile fun c => c != '.').reverse = post := by
      rw [hsplit, List.reverse_append, List.reverse_cons, List.append_assoc]
      have hall : ∀ c ∈ post.reverse, (c != '.') = true := by
        intro c hc
        rw [bne_iff_ne]
        rintro rfl
        exact hpost (List.mem_reverse.1 hc)
      rw [List.takeWhile_append_of_pos hall]
      simp
    simp only [hfind, hdrop, hdot, if_true, htw, Option.some.injEq, exists_eq_left',
      Bool.or_eq_true, lookup_isSome_iff, beq_iff_eq]
    tauto
  · simp only [hdot, if_false]
    refine ⟨fun hcode => ?_, fun ⟨_, h, _⟩ => Option.noConfusion h⟩
    have hfalse : (match find_last_of (before ++ segment) '.' with
        | some dot_pos =>
          (List.lookup (substr_from (before ++ segment) dot_pos) location.cgi_handlers).isSome ||
            substr_from (before ++ segment) dot_pos == lit ".cgi"
        | none => false) = false := ?_
    · rw [hfalse] at hcode
      cases hcode
    cases hf : find_last_of (before ++ segment) '.' with
    | none => rfl
    | some j =>
      simp only
      unfold find_last_of at hf
      obtain ⟨pre2, post2, h3, h4, h5⟩ := find_last_of_at_some _ _ _ _ hf
      have hj : j = pre2.length := by omega
      have hdrop : substr_from (before ++ segment) j = '.' :: post2 := by
        unfold substr_from
        rw [h3, hj, List.drop_left]
      have hslash : '/' ∈ post2 := by
        rcases hb with rfl | ⟨b, rfl⟩
        · exfalso
          apply hdot
          rw [List.nil_append] at h3
          rw [h3]
          simp
        · rw [List.append_assoc, List.append_eq_append_iff] at h3
          rcases h3 with ⟨a, _, ha⟩ | ⟨c, _, hc⟩
          · exfalso
            have : '.' ∈ ['/'] ++ segment := by rw [ha]; simp
            simp only [List.singleton_append, List.mem_cons] at this
            rcases this with h | h
            · exact absurd h (by decide)
            · exact hdot h
          · have : '/' ∈ '.' :: post2 := by rw [hc]; simp
            simp only [List.mem_cons] at this
            rcases this with h | h
            · exact absurd h (by decide)
            · exact h
      rw [hdrop, Bool.or_eq_false_iff]
      constructor
      · rw [← Bool.not_eq_true, lookup_isSome_iff]
        intro hm
        obtain ⟨e, he, hk⟩ := List.mem_map.1 hm
        apply hext e he
        rw [hk]
        exact List.mem_cons_of_mem _ hslash
      · rw [beq_eq_false_iff_ne]
        intro he
        have : '/' ∈ lit ".cgi" := by rw [← he]; exact List.mem_cons_of_mem _ hslash
        exact absurd this (by decide)

theorem dropWhile_head_false (p : Char → Bool) (l : Str) (c : Char) (more : Str)
    (h : l.dropWhile p = c :: more) : p c = false := by
  induction l with
  | nil => cases h
  | cons d ds ih =>
    rw [List.dropWhile_cons] at h
    split_ifs at h with hd
    · exact ih h
    · simp only [List.cons.injEq] at h
      rw [← h.1]
      simpa using hd

theorem ends_before_slash_length (path p : Str) (h : EndsBeforeSlash path p) :
    p <+: path ∧ (p.length < path.length ∨ p = path) := by
  rcases h with rfl | ⟨rest, rfl⟩
  · exact ⟨List.prefix_refl _, Or.inr rfl⟩
  · exact ⟨List.prefix_append _ _, Or.inl (by simp)⟩

theorem not_script_of_no_segment (w : World) (sb : ServerBlock) (location : LocationBlock)
    (before : Str) (hb : before = [] ∨ ∃ b, before = b ++ ['/']) :
    ¬ IsScript w sb location before := by
  rintro ⟨⟨ext, hext, _⟩, _⟩
  have := last_segment_append before [] hb (by simp)
  rw [List.append_nil] at this
  rw [this] at hext
  cases hext

theorem extract_cgi_components_from_step (w : World) (sb : ServerBlock) (location : LocationBlock)
    (path : Str) (fuel : Nat) (before : Str) (c : Char) (cs : Str) :
    extract_cgi_components_from w sb location path (fuel + 1) before (c :: cs) =
      if has_cgi_extension location (before ++ (c :: cs).takeWhile fun c => c != '/') then
        match resolve_file_path sb (before ++ (c :: cs).takeWhile fun c => c != '/') location with
        | Except.error e => Except.error e
        | Except.ok script_path =>
          if w.stat script_path == some FileKind.regular then
            Except.ok (before ++ (c :: cs).takeWhile (fun c => c != '/'),
              (c :: cs).dropWhile fun c => c != '/')
          else
            match (c :: cs).dropWhile fun c => c != '/' with
            | [] => Except.ok (path, [])
            | slash :: more =>
              extract_cgi_components_from w sb location path fuel
                (before ++ ((c :: cs).takeWhile fun c => c != '/') ++ [slash]) more
      else
        match (c :: cs).dropWhile fun c => c != '/' with
        | [] => Except.ok (path, [])
        | slash :: more =>
          extract_cgi_components_from w sb location path fuel
            (before ++ ((c :: cs).takeWhile fun c => c != '/') ++ [slash]) more := by
  rw [extract_cgi_components_from]
  rfl

theorem extract_cgi_components_from_spec (w : World) (sb : ServerBlock) (location : LocationBlock)
    (path root_dir : Str) (hroot : get_root_directory sb location = Except.ok root_dir)
    (hpath : NoEncodedNul path) (hl : NoEncodedNul location.path)
    (hext : ∀ e ∈ location.cgi_handlers, '/' ∉ e.1) :
    ∀ (fuel : Nat) (before after : Str), path = before ++ after →
      (before = [] ∨ ∃ b, before = b ++ ['/']) → after.length < fuel →
      (∀ p, EndsBeforeSlash path p → p.length < before.length → ¬ IsScript w sb location p) →
      ∃ script info,
        extract_cgi_components_from w sb location path fuel before after =
          Except.ok (script, info) ∧
        script ++ info = path ∧
        ((IsScript w sb location script ∧ EndsBeforeSlash path script ∧
            (info = [] ∨ info.head? = some '/') ∧
            ∀ p, EndsBeforeSlash path p → p.length < script.length →
              ¬ IsScript w sb location p) ∨
          ((∀ p, EndsBeforeSlash path p → ¬ IsScript w sb location p) ∧
            script = path ∧ info = [])) := by
  intro fuel
  induction fuel with
  | zero => intro _ after _ _ h; exact absurd h (Nat.not_lt_zero _)
  | succ fuel ih =>
    intro before after hsplit hb hfuel hprev
    cases after with
    | nil =>
      refine ⟨path, [], ?_, List.append_nil _, Or.inr ⟨?_, rfl, rfl⟩⟩
      · rw [extract_cgi_components_from]
        rfl
      · intro p hp
        rw [List.append_nil] at hsplit
        obtain ⟨_, hlen | rfl⟩ := ends_before_slash_length path p hp
        · exact hprev p hp (by rw [← hsplit]; exact hlen)
        · rw [hsplit]
          exact not_script_of_no_segment w sb location before hb
    | cons c cs =>
      rw [extract_cgi_components_from_step]
      generalize hseg : ((c :: cs).takeWhile fun c => c != '/') = segment
      generalize htail : ((c :: cs).dropWhile fun c => c != '/') = tail
      have hst : c :: cs = segment ++ tail := by
        rw [← hseg, ← htail, List.takeWhile_append_dropWhile]
      have hns : '/' ∉ segment := by
        intro hm
        rw [← hseg] at hm
        have := List.mem_takeWhile_imp hm
        simp at this
      have hpath2 : path = (before ++ segment) ++ tail := by
        rw [hsplit, hst, List.append_assoc]
      have hcut : EndsBeforeSlash path (before ++ segment) ∧ (tail = [] ∨ tail.head? = some '/') := by
        cases ht : tail with
        | nil =>
          refine ⟨Or.inl ?_, Or.inl rfl⟩
          rw [hpath2, ht, List.append_nil]
        | cons d more =>
          have hd : d = '/' := by
            have := dropWhile_head_false _ _ _ _ (htail.trans ht)
            simpa using this
          refine ⟨Or.inr ⟨more, ?_⟩, Or.inr ?_⟩
          · rw [hpath2, ht, hd]
          · rw [hd]
            rfl
      have hshort : ∀ p, EndsBeforeSlash path p → p.length < (before ++ segment).length →
          ¬ IsScript w sb location p := by
        intro p hp hlen
        by_cases hlt : p.length < before.length
        · exact hprev p hp hlt
        · exfalso
          have hle : before.length ≤ p.length := Nat.le_of_not_lt hlt
          rcases hp with rfl | ⟨rest, hrest⟩
          · rw [hpath2] at hlen
            simp only [List.length_append] at hlen
            omega
          · have h1 : path[p.length]? = some '/' := by
              rw [hrest, List.getElem?_append_right (le_refl _), Nat.sub_self]
              exact List.getElem?_cons_zero
            have h2 : path[p.length]? = segment[p.length - before.length]? := by
              rw [hpath2, List.append_assoc, List.getElem?_append_right hle,
                List.getElem?_append_left]
              simp only [List.length_append] at hlen
              omega
            rw [h1] at h2
            exact hns (List.mem_iff_getElem?.2 ⟨_, h2.symm⟩)
      have hnul : NoEncodedNul (before ++ segment) := by
        intro hi
        apply hpath
        rw [hpath2]
        exact hi.trans (List.IsPrefix.isInfix (List.prefix_append _ _))
      obtain ⟨file, hfile⟩ := resolve_file_path_total sb location _ root_dir hroot hnul hl
      have hiff := has_cgi_extension_iff location before segment hb hns hext
      have hgo : ¬ IsScript w sb location (before ++ segment) →
          ∃ script info,
            (match tail with
              | [] => (Except.ok (path, []) : Except HttpStatusCode (Str × Str))
              | slash :: more =>
                extract_cgi_components_from w sb location path fuel
                  (before ++ segment ++ [slash]) more) = Except.ok (script, info) ∧
            script ++ info = path ∧
            ((IsScript w sb location script ∧ EndsBeforeSlash path script ∧
                (info = [] ∨ info.head? = some '/') ∧
                ∀ p, EndsBeforeSlash path p → p.length < script.length →
                  ¬ IsScript w sb location p) ∨
              ((∀ p, EndsBeforeSlash path p → ¬ IsScript w sb location p) ∧
                script = path ∧ info = [])) := by
        intro hnot
        have hupto : ∀ p, EndsBeforeSlash path p → p.length ≤ (before ++ segment).length →
            ¬ IsScript w sb location p := by
          intro p hp hlen
          rcases Nat.lt_or_eq_of_le hlen with h | h
          · exact hshort p hp h
          · have hp1 := (ends_before_slash_length path p hp).1
            have hp2 : before ++ segment <+: path := by
              rw [hpath2]
              exact List.prefix_append _ _
            have : p = before ++ segment :=
              (List.prefix_of_prefix_length_le hp1 hp2 hlen).eq_of_length h
            rw [this]
            exact hnot
        cases ht : tail with
        | nil =>
          refine ⟨path, [], rfl, List.append_nil _, Or.inr ⟨?_, rfl, rfl⟩⟩
          intro p hp
          apply hupto p hp
          have := (ends_before_slash_length path p hp).1.length_le
          rw [hpath2, ht, List.append_nil] at this
          exact this
        | cons d more =>
          have hd : d = '/' := by
            have := dropWhile_head_false _ _ _ _ (htail.trans ht)
            simpa using this
          subst hd
          apply ih (before ++ segment ++ ['/']) more
          · rw [hpath2, ht]
            simp
          · exact Or.inr ⟨_, rfl⟩
          · have := congrArg List.length hst
            rw [ht] at this
            simp only [List.length_cons, List.length_append] at this hfuel
            omega
          · intro p hp hlen
            apply hupto p hp
            simp only [List.length_append, List.length_singleton] at hlen ⊢
            omega
      by_cases hcode : has_cgi_extension location (before ++ segment) = true
      · rw [if_pos hcode]
        simp only [hfile]
        by_cases hstat : (w.stat file == some FileKind.regular) = true
        · rw [if_pos hstat]
          refine ⟨_, _, rfl, hpath2.symm, Or.inl ⟨⟨hiff.1 hcode, file, hfile, ?_⟩, hcut.1, hcut.2,
            hshort⟩⟩
          simpa using hstat
        · rw [if_neg hstat]
          apply hgo
          rintro ⟨_, file2, hf2, hs2⟩
          rw [hfile] at hf2
          cases hf2
          exact hstat (by simp [hs2])
      · rw [if_neg hcode]
        apply hgo
        rintro ⟨hx, _⟩
        exact hcode (hiff.2 hx)

/-! ## Request paths hold no encoded NUL -/

theorem validate_root_get_root_directory (sb : ServerBlock) (location : LocationBlock)
    (h : sb.validate_root = true) :
    ∃ root_dir, get_root_directory sb location = Except.ok root_dir := by
  have hne : sb.root.isEmpty = false := by
    unfold ServerBlock.validate_root at h
    cases he : sb.root.isEmpty with
    | false => rfl
    | true => rw [he] at h; cases h
  unfold get_root_directory
  cases hl : location.root.isEmpty with
  | false => exact ⟨_, rfl⟩
  | true => exact ⟨sb.root, by simp [hne]⟩

theorem validate_path_no_encoded_nul (l : LocationBlock) (h : l.validate_path = true) :
    NoEncodedNul l.path := by
  unfold LocationBlock.validate_path at h
  split_ifs at h
  rintro ⟨a, b, hab⟩
  have hm : '%' ∈ l.path := by
    rw [← hab]
    simp [lit]
  have := List.all_eq_true.1 h _ hm
  revert this
  decide

theorem validate_uri_characters_no_encoded_nul :
    ∀ (n : Nat) (s : Str), s.length ≤ n → validate_uri_characters s = true → NoEncodedNul s := by
  intro n
  induction n with
  | zero =>
    intro s hs _
    have : s = [] := List.length_eq_zero.1 (Nat.le_zero.1 hs)
    subst this
    rintro ⟨a, b, hab⟩
    have := congrArg List.length hab
    simp [lit] at this
  | succ n ih =>
    intro s hs h
    match s, hs, h with
    | [], _, _ =>
      rintro ⟨a, b, hab⟩
      have := congrArg List.length hab
      simp [lit] at this
    | c :: rest, hs, h =>
      have hx : isxdigit '%' = false := by decide
      unfold NoEncodedNul
      rw [List.infix_cons_iff]
      rintro (hpre | hin)
      · obtain ⟨t, ht⟩ := hpre
        have e : lit "%00" = ['%', '0', '0'] := rfl
        rw [e] at ht
        simp only [List.cons_append, List.nil_append, List.cons.injEq] at ht
        obtain ⟨rfl, rfl⟩ := ht
        have e1 : (decide ('%'.toNat < 32) || decide ('%'.toNat > 126)) = false := by decide
        have e2 : ('%' == '%') = true := by decide
        have e3 : (!isxdigit '0' || !isxdigit '0') = false := by decide
        have e4 : ('0' == '0' && '0' == '0') = true := by decide
        unfold validate_uri_characters at h
        simp only [e1, e2, e3, e4, Bool.false_eq_true, if_false, if_true] at h
      · unfold validate_uri_characters at h
        split_ifs at h with h1 h2 h3
        · match rest, hs, h, hin with
          | h1c :: h2c :: rest2, hs, h, hin =>
            simp only at h
            split_ifs at h with k1 k2
            simp only [Bool.or_eq_true, Bool.not_eq_true', not_or, Bool.not_eq_false] at k1
            rw [List.infix_cons_iff] at hin
            rcases hin with hp | hin
            · obtain ⟨t, ht⟩ := hp
              have e : lit "%00" = ['%', '0', '0'] := rfl
              rw [e] at ht
              simp only [List.cons_append, List.nil_append, List.cons.injEq] at ht
              rw [← ht.1, hx] at k1
              exact absurd k1.1 (by decide)
            · rw [List.infix_cons_iff] at hin
              rcases hin with hp | hin
              · obtain ⟨t, ht⟩ := hp
                have e : lit "%00" = ['%', '0', '0'] := rfl
                rw [e] at ht
                simp only [List.cons_append, List.nil_append, List.cons.injEq] at ht
                rw [← ht.1, hx] at k1
                exact absurd k1.2 (by decide)
              · exact ih rest2 (by simp only [List.length_cons] at hs; omega) h hin
        · exact ih rest (by simp only [List.length_cons] at hs; omega) h hin

theorem prefix_of_append_cons (t a b : Str) (c : Char) (hc : c ∉ t) (h : t <+: a ++ c :: b) :
    t <+: a := by
  induction a generalizing t with
  | nil =>
    match t, hc, h with
    | [], _, _ => exact List.nil_prefix
    | y :: t2, hc, h =>
      rw [List.nil_append, List.cons_prefix_cons] at h
      exact absurd (h.1 ▸ List.mem_cons_self _ _) hc
  | cons x a2 ih =>
    match t, hc, h with
    | [], _, _ => exact List.nil_prefix
    | y :: t2, hc, h =>
      rw [List.cons_append, List.cons_prefix_cons] at h
      rw [List.cons_prefix_cons]
      exact ⟨h.1, ih t2 (fun hm => hc (List.mem_cons_of_mem _ hm)) h.2⟩

theorem infix_of_append_cons (t a b : Str) (c : Char) (hc : c ∉ t) (h : t <:+: a ++ c :: b) :
    t <:+: a ∨ t <:+: b := by
  induction a with
  | nil =>
    rw [List.nil_append, List.infix_cons_iff] at h
    rcases h with h | h
    · exact Or.inl (prefix_of_append_cons t [] b c hc h).isInfix
    · exact Or.inr h
  | cons x a2 ih =>
    rw [List.cons_append, List.infix_cons_iff] at h
    rcases h with h | h
    · exact Or.inl (prefix_of_append_cons t (x :: a2) b c hc h).isInfix
    · rcases ih h with h2 | h2
      · exact Or.inl (List.infix_cons h2)
      · exact Or.inr h2

theorem no_encoded_nul_part (a s : Str) (ha : a <:+: s) (hs : NoEncodedNul s) :
    NoEncodedNul a :=
  fun h => hs (h.trans ha)

theorem no_encoded_nul_join (a b : Str) (ha : NoEncodedNul a) (hb : NoEncodedNul b) :
    NoEncodedNul (a ++ '/' :: b) := by
  intro h
  rcases infix_of_append_cons _ a b '/' (by decide) h with h1 | h1
  · exact ha h1
  · exact hb h1

theorem no_encoded_nul_nil : NoEncodedNul [] := by
  rintro ⟨a, b, hab⟩
  have := congrArg List.length hab
  simp [lit] at this

theorem no_encoded_nul_slash : NoEncodedNul (lit "/") := by
  unfold NoEncodedNul
  decide

theorem no_encoded_nul_map_backslash (p : Str) (hp : NoEncodedNul p) :
    NoEncodedNul (p.map fun c => if c == '\\' then '/' else c) := by
  rintro ⟨a, b, hab⟩
  obtain ⟨l1, l2, h3, h1, -⟩ := List.map_eq_append_iff.1 hab.symm
  obtain ⟨l3, l4, h4, -, h6⟩ := List.map_eq_append_iff.1 h1
  have e : lit "%00" = ['%', '0', '0'] := rfl
  rw [e] at h6
  have key : ∀ x y : Char, (if x == '\\' then '/' else x) = y → y ≠ '/' → x = y := by
    intro x y hxy hy
    by_cases hx : (x == '\\') = true
    · rw [if_pos hx] at hxy
      exact absurd hxy.symm hy
    · rw [if_neg hx] at hxy
      exact hxy
  have hlen : l4.length = 3 := by
    have := congrArg List.length h6
    simpa using this
  obtain ⟨x, y, z, rfl⟩ := List.length_eq_three.1 hlen
  simp only [List.map_cons, List.map_nil, List.cons.injEq, and_true] at h6
  obtain ⟨hx, hy, hz⟩ := h6
  have ex := key x _ hx (by decide)
  have ey := key y _ hy (by decide)
  have ez := key z _ hz (by decide)
  subst ex ey ez
  exact hp ⟨l3, l2, by rw [h3, h4]; rfl⟩

theorem no_encoded_nul_collapse_slashes :
    ∀ (fuel : Nat) (p : Str), NoEncodedNul p → NoEncodedNul (collapse_slashes fuel p) := by
  intro fuel
  induction fuel with
  | zero => intro p hp; exact hp
  | succ fuel ih =>
    intro p hp
    unfold collapse_slashes
    cases hf : find p (lit "// ") with
    | none => exact hp
    | some k =>
      exact ih _ (no_encoded_nul_join _ _
        (no_encoded_nul_part _ p (List.take_prefix _ _).isInfix hp)
        (no_encoded_nul_part _ p (List.drop_suffix _ _).isInfix hp))

theorem getline_split_parts (d : Char) (s : Str) :
    (∀ seg ∈ getline_split d s, seg <:+: s) ∧
      ∀ seg more, getline_split d s = seg :: more → seg <+: s := by
  induction s with
  | nil =>
    refine ⟨fun seg h => ?_, fun seg more h => ?_⟩
    · simp [getline_split] at h
    · simp [getline_split] at h
  | cons c cs ih =>
    obtain ⟨ih1, ih2⟩ := ih
    unfold getline_split
    by_cases hc : (c == d) = true
    · rw [if_pos hc]
      refine ⟨fun seg h => ?_, fun seg more h => ?_⟩
      · rcases List.mem_cons.1 h with h | h
        · rw [h]
          exact List.nil_infix
        · exact List.infix_cons (ih1 seg h)
      · simp only [List.cons.injEq] at h
        rw [← h.1]
        exact List.nil_prefix
    · rw [if_neg hc]
      cases hs : getline_split d cs with
      | nil =>
        refine ⟨fun seg h => ?_, fun seg more h => ?_⟩
        · simp only [List.mem_singleton] at h
          rw [h]
          exact (List.prefix_append [c] cs).isInfix
        · simp only [List.cons.injEq] at h
          rw [← h.1]
          exact List.prefix_append [c] cs
      | cons seg0 segs =>
        have hp : seg0 <+: cs := ih2 seg0 segs hs
        have hp2 : c :: seg0 <+: c :: cs := by
          rw [List.cons_prefix_cons]
          exact ⟨rfl, hp⟩
        refine ⟨fun seg h => ?_, fun seg more h => ?_⟩
        · rcases List.mem_cons.1 h with h | h
          · rw [h]
            exact hp2.isInfix
          · exact List.infix_cons (ih1 seg (by rw [hs]; exact List.mem_cons_of_mem _ h))
        · simp only [List.cons.injEq] at h
          rw [← h.1]
          exact hp2

theorem collect_segments_mem (input : List Str) :
    ∀ (acc : List Str) (seg : Str), seg ∈ collect_segments input acc → seg ∈ input ∨ seg ∈ acc := by
  induction input with
  | nil => intro acc seg h; exact Or.inr h
  | cons s more ih =>
    intro acc seg h
    unfold collect_segments at h
    split_ifs at h
    · rcases ih _ seg h with h1 | h1
      · exact Or.inl (List.mem_cons_of_mem _ h1)
      · exact Or.inr (List.dropLast_subset _ h1)
    · rcases ih _ seg h with h1 | h1
      · exact Or.inl (List.mem_cons_of_mem _ h1)
      · rcases List.mem_append.1 h1 with h2 | h2
        · exact Or.inr h2
        · rw [List.mem_singleton] at h2
          exact Or.inl (h2 ▸ List.mem_cons_self _ _)
    · rcases ih _ seg h with h1 | h1
      · exact Or.inl (List.mem_cons_of_mem _ h1)
      · exact Or.inr h1

theorem no_encoded_nul_join_segments (segs : List Str) (h : ∀ seg ∈ segs, NoEncodedNul seg) :
    NoEncodedNul (join_segments segs) := by
  induction segs with
  | nil => exact no_encoded_nul_nil
  | cons seg more ih =>
    cases more with
    | nil => exact h seg (List.mem_cons_self _ _)
    | cons s2 more2 =>
      unfold join_segments
      exact no_encoded_nul_join _ _ (h seg (List.mem_cons_self _ _))
        (ih fun x hx => h x (List.mem_cons_of_mem _ hx))

theorem no_encoded_nul_normalize_path (p : Str) (hp : NoEncodedNul p) :
    NoEncodedNul (normalize_path p) := by
  unfold normalize_path
  split_ifs
  · exact no_encoded_nul_slash
  · have h2 := no_encoded_nul_collapse_slashes
      (p.map fun c => if c == '\\' then '/' else c).length _ (no_encoded_nul_map_backslash p hp)
    have h3 := no_encoded_nul_join_segments _ fun seg hs => by
      rcases collect_segments_mem _ [] seg hs with h | h
      · exact no_encoded_nul_part _ _ ((getline_split_parts '/' _).1 seg h) h2
      · cases h
    exact no_encoded_nul_join [] _ no_encoded_nul_nil h3

theorem no_encoded_nul_extract_query_string (u : Uri) (s : Str) (hu : NoEncodedNul u.path_)
    (hs : NoEncodedNul s) : NoEncodedNul (Uri.extract_query_string u s).path_ := by
  unfold Uri.extract_query_string
  cases find_char s '?' with
  | none => exact hu
  | some q =>
    exact no_encoded_nul_part _ s
      ((List.take_prefix _ _).isInfix.trans (List.drop_suffix _ _).isInfix) hs

theorem no_encoded_nul_validate (u : Uri) (hu : NoEncodedNul u.path_) :
    NoEncodedNul (Uri.validate u).path_ := by
  unfold Uri.validate
  simp only
  split_ifs <;> first | exact no_encoded_nul_slash | exact hu

theorem no_encoded_nul_parse (u : Uri) (s : Str) (hs : NoEncodedNul s) :
    NoEncodedNul (Uri.parse u s).path_ := by
  unfold Uri.parse
  apply no_encoded_nul_validate
  by_cases ha : is_absolute_uri s = true
  · rw [if_pos ha]
    unfold Uri.parse_absolute_uri
    cases hf : find s (lit "://") with
    | none =>
      unfold is_absolute_uri at ha
      rw [hf] at ha
      cases ha
    | some scheme_end =>
      simp only
      cases find_from s (lit "/") (scheme_end + 3) with
      | none =>
        simp only [Uri.extract_authority_components]
        split <;> exact no_encoded_nul_normalize_path _ no_encoded_nul_slash
      | some path_start =>
        have hsub : NoEncodedNul (substr_from s path_start) :=
          no_encoded_nul_part _ s (List.drop_suffix _ _).isInfix hs
        simp only [Uri.extract_authority_components]
        split <;>
          exact no_encoded_nul_normalize_path _
            (no_encoded_nul_extract_query_string _ _ hsub hsub)
  · rw [if_neg ha]
    exact no_encoded_nul_normalize_path _ (no_encoded_nul_extract_query_string _ _ hs hs)

/-- The path of a request whose request line was accepted holds no `%00`:
`validate_uri` refuses a target with `%00`, and `Uri::parse` brings none in. -/
theorem process_target_no_encoded_nul (r r2 : HttpRequest) (uri_string : Str)
    (h : r.process_target uri_string = Outcome.ok r2) : NoEncodedNul r2.get_path := by
  unfold HttpRequest.process_target at h
  split_ifs at h with h1 h2
  have hv : validate_uri_characters uri_string = true := by
    unfold validate_uri at h2
    cases hc : validate_uri_characters uri_string with
    | true => rfl
    | false => simp [hc] at h2
  have hn := no_encoded_nul_parse r.uri_ uri_string
    (validate_uri_characters_no_encoded_nul _ uri_string (le_refl _) hv)
  simp only at h
  split_ifs at h <;> simp only [Outcome.ok.injEq] at h <;> rw [← h] <;> exact hn

/-- C35 (counterexample): the directive `cgi_handler .b/run /bin/sh;` is read
as two identifier tokens and leaves the location `/` with a handler for the
extension `.b/run`; the location path and the server root pass their checks.
With `/var/www/a.b/run` an existing regular file, no part of the path
`/a.b/run/extra` has a last segment with the extension `.cgi` or `.b/run`, yet
`is_cgi_request` accepts the path and `extract_cgi_components` returns the
script `/a.b/run` and the `PATH_INFO` `/extra`, not the whole path with an
empty `PATH_INFO`. -/
theorem C35_slash_extension_counterexample :
    (is_identifier_start '.' = true ∧ (lit "b/run").all is_identifier_part = true) ∧
    process_cgi_handler_directive { path := lit "/" } [lit ".b/run", lit "/bin/sh"] =
      some slash_extension_location ∧
    slash_extension_location.validate_path = true ∧
    slash_extension_location.validate_cgi_configuration = true ∧
    slash_extension_server.validate_root = true ∧
    validate_uri_characters (lit "/a.b/run/extra") = true ∧
    is_cgi_request (lit "/a.b/run/extra") slash_extension_location = true ∧
    extract_cgi_components slash_extension_world slash_extension_server (lit "/a.b/run/extra")
      slash_extension_location = Except.ok (lit "/a.b/run", lit "/extra") ∧
    ∀ p, p <+: lit "/a.b/run/extra" → ¬ HasCgiExtension slash_extension_location p := by
  refine ⟨by decide, by decide, by decide, by decide, by decide, by decide, by decide, by decide,
    ?_⟩
  intro p hp
  have key : ∀ q ∈ (lit "/a.b/run/extra").inits,
      (segment_extension (last_segment q)).all
        (fun ext => ext != lit ".cgi" && ext != lit ".b/run") = true := by decide
  have hq := key p ((List.mem_inits _ _).2 hp)
  rintro ⟨ext, he, hc⟩
  rw [he] at hq
  simp only [Option.all_some, Bool.and_eq_true, bne_iff_ne, ne_eq] at hq
  rcases hc with hc | hc
  · exact hq.1 hc
  · have : ext = lit ".b/run" := by simpa [slash_extension_location] using hc
    exact hq.2 this

/-- C35 (amended): when no configured handler extension holds a `/`,
`extract_cgi_components` returns a script and a `PATH_INFO` that make up the
request path; the script is the shortest part of the path that ends just
before a `/`, or is the whole path, whose last segment has the extension
`.cgi` or a configured one and which resolves to an existing regular file, and
`PATH_INFO` is then empty or begins with the `/`; when no such part exists,
the script is the whole path and `PATH_INFO` is empty. The three other
hypotheses hold of every call the server makes: the location or the server
block has a root (`ServerBlock::validate_root` refuses a server block without
one), and neither the request path nor the location path holds `%00`
(`Uri::validate_uri_characters` and `LocationBlock::validate_path` refuse
it). -/
theorem C35_extract_cgi_components (w : World) (sb : ServerBlock) (location : LocationBlock)
    (path root_dir : Str) (hroot : get_root_directory sb location = Except.ok root_dir)
    (hpath : NoEncodedNul path) (hl : NoEncodedNul location.path)
    (hext : ∀ e ∈ location.cgi_handlers, '/' ∉ e.1) :
    ∃ script info,
      extract_cgi_components w sb path location = Except.ok (script, info) ∧
      script ++ info = path ∧
      ((IsScript w sb location script ∧ EndsBeforeSlash path script ∧
          (info = [] ∨ info.head? = some '/') ∧
          ∀ p, EndsBeforeSlash path p → p.length < script.length →
            ¬ IsScript w sb location p) ∨
        ((∀ p, EndsBeforeSlash path p → ¬ IsScript w sb location p) ∧
          script = path ∧ info = [])) := by
  unfold extract_cgi_components
  exact extract_cgi_components_from_spec w sb location path root_dir hroot hpath hl hext
    (path.length + 1) [] path rfl (Or.inl rfl) (Nat.lt_succ_self _)
    (fun p _ h => absurd h (Nat.not_lt_zero _))

/-- C35 (amended), at the path `/cgi/env.cgi/extra/bits` with
`/var/www/cgi/env.cgi` an existing regular file: the script is `/cgi/env.cgi`
and `PATH_INFO` is `/extra/bits`. -/
theorem C35_extract_cgi_components_witness :
    get_root_directory root_server cgi_location = Except.ok (lit "/var/www") ∧
    NoEncodedNul (lit "/cgi/env.cgi/extra/bits") ∧ NoEncodedNul cgi_location.path ∧
    extract_cgi_components env_cgi_world root_server (lit "/cgi/env.cgi/extra/bits")
      cgi_location = Except.ok (lit "/cgi/env.cgi", lit "/extra/bits") ∧
    IsScript env_cgi_world root_server cgi_location (lit "/cgi/env.cgi") := by
  have hn1 : NoEncodedNul (lit "/cgi/env.cgi/extra/bits") := by unfold NoEncodedNul; decide
  have hn2 : NoEncodedNul cgi_location.path := by unfold NoEncodedNul; decide
  have hval : extract_cgi_components env_cgi_world root_server (lit "/cgi/env.cgi/extra/bits")
      cgi_location = Except.ok (lit "/cgi/env.cgi", lit "/extra/bits") := by decide
  obtain ⟨script, info, h1, _, h3⟩ := C35_extract_cgi_components env_cgi_world root_server
    cgi_location (lit "/cgi/env.cgi/extra/bits") (lit "/var/www") (by decide) hn1 hn2
    (fun e he => absurd he (by simp [cgi_location]))
  rw [hval] at h1
  simp only [Except.ok.injEq, Prod.mk.injEq] at h1
  refine ⟨by decide, hn1, hn2, hval, ?_⟩
  rcases h3 with ⟨hs, _⟩ | ⟨_, hs, _⟩
  · rw [h1.1]
    exact hs
  · rw [← h1.1] at hs
    exact absurd hs (by decide)

/-! ## Decimal and hexadecimal numbers -/

theorem digits_value_append (base : Nat) (a : Str) (c : Char) (d acc : Nat)
    (ha : ∀ x ∈ a, (digit_value x).isSome = true) (hc : digit_value c = some d) :
    digits_value base (a ++ [c]) acc = digits_value base a acc * base + d := by
  induction a generalizing acc with
  | nil => simp [digits_value, hc]
  | cons x xs ih =>
    obtain ⟨dx, hdx⟩ := Option.isSome_iff_exists.1 (ha x (List.mem_cons_self _ _))
    simp only [List.cons_append, digits_value, hdx]
    exact ih _ (fun y hy => ha y (List.mem_cons_of_mem _ hy))

theorem digits_value_ge (base : Nat) (hb : 1 ≤ base) (s : Str) (acc : Nat) :
    acc ≤ digits_value base s acc := by
  induction s generalizing acc with
  | nil => exact le_refl _
  | cons c cs ih =>
    unfold digits_value
    cases h : digit_value c with
    | none => exact le_refl _
    | some d =>
      simp only
      refine le_trans ?_ (ih _)
      calc acc = acc * 1 := (Nat.mul_one _).symm
        _ ≤ acc * base := Nat.mul_le_mul_left _ hb
        _ ≤ acc * base + d := Nat.le_add_right _ _

theorem accumulate_digits_eq (base : Nat) (hb : 1 ≤ base) (s : Str) (acc : Nat)
    (h : digits_value base s acc ≤ ULONG_MAX + 1) :
    accumulate_digits base s acc = digits_value base s acc := by
  induction s generalizing acc with
  | nil => rfl
  | cons c cs ih =>
    unfold accumulate_digits digits_value
    unfold digits_value at h
    cases hd : digit_value c with
    | none => rfl
    | some d =>
      rw [hd] at h
      simp only at h ⊢
      have := digits_value_ge base hb cs (acc * base + d)
      rw [Nat.min_eq_left (le_trans this h)]
      exact ih _ h

theorem digit_value_digitChar (m : Nat) (h : m < 16) : digit_value (Nat.digitChar m) = some m := by
  interval_cases m <;> decide

theorem toDigitsCore_spec (base : Nat) (hb : 2 ≤ base) (hb16 : base ≤ 16) :
    ∀ (fuel n : Nat) (ds : Str), n < fuel →
      ∃ pre, Nat.toDigitsCore base fuel n ds = pre ++ ds ∧ pre ≠ [] ∧
        (∀ c ∈ pre, ∃ d, digit_value c = some d ∧ d < base) ∧
        ∀ acc, digits_value base pre acc = acc * base ^ pre.length + n := by
  intro fuel
  induction fuel with
  | zero => intro n _ h; exact absurd h (Nat.not_lt_zero _)
  | succ fuel ih =>
    intro n ds hn
    have hmod : n % base < 16 := lt_of_lt_of_le (Nat.mod_lt _ (by omega)) hb16
    have hdc := digit_value_digitChar (n % base) hmod
    unfold Nat.toDigitsCore
    by_cases hz : n / base = 0
    · simp only [hz, if_true]
      refine ⟨[Nat.digitChar (n % base)], rfl, by simp, ?_, ?_⟩
      · intro c hc
        rw [List.mem_singleton] at hc
        subst hc
        exact ⟨_, hdc, Nat.mod_lt _ (by omega)⟩
      · intro acc
        have hlt : n < base := (Nat.div_eq_zero_iff (by omega)).1 hz
        have hdc2 := hdc
        rw [Nat.mod_eq_of_lt hlt] at hdc2
        simp only [digits_value, Nat.mod_eq_of_lt hlt, hdc2, List.length_singleton, pow_one]
    · simp only [hz, if_false]
      have hlt : n / base < fuel := by
        have : n / base < n := Nat.div_lt_self (by
          rcases Nat.eq_zero_or_pos n with h | h
          · rw [h] at hz; simp at hz
          · exact h) (by omega)
        omega
      obtain ⟨pre, h1, _, h3, h4⟩ := ih (n / base) (Nat.digitChar (n % base) :: ds) hlt
      refine ⟨pre ++ [Nat.digitChar (n % base)], ?_, by simp, ?_, ?_⟩
      · rw [h1]
        simp
      · intro c hc
        rw [List.mem_append, List.mem_singleton] at hc
        rcases hc with hc | hc
        · exact h3 c hc
        · subst hc
          exact ⟨_, hdc, Nat.mod_lt _ (by omega)⟩
      · intro acc
        rw [digits_value_append base pre _ _ acc
          (fun x hx => by obtain ⟨d, hd, _⟩ := h3 x hx; rw [hd]; rfl) hdc, h4,
          List.length_append, List.length_singleton, pow_succ]
        have := Nat.div_add_mod n base
        nlinarith [Nat.div_add_mod n base]

theorem toDigits_spec (base : Nat) (hb : 2 ≤ base) (hb16 : base ≤ 16) (n : Nat) :
    Nat.toDigits base n ≠ [] ∧
    (∀ c ∈ Nat.toDigits base n, is_base_digit base c = true) ∧
    digits_value base (Nat.toDigits base n) 0 = n := by
  obtain ⟨pre, h1, h2, h3, h4⟩ := toDigitsCore_spec base hb hb16 (n + 1) n [] (Nat.lt_succ_self _)
  unfold Nat.toDigits
  rw [h1, List.append_nil]
  refine ⟨h2, ?_, ?_⟩
  · intro c hc
    obtain ⟨d, hd, hlt⟩ := h3 c hc
    unfold is_base_digit
    rw [hd]
    simpa using hlt
  · rw [h4]
    simp

theorem base_digit_plain (c : Char) (h : is_base_digit 16 c = true) :
    (c != '\x00') = true ∧ isspace c = false ∧ c ≠ '-' ∧ c ≠ '+' ∧ c ≠ 'x' ∧ c ≠ 'X' ∧
      c ≠ '\r' ∧ c ≠ ';' ∧ is_ows c = false := by
  have key : ∀ d : Char, is_base_digit 16 d = false → c ≠ d := by
    rintro d hd rfl
    rw [hd] at h
    cases h
  refine ⟨?_, ?_, key _ (by decide), key _ (by decide), key _ (by decide), key _ (by decide),
    key _ (by decide), key _ (by decide), ?_⟩
  · rw [bne_iff_ne]
    exact key _ (by decide)
  · unfold isspace
    simp only [Bool.or_eq_false_iff, beq_eq_false_iff_ne]
    exact ⟨⟨⟨⟨⟨key _ (by decide), key _ (by decide)⟩, key _ (by decide)⟩, key _ (by decide)⟩,
      key _ (by decide)⟩, key _ (by decide)⟩
  · unfold is_ows
    simp only [Bool.or_eq_false_iff, beq_eq_false_iff_ne]
    exact ⟨key _ (by decide), key _ (by decide)⟩

theorem base_digit_ten (c : Char) (h : is_base_digit 10 c = true) : is_base_digit 16 c = true := by
  unfold is_base_digit at h ⊢
  cases hd : digit_value c with
  | none => rw [hd] at h; cases h
  | some d =>
    rw [hd] at h
    simp only [decide_eq_true_eq] at h ⊢
    omega

theorem strtoul_digits (base : Nat) (hb : base = 10 ∨ base = 16) (s : Str) (hne : s ≠ [])
    (hall : ∀ c ∈ s, is_base_digit base c = true) (hv : digits_value base s 0 ≤ ULONG_MAX) :
    strtoul s base = (digits_value base s 0, []) := by
  have h16 : ∀ c ∈ s, is_base_digit 16 c = true := by
    intro c hc
    rcases hb with rfl | rfl
    · exact base_digit_ten c (hall c hc)
    · exact hall c hc
  have e1 : s.takeWhile (fun c => c != '\x00') = s :=
    List.takeWhile_eq_self_iff.2 fun c hc => (base_digit_plain c (h16 c hc)).1
  have e4 : s.takeWhile (is_base_digit base) = s := List.takeWhile_eq_self_iff.2 hall
  have e5 : s.dropWhile (is_base_digit base) = [] := List.dropWhile_eq_nil_iff.2 hall
  have e6 : accumulate_digits base s 0 = digits_value base s 0 :=
    accumulate_digits_eq base (by rcases hb with rfl | rfl <;> decide) s 0
      (le_trans hv (Nat.le_succ _))
  have e7 : ¬ digits_value base s 0 > ULONG_MAX := Nat.not_lt.2 hv
  cases s with
  | nil => exact absurd rfl hne
  | cons c cs =>
    obtain ⟨_, p2, p3, p4, _⟩ := base_digit_plain c (h16 c (List.mem_cons_self _ _))
    have e2 : (c :: cs).dropWhile isspace = c :: cs := by
      rw [List.dropWhile_cons, p2]
      rfl
    unfold strtoul
    simp only [e1, e2]
    simp (disch := simp [p3, p4]) only []
    by_cases hc0 : c = '0'
    · subst hc0
      match cs, h16, e4, e5, e6, e7 with
      | [], _, e4, e5, e6, e7 =>
        simp only [e4, e5, e6, e7, List.isEmpty_cons, Bool.false_eq_true, if_false]
      | [x], _, e4, e5, e6, e7 =>
        simp only [e4, e5, e6, e7, List.isEmpty_cons, Bool.false_eq_true, if_false]
      | x :: d :: r, h16, e4, e5, e6, e7 =>
        obtain ⟨_, _, _, _, q1, q2, _⟩ := base_digit_plain x (h16 x (by simp))
        have q : (x == 'x' || x == 'X') = false := by
          rw [Bool.or_eq_false_iff, beq_eq_false_iff_ne, beq_eq_false_iff_ne]
          exact ⟨q1, q2⟩
        simp only [q, Bool.and_false, Bool.false_and, e4, e5, e6, e7, List.isEmpty_cons,
          Bool.false_eq_true, if_false]
    · simp (disch := simp [hc0]) only []
      simp only [e4, e5, e6, e7, List.isEmpty_cons, Bool.false_eq_true, if_false]

theorem stream_extract_digits (s : Str) (hne : s ≠ [])
    (hall : ∀ c ∈ s, is_base_digit 10 c = true) (hv : digits_value 10 s 0 ≤ ULONG_MAX) :
    stream_extract_size_t s = some (digits_value 10 s 0) := by
  have hdig : ∀ c ∈ s, isdigit c = true := by
    intro c hc
    have := hall c hc
    unfold is_base_digit digit_value at this
    by_cases hd : isdigit c = true
    · exact hd
    · exfalso
      simp only [hd, Bool.false_eq_true, if_false] at this
      unfold islower isupper at this
      split_ifs at this with h1 h2
      · simp only [decide_eq_true_eq] at this h1
        omega
      · simp only [decide_eq_true_eq] at this h2
        omega
  have e4 : s.takeWhile isdigit = s := List.takeWhile_eq_self_iff.2 hdig
  have e6 : accumulate_digits 10 s 0 = digits_value 10 s 0 :=
    accumulate_digits_eq 10 (by decide) s 0 (le_trans hv (Nat.le_succ _))
  have e7 : ¬ digits_value 10 s 0 > ULONG_MAX := Nat.not_lt.2 hv
  cases s with
  | nil => exact absurd rfl hne
  | cons c cs =>
    obtain ⟨_, p2, p3, p4, _⟩ :=
      base_digit_plain c (base_digit_ten c (hall c (List.mem_cons_self _ _)))
    have e2 : (c :: cs).dropWhile isspace = c :: cs := by
      rw [List.dropWhile_cons, p2]
      rfl
    unfold stream_extract_size_t
    simp only [e2]
    simp (disch := simp [p3, p4]) only []
    simp only [e4, e6, e7, List.isEmpty_cons, Bool.false_eq_true, if_false]

theorem to_string_nat_spec (n : Nat) (hn : n < 2 ^ 64) :
    to_string_nat n ≠ [] ∧ strtoul (to_string_nat n) 10 = (n, []) ∧
    stream_extract_size_t (to_string_nat n) = some n ∧
    (n ≠ 0 → to_string_nat n ≠ lit "0") := by
  obtain ⟨h1, h2, h3⟩ := toDigits_spec 10 (by decide) (by decide) n
  have hv : digits_value 10 (Nat.toDigits 10 n) 0 ≤ ULONG_MAX := by
    rw [h3]
    unfold ULONG_MAX
    omega
  unfold to_string_nat
  refine ⟨h1, ?_, ?_, ?_⟩
  · rw [strtoul_digits 10 (Or.inl rfl) _ h1 h2 hv, h3]
  · rw [stream_extract_digits _ h1 h2 hv, h3]
  · intro hn0 he
    rw [he] at h3
    exact hn0 (by rw [← h3]; decide)

theorem hex_size_spec (n : Nat) (hn : n < 2 ^ 64) :
    Nat.toDigits 16 n ≠ [] ∧ (∀ c ∈ Nat.toDigits 16 n, is_base_digit 16 c = true) ∧
    strtoul (Nat.toDigits 16 n) 16 = (n, []) := by
  obtain ⟨h1, h2, h3⟩ := toDigits_spec 16 (by decide) (by decide) n
  have hv : digits_value 16 (Nat.toDigits 16 n) 0 ≤ ULONG_MAX := by
    rw [h3]
    unfold ULONG_MAX
    omega
  refine ⟨h1, h2, ?_⟩
  rw [strtoul_digits 16 (Or.inr rfl) _ h1 h2 hv, h3]

/-! ## The header part of `parse` and the members it leaves alone -/

theorem andThen_map {o : Outcome HttpRequest} {f f2 : HttpRequest → Outcome HttpRequest}
    (g : HttpRequest → HttpRequest) (h : ∀ s, f2 (g s) = (f s).map g) :
    (o.map g).andThen f2 = (o.andThen f).map g := by
  cases o with
  | ok s => exact h s
  | throw e s => rfl

theorem validate_method_with (t r : HttpRequest) (m : Str) :
    (t.with_body_fields r).validate_method m = (r.validate_method m).map t.with_body_fields := by
  unfold HttpRequest.validate_method
  simp only [HttpRequest.with_body_fields]
  split_ifs <;> rfl

theorem validate_http_version_with (t r : HttpRequest) (v : Str) :
    (t.with_body_fields r).validate_http_version v =
      (r.validate_http_version v).map t.with_body_fields := by
  unfold HttpRequest.validate_http_version
  split_ifs <;> rfl

theorem process_target_with (t r : HttpRequest) (u : Str) :
    (t.with_body_fields r).process_target u = (r.process_target u).map t.with_body_fields := by
  unfold HttpRequest.process_target
  simp only [HttpRequest.with_body_fields]
  split_ifs <;> rfl

theorem parse_request_line_with (t r : HttpRequest) (line : Str) :
    (t.with_body_fields r).parse_request_line line =
      (r.parse_request_line line).map t.with_body_fields := by
  unfold HttpRequest.parse_request_line
  cases extract_request_line_components line with
  | error e => rfl
  | ok c =>
    obtain ⟨m, u, v⟩ := c
    simp only
    rw [validate_method_with]
    apply andThen_map
    intro s
    rw [validate_http_version_with]
    apply andThen_map
    intro s2
    exact process_target_with t s2 u

theorem store_header_with (t r : HttpRequest) (n v : Str) :
    (t.with_body_fields r).store_header n v = (r.store_header n v).map t.with_body_fields := by
  unfold HttpRequest.store_header
  simp only [HttpRequest.with_body_fields]
  split_ifs <;> rfl

theorem store_pending_header_with (t r : HttpRequest) (n v : Str) :
    (t.with_body_fields r).store_pending_header n v =
      (r.store_pending_header n v).map t.with_body_fields := by
  unfold HttpRequest.store_pending_header
  split_ifs
  · exact store_header_with t r n v
  · rfl

theorem parse_header_lines_with (t : HttpRequest) (lines : List Str) :
    ∀ (r : HttpRequest) (n v : Str),
      HttpRequest.parse_header_lines lines (t.with_body_fields r) n v =
        (HttpRequest.parse_header_lines lines r n v).map t.with_body_fields := by
  induction lines with
  | nil =>
    intro r n v
    unfold HttpRequest.parse_header_lines
    exact store_pending_header_with t r n v
  | cons raw_line more ih =>
    intro r n v
    unfold HttpRequest.parse_header_lines
    simp only
    split_ifs
    · exact ih r n v
    · rfl
    · rw [store_pending_header_with]
      cases r.store_pending_header n v with
      | throw e r1 => rfl
      | ok r1 =>
        simp only [Outcome.map]
        cases parse_header_line (remove_carriage_return raw_line) with
        | error e => rfl
        | ok nv =>
          obtain ⟨n2, v2⟩ := nv
          exact ih r1 n2 v2

theorem parse_headers_with (t r : HttpRequest) (content : Str) :
    (t.with_body_fields r).parse_headers content =
      (r.parse_headers content).map t.with_body_fields :=
  parse_header_lines_with t _ r [] []

theorem validate_headers_with (t r : HttpRequest) :
    (t.with_body_fields r).validate_headers = r.validate_headers.map t.with_body_fields := by
  unfold HttpRequest.validate_headers
  simp only [HttpRequest.with_body_fields]
  split_ifs <;> rfl

theorem parse_head_with (t r : HttpRequest) (head : Str) :
    (t.with_body_fields r).parse_head head = (r.parse_head head).map t.with_body_fields := by
  unfold HttpRequest.parse_head
  cases find head (lit "\r\n") with
  | none => rfl
  | some first_line_end =>
    simp only
    rw [parse_request_line_with,
      andThen_map t.with_body_fields (fun s => parse_headers_with t s _),
      andThen_map t.with_body_fields (fun s => validate_headers_with t s)]

theorem with_body_fields_self (r : HttpRequest) : r.with_body_fields r = r := rfl

theorem parse_head_keeps (r r3 : HttpRequest) (head : Str)
    (h : r.parse_head head = Outcome.ok r3) :
    r3.body_ = r.body_ ∧ r3.complete_ = r.complete_ ∧ r3.headers_parsed_ = r.headers_parsed_ ∧
    r3.request_buffer_ = r.request_buffer_ ∧ r3.body_buffer_ = r.body_buffer_ ∧
    r3.current_chunk_size_ = r.current_chunk_size_ := by
  have := parse_head_with r r head
  rw [with_body_fields_self, h] at this
  simp only [Outcome.map, Outcome.ok.injEq] at this
  rw [this]
  exact ⟨rfl, rfl, rfl, rfl, rfl, rfl⟩

theorem parse_head_cap (r r3 : HttpRequest) (head : Str)
    (h : r.parse_head head = Outcome.ok r3) :
    r3.max_content_length_ = r.max_content_length_ := by
  unfold HttpRequest.parse_head at h
  cases hf : find head (lit "\r\n") with
  | none => rw [hf] at h; cases h
  | some first_line_end =>
    rw [hf] at h
    simp only at h
    cases h1 : r.parse_request_line (substr head 0 first_line_end) with
    | throw e s => rw [h1] at h; cases h
    | ok s1 =>
      rw [h1] at h
      simp only [Outcome.andThen] at h
      have c1 : s1.max_content_length_ = r.max_content_length_ := by
        unfold HttpRequest.parse_request_line at h1
        cases hx : extract_request_line_components (substr head 0 first_line_end) with
        | error e => rw [hx] at h1; cases h1
        | ok c =>
          obtain ⟨m, u, v⟩ := c
          rw [hx] at h1
          simp only at h1
          cases hvm : r.validate_method m with
          | throw e a => rw [hvm] at h1; cases h1
          | ok a =>
            have ca : a.max_content_length_ = r.max_content_length_ := by
              unfold HttpRequest.validate_method at hvm
              simp only at hvm
              split_ifs at hvm
              simp only [Outcome.ok.injEq] at hvm
              rw [← hvm]
            rw [hvm] at h1
            simp only [Outcome.andThen] at h1
            cases hvv : a.validate_http_version v with
            | throw e b => rw [hvv] at h1; cases h1
            | ok b =>
              have cb : b.max_content_length_ = a.max_content_length_ := by
                unfold HttpRequest.validate_http_version at hvv
                split_ifs at hvv
                simp only [Outcome.ok.injEq] at hvv
                rw [← hvv]
              rw [hvv] at h1
              simp only at h1
              have cc : s1.max_content_length_ = b.max_content_length_ := by
                unfold HttpRequest.process_target at h1
                simp only at h1
                split_ifs at h1 <;> simp only [Outcome.ok.injEq] at h1 <;> rw [← h1]
              exact cc.trans (cb.trans ca)
      cases h2 : s1.parse_headers (substr_from head (first_line_end + 2)) with
      | throw e s => rw [h2] at h; cases h
      | ok s2 =>
        rw [h2] at h
        simp only at h
        have c2 := (parse_headers_frame s1 (substr_from head (first_line_end + 2))).2.2.2.2.1
        rw [h2] at c2
        have c3 := (validate_headers_frame s2).2.2.2.2.1
        rw [h] at c3
        exact c3.trans (c2.trans c1)

theorem parse_unfold (r : HttpRequest) (raw : Str) (k : Nat)
    (hc : r.complete_ = false) (hp : r.headers_parsed_ = false)
    (hne : raw.isEmpty = false) (hfind : find raw (lit "\r\n\r\n") = some k) :
    r.parse raw =
      (r.parse_head (substr raw 0 k)).andThen fun r3 =>
        HttpRequest.parse_body_phase
          { r3 with headers_parsed_ := true, request_buffer_ := substr_from raw (k + 4) } := by
  unfold HttpRequest.parse HttpRequest.parse_head
  simp only [hne, hc, hp, Bool.false_eq_true, if_false, Bool.not_false, if_true, hfind]
  cases find (substr raw 0 k) (lit "\r\n") <;> rfl

theorem parse_of_head (r r3 : HttpRequest) (head rest : Str)
    (hc : r.complete_ = false) (hp : r.headers_parsed_ = false)
    (hfind : find (head ++ lit "\r\n\r\n") (lit "\r\n\r\n") = some head.length)
    (hhead : HttpRequest.parse_head { r with request_buffer_ := [] } head = Outcome.ok r3) :
    HttpRequest.parse { r with request_buffer_ := head ++ lit "\r\n\r\n" ++ rest }
        (head ++ lit "\r\n\r\n" ++ rest) =
      HttpRequest.parse_body_phase { r3 with headers_parsed_ := true, request_buffer_ := rest } := by
  have hfind2 : find (head ++ lit "\r\n\r\n" ++ rest) (lit "\r\n\r\n") = some head.length := by
    unfold find at hfind ⊢
    exact find_at_append _ _ _ _ _ hfind
  have hne : (head ++ lit "\r\n\r\n" ++ rest).isEmpty = false := by
    cases head <;> rfl
  have e1 : substr (head ++ lit "\r\n\r\n" ++ rest) 0 head.length = head := by
    unfold substr
    rw [List.drop_zero, List.append_assoc, List.take_left]
  have e2 : substr_from (head ++ lit "\r\n\r\n" ++ rest) (head.length + 4) = rest := by
    unfold substr_from
    have : head.length + 4 = (head ++ lit "\r\n\r\n").length := by
      rw [List.length_append]
      rfl
    rw [this, List.drop_left]
  have hw := parse_head_with { r with request_buffer_ := head ++ lit "\r\n\r\n" ++ rest }
    { r with request_buffer_ := [] } head
  rw [hhead] at hw
  have hself : HttpRequest.with_body_fields
      { r with request_buffer_ := head ++ lit "\r\n\r\n" ++ rest }
      { r with request_buffer_ := [] } =
      { r with request_buffer_ := head ++ lit "\r\n\r\n" ++ rest } := rfl
  rw [hself] at hw
  obtain ⟨k1, k2, _, _, k5, k6⟩ := parse_head_keeps _ _ _ hhead
  rw [parse_unfold { r with request_buffer_ := head ++ lit "\r\n\r\n" ++ rest } _ head.length
    hc hp hne hfind2, e1, e2, hw]
  simp only [Outcome.map, Outcome.andThen]
  congr 1
  simp only [HttpRequest.with_body_fields]
  rw [← k1, ← k5, ← k6]
  have : r.complete_ = r3.complete_ := k2.symm
  rw [this]
/-! ## Chunked bodies that arrive whole -/

theorem xdigit_value (c : Char) (h : isxdigit c = true) :
    digit_value c = some (hex_digit_value c) ∧ hex_digit_value c < 16 := by
  have e0 : '0'.toNat = 48 := rfl
  have e9 : '9'.toNat = 57 := rfl
  have ea : 'a'.toNat = 97 := rfl
  have ef : 'f'.toNat = 102 := rfl
  have ez : 'z'.toNat = 122 := rfl
  have eA : 'A'.toNat = 65 := rfl
  have eF : 'F'.toNat = 70 := rfl
  have eZ : 'Z'.toNat = 90 := rfl
  unfold isxdigit isdigit at h
  unfold digit_value hex_digit_value isdigit islower isupper
  rw [e0, e9, ea, ef, eA, eF] at h
  rw [e0, e9, ea, ez, eA, eZ]
  generalize c.toNat = n at h ⊢
  simp only [Bool.or_eq_true, Bool.and_eq_true, decide_eq_true_eq] at h ⊢
  by_cases h1 : 48 ≤ n ∧ n ≤ 57
  · rw [if_pos h1, if_pos h1]
    exact ⟨rfl, by omega⟩
  · rw [if_neg h1, if_neg h1]
    by_cases h2 : 97 ≤ n
    · have h3 : 97 ≤ n ∧ n ≤ 122 := by omega
      rw [if_pos h3, if_pos h2]
      exact ⟨rfl, by omega⟩
    · have h3 : ¬ (97 ≤ n ∧ n ≤ 122) := by omega
      have h4 : 65 ≤ n ∧ n ≤ 90 := by omega
      rw [if_neg h3, if_pos h4, if_neg h2]
      exact ⟨rfl, by omega⟩

theorem digits_value_hex (line : Str) (h : ∀ c ∈ line, isxdigit c = true) (acc : Nat) :
    digits_value 16 line acc = line.foldl (fun a c => a * 16 + hex_digit_value c) acc := by
  induction line generalizing acc with
  | nil => rfl
  | cons c cs ih =>
    rw [digits_value, (xdigit_value c (h c (List.mem_cons_self _ _))).1, List.foldl_cons]
    exact ih (fun x hx => h x (List.mem_cons_of_mem _ hx)) _

theorem hex_size_line (line : Str) (n : Nat) (h : HexSize line n) (hn : n < 2 ^ 64) :
    line ≠ [] ∧ (∀ c ∈ line, is_base_digit 16 c = true) ∧ strtoul line 16 = (n, []) := by
  obtain ⟨h1, h2, h3⟩ := h
  have hb : ∀ c ∈ line, is_base_digit 16 c = true := by
    intro c hc
    obtain ⟨e1, e2⟩ := xdigit_value c (h2 c hc)
    unfold is_base_digit
    rw [e1]
    exact decide_eq_true e2
  have hv : digits_value 16 line 0 = n := by
    rw [digits_value_hex line h2 0]
    exact h3
  refine ⟨h1, hb, ?_⟩
  rw [strtoul_digits 16 (Or.inr rfl) line h1 hb (by rw [hv]; unfold ULONG_MAX; omega), hv]

theorem hex_size_toDigits (n : Nat) : HexSize (Nat.toDigits 16 n) n := by
  obtain ⟨h1, h2, h3⟩ := toDigits_spec 16 (by decide) (by decide) n
  have hx : ∀ c ∈ Nat.toDigits 16 n, isxdigit c = true := by
    intro c hc
    have hb := h2 c hc
    by_contra hne
    have hf : isxdigit c = false := by simpa using hne
    have key : digit_value c = none ∨ ∃ d, digit_value c = some d ∧ 16 ≤ d := by
      have e0 : '0'.toNat = 48 := rfl
      have e9 : '9'.toNat = 57 := rfl
      have ea : 'a'.toNat = 97 := rfl
      have ef : 'f'.toNat = 102 := rfl
      have ez : 'z'.toNat = 122 := rfl
      have eA : 'A'.toNat = 65 := rfl
      have eF : 'F'.toNat = 70 := rfl
      have eZ : 'Z'.toNat = 90 := rfl
      unfold isxdigit isdigit at hf
      unfold digit_value isdigit islower isupper
      rw [e0, e9, ea, ef, eA, eF] at hf
      rw [e0, e9, ea, ez, eA, eZ]
      generalize c.toNat = m at hf ⊢
      simp only [Bool.or_eq_false_iff, Bool.and_eq_false_iff, decide_eq_false_iff_not,
        Bool.and_eq_true, decide_eq_true_eq] at hf ⊢
      by_cases h1 : 48 ≤ m ∧ m ≤ 57
      · omega
      · rw [if_neg h1]
        by_cases h3 : 97 ≤ m ∧ m ≤ 122
        · rw [if_pos h3]
          exact Or.inr ⟨_, rfl, by omega⟩
        · rw [if_neg h3]
          by_cases h4 : 65 ≤ m ∧ m ≤ 90
          · rw [if_pos h4]
            exact Or.inr ⟨_, rfl, by omega⟩
          · rw [if_neg h4]
            exact Or.inl rfl
    unfold is_base_digit at hb
    rcases key with hk | ⟨d, hk, hd⟩
    · rw [hk] at hb
      cases hb
    · rw [hk] at hb
      simp only [decide_eq_true_eq] at hb
      omega
  refine ⟨h1, hx, ?_⟩
  rw [hex_value, ← digits_value_hex _ hx 0]
  exact h3

theorem hex_chunk_step (fuel : Nat) (r : HttpRequest) (hex data tail : Str)
    (hsize : r.current_chunk_size_ = 0)
    (hbuf : r.body_buffer_ = encode_sized_chunk (hex, data) ++ tail)
    (hline : HexSize hex data.length) (hdata : data ≠ []) (hlen : data.length + 2 < 2 ^ 64) :
    HttpRequest.chunk_loop (fuel + 1) r =
      HttpRequest.chunk_loop fuel
        { r with body_ := r.body_ ++ data, body_buffer_ := tail, current_chunk_size_ := 0 } := by
  obtain ⟨hx1, hx2, hx3⟩ := hex_size_line hex data.length hline (by omega)
  have hbuf2 : r.body_buffer_ = hex ++ lit "\r\n" ++ (data ++ lit "\r\n" ++ tail) := by
    rw [hbuf, encode_sized_chunk]
    simp only [List.append_assoc]
  have hcr : '\r' ∉ hex := fun hm => (base_digit_plain _ (hx2 _ hm)).2.2.2.2.2.2.1 rfl
  have hsemi : ';' ∉ hex := fun hm => (base_digit_plain _ (hx2 _ hm)).2.2.2.2.2.2.2.1 rfl
  have hows : ∀ c ∈ hex, is_ows c = false := fun c hm =>
    (base_digit_plain _ (hx2 _ hm)).2.2.2.2.2.2.2.2
  have e0 : r.body_buffer_.isEmpty = false := by
    rw [hbuf2]
    cases hex with
    | nil => exact absurd rfl hx1
    | cons _ _ => rfl
  have e1 : find r.body_buffer_ (lit "\r\n") = some hex.length := by
    rw [hbuf2]
    exact find_first_crlf hex _ hcr
  have e2 : substr r.body_buffer_ 0 hex.length = hex := by
    unfold substr
    rw [hbuf2, List.drop_zero, List.append_assoc, List.take_left]
  have e3 : find_char hex ';' = none := by
    unfold find_char
    rw [find_char_at_eq, if_neg hsemi]
  have e4 : trim hex = hex := trim_plain hex hows
  have e5 : substr_from r.body_buffer_ (hex.length + 2) = data ++ lit "\r\n" ++ tail := by
    unfold substr_from
    have : hex.length + 2 = (hex ++ lit "\r\n").length := by
      rw [List.length_append]
      rfl
    rw [hbuf2, this, List.drop_left]
  have e6 : (data.length == 0) = false := by
    rw [beq_eq_false_iff_ne]
    exact fun h => hdata (List.length_eq_zero.1 h)
  have e7 : (data.length + 2) % 2 ^ 64 = data.length + 2 := Nat.mod_eq_of_lt hlen
  have e8 : ¬ (data ++ lit "\r\n" ++ tail).length < data.length + 2 := by
    simp only [List.length_append]
    have : (lit "\r\n").length = 2 := rfl
    omega
  have e9 : substr (data ++ lit "\r\n" ++ tail) 0 data.length = data := by
    unfold substr
    rw [List.drop_zero, List.append_assoc, List.take_left]
  have e10 : substr_from (data ++ lit "\r\n" ++ tail) (data.length + 2) = tail := by
    unfold substr_from
    have : data.length + 2 = (data ++ lit "\r\n").length := by
      rw [List.length_append]
      rfl
    rw [this, List.drop_left]
  rw [HttpRequest.chunk_loop]
  simp only [e0, hsize, beq_self_eq_true, Bool.false_eq_true, if_false, if_true, e1, e2, e3, e4,
    hx3, List.isEmpty_nil, Bool.not_true, e5, e6]
  unfold HttpRequest.take_chunk_data
  simp only [e7, e8, if_false, e9, e10]

theorem last_chunk_step (fuel : Nat) (r : HttpRequest)
    (hsize : r.current_chunk_size_ = 0) (hbuf : r.body_buffer_ = lit "0\r\n\r\n") :
    HttpRequest.chunk_loop (fuel + 1) r =
      Outcome.ok { r with body_buffer_ := lit "\r\n", current_chunk_size_ := 0, complete_ := true } := by
  have e1 : find (lit "0\r\n\r\n") (lit "\r\n") = some 1 := by decide
  have e2 : substr (lit "0\r\n\r\n") 0 1 = lit "0" := by decide
  have e3 : find_char (lit "0") ';' = none := by decide
  have e4 : trim (lit "0") = lit "0" := by decide
  have e5 : strtoul (lit "0") 16 = (0, []) := by decide
  have e6 : substr_from (lit "0\r\n\r\n") (1 + 2) = lit "\r\n" := by decide
  have e7 : find (lit "\r\n") (lit "\r\n\r\n") = none := by decide
  rw [HttpRequest.chunk_loop]
  simp only [hbuf, hsize, beq_self_eq_true, if_true, e1, e2, e3, e4, e5, e6, List.isEmpty_nil,
    Bool.not_true, Bool.false_eq_true, if_false]
  unfold HttpRequest.process_final_chunk
  simp only [e7, beq_self_eq_true, if_true]
  rfl

theorem chunk_loop_hex_chunks (chunks : List (Str × Str)) :
    ∀ (fuel : Nat) (r : HttpRequest), chunks.length < fuel → r.current_chunk_size_ = 0 →
      r.body_buffer_ = encode_sized_chunks chunks →
      (∀ ch ∈ chunks, HexSize ch.1 ch.2.length ∧ ch.2 ≠ [] ∧ ch.2.length + 2 < 2 ^ 64) →
      HttpRequest.chunk_loop fuel r =
        Outcome.ok { r with
          body_ := r.body_ ++ (chunks.map Prod.snd).flatten
          body_buffer_ := lit "\r\n"
          current_chunk_size_ := 0
          complete_ := true } := by
  induction chunks with
  | nil =>
    intro fuel r hfuel hsize hbuf _
    cases fuel with
    | zero => exact absurd hfuel (Nat.not_lt_zero _)
    | succ fuel =>
      rw [last_chunk_step fuel r hsize (by rw [hbuf]; rfl)]
      simp
  | cons ch more ih =>
    intro fuel r hfuel hsize hbuf hall
    cases fuel with
    | zero => exact absurd hfuel (Nat.not_lt_zero _)
    | succ fuel =>
      obtain ⟨hd0, hd1, hd2⟩ := hall ch (List.mem_cons_self _ _)
      have hb : r.body_buffer_ = encode_sized_chunk (ch.1, ch.2) ++ encode_sized_chunks more := by
        rw [hbuf]
        simp [encode_sized_chunks]
      rw [hex_chunk_step fuel r ch.1 ch.2 _ hsize hb hd0 hd1 hd2,
        ih fuel _ (by simpa using hfuel) rfl rfl (fun x hx => hall x (List.mem_cons_of_mem _ hx))]
      simp

theorem encode_sized_chunks_length (chunks : List (Str × Str)) :
    chunks.length < (encode_sized_chunks chunks).length := by
  induction chunks with
  | nil => decide
  | cons d more ih =>
    have e : encode_sized_chunks (d :: more) = encode_sized_chunk d ++ encode_sized_chunks more := by
      simp [encode_sized_chunks]
    rw [e, List.length_append, List.length_cons]
    have : 2 ≤ (encode_sized_chunk d).length := by
      unfold encode_sized_chunk
      simp only [List.length_append]
      have : (lit "\r\n").length = 2 := rfl
      omega
    omega

theorem parse_chunked_body_hex (r : HttpRequest) (chunks : List (Str × Str))
    (hsize : r.current_chunk_size_ = 0) (hbuf : r.body_buffer_ = [])
    (hall : ∀ ch ∈ chunks, HexSize ch.1 ch.2.length ∧ ch.2 ≠ [] ∧ ch.2.length + 2 < 2 ^ 64) :
    r.parse_chunked_body (encode_sized_chunks chunks) =
      Outcome.ok { r with
        body_ := r.body_ ++ (chunks.map Prod.snd).flatten
        body_buffer_ := lit "\r\n"
        current_chunk_size_ := 0
        complete_ := true } := by
  unfold HttpRequest.parse_chunked_body
  simp only [hbuf, List.nil_append]
  exact chunk_loop_hex_chunks chunks _ { r with body_buffer_ := encode_sized_chunks chunks }
    (Nat.lt_succ_of_lt (encode_sized_chunks_length chunks)) hsize rfl hall

theorem encode_chunked_sized (chunks : List Str) :
    encode_chunked chunks =
      encode_sized_chunks (chunks.map fun d => (Nat.toDigits 16 d.length, d)) := by
  unfold encode_chunked encode_sized_chunks
  rw [List.map_map]
  rfl

theorem parse_head_validated (r r3 : HttpRequest) (head : Str)
    (h : r.parse_head head = Outcome.ok r3) :
    ∃ r2 : HttpRequest, r2.validate_headers = Outcome.ok r3 := by
  unfold HttpRequest.parse_head at h
  cases hf : find head (lit "\r\n") with
  | none => rw [hf] at h; cases h
  | some first_line_end =>
    rw [hf] at h
    simp only at h
    cases h1 : (r.parse_request_line (substr head 0 first_line_end)).andThen fun r1 =>
        r1.parse_headers (substr_from head (first_line_end + 2)) with
    | throw e s => rw [h1] at h; cases h
    | ok s => rw [h1] at h; exact ⟨s, h⟩

theorem value_contains_of_contains (value : Str)
    (h : contains value (lit "chunked") = true) : value_contains value (lit "chunked") = true := by
  unfold value_contains
  unfold contains find at h ⊢
  rw [find_at_isSome_iff] at h ⊢
  have e : to_lowercase (lit "chunked") = lit "chunked" := by decide
  rw [e]
  obtain ⟨a, b, hab⟩ := h
  refine ⟨a.map tolower, b.map tolower, ?_⟩
  unfold to_lowercase
  rw [← hab, List.map_append, List.map_append]
  congr 2

theorem validate_headers_chunked (r2 r3 : HttpRequest)
    (h : r2.validate_headers = Outcome.ok r3)
    (hte : contains (HttpHeaders.get r3.headers_ (lit "Transfer-Encoding")) (lit "chunked") = true) :
    r3.chunked_ = true ∧ HttpHeaders.get r3.headers_ (lit "Content-Length") = [] := by
  have hh : r3.headers_ = r2.headers_ := by
    unfold HttpRequest.validate_headers at h
    simp only at h
    split_ifs at h <;> simp only [Outcome.ok.injEq] at h <;> rw [← h]
  rw [hh] at hte ⊢
  have hv := value_contains_of_contains _ hte
  have hne : (HttpHeaders.get r2.headers_ (lit "Transfer-Encoding")).isEmpty = false := by
    cases hg : HttpHeaders.get r2.headers_ (lit "Transfer-Encoding") with
    | nil => rw [hg] at hte; exact absurd hte (by decide)
    | cons _ _ => rfl
  unfold HttpRequest.validate_headers at h
  simp only [hne, hv, Bool.not_false, Bool.and_self, if_true] at h
  split_ifs at h with h1 h2 h3 h4
  simp only [Outcome.ok.injEq] at h
  rw [← h]
  refine ⟨rfl, ?_⟩
  cases hg : HttpHeaders.get r2.headers_ (lit "Content-Length") with
  | nil => rfl
  | cons c cs =>
    rw [hg] at h4
    exact absurd rfl h4

theorem body_method_tests (m : Method) (hm : m.has_body) :
    (m == Method.GET || m == Method.DELETE || m == Method.HEAD || m == Method.OPTIONS ||
      m == Method.TRACE) = false ∧
    (m == Method.POST || m == Method.PUT || m == Method.PATCH) = true := by
  rcases hm with h | h | h <;> rw [h] <;> exact ⟨rfl, rfl⟩

theorem parse_body_phase_hex_chunks (r : HttpRequest) (chunks : List (Str × Str))
    (hp : r.headers_parsed_ = true) (hc : r.complete_ = false) (hm : r.method_.has_body)
    (hch : r.chunked_ = true)
    (hcl : HttpHeaders.get r.headers_ (lit "Content-Length") = [])
    (hte : contains (HttpHeaders.get r.headers_ (lit "Transfer-Encoding")) (lit "chunked") = true)
    (hbb : r.body_buffer_ = []) (hsize : r.current_chunk_size_ = 0)
    (hbuf : r.request_buffer_ = encode_sized_chunks chunks)
    (hall : ∀ ch ∈ chunks, HexSize ch.1 ch.2.length ∧ ch.2 ≠ [] ∧ ch.2.length + 2 < 2 ^ 64) :
    r.parse_body_phase =
      Outcome.ok { r with
        request_buffer_ := []
        body_ := r.body_ ++ (chunks.map Prod.snd).flatten
        body_buffer_ := lit "\r\n"
        current_chunk_size_ := 0
        complete_ := true } := by
  have hnb : r.request_buffer_.isEmpty = false := by
    have := encode_sized_chunks_length chunks
    rw [hbuf]
    cases h : encode_sized_chunks chunks with
    | nil => rw [h] at this; exact absurd this (Nat.not_lt_zero _)
    | cons _ _ => rfl
  obtain ⟨m1, m2⟩ := body_method_tests r.method_ hm
  have hz : (([] : Str) == lit "0") = false := by decide
  unfold HttpRequest.parse_body_phase
  simp only [hp, hc, Bool.not_false, Bool.and_self, if_true, m1, m2, Bool.false_eq_true, if_false]
  unfold HttpRequest.check_body_framing
  simp only [hcl, hte, List.isEmpty_nil, Bool.not_true, Bool.false_and, Bool.false_eq_true,
    if_false, Bool.and_false, hz]
  unfold HttpRequest.process_buffered_body
  simp only [hnb, Bool.not_false, if_true]
  unfold HttpRequest.parse_body
  simp only [hch, if_true]
  rw [hbuf, parse_chunked_body_hex r chunks hsize hbb hall]
  simp only [Outcome.andThen, Bool.or_true, if_true, hp, hch]

/-- A request with a body method and `Transfer-Encoding: chunked` whose header
section and whole chunked body arrive in one `append_data` call; each chunk
comes with its size line. -/
theorem hex_chunked_single_call (cap : Nat) (head : Str) (chunks : List (Str × Str))
    (r3 : HttpRequest)
    (hfind : find (head ++ lit "\r\n\r\n") (lit "\r\n\r\n") = some head.length)
    (hhead : HttpRequest.parse_head { max_content_length_ := cap } head = Outcome.ok r3)
    (hm : r3.method_.has_body)
    (hte : contains (HttpHeaders.get r3.headers_ (lit "Transfer-Encoding")) (lit "chunked") = true)
    (hall : ∀ ch ∈ chunks, HexSize ch.1 ch.2.length ∧ ch.2 ≠ [] ∧ ch.2.length + 2 < 2 ^ 64) :
    HttpRequest.append_data { max_content_length_ := cap }
        (head ++ lit "\r\n\r\n" ++ encode_sized_chunks chunks) =
      Outcome.ok { r3 with
        headers_parsed_ := true
        request_buffer_ := []
        body_ := (chunks.map Prod.snd).flatten
        body_buffer_ := lit "\r\n"
        current_chunk_size_ := 0
        complete_ := true } := by
  obtain ⟨r2, hr2⟩ := parse_head_validated _ _ _ hhead
  obtain ⟨hch, hcl⟩ := validate_headers_chunked r2 r3 hr2 hte
  obtain ⟨k1, k2, _, _, k5, k6⟩ := parse_head_keeps _ _ _ hhead
  have hbody : r3.body_ = [] := k1
  have e : HttpRequest.append_data { max_content_length_ := cap }
      (head ++ lit "\r\n\r\n" ++ encode_sized_chunks chunks) =
      HttpRequest.parse
        { ({ max_content_length_ := cap } : HttpRequest) with
          request_buffer_ := head ++ lit "\r\n\r\n" ++ encode_sized_chunks chunks }
        (head ++ lit "\r\n\r\n" ++ encode_sized_chunks chunks) := rfl
  rw [e, parse_of_head { max_content_length_ := cap } r3 head (encode_sized_chunks chunks) rfl rfl hfind
    hhead,
    parse_body_phase_hex_chunks
      { r3 with headers_parsed_ := true, request_buffer_ := encode_sized_chunks chunks } chunks rfl k2
      hm hch hcl hte k5 k6 rfl hall]
  simp only [hbody, List.nil_append]

/-- A request with a body method and `Transfer-Encoding: chunked` whose header
section and whole chunked body arrive in one `append_data` call; each size line
is the size in lower-case hexadecimal digits without leading zeros. -/
theorem chunked_single_call (cap : Nat) (head : Str) (chunks : List Str) (r3 : HttpRequest)
    (hfind : find (head ++ lit "\r\n\r\n") (lit "\r\n\r\n") = some head.length)
    (hhead : HttpRequest.parse_head { max_content_length_ := cap } head = Outcome.ok r3)
    (hm : r3.method_.has_body)
    (hte : contains (HttpHeaders.get r3.headers_ (lit "Transfer-Encoding")) (lit "chunked") = true)
    (hall : ∀ d ∈ chunks, d ≠ [] ∧ d.length + 2 < 2 ^ 64) :
    HttpRequest.append_data { max_content_length_ := cap }
        (head ++ lit "\r\n\r\n" ++ encode_chunked chunks) =
      Outcome.ok { r3 with
        headers_parsed_ := true
        request_buffer_ := []
        body_ := chunks.flatten
        body_buffer_ := lit "\r\n"
        current_chunk_size_ := 0
        complete_ := true } := by
  have hall2 : ∀ ch ∈ chunks.map (fun d => (Nat.toDigits 16 d.length, d)),
      HexSize ch.1 ch.2.length ∧ ch.2 ≠ [] ∧ ch.2.length + 2 < 2 ^ 64 := by
    intro ch hch
    obtain ⟨d, hd, rfl⟩ := List.mem_map.1 hch
    exact ⟨hex_size_toDigits d.length, hall d hd⟩
  have hsnd : (chunks.map fun d => (Nat.toDigits 16 d.length, d)).map Prod.snd = chunks := by
    rw [List.map_map]
    exact List.map_id _
  rw [encode_chunked_sized, hex_chunked_single_call cap head _ r3 hfind hhead hm hte hall2, hsnd]

/-- C36 (counterexample): a GET request with `Transfer-Encoding: chunked` whose
header section and chunked body `4 Wiki 5 pedia 0` arrive in one call ends
complete with an empty body; the chunks stay undecoded in the request
buffer. -/
theorem C36_chunked_get_counterexample :
    (HttpRequest.append_data {}
      (chunked_get_head ++ lit "\r\n\r\n" ++ lit "4\r\nWiki\r\n5\r\npedia\r\n0\r\n\r\n")).error =
      none ∧
    (HttpRequest.append_data {}
      (chunked_get_head ++ lit "\r\n\r\n" ++
        lit "4\r\nWiki\r\n5\r\npedia\r\n0\r\n\r\n")).state.complete_ = true ∧
    (HttpRequest.append_data {}
      (chunked_get_head ++ lit "\r\n\r\n" ++
        lit "4\r\nWiki\r\n5\r\npedia\r\n0\r\n\r\n")).state.body_ = [] ∧
    (HttpRequest.append_data {}
      (chunked_get_head ++ lit "\r\n\r\n" ++
        lit "4\r\nWiki\r\n5\r\npedia\r\n0\r\n\r\n")).state.chunked_ = true := by
  decide

/-- C36 (amended): for every list of chunks with non-empty data, a POST, PUT or
PATCH request whose `Transfer-Encoding` holds `chunked`, and whose header
section and complete chunked body (each chunk as a size line of hexadecimal
digits, of either case and with any leading zeros, that writes the length of
the data, then CRLF, the data, CRLF; after the chunks `0` CRLF CRLF) arrive in
one `append_data` call on a fresh request, whatever its body limit, ends complete with a body equal to
the concatenation of the chunk data in order, and with the method and the
headers of the header section. The length of a chunk, like every length of a
`std::string`, is below `2 ^ 64 - 2`. -/
theorem C36_chunked_single_call (cap : Nat) (head : Str) (chunks : List (Str × Str))
    (r3 : HttpRequest)
    (hfind : find (head ++ lit "\r\n\r\n") (lit "\r\n\r\n") = some head.length)
    (hhead : HttpRequest.parse_head { max_content_length_ := cap } head = Outcome.ok r3)
    (hm : r3.method_.has_body)
    (hte : contains (HttpHeaders.get r3.headers_ (lit "Transfer-Encoding")) (lit "chunked") = true)
    (hall : ∀ ch ∈ chunks, HexSize ch.1 ch.2.length ∧ ch.2 ≠ [] ∧ ch.2.length + 2 < 2 ^ 64) :
    ∃ r, HttpRequest.append_data { max_content_length_ := cap }
        (head ++ lit "\r\n\r\n" ++ encode_sized_chunks chunks) = Outcome.ok r ∧
      r.complete_ = true ∧ r.body_ = (chunks.map Prod.snd).flatten ∧ r.method_ = r3.method_ ∧
      r.uri_ = r3.uri_ ∧ r.headers_ = r3.headers_ :=
  ⟨_, hex_chunked_single_call cap head chunks r3 hfind hhead hm hte hall,
    rfl, rfl, rfl, rfl, rfl⟩

/-- C36 (amended), at the documented example: the chunks `Wiki` and `pedia`
are sent as `4 Wiki 5 pedia 0`, and the body is `Wikipedia`. Sent as `004 Wiki`
and `A 0123456789`, the chunks `Wiki` and `0123456789` make the body
`Wiki0123456789`. -/
theorem C36_chunked_single_call_witness :
    encode_sized_chunks [(lit "4", lit "Wiki"), (lit "5", lit "pedia")] =
      lit "4\r\nWiki\r\n5\r\npedia\r\n0\r\n\r\n" ∧
    (HttpRequest.parse_head {} chunked_post_head).error = none ∧
    (∃ r, HttpRequest.append_data {}
        (chunked_post_head ++ lit "\r\n\r\n" ++
          encode_sized_chunks [(lit "4", lit "Wiki"), (lit "5", lit "pedia")]) =
        Outcome.ok r ∧
      r.complete_ = true ∧ r.body_ = lit "Wikipedia") ∧
    encode_sized_chunks [(lit "004", lit "Wiki"), (lit "A", lit "0123456789")] =
      lit "004\r\nWiki\r\nA\r\n0123456789\r\n0\r\n\r\n" ∧
    ∃ r, HttpRequest.append_data {}
        (chunked_post_head ++ lit "\r\n\r\n" ++
          encode_sized_chunks [(lit "004", lit "Wiki"), (lit "A", lit "0123456789")]) =
        Outcome.ok r ∧
      r.complete_ = true ∧ r.body_ = lit "Wiki0123456789" := by
  obtain ⟨r, h1, h2, h3, _⟩ := C36_chunked_single_call DEFAULT_MAX_CONTENT_LENGTH
    chunked_post_head [(lit "4", lit "Wiki"), (lit "5", lit "pedia")]
    (HttpRequest.parse_head {} chunked_post_head).state (by decide) (by decide)
    (Or.inl (by decide)) (by decide) (by
      intro ch hch
      simp only [List.mem_cons, List.mem_singleton, List.not_mem_nil, or_false] at hch
      rcases hch with rfl | rfl
      · exact ⟨⟨by decide, by decide, by decide⟩, by decide, by decide⟩
      · exact ⟨⟨by decide, by decide, by decide⟩, by decide, by decide⟩)
  obtain ⟨s, k1, k2, k3, _⟩ := C36_chunked_single_call DEFAULT_MAX_CONTENT_LENGTH
    chunked_post_head [(lit "004", lit "Wiki"), (lit "A", lit "0123456789")]
    (HttpRequest.parse_head {} chunked_post_head).state (by decide) (by decide)
    (Or.inl (by decide)) (by decide) (by
      intro ch hch
      simp only [List.mem_cons, List.mem_singleton, List.not_mem_nil, or_false] at hch
      rcases hch with rfl | rfl
      · exact ⟨⟨by decide, by decide, by decide⟩, by decide, by decide⟩
      · exact ⟨⟨by decide, by decide, by decide⟩, by decide, by decide⟩)
  exact ⟨by decide, by decide, ⟨r, h1, h2, h3⟩, by decide, s, k1, k2, k3⟩

/-- C38: for every cap and every list of chunks with non-empty data, a POST,
PUT or PATCH request with `Transfer-Encoding: chunked` whose header section and
chunked body arrive in one `append_data` call on a fresh request with that cap
ends complete without raising, with the cap unchanged and the whole
concatenation of the chunk data as body; when the concatenation is longer than
the cap, so is the body. -/
theorem C38_chunked_body_ignores_cap (cap : Nat) (head : Str) (chunks : List Str)
    (r3 : HttpRequest)
    (hfind : find (head ++ lit "\r\n\r\n") (lit "\r\n\r\n") = some head.length)
    (hhead : HttpRequest.parse_head { max_content_length_ := cap } head = Outcome.ok r3)
    (hm : r3.method_.has_body)
    (hte : contains (HttpHeaders.get r3.headers_ (lit "Transfer-Encoding")) (lit "chunked") = true)
    (hall : ∀ d ∈ chunks, d ≠ [] ∧ d.length + 2 < 2 ^ 64) :
    ∃ r, HttpRequest.append_data { max_content_length_ := cap }
          (head ++ lit "\r\n\r\n" ++ encode_chunked chunks) = Outcome.ok r ∧
      r.complete_ = true ∧ r.max_content_length_ = cap ∧ r.body_ = chunks.flatten ∧
      (cap < chunks.flatten.length → r.max_content_length_ < r.body_.length) := by
  have hc := parse_head_cap _ _ _ hhead
  refine ⟨_, chunked_single_call cap head chunks r3 hfind hhead hm hte hall, rfl, hc, rfl, ?_⟩
  intro h
  exact lt_of_eq_of_lt hc h

/-- C38, at the cap 4 and the chunks `Wiki` and `pedia`: the request is complete
with the nine body octets `Wikipedia`. -/
theorem C38_chunked_body_ignores_cap_witness :
    (HttpRequest.parse_head { max_content_length_ := 4 } chunked_post_head).error = none ∧
    ∃ r, HttpRequest.append_data { max_content_length_ := 4 }
          (chunked_post_head ++ lit "\r\n\r\n" ++ lit "4\r\nWiki\r\n5\r\npedia\r\n0\r\n\r\n") =
          Outcome.ok r ∧
      r.complete_ = true ∧ r.max_content_length_ = 4 ∧ r.body_ = lit "Wikipedia" ∧
      r.max_content_length_ < r.body_.length := by
  obtain ⟨r, h1, h2, h3, h4, h5⟩ := C38_chunked_body_ignores_cap 4 chunked_post_head
    [lit "Wiki", lit "pedia"]
    (HttpRequest.parse_head { max_content_length_ := 4 } chunked_post_head).state (by decide)
    (by decide) (Or.inl (by decide)) (by decide) (by decide)
  exact ⟨by decide, r, h1, h2, h3, h4, h5 (by decide)⟩

/-! ## A request with a `Content-Length` body that arrives in pieces -/

theorem parse_body_phase_sized (r : HttpRequest) (n : Nat)
    (hp : r.headers_parsed_ = true) (hc : r.complete_ = false) (hm : r.method_.has_body)
    (hch : r.chunked_ = false)
    (hcl : HttpHeaders.get r.headers_ (lit "Content-Length") = to_string_nat n)
    (hn : 1 ≤ n) (hcap : n ≤ r.max_content_length_) (h64 : n < 2 ^ 64) :
    r.parse_body_phase =
      Outcome.ok
        (if r.request_buffer_.isEmpty then r
          else if (r.body_ ++ r.request_buffer_).length ≥ n then
            { r with
              body_ := (r.body_ ++ r.request_buffer_).take n
              complete_ := true
              request_buffer_ := [] }
          else { r with body_ := r.body_ ++ r.request_buffer_, request_buffer_ := [] }) := by
  obtain ⟨d1, d2, d3, d4⟩ := to_string_nat_spec n h64
  obtain ⟨m1, m2⟩ := body_method_tests r.method_ hm
  have hne : (to_string_nat n).isEmpty = false := by
    cases h : to_string_nat n with
    | nil => exact absurd h d1
    | cons _ _ => rfl
  have hz : (to_string_nat n == lit "0") = false := by
    rw [beq_eq_false_iff_ne]
    exact d4 (by omega)
  have hle : ¬ n > r.max_content_length_ := Nat.not_lt.2 hcap
  unfold HttpRequest.parse_body_phase
  simp only [hp, hc, Bool.not_false, Bool.and_self, if_true, m1, m2, Bool.false_eq_true, if_false]
  unfold HttpRequest.check_body_framing
  simp only [hcl, hne, Bool.not_false, Bool.true_and, Bool.false_and, Bool.false_eq_true,
    if_false, Bool.not_true, if_true, d3, hle, hz]
  unfold HttpRequest.process_buffered_body
  by_cases hb : r.request_buffer_.isEmpty = true
  · simp only [hb, Bool.not_true, Bool.false_eq_true, if_false, if_true]
  · simp only [hb, Bool.not_false, if_true, if_false]
    unfold HttpRequest.parse_body
    simp only [hch, Bool.false_eq_true, if_false]
    unfold HttpRequest.parse_normal_body
    simp only [hcl, hne, Bool.and_false, Bool.false_eq_true, if_false, d2, List.isEmpty_nil,
      Bool.not_true, hle]
    by_cases hlen : (r.body_ ++ r.request_buffer_).length ≥ n
    · simp only [hlen, if_true, Outcome.andThen, hch, Bool.not_false, Bool.true_or, substr,
        List.drop_zero, hp, hc]
    · simp only [hlen, if_false, Outcome.andThen, hch, Bool.not_false, Bool.true_or, if_true,
        hp, hc]

theorem find_none_before_head_end (head rest acc : Str)
    (hfind : find (head ++ lit "\r\n\r\n") (lit "\r\n\r\n") = some head.length)
    (hpre : acc <+: head ++ lit "\r\n\r\n" ++ rest) (hlen : acc.length < head.length + 4) :
    find acc (lit "\r\n\r\n") = none := by
  cases hf : find acc (lit "\r\n\r\n") with
  | none => rfl
  | some k =>
    exfalso
    obtain ⟨t, ht⟩ := hpre
    unfold find at hf hfind
    have h1 := find_at_append _ _ t _ _ hf
    rw [ht] at h1
    have h2 := find_at_append _ _ rest _ _ hfind
    rw [h2] at h1
    have h3 := find_at_some_length _ _ _ _ hf
    have h4 : (lit "\r\n\r\n").length = 4 := rfl
    simp only [Option.some.injEq] at h1
    omega

theorem parse_incomplete (r : HttpRequest) (raw : Str)
    (hc : r.complete_ = false) (hp : r.headers_parsed_ = false) (hne : raw.isEmpty = false)
    (hfind : find raw (lit "\r\n\r\n") = none) : r.parse raw = Outcome.ok r := by
  unfold HttpRequest.parse
  simp only [hne, hc, hp, Bool.false_eq_true, if_false, Bool.not_false, if_true, hfind]

theorem parse_parsed (r : HttpRequest) (raw : Str)
    (hc : r.complete_ = false) (hp : r.headers_parsed_ = true) (hne : raw.isEmpty = false) :
    r.parse raw = r.parse_body_phase := by
  unfold HttpRequest.parse
  simp only [hne, hc, hp, Bool.false_eq_true, if_false, Bool.not_true]

theorem isEmpty_false_of_ne (s : Str) (h : s ≠ []) : s.isEmpty = false := by
  cases s with
  | nil => exact absurd rfl h
  | cons _ _ => rfl

theorem cut_step (cap n : Nat) (head rest : Str) (r3 : HttpRequest)
    (hfind : find (head ++ lit "\r\n\r\n") (lit "\r\n\r\n") = some head.length)
    (hhead : HttpRequest.parse_head { max_content_length_ := cap } head = Outcome.ok r3)
    (hm : r3.method_.has_body)
    (hcl : HttpHeaders.get r3.headers_ (lit "Content-Length") = to_string_nat n)
    (hch : r3.chunked_ = false) (hn : 1 ≤ n) (hcap : n ≤ cap) (h64 : n < 2 ^ 64)
    (fed d : Str) (r : HttpRequest) (hinv : CutInv cap n head r3 fed r) (hd : d ≠ [])
    (hpre : fed ++ d <+: head ++ lit "\r\n\r\n" ++ rest) :
    ∃ r2, r.append_data d = Outcome.ok r2 ∧ CutInv cap n head r3 (fed ++ d) r2 := by
  obtain ⟨k1, k2, _, _, _, _⟩ := parse_head_keeps _ _ _ hhead
  have hbody : r3.body_ = [] := k1
  have hcomplete : r3.complete_ = false := k2
  have hmax : n ≤ r3.max_content_length_ := by
    rw [parse_head_cap _ _ _ hhead]
    exact hcap
  have hdne := isEmpty_false_of_ne d hd
  rcases hinv with ⟨hlen, rfl⟩ | ⟨b, hfed, hb, rfl⟩ | ⟨b, extra, hfed, hb, rfl⟩
  · have hne : (fed ++ d).isEmpty = false := by
      cases fed with
      | nil => exact hdne
      | cons _ _ => rfl
    have e : HttpRequest.append_data
        { ({ max_content_length_ := cap } : HttpRequest) with request_buffer_ := fed } d =
        HttpRequest.parse
          { ({ max_content_length_ := cap } : HttpRequest) with request_buffer_ := fed ++ d }
          (fed ++ d) := rfl
    rw [e]
    by_cases hshort : (fed ++ d).length < head.length + 4
    · rw [parse_incomplete _ _ rfl rfl hne
        (find_none_before_head_end head rest _ hfind hpre hshort)]
      exact ⟨_, rfl, Or.inl ⟨hshort, rfl⟩⟩
    · have hle : (head ++ lit "\r\n\r\n").length ≤ (fed ++ d).length := by
        rw [List.length_append]
        have : (lit "\r\n\r\n").length = 4 := rfl
        omega
      have hp2 : head ++ lit "\r\n\r\n" <+: head ++ lit "\r\n\r\n" ++ rest :=
        List.prefix_append _ _
      obtain ⟨b, hb⟩ := List.prefix_of_prefix_length_le hp2 hpre hle
      rw [← hb, parse_of_head { max_content_length_ := cap } r3 head b rfl rfl hfind hhead,
        parse_body_phase_sized { r3 with headers_parsed_ := true, request_buffer_ := b } n rfl
          hcomplete hm hch hcl hn hmax h64]
      refine ⟨_, rfl, ?_⟩
      simp only [hbody, List.nil_append]
      by_cases hbe : b.isEmpty = true
      · have hb0 : b = [] := List.isEmpty_iff.1 hbe
        subst hb0
        refine Or.inr (Or.inl ⟨[], rfl, by simpa using hn, ?_⟩)
        simp only [List.isEmpty_nil, if_true, body_state]
      · have hbe2 : b.isEmpty = false := by simpa using hbe
        by_cases hlen2 : b.length ≥ n
        · refine Or.inr (Or.inr ⟨b, [], rfl, hlen2, ?_⟩)
          simp only [hbe2, Bool.false_eq_true, if_false, hlen2, if_true, done_state]
        · refine Or.inr (Or.inl ⟨b, rfl, Nat.lt_of_not_le hlen2, ?_⟩)
          simp only [hbe2, Bool.false_eq_true, if_false, hlen2, body_state]
  · have e : HttpRequest.append_data (body_state r3 b) d =
        HttpRequest.parse { body_state r3 b with request_buffer_ := d } d := by
      unfold HttpRequest.append_data body_state
      simp only [List.nil_append, hcomplete, Bool.false_eq_true, if_false]
    rw [e, parse_parsed { body_state r3 b with request_buffer_ := d } d hcomplete rfl hdne,
      parse_body_phase_sized { body_state r3 b with request_buffer_ := d } n rfl hcomplete hm hch
        hcl hn hmax h64]
    refine ⟨_, rfl, ?_⟩
    have hfed2 : fed ++ d = head ++ lit "\r\n\r\n" ++ (b ++ d) := by
      rw [hfed, List.append_assoc]
    simp only [hdne, Bool.false_eq_true, if_false, body_state]
    by_cases hlen2 : (b ++ d).length ≥ n
    · refine Or.inr (Or.inr ⟨b ++ d, [], hfed2, hlen2, ?_⟩)
      simp only [hlen2, if_true, done_state]
    · refine Or.inr (Or.inl ⟨b ++ d, hfed2, Nat.lt_of_not_le hlen2, ?_⟩)
      simp only [hlen2, if_false, body_state]
  · refine ⟨done_state r3 (b.take n) (extra ++ d), rfl, Or.inr (Or.inr ⟨b ++ d, extra ++ d, ?_, ?_, ?_⟩)⟩
    · rw [hfed, List.append_assoc]
    · rw [List.length_append]
      omega
    · rw [List.take_append_of_le_length hb]

theorem feed_cut (cap n : Nat) (head rest : Str) (r3 : HttpRequest)
    (hfind : find (head ++ lit "\r\n\r\n") (lit "\r\n\r\n") = some head.length)
    (hhead : HttpRequest.parse_head { max_content_length_ := cap } head = Outcome.ok r3)
    (hm : r3.method_.has_body)
    (hcl : HttpHeaders.get r3.headers_ (lit "Content-Length") = to_string_nat n)
    (hch : r3.chunked_ = false) (hn : 1 ≤ n) (hcap : n ≤ cap) (h64 : n < 2 ^ 64)
    (pieces : List Str) :
    ∀ (fed : Str) (r : HttpRequest), CutInv cap n head r3 fed r → (∀ p ∈ pieces, p ≠ []) →
      fed ++ pieces.flatten <+: head ++ lit "\r\n\r\n" ++ rest →
      ∃ r2, feed r pieces = Outcome.ok r2 ∧ CutInv cap n head r3 (fed ++ pieces.flatten) r2 := by
  induction pieces with
  | nil =>
    intro fed r hinv _ _
    refine ⟨r, rfl, ?_⟩
    simpa using hinv
  | cons d more ih =>
    intro fed r hinv hne hpre
    have hpre1 : fed ++ d <+: head ++ lit "\r\n\r\n" ++ rest := by
      refine List.IsPrefix.trans ?_ hpre
      rw [List.flatten_cons, ← List.append_assoc]
      exact List.prefix_append _ _
    obtain ⟨r1, h1, hinv1⟩ := cut_step cap n head rest r3 hfind hhead hm hcl hch hn hcap h64 fed d r
      hinv (hne d (List.mem_cons_self _ _)) hpre1
    have hpre2 : (fed ++ d) ++ more.flatten <+: head ++ lit "\r\n\r\n" ++ rest := by
      rw [List.append_assoc, ← List.flatten_cons]
      exact hpre
    obtain ⟨r2, h2, hinv2⟩ := ih (fed ++ d) r1 hinv1
      (fun p hp => hne p (List.mem_cons_of_mem _ hp)) hpre2
    refine ⟨r2, ?_, ?_⟩
    · rw [feed, h1]
      exact h2
    · rw [List.flatten_cons, ← List.append_assoc]
      exact hinv2

theorem cut_inv_whole (cap n : Nat) (head rest : Str) (r3 r : HttpRequest)
    (hrest : n ≤ rest.length)
    (hinv : CutInv cap n head r3 (head ++ lit "\r\n\r\n" ++ rest) r) :
    ∃ extra, r = done_state r3 (rest.take n) extra := by
  rcases hinv with ⟨hlen, _⟩ | ⟨b, hfed, hb, _⟩ | ⟨b, extra, hfed, _, hr⟩
  · exfalso
    simp only [List.length_append] at hlen
    have : (lit "\r\n\r\n").length = 4 := rfl
    omega
  · exfalso
    have := List.append_cancel_left hfed
    rw [← this] at hb
    omega
  · have := List.append_cancel_left hfed
    rw [← this] at hr
    exact ⟨extra, hr⟩

/-- C40: for a POST, PUT or PATCH request whose header section is accepted and
not marked chunked, with a `Content-Length` of `n ≥ 1` in canonical decimal
within the body-size cap, followed by at least `n` body octets, and for every
way of cutting the octet stream into non-empty pieces, feeding the pieces to
successive `append_data` calls on a fresh request leaves the request complete
with the same method, target, version, headers and body, which is the first
`n` body octets, as feeding the stream in a single call. -/
theorem C40_cut_stream (cap n : Nat) (head rest : Str) (pieces : List Str) (r3 : HttpRequest)
    (hfind : find (head ++ lit "\r\n\r\n") (lit "\r\n\r\n") = some head.length)
    (hhead : HttpRequest.parse_head { max_content_length_ := cap } head = Outcome.ok r3)
    (hm : r3.method_.has_body)
    (hcl : HttpHeaders.get r3.headers_ (lit "Content-Length") = to_string_nat n)
    (hch : r3.chunked_ = false) (hn : 1 ≤ n) (hcap : n ≤ cap) (h64 : n < 2 ^ 64)
    (hrest : n ≤ rest.length) (hne : ∀ p ∈ pieces, p ≠ [])
    (hcat : pieces.flatten = head ++ lit "\r\n\r\n" ++ rest) :
    ∃ one many,
      HttpRequest.append_data { max_content_length_ := cap } (head ++ lit "\r\n\r\n" ++ rest) =
        Outcome.ok one ∧
      feed { max_content_length_ := cap } pieces = Outcome.ok many ∧
      one.complete_ = true ∧ many.complete_ = true ∧
      many.method_ = one.method_ ∧ many.uri_ = one.uri_ ∧
      many.http_version_ = one.http_version_ ∧ many.headers_ = one.headers_ ∧
      many.body_ = one.body_ ∧ one.body_ = rest.take n := by
  have hstart : CutInv cap n head r3 [] { max_content_length_ := cap } :=
    Or.inl ⟨by simp, rfl⟩
  have hwhole : head ++ lit "\r\n\r\n" ++ rest ≠ [] := by
    cases head <;> simp [lit_crlfcrlf]
  obtain ⟨one, h1, hinv1⟩ := cut_step cap n head rest r3 hfind hhead hm hcl hch hn hcap h64 [] _ _
    hstart hwhole (by rw [List.nil_append])
  obtain ⟨many, h2, hinv2⟩ := feed_cut cap n head rest r3 hfind hhead hm hcl hch hn hcap h64 pieces
    [] _ hstart hne (by rw [List.nil_append, hcat])
  rw [List.nil_append] at hinv1
  rw [List.nil_append, hcat] at hinv2
  obtain ⟨x1, rfl⟩ := cut_inv_whole cap n head rest r3 one hrest hinv1
  obtain ⟨x2, rfl⟩ := cut_inv_whole cap n head rest r3 many hrest hinv2
  exact ⟨_, _, h1, h2, rfl, rfl, rfl, rfl, rfl, rfl, rfl, rfl⟩

/-- C40, at a POST request with `Content-Length: 5` followed by the octets
`hello, world`, on a request with the cap 8, cut inside the request line,
inside a field line, inside the empty line and inside the body: the body is
`hello`, as in a single call. -/
theorem C40_cut_stream_witness :
    [lit "POST /up", lit "load HTTP/1.1\r\nHost: x\r\nContent-Le", lit "ngth: 5\r\n\r",
      lit "\nhel", lit "lo, wor", lit "ld"].flatten =
      sized_post_head ++ lit "\r\n\r\n" ++ lit "hello, world" ∧
    (HttpRequest.parse_head { max_content_length_ := 8 } sized_post_head).error = none ∧
    ∃ one many,
      HttpRequest.append_data { max_content_length_ := 8 }
          (sized_post_head ++ lit "\r\n\r\n" ++ lit "hello, world") = Outcome.ok one ∧
      feed { max_content_length_ := 8 }
          [lit "POST /up", lit "load HTTP/1.1\r\nHost: x\r\nContent-Le", lit "ngth: 5\r\n\r",
            lit "\nhel", lit "lo, wor", lit "ld"] = Outcome.ok many ∧
      many.complete_ = true ∧ many.method_ = one.method_ ∧ many.headers_ = one.headers_ ∧
      many.body_ = one.body_ ∧ one.body_ = lit "hello" := by
  obtain ⟨one, many, h1, h2, _, h4, h5, _, _, h8, h9, h10⟩ := C40_cut_stream 8 5 sized_post_head
    (lit "hello, world")
    [lit "POST /up", lit "load HTTP/1.1\r\nHost: x\r\nContent-Le", lit "ngth: 5\r\n\r",
      lit "\nhel", lit "lo, wor", lit "ld"]
    (HttpRequest.parse_head { max_content_length_ := 8 } sized_post_head).state
    (by decide) (by decide) (Or.inl (by decide)) (by decide) (by decide) (by decide) (by decide)
    (by norm_num) (by decide) (by decide) (by decide)
  exact ⟨by decide, by decide, one, many, h1, h2, h4, h5, h8, h9, h10⟩

end Webserv
